import Mathlib

/-!
# Semantic checker of the Slang front-end (`source/slang/check.cpp`)

A shallow embedding of the semantic checker: the coercion engine
(`TryCoerceImpl`, `CanCoerce`, `Coerce`), the overload resolver
(`TryCheckOverloadCandidate`, `CompareOverloadCandidates`,
`AddOverloadCandidateInner`, `ResolveInvoke`) and the declaration-check state
machine (`EnsureDecl` and the declaration visitors), the constant folder
(`TryConstantFoldExpr`), the joins of types (`TryJoinTypes`), unification
(`TryUnifyTypes`), the constraint solver (`TrySolveConstraintSystem`), the
application of an extension to a type (`ApplyExtensionToType`), and the checks
of modifiers (`checkModifiers`), of redeclared functions
(`ValidateFunctionRedeclaration`), of jump statements, of variables
(`visitVariable`) and of swizzles (`CheckSwizzleExpr`).

Conventions of the embedding.

* C++ objects reached through `RefPtr` are values; a pointer that may be null
  is an `Option`, and an out-parameter that may be null is a `Bool` saying
  whether the caller asked for the result.
* `unsigned int` values (`ConversionCost`) are naturals below `2 ^ 32` and every
  arithmetic operation on them is reduced modulo `2 ^ 32`; the conversion to
  `int` is `intOfUInt`.
* `IntegerLiteralValue` values are integers from `-2 ^ 63` to `2 ^ 63 - 1` and
  the result of an arithmetic operation on them is reduced to that range
  modulo `2 ^ 64`; the quotient and the remainder of the least value by `-1`
  are not defined, and applying `/` or `%` there is the signal
  `divisionOverflow`.
* `int32_t` values are integers from `-2 ^ 31` to `2 ^ 31 - 1`; the conversion
  `(int32_t) value` is `toInt32`. A write past the end of a local array is the
  signal `outOfBounds`.
* Code that can `throw`, dereference a null pointer or recurse without a
  static bound runs in `Check`, whose outcomes are a normal return, a thrown
  signal, and running out of the recursion budget.
* Helpers that are declared in headers outside `check.cpp` (member
  enumeration, `GetType`, modifier lookup, the class hierarchy of `Decl`) are
  the fields of `Env`; the visitors for expressions and type expressions that
  are not embedded are the fields of `Checker`.
-/

namespace Slang

/-! ## Types and values -/

/-- Basic scalar types, in the order of the `BaseType` enumeration. -/
inductive BaseType where
  | Void | Bool | Int | UInt | Float
  deriving DecidableEq, Repr

/-- Declarations are identified by their address. -/
abbrev DeclId := Nat

/-- Interned names (`Name*`). -/
abbrev Name := Nat

/-- Source locations. -/
abbrev SourceLoc := Nat

mutual
/-- Types (`Type` and its subclasses). -/
inductive Ty where
  | basic (baseType : BaseType)
  | error
  | initializerList
  | overloaded
  | declRef (decl : DeclId) (substitutions : Subst)
  | genericDeclRef (decl : DeclId) (substitutions : Subst)
  | vector (elementType : Ty) (elementCount : Val)
  | matrix (elementType : Ty) (rowCount : Val) (colCount : Val)
  | array (baseType : Ty) (arrayLength : Val)
  | ptrLike (decl : DeclId) (elementType : Ty)
  | func (decl : DeclId) (substitutions : Subst)
  | typeType (type : Ty)
/-- Compile-time values (`Val`): a type, an integer constant, a reference to a
generic value parameter; `null` is the absent value (an unsized array). -/
inductive Val where
  | null
  | type (type : Ty)
  | constantInt (value : Int)
  | genericParamInt (decl : DeclId) (substitutions : Subst)
/-- Argument lists of a substitution. -/
inductive ValList where
  | nil
  | cons (head : Val) (tail : ValList)
/-- Substitution chains (`Substitutions`), innermost first; `none` is the null
chain. -/
inductive Subst where
  | none
  | mk (genericDecl : DeclId) (args : ValList) (outer : Subst)
end

deriving instance DecidableEq for Ty, Val, ValList, Subst

/-- A reference to a declaration under a substitution (`DeclRef<T>`). -/
structure DeclRef where
  decl : DeclId
  substitutions : Subst := Subst.none
  deriving DecidableEq

/-- Modelled from the spec: `Type::Equals` is declared outside `check.cpp`;
types are structural values compared by structure. -/
def Ty.Equals (a b : Ty) : Bool := decide (a = b)

/-- The test `type->As<ErrorType>()`. -/
def Ty.isErrorType : Ty → Bool
  | Ty.error => true
  | _ => false

/-- The test `type->As<ArrayExpressionType>()`, giving the element type. -/
def Ty.asArrayExpressionType : Ty → Option Ty
  | Ty.array elem _ => some elem
  | _ => none

/-- The test `type->As<PointerLikeType>()`, giving the element type. -/
def Ty.asPointerLikeType : Ty → Option Ty
  | Ty.ptrLike _ elem => some elem
  | _ => none

/-- An expression type with its l-value flag; `type` is null on an expression
that has not been checked. -/
structure QualType where
  type : Option Ty
  IsLeftValue : Bool := false
  deriving DecidableEq

/-- The test `IsErrorExpr` applies to a type: `type->As<ErrorType>()`. -/
def QualType.isError (q : QualType) : Bool :=
  match q.type with
  | some t => t.isErrorType
  | none => false

/-! ## Lookup results and expressions -/

/-- The kind of step recorded by a lookup breadcrumb. -/
inductive BreadcrumbKind where
  | Member | Deref
  deriving DecidableEq

/-- One step of a lookup path. -/
structure Breadcrumb where
  kind : BreadcrumbKind
  declRef : DeclRef
  deriving DecidableEq

/-- A declaration found by lookup, with the path that reached it; the linked
list of breadcrumbs is a list, first breadcrumb first. -/
structure LookupResultItem where
  declRef : DeclRef
  breadcrumbs : List Breadcrumb := []
  deriving DecidableEq

/-- The classes of type-cast expression. -/
inductive CastKind where
  | ExplicitCastExpr | ImplicitCastExpr | HiddenImplicitCastExpr
  deriving DecidableEq

/-- The class of a call expression: `InvokeExpr` itself or one of the operator
forms derived from it. -/
inductive InvokeKind where
  | InvokeExpr | InfixExpr | PrefixExpr | PostfixExpr
  deriving DecidableEq

/-- Expressions. Every node carries its location and its `type`. -/
inductive Expr where
  | VarExpr (loc : SourceLoc) (type : QualType) (name : Name) (declRef : Option DeclRef)
  | MemberExpr (loc : SourceLoc) (type : QualType) (name : Name) (declRef : Option DeclRef)
      (BaseExpression : Expr)
  | StaticMemberExpr (loc : SourceLoc) (type : QualType) (name : Name)
      (declRef : Option DeclRef) (BaseExpression : Expr)
  | DerefExpr (loc : SourceLoc) (type : QualType) (base : Expr)
  | OverloadedExpr (loc : SourceLoc) (type : QualType) (base : Option Expr)
      (lookupResult2 : List LookupResultItem)
  | ConstantExpr (loc : SourceLoc) (type : QualType) (value : Int)
  | InitializerListExpr (loc : SourceLoc) (type : QualType) (args : List Expr)
  | InvokeExpr (kind : InvokeKind) (loc : SourceLoc) (type : QualType) (FunctionExpr : Expr)
      (Arguments : List Expr)
  | TypeCastExpr (kind : CastKind) (loc : SourceLoc) (type : QualType) (FunctionExpr : Expr)
      (Arguments : List Expr)
  | SharedTypeExpr (loc : SourceLoc) (type : QualType) (base : Option Ty)
  | ParenExpr (loc : SourceLoc) (type : QualType) (base : Expr)
  | SwizzleExpr (loc : SourceLoc) (type : QualType) (base : Expr) (elementCount : Int)
      (elementIndices : List Int)

/-- The field `expr->loc`. -/
def Expr.loc : Expr → SourceLoc
  | VarExpr l _ _ _ => l
  | MemberExpr l _ _ _ _ => l
  | StaticMemberExpr l _ _ _ _ => l
  | DerefExpr l _ _ => l
  | OverloadedExpr l _ _ _ => l
  | ConstantExpr l _ _ => l
  | InitializerListExpr l _ _ => l
  | InvokeExpr _ l _ _ _ => l
  | TypeCastExpr _ l _ _ _ => l
  | SharedTypeExpr l _ _ => l
  | ParenExpr l _ _ => l
  | SwizzleExpr l _ _ _ _ => l

/-- The field `expr->type`. -/
def Expr.type : Expr → QualType
  | VarExpr _ t _ _ => t
  | MemberExpr _ t _ _ _ => t
  | StaticMemberExpr _ t _ _ _ => t
  | DerefExpr _ t _ => t
  | OverloadedExpr _ t _ _ => t
  | ConstantExpr _ t _ => t
  | InitializerListExpr _ t _ => t
  | InvokeExpr _ _ t _ _ => t
  | TypeCastExpr _ _ t _ _ => t
  | SharedTypeExpr _ t _ => t
  | ParenExpr _ t _ => t
  | SwizzleExpr _ t _ _ _ => t

/-- The assignment `expr->type = t`; the node is otherwise unchanged. -/
def Expr.setType (t : QualType) : Expr → Expr
  | VarExpr l _ n d => VarExpr l t n d
  | MemberExpr l _ n d b => MemberExpr l t n d b
  | StaticMemberExpr l _ n d b => StaticMemberExpr l t n d b
  | DerefExpr l _ b => DerefExpr l t b
  | OverloadedExpr l _ b r => OverloadedExpr l t b r
  | ConstantExpr l _ v => ConstantExpr l t v
  | InitializerListExpr l _ a => InitializerListExpr l t a
  | InvokeExpr k l _ f a => InvokeExpr k l t f a
  | TypeCastExpr k l _ f a => TypeCastExpr k l t f a
  | SharedTypeExpr l _ b => SharedTypeExpr l t b
  | ParenExpr l _ b => ParenExpr l t b
  | SwizzleExpr l _ b n is => SwizzleExpr l t b n is

/-- The test `expr.As<InitializerListExpr>()`, giving the arguments. -/
def Expr.asInitializerListExpr : Expr → Option (List Expr)
  | InitializerListExpr _ _ args => some args
  | _ => none

/-- The test `expr.As<DeclRefExpr>()`, giving the referenced declaration:
`VarExpr`, `MemberExpr` and `StaticMemberExpr` are the declaration-reference
expressions. A node whose `declRef` is still null gives a null reference. -/
def Expr.asDeclRefExpr : Expr → Option (Option DeclRef)
  | VarExpr _ _ _ d => some d
  | MemberExpr _ _ _ d _ => some d
  | StaticMemberExpr _ _ _ d _ => some d
  | _ => none

/-! ## Diagnostics and outcomes -/

/-- Messages sent to the diagnostic sink. A call-signature string is kept as the
list of argument types it is printed from. -/
inductive Diagnostic where
  | typeMismatch (loc : SourceLoc) (toType : Ty) (fromType : QualType)
  | notEnoughArguments (loc : SourceLoc) (argCount : Nat) (required : Nat)
  | tooManyArguments (loc : SourceLoc) (argCount : Nat) (allowed : Nat)
  | expectedPrefixOperator (loc : SourceLoc)
  | expectedPostfixOperator (loc : SourceLoc)
  | seeDefinitionOf (decl : DeclId)
  | genericArgumentInferenceFailed (loc : SourceLoc) (callSignature : List Ty)
  | genericSignatureTried (declRef : DeclRef)
  | noApplicableOverloadForNameWithArgs (loc : SourceLoc) (funcName : Name)
      (callSignature : List Ty)
  | noApplicableWithArgs (loc : SourceLoc) (callSignature : List Ty)
  | ambiguousOverloadForNameWithArgs (loc : SourceLoc) (funcName : Name)
      (callSignature : List Ty)
  | ambiguousOverloadWithArgs (loc : SourceLoc) (callSignature : List Ty)
  | overloadCandidate (declRef : DeclRef) (conversionCostSum : Nat)
  | moreOverloadCandidates (loc : SourceLoc) (count : Nat)
  | expectedFunction (loc : SourceLoc)
  | unexpected (loc : SourceLoc)
  | unimplemented (loc : SourceLoc) (what : String)
  | unimplementedInDecl (decl : DeclId) (what : String)
  | breakOutsideLoop (loc : SourceLoc)
  | continueOutsideLoop (loc : SourceLoc)
  | caseOutsideSwitch (loc : SourceLoc)
  | defaultOutsideSwitch (loc : SourceLoc)
  | invalidArraySize (decl : DeclId)
  | invalidTypeVoid (decl : DeclId)
  | expectedIntegerConstantNotConstant (loc : SourceLoc)
  | expectedIntegerConstantNotLiteral (loc : SourceLoc)
  | undefinedIdentifier2 (loc : SourceLoc) (name : Name)
  deriving DecidableEq

/-- What stops a checker operation: the values of its `throw` statements
(`circularity`, `fooBarBaz`, `unimplemented`), `SLANG_UNEXPECTED`
(`unexpected`), a failed `SLANG_RELEASE_ASSERT` (`assertionFailed`), the use
of a null pointer (`nullDereference`, also raised where the C++ code would put a
null expression into an argument list), an access past the end of an array
(`outOfBounds`), and a division of integers whose quotient is not a value of
their type (`divisionOverflow`: undefined in C++, a trap on x86-64). -/
inductive Signal where
  | circularity
  | fooBarBaz
  | unimplemented
  | unexpected
  | assertionFailed
  | nullDereference
  | outOfBounds
  | divisionOverflow
  deriving DecidableEq, Repr

/-- Outcome of a checker operation: a value together with the diagnostics it
emitted, a thrown signal, or an exhausted recursion budget. -/
inductive Check (α : Type) where
  | ok (value : α) (diagnostics : List Diagnostic)
  | thrown (signal : Signal) (diagnostics : List Diagnostic)
  | outOfFuel

/-- Sequencing: diagnostics accumulate in emission order. -/
def Check.bind {α β : Type} (x : Check α) (f : α → Check β) : Check β :=
  match x with
  | Check.ok a ds =>
    match f a with
    | Check.ok b ds' => Check.ok b (ds ++ ds')
    | Check.thrown s ds' => Check.thrown s (ds ++ ds')
    | Check.outOfFuel => Check.outOfFuel
  | Check.thrown s ds => Check.thrown s ds
  | Check.outOfFuel => Check.outOfFuel

instance : Monad Check where
  pure a := Check.ok a []
  bind := Check.bind

/-- The call `getSink()->diagnose(...)`. -/
def diagnose (d : Diagnostic) : Check Unit := Check.ok () [d]

/-- A `throw` statement. -/
def throwSignal {α : Type} (s : Signal) : Check α := Check.thrown s []

/-! ## Overload candidates and the resolution context -/

/-! Conversion costs (`ConversionCost`) are `unsigned int` values: naturals below
`uintModulus`. -/

/-- Number of values of an `unsigned int`. -/
def uintModulus : Nat := 4294967296

/-- Addition of two `unsigned int` values. -/
def addUInt (a b : Nat) : Nat := (a + b) % uintModulus

/-- Subtraction of two `unsigned int` values. -/
def subUInt (a b : Nat) : Nat := (a % uintModulus + uintModulus - b % uintModulus) % uintModulus

/-- Conversion of an `unsigned int` value to `int` (two's complement). -/
def intOfUInt (u : Nat) : Int :=
  if u % uintModulus < 2147483648 then ((u % uintModulus : Nat) : Int)
  else ((u % uintModulus : Nat) : Int) - 4294967296

/-- Modelled from the spec: the constant `kConversionCost_None` is declared
outside `check.cpp`; equal types and error types convert at "zero cost". -/
def kConversionCost_None : Nat := 0

/-- The enumeration `OverloadCandidate::Flavor`. -/
inductive Flavor where
  | Func | Generic | UnspecializedGeneric
  deriving DecidableEq, Repr

/-- The enumeration `OverloadCandidate::Status`, in declaration order. -/
inductive Status where
  | GenericArgumentInferenceFailed
  | Unchecked
  | ArityChecked
  | FixityChecked
  | TypeChecked
  | Appicable
  deriving DecidableEq, Repr

/-- The conversion `int(status)`. -/
def Status.toInt : Status → Int
  | GenericArgumentInferenceFailed => 0
  | Unchecked => 1
  | ArityChecked => 2
  | FixityChecked => 3
  | TypeChecked => 4
  | Appicable => 5

/-- The structure `OverloadCandidate`. -/
structure OverloadCandidate where
  flavor : Flavor
  status : Status := Status.Unchecked
  item : LookupResultItem
  resultType : Option Ty
  conversionCostSum : Nat := kConversionCost_None
  deriving DecidableEq

/-- The enumeration `OverloadResolveContext::Mode`. -/
inductive Mode where
  | JustTrying | ForReal
  deriving DecidableEq, Repr

/-- The structure `OverloadResolveContext`. The pointer `bestCandidate` into
`bestCandidateStorage` is the optional candidate it points to. -/
structure OverloadResolveContext where
  loc : SourceLoc := 0
  originalExpr : Option Expr := none
  funcLoc : SourceLoc := 0
  argCount : Nat := 0
  args : Option (List Expr) := none
  argTypes : Option (List Ty) := none
  disallowNestedConversions : Bool := false
  baseExpr : Option Expr := none
  mode : Mode := Mode.JustTrying
  bestCandidate : Option OverloadCandidate := none
  bestCandidates : List OverloadCandidate := []

/-- The method `getArgCount`. -/
def OverloadResolveContext.getArgCount (context : OverloadResolveContext) : Nat :=
  context.argCount

/-- The method `getArg`; there is no value when the buffer is null or too short. -/
def OverloadResolveContext.getArg (context : OverloadResolveContext) (index : Nat) :
    Option Expr :=
  match context.args with
  | some args => args[index]?
  | none => none

/-- The method `getArgType`. -/
def OverloadResolveContext.getArgType (context : OverloadResolveContext) (index : Nat) :
    Option Ty :=
  match context.argTypes with
  | some argTypes => argTypes[index]?
  | none =>
    match context.getArg index with
    | some arg => arg.type.type
    | none => none

/-- The structure `ParamCounts`. -/
structure ParamCounts where
  required : Nat
  allowed : Nat
  deriving DecidableEq

/-! ## The declaration database -/

/-- The dynamic class of a declaration. -/
inductive DeclKind where
  | ModuleDecl | ImportDecl | TypeDefDecl | StructDecl | ClassDecl | InterfaceDecl
  | StructField | Variable | ParamDecl | FuncDecl | ConstructorDecl | SubscriptDecl
  | GetterDecl | SetterDecl | GenericDecl | GenericTypeParamDecl | GenericValueParamDecl
  | GenericTypeConstraintDecl | ExtensionDecl | InheritanceDecl | SyntaxDecl | ScopeDecl
  | EmptyDecl
  deriving DecidableEq, Repr

/-- The test `As<AggTypeDecl>()`: structs, classes and interfaces. -/
def DeclKind.isAggTypeDecl : DeclKind → Bool
  | StructDecl => true
  | ClassDecl => true
  | InterfaceDecl => true
  | _ => false

/-- The test `As<CallableDecl>()`: functions, constructors, subscripts and
accessors. -/
def DeclKind.isCallableDecl : DeclKind → Bool
  | FuncDecl => true
  | ConstructorDecl => true
  | SubscriptDecl => true
  | GetterDecl => true
  | SetterDecl => true
  | _ => false

/-- What `check.cpp` takes from the rest of the compiler: the compile flags, the
declarations with their members and modifiers, and the helpers declared in
headers. The last four fields are operations of the generic-inference and
constant-folding subsystems, which the coercion engine and the overload resolver
call but which are specified on their own. -/
structure Env where
  /-- The flag `SLANG_COMPILE_FLAG_NO_CHECKING`. -/
  isRewriteMode : Bool
  /-- The dynamic class of a declaration. -/
  declKind : DeclId → DeclKind
  /-- The helper `getMembers(declRef)`: member references in declaration order. -/
  getMembers : DeclRef → List DeclRef
  /-- The helper `GetType(declRef)` of a parameter, field or variable. -/
  GetType : DeclRef → Ty
  /-- The helper `GetResultType(declRef)` of a callable. -/
  GetResultType : DeclRef → Ty
  /-- The helper `getBaseType(inheritanceDeclRef)`. -/
  getBaseType : DeclRef → Ty
  /-- Whether `initExpr` (or `initType` of a generic type parameter) is set. -/
  hasInit : DeclId → Bool
  /-- The cost of the `ImplicitConversionModifier` of a declaration, if any. -/
  implicitConversionModifier : DeclId → Option Nat
  /-- The test `HasModifier<PrefixModifier>()`. -/
  hasPrefixModifier : DeclId → Bool
  /-- The test `HasModifier<PostfixModifier>()`. -/
  hasPostfixModifier : DeclId → Bool
  /-- The helper `declRef.GetName()`. -/
  getName : DeclId → Name
  /-- The helper `GetInner(genericDeclRef)`. -/
  GetInner : DeclRef → DeclId
  /-- The chain `GetCandidateExtensions(aggTypeDeclRef)`, first extension first. -/
  GetCandidateExtensions : DeclRef → List DeclId
  /-- The declaration reference behind a type of a class derived from
  `DeclRefType` other than `DeclRefType` itself (basic, vector, matrix and
  pointer-like types refer to standard-library declarations). -/
  builtinDeclRef : Ty → Option DeclRef
  /-- The helper `DeclRefType::Create(session, declRef)`. -/
  DeclRefTypeCreate : DeclRef → Ty
  /-- The constant `kConversionCost_CastToInterface`. -/
  kConversionCost_CastToInterface : Nat
  /-- The constant `kConversionCost_GeneralConversion`. -/
  kConversionCost_GeneralConversion : Nat
  /-- The constant `kConversionCost_Explicit`. -/
  kConversionCost_Explicit : Nat
  /-- The helper `GetTypeForDeclRef(declRef)`. -/
  GetTypeForDeclRef : DeclRef → QualType
  /-- The operation `ApplyExtensionToType(ext, type)`. -/
  ApplyExtensionToType : DeclId → Ty → Option DeclRef
  /-- The operation `SpecializeGenericForOverload(genericDeclRef, context)`,
  which reads the argument types of the context. -/
  SpecializeGenericForOverload : DeclRef → OverloadResolveContext → Option DeclRef
  /-- The operation `TryCheckGenericOverloadCandidateTypes(context, candidate)`. -/
  TryCheckGenericOverloadCandidateTypes :
    OverloadResolveContext → OverloadCandidate → Check (Bool × OverloadCandidate)
  /-- The operation `CreateGenericDeclRef(baseExpr, originalExpr, argCount, args)`. -/
  CreateGenericDeclRef : Expr → Option Expr → Nat → Option (List Expr) → Check Expr

/-- The test `type->As<DeclRefType>()`, giving the declaration reference. -/
def Ty.asDeclRefType (env : Env) : Ty → Option DeclRef
  | Ty.declRef d s => some { decl := d, substitutions := s }
  | t => env.builtinDeclRef t

/-- The helper `getMembersOfType<T>(declRef)` for a class `T` given by a test
on the dynamic class. -/
def getMembersOfType (env : Env) (isT : DeclKind → Bool) (declRef : DeclRef) : List DeclRef :=
  (env.getMembers declRef).filter (fun m => isT (env.declKind m.decl))

/-- The helper `GetParameters(callableDeclRef)`. -/
def GetParameters (env : Env) (declRef : DeclRef) : List DeclRef :=
  getMembersOfType env (fun k => decide (k = DeclKind.ParamDecl)) declRef

/-- The function `getImplicitConversionCost`. -/
def getImplicitConversionCost (env : Env) (decl : DeclId) : Nat :=
  match env.implicitConversionModifier decl with
  | some cost => cost
  | none => env.kConversionCost_Explicit

/-- The function `CountParameters(FilteredMemberRefList<ParamDecl>)`. -/
def CountParameters (env : Env) : List DeclRef → ParamCounts
  | [] => { required := 0, allowed := 0 }
  | param :: rest =>
    let counts := CountParameters env rest
    { required := if env.hasInit param.decl then counts.required else counts.required + 1,
      allowed := counts.allowed + 1 }

/-- The function `CountParameters(DeclRef<GenericDecl>)`. -/
def CountParametersGeneric (env : Env) : List DeclRef → ParamCounts
  | [] => { required := 0, allowed := 0 }
  | m :: rest =>
    let counts := CountParametersGeneric env rest
    if env.declKind m.decl = DeclKind.GenericTypeParamDecl
        ∨ env.declKind m.decl = DeclKind.GenericValueParamDecl then
      { required := if env.hasInit m.decl then counts.required else counts.required + 1,
        allowed := counts.allowed + 1 }
    else counts

/-- The function `TryCheckOverloadCandidateArity`. -/
def TryCheckOverloadCandidateArity (env : Env) (context : OverloadResolveContext)
    (candidate : OverloadCandidate) : Check Bool :=
  let argCount := context.getArgCount
  let counted : Check ParamCounts :=
    match candidate.flavor with
    | Flavor.Func => pure (CountParameters env (GetParameters env candidate.item.declRef))
    | Flavor.Generic => pure (CountParametersGeneric env (env.getMembers candidate.item.declRef))
    | Flavor.UnspecializedGeneric => throwSignal Signal.unexpected
  counted >>= fun paramCounts =>
    if argCount ≥ paramCounts.required ∧ argCount ≤ paramCounts.allowed then pure true
    else if context.mode ≠ Mode.JustTrying then
      if argCount < paramCounts.required then
        if !env.isRewriteMode then
          diagnose (Diagnostic.notEnoughArguments context.loc argCount paramCounts.required)
            >>= fun _ => pure false
        else pure false
      else
        if !env.isRewriteMode then
          diagnose (Diagnostic.tooManyArguments context.loc argCount paramCounts.allowed)
            >>= fun _ => pure false
        else pure false
    else pure false

/-- The test `expr.As<PrefixExpr>()` on an optional expression. -/
def isPrefixExpr : Option Expr → Bool
  | some (Expr.InvokeExpr InvokeKind.PrefixExpr _ _ _ _) => true
  | _ => false

/-- The test `expr.As<PostfixExpr>()` on an optional expression. -/
def isPostfixExpr : Option Expr → Bool
  | some (Expr.InvokeExpr InvokeKind.PostfixExpr _ _ _ _) => true
  | _ => false

/-- The function `TryCheckOverloadCandidateFixity`. -/
def TryCheckOverloadCandidateFixity (env : Env) (context : OverloadResolveContext)
    (candidate : OverloadCandidate) : Check Bool :=
  let expr := context.originalExpr
  let decl := candidate.item.declRef.decl
  if isPrefixExpr expr then
    if env.hasPrefixModifier decl then pure true
    else if context.mode ≠ Mode.JustTrying ∧ !env.isRewriteMode then
      diagnose (Diagnostic.expectedPrefixOperator context.loc) >>= fun _ =>
      diagnose (Diagnostic.seeDefinitionOf decl) >>= fun _ => pure false
    else pure false
  else if isPostfixExpr expr then
    if env.hasPostfixModifier decl then pure true
    else if context.mode ≠ Mode.JustTrying ∧ !env.isRewriteMode then
      diagnose (Diagnostic.expectedPostfixOperator context.loc) >>= fun _ =>
      diagnose (Diagnostic.seeDefinitionOf decl) >>= fun _ => pure false
    else pure false
  else pure true

/-- The function `TryCheckOverloadCandidateDirections`. -/
def TryCheckOverloadCandidateDirections (_context : OverloadResolveContext)
    (_candidate : OverloadCandidate) : Bool :=
  true

/-! ## Ranking of candidates -/

/-- The function `CompareOverloadCandidates`: a negative result means that
`left` is the better candidate. The difference of the two `unsigned int` cost
sums is converted to the `int` result. -/
def CompareOverloadCandidates (left right : OverloadCandidate) : Int :=
  if left.status ≠ right.status then
    right.status.toInt - left.status.toInt
  else if left.status = Status.Appicable
      ∧ left.conversionCostSum % uintModulus ≠ right.conversionCostSum % uintModulus then
    intOfUInt (subUInt left.conversionCostSum right.conversionCostSum)
  else 0

/-- The method `List::FastRemoveAt`: the last element is moved into the freed
position. -/
def FastRemoveAt {α : Type} (l : List α) (idx : Nat) : List α :=
  match l.getLast? with
  | some last => (l.set idx last).dropLast
  | none => l

/-- The filtering loop of `AddOverloadCandidateInner` over `bestCandidates`, from
index `cc` on. It returns the filtered list, `keepThisCandidate` and
`anyFiltered`. Every iteration either removes an element or advances `cc`, so
the first argument bounds the number of iterations that are left. -/
def filterBestCandidates (candidate : OverloadCandidate) :
    Nat → Nat → List OverloadCandidate → Bool → Bool → List OverloadCandidate × Bool × Bool
  | 0, _, bestCandidates, keepThisCandidate, anyFiltered =>
    (bestCandidates, keepThisCandidate, anyFiltered)
  | fuel + 1, cc, bestCandidates, keepThisCandidate, anyFiltered =>
    match bestCandidates[cc]? with
    | none => (bestCandidates, keepThisCandidate, anyFiltered)
    | some existing =>
      let cmp := CompareOverloadCandidates candidate existing
      if cmp < 0 then
        filterBestCandidates candidate fuel cc (FastRemoveAt bestCandidates cc)
          keepThisCandidate true
      else if cmp > 0 then
        filterBestCandidates candidate fuel (cc + 1) bestCandidates false anyFiltered
      else
        filterBestCandidates candidate fuel (cc + 1) bestCandidates keepThisCandidate anyFiltered

/-- The first half of `AddOverloadCandidateInner`: existing candidates that are
worse than the new one are removed. The result is the context, the flag
`keepThisCandidate` and the flag `anyFiltered`. -/
def filterExistingCandidates (context : OverloadResolveContext)
    (candidate : OverloadCandidate) : OverloadResolveContext × Bool × Bool :=
  if context.bestCandidates.length ≠ 0 then
    let r := filterBestCandidates candidate context.bestCandidates.length 0
      context.bestCandidates true false
    ({ context with bestCandidates := r.1 }, r.2.1, r.2.2)
  else
    match context.bestCandidate with
    | some best =>
      let cmp := CompareOverloadCandidates candidate best
      if cmp < 0 then ({ context with bestCandidate := none }, true, false)
      else if cmp > 0 then (context, false, false)
      else (context, true, false)
    | none => (context, true, false)

/-- The function `AddOverloadCandidateInner`. -/
def AddOverloadCandidateInner (context : OverloadResolveContext)
    (candidate : OverloadCandidate) : OverloadResolveContext :=
  let filtered := filterExistingCandidates context candidate
  let context1 := filtered.1
  let keepThisCandidate := filtered.2.1
  if !keepThisCandidate then context1
  else if context1.bestCandidates.length > 0 then
    { context1 with bestCandidates := context1.bestCandidates ++ [candidate] }
  else
    match context1.bestCandidate with
    | some best => { context1 with bestCandidates := [best, candidate], bestCandidate := none }
    | none => { context1 with bestCandidate := some candidate }

/-- The candidates a context retains: the single slot, then the list. -/
def OverloadResolveContext.retained (context : OverloadResolveContext) :
    List OverloadCandidate :=
  context.bestCandidate.toList ++ context.bestCandidates

/-- Adding a sequence of candidates, first one first. -/
def addCandidates (context : OverloadResolveContext) (candidates : List OverloadCandidate) :
    OverloadResolveContext :=
  candidates.foldl AddOverloadCandidateInner context

/-! ## Construction of expressions -/

/-- The function `CreateImplicitCastExpr`. -/
def CreateImplicitCastExpr (env : Env) (toType : Ty) (fromExpr : Expr) : Expr :=
  let castKind :=
    if env.isRewriteMode then CastKind.HiddenImplicitCastExpr else CastKind.ImplicitCastExpr
  let typeExpr := Expr.SharedTypeExpr 0 { type := some (Ty.typeType toType) } (some toType)
  Expr.TypeCastExpr castKind fromExpr.loc { type := some toType } typeExpr [fromExpr]

/-- The function `CreateErrorExpr`: the node itself, retyped as an error. -/
def CreateErrorExpr (expr : Expr) : Expr :=
  expr.setType { type := some Ty.error }

/-- The function `IsErrorExpr`. -/
def IsErrorExpr (expr : Expr) : Check Bool :=
  match expr.type.type with
  | some t => pure t.isErrorType
  | none => throwSignal Signal.nullDereference

/-- The function `ConstructDeclRefExpr`. -/
def ConstructDeclRefExpr (env : Env) (declRef : DeclRef) (baseExpr : Option Expr)
    (loc : SourceLoc) : Check Expr :=
  match baseExpr with
  | some base =>
    match base.type.type with
    | some (Ty.typeType _) =>
      pure (Expr.StaticMemberExpr loc (env.GetTypeForDeclRef declRef) (env.getName declRef.decl)
        (some declRef) base)
    | some _ =>
      pure (Expr.MemberExpr loc (env.GetTypeForDeclRef declRef) (env.getName declRef.decl)
        (some declRef) base)
    | none => throwSignal Signal.nullDereference
  | none =>
    pure (Expr.VarExpr loc (env.GetTypeForDeclRef declRef) (env.getName declRef.decl)
      (some declRef))

/-- The function `ConstructDerefExpr`. -/
def ConstructDerefExpr (base : Option Expr) (loc : SourceLoc) : Check Expr :=
  match base with
  | some b =>
    match b.type.type with
    | some t =>
      match t.asPointerLikeType with
      | some elementType => pure (Expr.DerefExpr loc { type := some elementType } b)
      | none => throwSignal Signal.nullDereference
    | none => throwSignal Signal.nullDereference
  | none => throwSignal Signal.nullDereference

/-- The breadcrumb loop of `ConstructLookupResultExpr`. -/
def expandBreadcrumbs (env : Env) (loc : SourceLoc) :
    List Breadcrumb → Option Expr → Check (Option Expr)
  | [], bb => pure bb
  | breadcrumb :: rest, bb =>
    (match breadcrumb.kind with
      | BreadcrumbKind.Member => ConstructDeclRefExpr env breadcrumb.declRef bb loc
      | BreadcrumbKind.Deref => ConstructDerefExpr bb loc) >>= fun e =>
    expandBreadcrumbs env loc rest (some e)

/-- The function `ConstructLookupResultExpr`. -/
def ConstructLookupResultExpr (env : Env) (item : LookupResultItem) (baseExpr : Option Expr)
    (loc : SourceLoc) : Check Expr :=
  expandBreadcrumbs env loc item.breadcrumbs baseExpr >>= fun bb =>
  ConstructDeclRefExpr env item.declRef bb loc

/-! ## Checking a candidate -/

/-- What `TryCoerceImpl` hands back: its return value and what it stored through
the two optional out-parameters (`none` when nothing was stored, or when a null
expression was stored). -/
structure CoerceResult where
  ok : Bool
  outToExpr : Option Expr := none
  outCost : Option Nat := none

/-- The signature of `TryCoerceImpl`: target type, whether `outToExpr` is given,
source type, source expression, whether `outCost` is given. -/
abbrev CoerceFn := Ty → Bool → Ty → Option Expr → Bool → Check CoerceResult

/-- The function `CanCoerce`, over the coercion engine `coerce`. -/
def CanCoerceWith (coerce : CoerceFn) (toType fromType : Ty) (outCost : Bool) :
    Check CoerceResult :=
  coerce toType false fromType none outCost

/-- The function `Coerce`, over the coercion engine `coerce`. -/
def CoerceWith (coerce : CoerceFn) (env : Env) (toType : Ty) (fromExpr : Expr) :
    Check (Option Expr) :=
  match fromExpr.type.type with
  | none =>
    if env.isRewriteMode then pure (some fromExpr)
    else throwSignal Signal.nullDereference
  | some fromType =>
    coerce toType true fromType (some fromExpr) false >>= fun r =>
    if !r.ok then
      (if !env.isRewriteMode then
        diagnose (Diagnostic.typeMismatch fromExpr.loc toType fromExpr.type)
      else pure ()) >>= fun _ =>
      pure (some (CreateImplicitCastExpr env Ty.error fromExpr))
    else pure r.outToExpr

/-- The assignment `context.getArg(index) = expr`. -/
def OverloadResolveContext.setArg (context : OverloadResolveContext) (index : Nat)
    (expr : Expr) : OverloadResolveContext :=
  { context with args := context.args.map (fun args => args.set index expr) }

/-- The argument loop of `TryCheckOverloadCandidateTypes`, from argument `ii`
on, with `remaining = argCount - ii`. -/
def checkArgumentTypes (coerce : CoerceFn) (env : Env) (params : List DeclRef) :
    Nat → Nat → OverloadResolveContext → OverloadCandidate →
      Check (Bool × OverloadCandidate × OverloadResolveContext)
  | 0, _, context, candidate => pure (true, candidate, context)
  | remaining + 1, ii, context, candidate =>
    match context.getArgType ii, params[ii]? with
    | some argType, some param =>
      if context.mode = Mode.JustTrying then
        if context.disallowNestedConversions then
          if !(env.GetType param).Equals argType then pure (false, candidate, context)
          else
            checkArgumentTypes coerce env params remaining (ii + 1) context
              { candidate with
                conversionCostSum := addUInt candidate.conversionCostSum kConversionCost_None }
        else
          CanCoerceWith coerce (env.GetType param) argType true >>= fun r =>
          if !r.ok then pure (false, candidate, context)
          else
            checkArgumentTypes coerce env params remaining (ii + 1) context
              { candidate with
                conversionCostSum :=
                  addUInt candidate.conversionCostSum (r.outCost.getD kConversionCost_None) }
      else
        match context.getArg ii with
        | some arg =>
          CoerceWith coerce env (env.GetType param) arg >>= fun coerced =>
          match coerced with
          | some e =>
            checkArgumentTypes coerce env params remaining (ii + 1) (context.setArg ii e)
              candidate
          | none => throwSignal Signal.nullDereference
        | none => throwSignal Signal.nullDereference
    | _, _ => throwSignal Signal.nullDereference

/-- The function `TryCheckOverloadCandidateTypes`. It returns its result, the
candidate with the accumulated cost, and the context with the coerced
arguments. -/
def TryCheckOverloadCandidateTypes (coerce : CoerceFn) (env : Env)
    (context : OverloadResolveContext) (candidate : OverloadCandidate) :
    Check (Bool × OverloadCandidate × OverloadResolveContext) :=
  match candidate.flavor with
  | Flavor.Func =>
    let params := GetParameters env candidate.item.declRef
    if context.getArgCount > params.length then throwSignal Signal.assertionFailed
    else checkArgumentTypes coerce env params context.getArgCount 0 context candidate
  | Flavor.Generic =>
    env.TryCheckGenericOverloadCandidateTypes context candidate >>= fun r =>
    pure (r.1, r.2, context)
  | Flavor.UnspecializedGeneric => throwSignal Signal.unexpected

/-- The function `TryCheckOverloadCandidate`. -/
def TryCheckOverloadCandidate (coerce : CoerceFn) (env : Env)
    (context : OverloadResolveContext) (candidate : OverloadCandidate) :
    Check (OverloadCandidate × OverloadResolveContext) :=
  TryCheckOverloadCandidateArity env context candidate >>= fun arityOk =>
  if !arityOk then pure (candidate, context)
  else
    let candidate1 := { candidate with status := Status.ArityChecked }
    TryCheckOverloadCandidateFixity env context candidate1 >>= fun fixityOk =>
    if !fixityOk then pure (candidate1, context)
    else
      let candidate2 := { candidate1 with status := Status.FixityChecked }
      TryCheckOverloadCandidateTypes coerce env context candidate2 >>= fun r =>
      if !r.1 then pure (r.2.1, r.2.2)
      else
        let candidate3 := { r.2.1 with status := Status.TypeChecked }
        if !TryCheckOverloadCandidateDirections r.2.2 candidate3 then pure (candidate3, r.2.2)
        else pure ({ candidate3 with status := Status.Appicable }, r.2.2)

/-! ## Completing a candidate -/

/-- The argument types that `getCallSignatureString` prints, for arguments `aa`
to `aa + remaining - 1`. -/
def callSignatureFrom (context : OverloadResolveContext) : Nat → Nat → Check (List Ty)
  | 0, _ => pure []
  | remaining + 1, aa =>
    match context.getArgType aa with
    | some t => callSignatureFrom context remaining (aa + 1) >>= fun rest => pure (t :: rest)
    | none => throwSignal Signal.nullDereference

/-- The function `getCallSignatureString`, as the list of the printed types. -/
def getCallSignatureString (context : OverloadResolveContext) : Check (List Ty) :=
  callSignatureFrom context context.getArgCount 0

/-- The `error:` exit of `CompleteOverloadCandidate`. -/
def completeWithError (context : OverloadResolveContext) : Check (Option Expr) :=
  match context.originalExpr with
  | some original => pure (some (CreateErrorExpr original))
  | none => diagnose (Diagnostic.unexpected context.loc) >>= fun _ => pure none

/-- The arguments `context.getArg(0)` to `context.getArg(argCount - 1)`. -/
def collectArgs (context : OverloadResolveContext) : Nat → Nat → Check (List Expr)
  | 0, _ => pure []
  | remaining + 1, aa =>
    match context.getArg aa with
    | some arg => collectArgs context remaining (aa + 1) >>= fun rest => pure (arg :: rest)
    | none => throwSignal Signal.nullDereference

/-- The function `CompleteOverloadCandidate`. When the original expression is an
`InvokeExpr`, the argument buffer of the context is the argument list of that
expression, so the coerced arguments are its arguments. -/
def CompleteOverloadCandidate (coerce : CoerceFn) (env : Env)
    (context : OverloadResolveContext) (candidate : OverloadCandidate) :
    Check (Option Expr) :=
  if candidate.status = Status.GenericArgumentInferenceFailed then
    getCallSignatureString context >>= fun callString =>
    (if !env.isRewriteMode then
      diagnose (Diagnostic.genericArgumentInferenceFailed context.loc callString) >>= fun _ =>
      diagnose (Diagnostic.genericSignatureTried candidate.item.declRef)
    else pure ()) >>= fun _ =>
    completeWithError context
  else
    let context1 := { context with mode := Mode.ForReal }
    TryCheckOverloadCandidateArity env context1 candidate >>= fun arityOk =>
    if !arityOk then completeWithError context1
    else
      TryCheckOverloadCandidateFixity env context1 candidate >>= fun fixityOk =>
      if !fixityOk then completeWithError context1
      else
        TryCheckOverloadCandidateTypes coerce env context1 candidate >>= fun r =>
        let context2 := r.2.2
        if !r.1 then completeWithError context2
        else if !TryCheckOverloadCandidateDirections context2 candidate then
          completeWithError context2
        else
          ConstructLookupResultExpr env candidate.item context2.baseExpr context2.funcLoc
            >>= fun baseExpr =>
          match candidate.flavor with
          | Flavor.Func =>
            let isLeftValue :=
              decide (env.declKind candidate.item.declRef.decl = DeclKind.SubscriptDecl)
                && !(getMembersOfType env (fun k => decide (k = DeclKind.SetterDecl))
                      candidate.item.declRef).isEmpty
            let callType : QualType :=
              { type := candidate.resultType, IsLeftValue := isLeftValue }
            match context2.originalExpr, context2.args with
            | some (Expr.InvokeExpr kind loc _ _ _), some args =>
              pure (some (Expr.InvokeExpr kind loc callType baseExpr args))
            | some (Expr.InvokeExpr _ _ _ _ _), none => throwSignal Signal.nullDereference
            | _, _ =>
              collectArgs context2 context2.argCount 0 >>= fun args =>
              pure (some (Expr.InvokeExpr InvokeKind.InvokeExpr context2.loc callType
                baseExpr args))
          | Flavor.Generic =>
            env.CreateGenericDeclRef baseExpr context2.originalExpr context2.argCount
              context2.args >>= fun e => pure (some e)
          | Flavor.UnspecializedGeneric =>
            diagnose (Diagnostic.unexpected context2.loc) >>= fun _ =>
            completeWithError context2

/-! ## Enumerating candidates

The calls `EnsureDecl(decl)` made while candidates are enumerated are left out:
the declarations that are candidates are taken to be checked already, in which
case `EnsureDecl` returns at once. -/

/-- The function `AddOverloadCandidate`. -/
def AddOverloadCandidate (coerce : CoerceFn) (env : Env) (context : OverloadResolveContext)
    (candidate : OverloadCandidate) : Check OverloadResolveContext :=
  TryCheckOverloadCandidate coerce env context candidate >>= fun r =>
  pure (AddOverloadCandidateInner r.2 r.1)

/-- The function `AddFuncOverloadCandidate(item, funcDeclRef, context)`. -/
def AddFuncOverloadCandidate (coerce : CoerceFn) (env : Env) (item : LookupResultItem)
    (funcDeclRef : DeclRef) (context : OverloadResolveContext) :
    Check OverloadResolveContext :=
  AddOverloadCandidate coerce env context
    { flavor := Flavor.Func, item := item, resultType := some (env.GetResultType funcDeclRef) }

/-- The function `AddCtorOverloadCandidate`. -/
def AddCtorOverloadCandidate (coerce : CoerceFn) (env : Env) (typeItem : LookupResultItem)
    (type : Ty) (ctorDeclRef : DeclRef) (context : OverloadResolveContext) :
    Check OverloadResolveContext :=
  let ctorItem : LookupResultItem :=
    { declRef := ctorDeclRef,
      breadcrumbs :=
        { kind := BreadcrumbKind.Member, declRef := typeItem.declRef } :: typeItem.breadcrumbs }
  AddOverloadCandidate coerce env context
    { flavor := Flavor.Func, item := ctorItem, resultType := some type }

/-- A loop that threads the context through the elements of a list. -/
def forEachCandidate {α : Type} (body : α → OverloadResolveContext → Check OverloadResolveContext) :
    List α → OverloadResolveContext → Check OverloadResolveContext
  | [], context => pure context
  | a :: rest, context => body a context >>= fun context1 => forEachCandidate body rest context1

/-- The body of the extension loop of `AddAggTypeOverloadCandidates`. -/
def addExtensionCandidates (coerce : CoerceFn) (env : Env) (typeItem : LookupResultItem)
    (type : Ty) (ext : DeclId) (context : OverloadResolveContext) :
    Check OverloadResolveContext :=
  match env.ApplyExtensionToType ext type with
  | none => pure context
  | some extDeclRef =>
    forEachCandidate (fun ctorDeclRef => AddCtorOverloadCandidate coerce env typeItem type ctorDeclRef)
      (getMembersOfType env (fun k => decide (k = DeclKind.ConstructorDecl)) extDeclRef) context
      >>= fun context1 =>
    forEachCandidate
      (fun genericDeclRef context2 =>
        if env.declKind (env.GetInner genericDeclRef) = DeclKind.ConstructorDecl then
          match env.SpecializeGenericForOverload genericDeclRef context2 with
          | none => pure context2
          | some innerRef => AddCtorOverloadCandidate coerce env typeItem type innerRef context2
        else pure context2)
      (getMembersOfType env (fun k => decide (k = DeclKind.GenericDecl)) extDeclRef) context1

/-- The function `AddAggTypeOverloadCandidates`. -/
def AddAggTypeOverloadCandidates (coerce : CoerceFn) (env : Env) (typeItem : LookupResultItem)
    (type : Ty) (aggTypeDeclRef : DeclRef) (context : OverloadResolveContext) :
    Check OverloadResolveContext :=
  forEachCandidate (fun ctorDeclRef => AddCtorOverloadCandidate coerce env typeItem type ctorDeclRef)
    (getMembersOfType env (fun k => decide (k = DeclKind.ConstructorDecl)) aggTypeDeclRef) context
    >>= fun context1 =>
  forEachCandidate (fun ext => addExtensionCandidates coerce env typeItem type ext)
    (env.GetCandidateExtensions aggTypeDeclRef) context1

/-- The function `AddTypeOverloadCandidates`. -/
def AddTypeOverloadCandidates (coerce : CoerceFn) (env : Env) (type : Ty)
    (context : OverloadResolveContext) : Check OverloadResolveContext :=
  match type.asDeclRefType env with
  | some declRef =>
    if (env.declKind declRef.decl).isAggTypeDecl then
      AddAggTypeOverloadCandidates coerce env { declRef := declRef } type declRef context
    else pure context
  | none => pure context

/-- The function `AddDeclRefOverloadCandidates`; the first argument bounds the
depth of its recursion through specialized generics. -/
def AddDeclRefOverloadCandidates (coerce : CoerceFn) (env : Env) :
    Nat → LookupResultItem → OverloadResolveContext → Check OverloadResolveContext
  | 0, _, _ => Check.outOfFuel
  | depth + 1, item, context =>
    let kind := env.declKind item.declRef.decl
    if kind.isCallableDecl then AddFuncOverloadCandidate coerce env item item.declRef context
    else if kind.isAggTypeDecl then
      AddAggTypeOverloadCandidates coerce env item (env.DeclRefTypeCreate item.declRef)
        item.declRef context
    else if kind = DeclKind.GenericDecl then
      match env.SpecializeGenericForOverload item.declRef context with
      | some innerRef =>
        AddDeclRefOverloadCandidates coerce env depth
          { declRef := innerRef, breadcrumbs := item.breadcrumbs } context
      | none =>
        pure (AddOverloadCandidateInner context
          { flavor := Flavor.UnspecializedGeneric,
            status := Status.GenericArgumentInferenceFailed,
            item := item, resultType := none })
    else if kind = DeclKind.TypeDefDecl then
      AddTypeOverloadCandidates coerce env (env.GetType item.declRef) context
    else pure context

/-- The function `AddOverloadCandidates`. A lookup result is overloaded when it
has more than one item. -/
def AddOverloadCandidates (coerce : CoerceFn) (env : Env) (depth : Nat) (funcExpr : Expr)
    (context : OverloadResolveContext) : Check OverloadResolveContext :=
  match funcExpr.asDeclRefExpr with
  | some (some declRef) =>
    AddDeclRefOverloadCandidates coerce env depth { declRef := declRef } context
  | some none => pure context
  | none =>
    match funcExpr.type.type, funcExpr with
    | none, _ => throwSignal Signal.nullDereference
    | some (Ty.func _ _), _ => throwSignal Signal.unimplemented
    | some _, Expr.OverloadedExpr _ _ _ items =>
      if items.length > 1 then
        forEachCandidate (fun item => AddDeclRefOverloadCandidates coerce env depth item)
          items context
      else throwSignal Signal.assertionFailed
    | some (Ty.typeType type), _ => AddTypeOverloadCandidates coerce env type context
    | some _, _ => pure context

/-! ## The coercion engine -/

/-- The function `DoesTypeConformToInterface`. The inheritance declarations of
the type are taken as already checked, so the call of `EnsureDecl` on each of
them is left out. -/
def DoesTypeConformToInterface (env : Env) (type : Ty) (interfaceDeclRef : DeclRef) : Bool :=
  match type.asDeclRefType env with
  | some aggTypeDeclRef =>
    if (env.declKind aggTypeDeclRef.decl).isAggTypeDecl then
      (getMembersOfType env (fun k => decide (k = DeclKind.InheritanceDecl)) aggTypeDeclRef).any
        (fun inheritanceDeclRef =>
          match (env.getBaseType inheritanceDeclRef).asDeclRefType env with
          | some inherited => decide (interfaceDeclRef = inherited)
          | none => false)
    else false
  | none => false

/-- The argument loops of the initializer-list case of `TryCoerceImpl`: every
argument is coerced to the type it is paired with. The result is `none` when an
argument fails, and otherwise the coerced arguments (collected only when an
output expression is asked for). -/
def coerceInitializerArgs (coerce : CoerceFn) (outToExpr outCost : Bool) :
    List (Ty × Expr) → Check (Option (List Expr))
  | [] => pure (some [])
  | (toType, arg) :: rest =>
    match arg.type.type with
    | none => throwSignal Signal.nullDereference
    | some argType =>
      coerce toType outToExpr argType (some arg) outCost >>= fun argResult =>
      if !argResult.ok then pure none
      else if outToExpr then
        match argResult.outToExpr with
        | none => throwSignal Signal.nullDereference
        | some coercedArg =>
          coerceInitializerArgs coerce outToExpr outCost rest >>= fun tail =>
          pure (tail.map (fun l => coercedArg :: l))
      else coerceInitializerArgs coerce outToExpr outCost rest

/-- The minimum computed by `TryCoerceImpl` over tied candidates. -/
def minimumConversionCost (env : Env) : List OverloadCandidate → Nat → Nat
  | [], cost => cost
  | candidate :: rest, cost =>
    let candidateCost := getImplicitConversionCost env candidate.item.declRef.decl
    minimumConversionCost env rest (if candidateCost < cost then candidateCost else cost)

/-- The body of `TryCoerceImpl`, with `coerce` standing for its recursive
calls. -/
def TryCoerceImplBody (coerce : CoerceFn) (env : Env) (toType : Ty) (outToExpr : Bool)
    (fromType : Ty) (fromExpr : Option Expr) (outCost : Bool) : Check CoerceResult :=
  let costOut (cost : Nat) : Option Nat := if outCost then some cost else none
  if toType.Equals fromType then
    pure { ok := true, outToExpr := if outToExpr then fromExpr else none,
           outCost := costOut kConversionCost_None }
  else if toType.isErrorType || fromType.isErrorType then
    if outToExpr then
      match fromExpr with
      | some e =>
        pure { ok := true, outToExpr := some (CreateImplicitCastExpr env toType e),
               outCost := costOut kConversionCost_None }
      | none => throwSignal Signal.nullDereference
    else pure { ok := true, outCost := costOut kConversionCost_None }
  else
    match fromExpr with
    | some (Expr.InitializerListExpr loc _ args) =>
      let paired : Option (List (Ty × Expr)) :=
        match toType.asDeclRefType env with
        | some toTypeDeclRef =>
          if env.declKind toTypeDeclRef.decl = DeclKind.StructDecl then
            some (((getMembersOfType env (fun k => decide (k = DeclKind.StructField))
              toTypeDeclRef).map env.GetType).zip args)
          else some []
        | none =>
          match toType.asArrayExpressionType with
          | some toElementType => some (args.map (fun arg => (toElementType, arg)))
          | none => none
      match paired with
      | none => pure { ok := false }
      | some pairs =>
        coerceInitializerArgs coerce outToExpr outCost pairs >>= fun coerced =>
        match coerced with
        | none => pure { ok := false }
        | some coercedArgs =>
          pure { ok := true,
                 outToExpr :=
                   if outToExpr then
                     some (Expr.InitializerListExpr loc { type := some toType } coercedArgs)
                   else none,
                 outCost := costOut kConversionCost_None }
    | _ =>
      let toInterface : Bool :=
        match toType.asDeclRefType env with
        | some toTypeDeclRef =>
          decide (env.declKind toTypeDeclRef.decl = DeclKind.InterfaceDecl)
            && DoesTypeConformToInterface env fromType toTypeDeclRef
        | none => false
      if toInterface then
        if outToExpr then
          match fromExpr with
          | some e =>
            pure { ok := true, outToExpr := some (CreateImplicitCastExpr env toType e),
                   outCost := costOut env.kConversionCost_CastToInterface }
          | none => throwSignal Signal.nullDereference
        else pure { ok := true, outCost := costOut env.kConversionCost_CastToInterface }
      else
        let overloadContext : OverloadResolveContext :=
          { disallowNestedConversions := true,
            argCount := 1,
            argTypes := some [fromType],
            originalExpr := none,
            loc := match fromExpr with
              | some e => e.loc
              | none => 0,
            funcLoc := match fromExpr with
              | some e => e.loc
              | none => 0,
            args := fromExpr.map (fun e => [e]),
            baseExpr := none,
            mode := Mode.JustTrying }
        AddTypeOverloadCandidates coerce env toType overloadContext >>= fun context =>
        match context.bestCandidates, context.bestCandidate with
        | first :: others, _ =>
          if first.status ≠ Status.Appicable then pure { ok := false }
          else
            let cost := minimumConversionCost env (first :: others)
              env.kConversionCost_GeneralConversion
            if outToExpr then throwSignal Signal.fooBarBaz
            else pure { ok := true, outCost := costOut cost }
        | [], some best =>
          if best.status ≠ Status.Appicable then pure { ok := false }
          else
            let cost := getImplicitConversionCost env best.item.declRef.decl
            if outToExpr then
              CompleteOverloadCandidate coerce env context best >>= fun e =>
              pure { ok := true, outToExpr := e, outCost := costOut cost }
            else pure { ok := true, outCost := costOut cost }
        | [], none => pure { ok := false }

/-- The function `TryCoerceImpl`. The first argument bounds the depth of the
recursion (through initializer lists and through the replay of a conversion
constructor). -/
def TryCoerceImpl (env : Env) : Nat → CoerceFn
  | 0 => fun _ _ _ _ _ => Check.outOfFuel
  | fuel + 1 => TryCoerceImplBody (TryCoerceImpl env fuel) env

/-- The function `CanCoerce`. -/
def CanCoerce (env : Env) (fuel : Nat) (toType fromType : Ty) (outCost : Bool) :
    Check CoerceResult :=
  TryCoerceImpl env fuel toType false fromType none outCost

/-- The function `Coerce`. -/
def Coerce (env : Env) (fuel : Nat) (toType : Ty) (fromExpr : Expr) : Check (Option Expr) :=
  CoerceWith (TryCoerceImpl env fuel) env toType fromExpr

/-! ## Resolving a call -/

/-- The loop that lists at most `maxCandidatesToPrint = 10` tied candidates. -/
def diagnoseCandidates : List OverloadCandidate → Check Unit
  | [] => pure ()
  | candidate :: rest =>
    diagnose (Diagnostic.overloadCandidate candidate.item.declRef candidate.conversionCostSum)
      >>= fun _ => diagnoseCandidates rest

/-- Whether any of the expressions is an error expression. -/
def anyErrorExpr : List Expr → Check Bool
  | [] => pure false
  | arg :: rest =>
    IsErrorExpr arg >>= fun isError => if isError then pure true else anyErrorExpr rest

/-- The function `ResolveInvoke`, on the call `expr` with callee `funcExpr` and
arguments `arguments`. -/
def ResolveInvokeWith (coerce : CoerceFn) (env : Env) (depth : Nat) (kind : InvokeKind)
    (loc : SourceLoc) (type : QualType) (funcExpr : Expr) (arguments : List Expr) :
    Check (Option Expr) :=
  let expr := Expr.InvokeExpr kind loc type funcExpr arguments
  IsErrorExpr funcExpr >>= fun funcIsError =>
  if funcIsError then pure (some (CreateErrorExpr expr))
  else
    anyErrorExpr arguments >>= fun argIsError =>
    if argIsError then pure (some (CreateErrorExpr expr))
    else
      let context0 : OverloadResolveContext :=
        { originalExpr := some expr,
          funcLoc := funcExpr.loc,
          argCount := arguments.length,
          args := some arguments,
          loc := loc,
          baseExpr :=
            match funcExpr with
            | Expr.MemberExpr _ _ _ _ base => some base
            | Expr.OverloadedExpr _ _ base _ => base
            | _ => none }
      AddOverloadCandidates coerce env depth funcExpr context0 >>= fun context =>
      match context.bestCandidates, context.bestCandidate with
      | first :: others, _ =>
        anyErrorExpr arguments >>= fun argIsError2 =>
        if argIsError2 then pure (some (CreateErrorExpr expr))
        else
          let funcName : Option Name :=
            match funcExpr with
            | Expr.VarExpr _ _ name _ => some name
            | Expr.MemberExpr _ _ name _ _ => some name
            | _ => none
          getCallSignatureString context >>= fun argsList =>
          (if env.isRewriteMode then pure ()
           else if first.status ≠ Status.Appicable then
            match funcName with
            | some name => diagnose (Diagnostic.noApplicableOverloadForNameWithArgs loc name argsList)
            | none => diagnose (Diagnostic.noApplicableWithArgs loc argsList)
           else
            match funcName with
            | some name => diagnose (Diagnostic.ambiguousOverloadForNameWithArgs loc name argsList)
            | none => diagnose (Diagnostic.ambiguousOverloadWithArgs loc argsList)) >>= fun _ =>
          (if env.isRewriteMode then pure ()
           else
            let candidateCount := (first :: others).length
            let printed := (first :: others).take 10
            diagnoseCandidates printed >>= fun _ =>
            if printed.length ≠ candidateCount then
              diagnose (Diagnostic.moreOverloadCandidates loc (candidateCount - printed.length))
            else pure ()) >>= fun _ =>
          pure (some (CreateErrorExpr expr))
      | [], some best => CompleteOverloadCandidate coerce env context best
      | [], none =>
        (if !env.isRewriteMode then diagnose (Diagnostic.expectedFunction funcExpr.loc)
         else pure ()) >>= fun _ =>
        pure (some (expr.setType { type := some Ty.error }))

/-- The function `ResolveInvoke`. -/
def ResolveInvoke (env : Env) (fuel : Nat) (kind : InvokeKind) (loc : SourceLoc)
    (type : QualType) (funcExpr : Expr) (arguments : List Expr) : Check (Option Expr) :=
  ResolveInvokeWith (TryCoerceImpl env fuel) env fuel kind loc type funcExpr arguments

/-! ## Definitions used by the statements and their proofs -/

/-- The shape of a resolution context between two additions: the single slot is
used only while the list is empty, the list never holds exactly one candidate,
and the candidates of the list are pairwise tied. -/
def Tidy (context : OverloadResolveContext) : Prop :=
  (context.bestCandidate ≠ none → context.bestCandidates = [])
  ∧ context.bestCandidates.length ≠ 1
  ∧ ∀ a ∈ context.bestCandidates, ∀ b ∈ context.bestCandidates,
      CompareOverloadCandidates a b = 0

/-- What one call of `AddOverloadCandidateInner` does to the retained
candidates of a tidy context: the new candidate is compared with the first
retained one. -/
def retainedAfterAdd (retained : List OverloadCandidate) (candidate : OverloadCandidate) :
    List OverloadCandidate :=
  match retained.head? with
  | none => [candidate]
  | some r =>
    if CompareOverloadCandidates candidate r < 0 then [candidate]
    else if 0 < CompareOverloadCandidates candidate r then retained
    else retained ++ [candidate]

/-- The order that `CompareOverloadCandidates` is meant to compute: a further
advanced status wins, and among applicable candidates the lower cost sum. -/
def rankedBefore (a b : OverloadCandidate) : Prop :=
  b.status.toInt < a.status.toInt
  ∨ (a.status.toInt = b.status.toInt ∧ a.status.toInt = 5
      ∧ a.conversionCostSum < b.conversionCostSum)

/-- The difference of the cost sums of two applicable candidates fits in `int`,
in both directions. -/
def costsFit (a b : OverloadCandidate) : Prop :=
  a.status = Status.Appicable → b.status = Status.Appicable →
    (a.conversionCostSum : Int) - b.conversionCostSum < 2147483648
    ∧ (b.conversionCostSum : Int) - a.conversionCostSum < 2147483648

/-- The candidates of a list that no candidate of the list is strictly better
than, in list order. -/
def unbeaten (candidates : List OverloadCandidate) : List OverloadCandidate :=
  candidates.filter (fun c =>
    candidates.all (fun c' => decide (¬ CompareOverloadCandidates c' c < 0)))

/-- Candidate used in the examples: a function candidate for declaration `decl`
with the given status and cost sum. -/
def exampleCandidate (decl : DeclId) (status : Status) (cost : Nat) : OverloadCandidate :=
  { flavor := Flavor.Func, status := status, item := { declRef := { decl := decl } },
    resultType := none, conversionCostSum := cost }

/-- The cost that `CanCoerce(type of parameter i, type of argument i)` reports
for argument `i` of a call (zero where there is no such call or it does not
return). -/
def reportedCost (coerce : CoerceFn) (env : Env) (context : OverloadResolveContext)
    (params : List DeclRef) (i : Nat) : Nat :=
  match context.getArgType i, params[i]? with
  | some argType, some param =>
    match CanCoerceWith coerce (env.GetType param) argType true with
    | Check.ok r _ => r.outCost.getD kConversionCost_None
    | _ => 0
  | _, _ => 0

/-- The call `CanCoerce(type of parameter i, type of argument i)` returns true. -/
def argumentCoerces (coerce : CoerceFn) (env : Env) (context : OverloadResolveContext)
    (params : List DeclRef) (i : Nat) : Prop :=
  ∃ argType param r ds, context.getArgType i = some argType ∧ params[i]? = some param
    ∧ CanCoerceWith coerce (env.GetType param) argType true = Check.ok r ds ∧ r.ok = true

/-- The type `int`. -/
def intType : Ty := Ty.basic BaseType.Int

/-- The type `float`. -/
def floatType : Ty := Ty.basic BaseType.Float

/-- A small program for the examples: the functions `f(int, float)`
(declaration 1, parameters 11 and 12) and `f(float, int)` (declaration 2,
parameters 21 and 22), the standard-library declaration of `float`
(declaration 30) with a constructor from `int` (declaration 31, parameter 32)
marked as an implicit conversion of cost `intToFloatCost`, the declaration of
`int` (declaration 40), and the function `g(float, float)` (declaration 3,
parameters 13 and 14). -/
def exampleEnv (isRewriteMode : Bool) (intToFloatCost : Nat) : Env where
  isRewriteMode := isRewriteMode
  declKind := fun d =>
    if d = 1 ∨ d = 2 ∨ d = 3 then DeclKind.FuncDecl
    else if d = 11 ∨ d = 12 ∨ d = 13 ∨ d = 14 ∨ d = 21 ∨ d = 22 ∨ d = 32 then
      DeclKind.ParamDecl
    else if d = 30 ∨ d = 40 then DeclKind.StructDecl
    else if d = 31 then DeclKind.ConstructorDecl
    else DeclKind.EmptyDecl
  getMembers := fun r =>
    if r.decl = 1 then [{ decl := 11 }, { decl := 12 }]
    else if r.decl = 2 then [{ decl := 21 }, { decl := 22 }]
    else if r.decl = 3 then [{ decl := 13 }, { decl := 14 }]
    else if r.decl = 30 then [{ decl := 31 }]
    else if r.decl = 31 then [{ decl := 32 }]
    else []
  GetType := fun r =>
    if r.decl = 11 ∨ r.decl = 22 ∨ r.decl = 32 then intType
    else if r.decl = 12 ∨ r.decl = 21 ∨ r.decl = 13 ∨ r.decl = 14 then floatType
    else Ty.error
  GetResultType := fun _ => Ty.basic BaseType.Void
  getBaseType := fun _ => Ty.error
  hasInit := fun _ => false
  implicitConversionModifier := fun d => if d = 31 then some intToFloatCost else none
  hasPrefixModifier := fun _ => false
  hasPostfixModifier := fun _ => false
  getName := fun d => d
  GetInner := fun r => r.decl
  GetCandidateExtensions := fun _ => []
  builtinDeclRef := fun t =>
    if t = floatType then some { decl := 30 }
    else if t = intType then some { decl := 40 }
    else none
  DeclRefTypeCreate := fun r => Ty.declRef r.decl r.substitutions
  kConversionCost_CastToInterface := 50
  kConversionCost_GeneralConversion := 900
  kConversionCost_Explicit := 90000
  GetTypeForDeclRef := fun r => { type := some (Ty.func r.decl r.substitutions) }
  ApplyExtensionToType := fun _ _ => none
  SpecializeGenericForOverload := fun _ _ => none
  TryCheckGenericOverloadCandidateTypes := fun _ candidate => pure (false, candidate)
  CreateGenericDeclRef := fun baseExpr _ _ _ => pure baseExpr

/-- The overloaded name `f` of the example, as the callee of a call. -/
def exampleCallee : Expr :=
  Expr.OverloadedExpr 5 { type := some Ty.overloaded } none
    [{ declRef := { decl := 1 } }, { declRef := { decl := 2 } }]

/-- The arguments `(1, 1)` of the example call, both of type `int`. -/
def exampleArguments : List Expr :=
  [Expr.ConstantExpr 6 { type := some intType } 1, Expr.ConstantExpr 7 { type := some intType } 1]

/-- The context that `ResolveInvoke` builds for the example call `f(1, 1)`. -/
def exampleContext : OverloadResolveContext :=
  { originalExpr := some (Expr.InvokeExpr InvokeKind.InvokeExpr 4 { type := none }
      exampleCallee exampleArguments),
    funcLoc := 5, argCount := 2, args := some exampleArguments, loc := 4 }

/-- The candidate that `AddFuncOverloadCandidate` builds for function `decl` of
the example. -/
def exampleFuncCandidate (decl : DeclId) : OverloadCandidate :=
  { flavor := Flavor.Func, item := { declRef := { decl := decl } },
    resultType := some (Ty.basic BaseType.Void) }

/-! ## The declaration-check state machine

Checking a declaration runs the expression and type checker on the syntax of
the declaration. For the state machine only three things matter about such a
run: the declarations it reaches (each reached declaration is passed to
`EnsureDecl`), the errors it reports to the sink, and the local declarations a
function body declares (`visitDeclStmt` dispatches on them directly). A run is
therefore given as the list of these `Effect`s, in the order in which they
happen. -/

/-- Modelled from the spec: the enumeration `DeclCheckState` is declared outside
`check.cpp`; the check state is one of Unchecked, CheckingHeader, CheckedHeader
and Checked, in this order. -/
inductive DeclCheckState where
  | Unchecked | CheckingHeader | CheckedHeader | Checked
  deriving DecidableEq, Repr

/-- The position of a state in the enumeration. -/
def DeclCheckState.toNat : DeclCheckState → Nat
  | Unchecked => 0
  | CheckingHeader => 1
  | CheckedHeader => 2
  | Checked => 3

/-- One step of a run of the expression checker, as the state machine sees it. -/
inductive Effect where
  /-- A call `EnsureDecl(decl, state)` on a declaration that the syntax refers to. -/
  | EnsureDecl (decl : DeclId) (state : DeclCheckState)
  /-- An error is reported to the sink. -/
  | error
  /-- A declaration statement of a single declaration: `visitDeclStmt`. -/
  | DeclStmt (decl : DeclId)
  /-- A declaration statement of a `DeclGroup`: `visitDeclStmt` and
  `visitDeclGroup`. -/
  | DeclGroupStmt (decls : List DeclId)

/-- A declaration, as far as the state machine reads it. -/
structure Decl where
  kind : DeclKind
  /-- The member declarations of a container declaration. -/
  Members : List DeclId := []
  /-- The field `inner` of a generic declaration. -/
  inner : DeclId := 0
  /-- What checking the type expressions and the initializer of the declaration
  itself does (`CheckProperType`, `CheckUsableType`, `TranslateTypeNode`,
  `CheckVarDeclCommon`, `CheckTerm`, `Coerce`), together with the errors that
  the visitor of the declaration reports about the checked types. -/
  syntaxEffects : List Effect := []
  /-- The field `Body` of a function: what checking the body does, if there is
  a body. -/
  Body : Option (List Effect) := none
  /-- For a parameter: its name repeats the name of an earlier parameter. -/
  nameAlreadyDefined : Bool := false
  /-- For a function: the number of diagnostics of `ValidateFunctionRedeclaration`
  (none is emitted in rewrite mode). -/
  redeclarationErrors : Nat := 0
  /-- For an import: `findOrImportModule` finds the module. -/
  importFound : Bool := true
  /-- What `checkModifiers` does on the declaration. -/
  modifierEffects : List Effect := []

/-- The translation unit: its declarations, the compile flag and the module. -/
structure Program where
  decl : DeclId → Decl
  isRewriteMode : Bool := false
  /-- The field `translationUnit->SyntaxNode`. -/
  SyntaxNode : DeclId := 0

/-- What the checker does to the declarations, in order. -/
inductive Event where
  /-- A call `decl->SetCheckState(new)` while the state was `old`. -/
  | SetCheckState (decl : DeclId) (old new : DeclCheckState)
  /-- A call `DeclVisitor::dispatch(decl)`. -/
  | dispatch (decl : DeclId)
  deriving DecidableEq

/-- The mutable state: the check state of every declaration, the error counter
of the sink, and the history of the run. -/
structure World where
  checkState : DeclId → DeclCheckState
  errorCount : Nat := 0
  log : List Event := []

/-- How an operation ends. -/
inductive Outcome (α : Type) where
  | ok (value : α)
  | thrown (signal : Signal)
  | outOfFuel
  deriving DecidableEq

/-- An operation of the declaration checker. -/
def DeclCheck (α : Type) : Type := World → Outcome α × World

/-- Sequencing; a thrown signal ends the operation with the state as it is. -/
def DeclCheck.bind {α β : Type} (m : DeclCheck α) (f : α → DeclCheck β) : DeclCheck β :=
  fun w =>
    match m w with
    | (Outcome.ok a, w1) => f a w1
    | (Outcome.thrown s, w1) => (Outcome.thrown s, w1)
    | (Outcome.outOfFuel, w1) => (Outcome.outOfFuel, w1)

instance : Monad DeclCheck where
  pure a := fun w => (Outcome.ok a, w)
  bind := DeclCheck.bind

/-- Modelled from the spec: the method `Decl::IsChecked` is declared outside
`check.cpp`; a declaration is checked up to `state` when its state is `state`
or a later one. -/
def IsChecked (decl : DeclId) (state : DeclCheckState) : DeclCheck Bool :=
  fun w => (Outcome.ok (decide (state.toNat ≤ (w.checkState decl).toNat)), w)

/-- The test `decl->checkState == state`. -/
def checkStateIs (decl : DeclId) (state : DeclCheckState) : DeclCheck Bool :=
  fun w => (Outcome.ok (decide (w.checkState decl = state)), w)

/-- Modelled from the spec: the method `Decl::SetCheckState` is declared outside
`check.cpp`; it assigns the mutable check state. -/
def SetCheckState (decl : DeclId) (state : DeclCheckState) : DeclCheck Unit :=
  fun w =>
    (Outcome.ok (),
      { w with
        checkState := fun d => if d = decl then state else w.checkState d,
        log := w.log ++ [Event.SetCheckState decl (w.checkState decl) state] })

/-- An error diagnostic reaches the sink. -/
def reportError : DeclCheck Unit :=
  fun w => (Outcome.ok (), { w with errorCount := w.errorCount + 1 })

/-- The call `sink->GetErrorCount()`. -/
def GetErrorCount : DeclCheck Nat :=
  fun w => (Outcome.ok w.errorCount, w)

/-- A `throw` statement. -/
def DeclCheck.throw {α : Type} (s : Signal) : DeclCheck α :=
  fun w => (Outcome.thrown s, w)

/-- The recursion budget is exhausted. -/
def DeclCheck.outOfFuel {α : Type} : DeclCheck α :=
  fun w => (Outcome.outOfFuel, w)

/-- The record of a call `DeclVisitor::dispatch(decl)`. -/
def recordDispatch (decl : DeclId) : DeclCheck Unit :=
  fun w => (Outcome.ok (), { w with log := w.log ++ [Event.dispatch decl] })

/-- A `for` loop over a list. -/
def forEach {α : Type} (body : α → DeclCheck Unit) : List α → DeclCheck Unit
  | [] => pure ()
  | a :: rest => body a >>= fun _ => forEach body rest

/-- A `for` loop that reports an error a given number of times. -/
def reportErrors : Nat → DeclCheck Unit
  | 0 => pure ()
  | n + 1 => reportError >>= fun _ => reportErrors n

/-- The helper `getMembersOfType<T>()` of a container declaration. -/
def Program.getMembersOfType (program : Program) (decl : DeclId) (kind : DeclKind) :
    List DeclId :=
  (program.decl decl).Members.filter (fun m => decide ((program.decl m).kind = kind))

/-- The test `decl.As<ContainerDecl>()`. -/
def DeclKind.isContainerDecl : DeclKind → Bool
  | ModuleDecl => true
  | StructDecl => true
  | ClassDecl => true
  | InterfaceDecl => true
  | ExtensionDecl => true
  | GenericDecl => true
  | FuncDecl => true
  | ConstructorDecl => true
  | SubscriptDecl => true
  | GetterDecl => true
  | SetterDecl => true
  | ScopeDecl => true
  | _ => false

/-- The signature of `EnsureDecl`. -/
abbrev EnsureFn := DeclId → DeclCheckState → DeclCheck Unit

/-- The signature of `DeclVisitor::dispatch`. -/
abbrev DispatchFn := DeclId → DeclCheck Unit

/-- A run of the expression checker on a piece of syntax. -/
def runEffects (ensure : EnsureFn) (dispatch : DispatchFn) : List Effect → DeclCheck Unit
  | [] => pure ()
  | Effect.EnsureDecl decl state :: rest =>
    ensure decl state >>= fun _ => runEffects ensure dispatch rest
  | Effect.error :: rest => reportError >>= fun _ => runEffects ensure dispatch rest
  | Effect.DeclStmt decl :: rest =>
    dispatch decl >>= fun _ => runEffects ensure dispatch rest
  | Effect.DeclGroupStmt decls :: rest =>
    forEach (fun d => ensure d DeclCheckState.Checked) decls >>= fun _ =>
    runEffects ensure dispatch rest

/-- The function `checkDecl`. -/
def checkDecl (ensure : EnsureFn) (decl : DeclId) : DeclCheck Unit :=
  ensure decl DeclCheckState.Checked

/-- The function `visitGenericDecl`. -/
def visitGenericDecl (ensure : EnsureFn) (dispatch : DispatchFn) (program : Program)
    (genericDecl : DeclId) : DeclCheck Unit :=
  forEach
    (fun m =>
      if (program.decl m).kind = DeclKind.GenericTypeParamDecl
          ∨ (program.decl m).kind = DeclKind.GenericValueParamDecl
          ∨ (program.decl m).kind = DeclKind.GenericTypeConstraintDecl then
        runEffects ensure dispatch (program.decl m).syntaxEffects
      else pure ())
    (program.decl genericDecl).Members >>= fun _ =>
  checkDecl ensure (program.decl genericDecl).inner

/-- The function `visitInheritanceDecl`. -/
def visitInheritanceDecl (ensure : EnsureFn) (dispatch : DispatchFn) (program : Program)
    (inheritanceDecl : DeclId) : DeclCheck Unit :=
  runEffects ensure dispatch (program.decl inheritanceDecl).syntaxEffects

/-- The function `visitClassDecl`. -/
def visitClassDecl (ensure : EnsureFn) (dispatch : DispatchFn) (program : Program)
    (classNode : DeclId) : DeclCheck Unit :=
  IsChecked classNode DeclCheckState.Checked >>= fun checked =>
  if checked then pure ()
  else
    SetCheckState classNode DeclCheckState.Checked >>= fun _ =>
    forEach
      (fun field =>
        runEffects ensure dispatch (program.decl field).syntaxEffects >>= fun _ =>
        SetCheckState field DeclCheckState.Checked)
      (program.getMembersOfType classNode DeclKind.StructField)

/-- The function `visitStructField`. -/
def visitStructField (ensure : EnsureFn) (dispatch : DispatchFn) (program : Program)
    (field : DeclId) : DeclCheck Unit :=
  runEffects ensure dispatch (program.decl field).syntaxEffects >>= fun _ =>
  SetCheckState field DeclCheckState.Checked

/-- The function `visitStructDecl`. -/
def visitStructDecl (ensure : EnsureFn) (program : Program) (structNode : DeclId) :
    DeclCheck Unit :=
  IsChecked structNode DeclCheckState.Checked >>= fun checked =>
  if checked then pure ()
  else
    SetCheckState structNode DeclCheckState.Checked >>= fun _ =>
    forEach (fun field => checkDecl ensure field)
      (program.getMembersOfType structNode DeclKind.StructField)

/-- The function `visitTypeDefDecl`. -/
def visitTypeDefDecl (ensure : EnsureFn) (dispatch : DispatchFn) (program : Program)
    (decl : DeclId) : DeclCheck Unit :=
  IsChecked decl DeclCheckState.Checked >>= fun checked =>
  if checked then pure ()
  else
    SetCheckState decl DeclCheckState.CheckingHeader >>= fun _ =>
    runEffects ensure dispatch (program.decl decl).syntaxEffects >>= fun _ =>
    SetCheckState decl DeclCheckState.Checked

/-- The function `visitParamDecl`. -/
def visitParamDecl (ensure : EnsureFn) (dispatch : DispatchFn) (program : Program)
    (para : DeclId) : DeclCheck Unit :=
  runEffects ensure dispatch (program.decl para).syntaxEffects

/-- The function `VisitFunctionDeclaration`. -/
def VisitFunctionDeclaration (ensure : EnsureFn) (dispatch : DispatchFn) (program : Program)
    (functionNode : DeclId) : DeclCheck Unit :=
  IsChecked functionNode DeclCheckState.CheckedHeader >>= fun checked =>
  if checked then pure ()
  else
    SetCheckState functionNode DeclCheckState.CheckingHeader >>= fun _ =>
    runEffects ensure dispatch (program.decl functionNode).syntaxEffects >>= fun _ =>
    forEach
      (fun para =>
        checkDecl ensure para >>= fun _ =>
        if (program.decl para).nameAlreadyDefined ∧ !program.isRewriteMode then reportError
        else pure ())
      (program.getMembersOfType functionNode DeclKind.ParamDecl) >>= fun _ =>
    SetCheckState functionNode DeclCheckState.CheckedHeader >>= fun _ =>
    if program.isRewriteMode then pure ()
    else reportErrors (program.decl functionNode).redeclarationErrors

/-- The function `visitFuncDecl`. -/
def visitFuncDecl (ensure : EnsureFn) (dispatch : DispatchFn) (program : Program)
    (functionNode : DeclId) : DeclCheck Unit :=
  IsChecked functionNode DeclCheckState.Checked >>= fun checked =>
  if checked then pure ()
  else
    VisitFunctionDeclaration ensure dispatch program functionNode >>= fun _ =>
    SetCheckState functionNode DeclCheckState.Checked >>= fun _ =>
    match (program.decl functionNode).Body with
    | some body => runEffects ensure dispatch body
    | none => pure ()

/-- The function `visitVariable`. -/
def visitVariable (ensure : EnsureFn) (dispatch : DispatchFn) (program : Program)
    (varDecl : DeclId) : DeclCheck Unit :=
  runEffects ensure dispatch (program.decl varDecl).syntaxEffects >>= fun _ =>
  SetCheckState varDecl DeclCheckState.Checked

/-- The function `visitExtensionDecl`. -/
def visitExtensionDecl (ensure : EnsureFn) (dispatch : DispatchFn) (program : Program)
    (decl : DeclId) : DeclCheck Unit :=
  IsChecked decl DeclCheckState.Checked >>= fun checked =>
  if checked then pure ()
  else
    SetCheckState decl DeclCheckState.CheckingHeader >>= fun _ =>
    runEffects ensure dispatch (program.decl decl).syntaxEffects >>= fun _ =>
    SetCheckState decl DeclCheckState.CheckedHeader >>= fun _ =>
    forEach (fun m => ensure m DeclCheckState.CheckedHeader) (program.decl decl).Members
      >>= fun _ =>
    SetCheckState decl DeclCheckState.Checked

/-- The function `visitConstructorDecl`. -/
def visitConstructorDecl (ensure : EnsureFn) (dispatch : DispatchFn) (program : Program)
    (decl : DeclId) : DeclCheck Unit :=
  IsChecked decl DeclCheckState.Checked >>= fun checked =>
  if checked then pure ()
  else
    SetCheckState decl DeclCheckState.CheckingHeader >>= fun _ =>
    forEach (fun paramDecl => runEffects ensure dispatch (program.decl paramDecl).syntaxEffects)
      (program.getMembersOfType decl DeclKind.ParamDecl) >>= fun _ =>
    SetCheckState decl DeclCheckState.CheckedHeader >>= fun _ =>
    SetCheckState decl DeclCheckState.Checked

/-- The function `visitSubscriptDecl`. -/
def visitSubscriptDecl (ensure : EnsureFn) (dispatch : DispatchFn) (program : Program)
    (decl : DeclId) : DeclCheck Unit :=
  IsChecked decl DeclCheckState.Checked >>= fun checked =>
  if checked then pure ()
  else
    SetCheckState decl DeclCheckState.CheckingHeader >>= fun _ =>
    forEach (fun paramDecl => runEffects ensure dispatch (program.decl paramDecl).syntaxEffects)
      (program.getMembersOfType decl DeclKind.ParamDecl) >>= fun _ =>
    runEffects ensure dispatch (program.decl decl).syntaxEffects >>= fun _ =>
    SetCheckState decl DeclCheckState.CheckedHeader >>= fun _ =>
    SetCheckState decl DeclCheckState.Checked

/-- The function `visitAccessorDecl`. -/
def visitAccessorDecl (decl : DeclId) : DeclCheck Unit :=
  SetCheckState decl DeclCheckState.Checked

/-- The function `visitImportDecl`. -/
def visitImportDecl (program : Program) (decl : DeclId) : DeclCheck Unit :=
  IsChecked decl DeclCheckState.Checked >>= fun checked =>
  if checked then pure ()
  else if !(program.decl decl).importFound then pure ()
  else SetCheckState decl DeclCheckState.Checked

/-- The function `checkModifiers`. -/
def checkModifiers (ensure : EnsureFn) (dispatch : DispatchFn) (program : Program)
    (decl : DeclId) : DeclCheck Unit :=
  runEffects ensure dispatch (program.decl decl).modifierEffects

/-- The function `visitModuleDecl`; `ensureAll` stands for `EnusreAllDeclsRec`. -/
def visitModuleDecl (ensure : EnsureFn) (dispatch : DispatchFn) (ensureAll : DispatchFn)
    (program : Program) (programNode : DeclId) : DeclCheck Unit :=
  forEach (fun importDecl => ensure importDecl DeclCheckState.CheckedHeader)
    (program.getMembersOfType programNode DeclKind.ImportDecl) >>= fun _ =>
  forEach (fun s => checkDecl ensure s)
    (program.getMembersOfType programNode DeclKind.TypeDefDecl) >>= fun _ =>
  forEach (fun s => checkDecl ensure s)
    (program.getMembersOfType programNode DeclKind.StructDecl) >>= fun _ =>
  forEach (fun s => checkDecl ensure s)
    (program.getMembersOfType programNode DeclKind.ClassDecl) >>= fun _ =>
  forEach (fun g => checkDecl ensure g)
    (program.getMembersOfType programNode DeclKind.GenericDecl) >>= fun _ =>
  forEach
    (fun func =>
      IsChecked func DeclCheckState.Checked >>= fun checked =>
      if !checked then VisitFunctionDeclaration ensure dispatch program func else pure ())
    (program.getMembersOfType programNode DeclKind.FuncDecl) >>= fun _ =>
  forEach (fun func => ensure func DeclCheckState.CheckedHeader)
    (program.getMembersOfType programNode DeclKind.FuncDecl) >>= fun _ =>
  GetErrorCount >>= fun errorCount =>
  if errorCount ≠ 0 then pure ()
  else
    forEach ensureAll (program.decl programNode).Members >>= fun _ =>
    forEach (fun d => checkModifiers ensure dispatch program d)
      (program.decl programNode).Members

/-- The dispatch of `DeclVisitor` on the dynamic class of a declaration. -/
def visitDecl (ensure : EnsureFn) (dispatch : DispatchFn) (ensureAll : DispatchFn)
    (program : Program) (decl : DeclId) : DeclCheck Unit :=
  match (program.decl decl).kind with
  | DeclKind.ModuleDecl => visitModuleDecl ensure dispatch ensureAll program decl
  | DeclKind.ImportDecl => visitImportDecl program decl
  | DeclKind.TypeDefDecl => visitTypeDefDecl ensure dispatch program decl
  | DeclKind.StructDecl => visitStructDecl ensure program decl
  | DeclKind.ClassDecl => visitClassDecl ensure dispatch program decl
  | DeclKind.InterfaceDecl => pure ()
  | DeclKind.StructField => visitStructField ensure dispatch program decl
  | DeclKind.Variable => visitVariable ensure dispatch program decl
  | DeclKind.ParamDecl => visitParamDecl ensure dispatch program decl
  | DeclKind.FuncDecl => visitFuncDecl ensure dispatch program decl
  | DeclKind.ConstructorDecl => visitConstructorDecl ensure dispatch program decl
  | DeclKind.SubscriptDecl => visitSubscriptDecl ensure dispatch program decl
  | DeclKind.GetterDecl => visitAccessorDecl decl
  | DeclKind.SetterDecl => visitAccessorDecl decl
  | DeclKind.GenericDecl => visitGenericDecl ensure dispatch program decl
  | DeclKind.GenericTypeParamDecl => pure ()
  | DeclKind.GenericValueParamDecl => pure ()
  | DeclKind.GenericTypeConstraintDecl => pure ()
  | DeclKind.ExtensionDecl => visitExtensionDecl ensure dispatch program decl
  | DeclKind.InheritanceDecl => visitInheritanceDecl ensure dispatch program decl
  | DeclKind.SyntaxDecl => pure ()
  | DeclKind.ScopeDecl => pure ()
  | DeclKind.EmptyDecl => pure ()

mutual
/-- The function `EnsureDecl`; the first argument bounds the depth of the
recursion through the declaration visitors. -/
def EnsureDecl (program : Program) : Nat → DeclId → DeclCheckState → DeclCheck Unit
  | 0, _, _ => DeclCheck.outOfFuel
  | fuel + 1, decl, state =>
    IsChecked decl state >>= fun checked =>
    if checked then pure ()
    else
      checkStateIs decl DeclCheckState.CheckingHeader >>= fun checking =>
      if checking then DeclCheck.throw Signal.circularity
      else
        IsChecked decl DeclCheckState.CheckingHeader >>= fun reached =>
        (if !reached then SetCheckState decl DeclCheckState.CheckingHeader else pure ())
          >>= fun _ =>
        dispatchDecl program fuel decl >>= fun _ =>
        SetCheckState decl DeclCheckState.Checked
/-- The call `DeclVisitor::dispatch(decl)`. -/
def dispatchDecl (program : Program) : Nat → DeclId → DeclCheck Unit
  | 0, _ => DeclCheck.outOfFuel
  | fuel + 1, decl =>
    recordDispatch decl >>= fun _ =>
    visitDecl (EnsureDecl program fuel) (dispatchDecl program fuel)
      (EnusreAllDeclsRec program fuel) program decl
/-- The function `EnusreAllDeclsRec`. -/
def EnusreAllDeclsRec (program : Program) : Nat → DeclId → DeclCheck Unit
  | 0, _ => DeclCheck.outOfFuel
  | fuel + 1, decl =>
    EnsureDecl program fuel decl DeclCheckState.Checked >>= fun _ =>
    if (program.decl decl).kind.isContainerDecl then
      forEach (EnusreAllDeclsRec program fuel) (program.decl decl).Members
    else pure ()
end

/-- The function `checkTranslationUnit`. -/
def checkTranslationUnit (program : Program) (fuel : Nat) : DeclCheck Unit :=
  checkDecl (EnsureDecl program fuel) program.SyntaxNode

/-- The translation unit `typedef A B; typedef B A;`: the module is declaration
0, the first typedef (which declares `B` as `A`) is declaration 1 and the second
(which declares `A` as `B`) is declaration 2; the type expression of each
refers to the other. -/
def circularTypedefs : Program where
  decl := fun d =>
    if d = 0 then { kind := DeclKind.ModuleDecl, Members := [1, 2] }
    else if d = 1 then
      { kind := DeclKind.TypeDefDecl,
        syntaxEffects := [Effect.EnsureDecl 2 DeclCheckState.CheckedHeader] }
    else if d = 2 then
      { kind := DeclKind.TypeDefDecl,
        syntaxEffects := [Effect.EnsureDecl 1 DeclCheckState.CheckedHeader] }
    else { kind := DeclKind.EmptyDecl }

/-- The state before checking: every declaration is unchecked. -/
def uncheckedWorld : World := { checkState := fun _ => DeclCheckState.Unchecked }

/-- The state `w'` is reached from `w` without touching declaration `d` in a
forbidden way: if `d` had left `Unchecked` in `w` it has in `w'`, the history of
`w'` continues that of `w`, and if `d` had left `Unchecked` in `w` then no
assignment to the state of `d` in the continuation starts from `Unchecked`. -/
def Extends (d : DeclId) (w w' : World) : Prop :=
  (w.checkState d ≠ DeclCheckState.Unchecked → w'.checkState d ≠ DeclCheckState.Unchecked)
  ∧ ∃ new, w'.log = w.log ++ new
      ∧ (w.checkState d ≠ DeclCheckState.Unchecked →
          ∀ old new', Event.SetCheckState d old new' ∈ new → old ≠ DeclCheckState.Unchecked)

/-- Every run of the operation extends the state it starts from. -/
def Safe {α : Type} (m : DeclCheck α) : Prop :=
  ∀ d w, Extends d w (m w).2

/-- A translation unit with one `struct` without fields (declaration 1) in the
module (declaration 0). -/
def emptyStruct : Program where
  decl := fun d =>
    if d = 0 then { kind := DeclKind.ModuleDecl, Members := [1] }
    else if d = 1 then { kind := DeclKind.StructDecl }
    else { kind := DeclKind.EmptyDecl }

/-- The states from `CheckedHeader` on: the header of the declaration has been
checked. -/
def DeclCheckState.headerChecked (s : DeclCheckState) : Prop :=
  s = DeclCheckState.CheckedHeader ∨ s = DeclCheckState.Checked

instance (s : DeclCheckState) : Decidable s.headerChecked := by
  unfold DeclCheckState.headerChecked
  infer_instance

/-- The declaration variants whose visitor assigns `CheckedHeader` before it
assigns `Checked`: functions, extensions, constructors and subscripts. -/
def DeclKind.hasHeaderState : DeclKind → Bool
  | FuncDecl => true
  | ExtensionDecl => true
  | ConstructorDecl => true
  | SubscriptDecl => true
  | _ => false

/-- A run of the operation `m` from a state in which the header of declaration
`d` is checked if `p` holds: every assignment of `Checked` to `d` in the run
finds the header of `d` checked, and if the run returns and `q` holds, the
header of `d` is checked at the end. -/
def HeaderRun (d : DeclId) (p q : Prop) {α : Type} (m : DeclCheck α) : Prop :=
  ∀ w, (p → (w.checkState d).headerChecked) →
    (∃ new, (m w).2.log = w.log ++ new
      ∧ ∀ old, Event.SetCheckState d old DeclCheckState.Checked ∈ new → old.headerChecked)
    ∧ (∀ a, (m w).1 = Outcome.ok a → q → ((m w).2.checkState d).headerChecked)

/-- The translation unit `void f() {}`: the function is declaration 1 in the
module (declaration 0). -/
def emptyFunction : Program where
  decl := fun d =>
    if d = 0 then { kind := DeclKind.ModuleDecl, Members := [1] }
    else if d = 1 then { kind := DeclKind.FuncDecl, Body := some [] }
    else { kind := DeclKind.EmptyDecl }

/-! ## Definitions used by the statements about module checking -/

/-- Declaration `d` belongs to the tree of declarations under `root`: it is
`root` itself, or it belongs to the tree under a member of `root` when `root` is
a container declaration (the recursion of `EnusreAllDeclsRec`). -/
inductive InTree (program : Program) : DeclId → DeclId → Prop where
  | self (d : DeclId) : InTree program d d
  | member (root m d : DeclId) (hcontainer : (program.decl root).kind.isContainerDecl = true)
      (hmember : m ∈ (program.decl root).Members) (hrest : InTree program m d) :
      InTree program root d

/-- Every declaration that is `Checked` in `w` is `Checked` in `w'`. -/
def Grows (w w' : World) : Prop :=
  ∀ d, w.checkState d = DeclCheckState.Checked → w'.checkState d = DeclCheckState.Checked

/-- No run of the operation takes a declaration out of the state `Checked`. -/
def Steady {α : Type} (m : DeclCheck α) : Prop :=
  ∀ w, Grows w (m w).2

/-- Started in a state that has every `Checked` declaration of `w0`, the
operation ends in such a state. -/
def SteadyFrom {α : Type} (w0 : World) (m : DeclCheck α) : Prop :=
  ∀ w, Grows w0 w → Grows w0 (m w).2

/-- The translation unit `typedef Undefined T; int g;`: the module is
declaration 0, the typedef (declaration 1) names a type that does not exist, so
that checking its type expression reports an error, and the global variable is
declaration 2. -/
def errorAndGlobal : Program where
  decl := fun d =>
    if d = 0 then { kind := DeclKind.ModuleDecl, Members := [1, 2] }
    else if d = 1 then { kind := DeclKind.TypeDefDecl, syntaxEffects := [Effect.error] }
    else if d = 2 then { kind := DeclKind.Variable }
    else { kind := DeclKind.EmptyDecl }

/-- The translation unit `typedef Undefined T; void f() { int x; }`: the module
is declaration 0, the typedef (declaration 1) reports an error, the function `f`
is declaration 2 and the local variable `x` declared in its body is
declaration 3. -/
def errorBeforeBody : Program where
  decl := fun d =>
    if d = 0 then { kind := DeclKind.ModuleDecl, Members := [1, 2] }
    else if d = 1 then { kind := DeclKind.TypeDefDecl, syntaxEffects := [Effect.error] }
    else if d = 2 then { kind := DeclKind.FuncDecl, Body := some [Effect.DeclStmt 3] }
    else if d = 3 then { kind := DeclKind.Variable }
    else { kind := DeclKind.EmptyDecl }

/-- The translation unit `typedef int T; void f() { int x; }`, numbered like
`errorBeforeBody`. -/
def typedefAndFunction : Program where
  decl := fun d =>
    if d = 0 then { kind := DeclKind.ModuleDecl, Members := [1, 2] }
    else if d = 1 then { kind := DeclKind.TypeDefDecl }
    else if d = 2 then { kind := DeclKind.FuncDecl, Body := some [Effect.DeclStmt 3] }
    else if d = 3 then { kind := DeclKind.Variable }
    else { kind := DeclKind.EmptyDecl }

/-! ## Definitions used by the statements about coercion -/

/-- The program of the coercion examples. It extends `exampleEnv` (which has
`int`, and `float` with its constructor from `int`, here an implicit conversion
of cost 400) by
`struct S { int a; float b; }` (declaration 60, fields 61 and 62),
`class C { int a; }` (declaration 70, field 71),
`struct T { __init(int x); }` (declaration 80, constructor 81 with parameter 82,
no implicit-conversion modifier),
`struct U { __init(int x); __init(int y); }` (declaration 90, constructors 91
and 93 with parameters 92 and 94, no implicit-conversion modifier),
`interface I { __init(int x); }` (declaration 50, constructor 51 with parameter
52), and `struct D : I {}` (declaration 55, inheritance declaration 56). A
reference to a type declaration has the type of that type. -/
def coercionEnv (isRewriteMode : Bool) : Env :=
  let base := exampleEnv isRewriteMode 400
  { base with
    declKind := fun d =>
      if d = 60 ∨ d = 80 ∨ d = 90 ∨ d = 55 then DeclKind.StructDecl
      else if d = 61 ∨ d = 62 ∨ d = 71 then DeclKind.StructField
      else if d = 70 then DeclKind.ClassDecl
      else if d = 50 then DeclKind.InterfaceDecl
      else if d = 81 ∨ d = 91 ∨ d = 93 ∨ d = 51 then DeclKind.ConstructorDecl
      else if d = 82 ∨ d = 92 ∨ d = 94 ∨ d = 52 then DeclKind.ParamDecl
      else if d = 56 then DeclKind.InheritanceDecl
      else base.declKind d
    getMembers := fun r =>
      if r.decl = 60 then [{ decl := 61 }, { decl := 62 }]
      else if r.decl = 70 then [{ decl := 71 }]
      else if r.decl = 80 then [{ decl := 81 }]
      else if r.decl = 81 then [{ decl := 82 }]
      else if r.decl = 90 then [{ decl := 91 }, { decl := 93 }]
      else if r.decl = 91 then [{ decl := 92 }]
      else if r.decl = 93 then [{ decl := 94 }]
      else if r.decl = 50 then [{ decl := 51 }]
      else if r.decl = 51 then [{ decl := 52 }]
      else if r.decl = 55 then [{ decl := 56 }]
      else base.getMembers r
    GetType := fun r =>
      if r.decl = 61 ∨ r.decl = 71 ∨ r.decl = 82 ∨ r.decl = 92 ∨ r.decl = 94 ∨ r.decl = 52 then
        intType
      else if r.decl = 62 then floatType
      else base.GetType r
    getBaseType := fun r => if r.decl = 56 then Ty.declRef 50 Subst.none else Ty.error
    GetTypeForDeclRef := fun r =>
      if r.decl = 30 then { type := some (Ty.typeType floatType) }
      else if r.decl = 40 then { type := some (Ty.typeType intType) }
      else if r.decl = 60 ∨ r.decl = 70 ∨ r.decl = 80 ∨ r.decl = 90 ∨ r.decl = 50 ∨ r.decl = 55 then
        { type := some (Ty.typeType (Ty.declRef r.decl r.substitutions)) }
      else base.GetTypeForDeclRef r }

/-- The type of a declaration without generic arguments. -/
def namedType (decl : DeclId) : Ty := Ty.declRef decl Subst.none

/-- An integer literal of type `int`. -/
def intLiteral (loc : SourceLoc) (value : Int) : Expr :=
  Expr.ConstantExpr loc { type := some intType } value

/-- The initializer list `{1, 2}`. -/
def exampleInitializerList : Expr :=
  Expr.InitializerListExpr 9 { type := some Ty.initializerList } [intLiteral 6 1, intLiteral 7 2]

/-- The call of constructor `ctor` of the type `toType`, declared by `typeDecl`,
on the argument `e`, as `CompleteOverloadCandidate` builds it for a conversion:
an `InvokeExpr` at the location of `e` whose callee is the member reference to
the constructor. -/
def constructorCall (env : Env) (typeDecl ctor : DeclId) (toType : Ty) (e : Expr) : Expr :=
  Expr.InvokeExpr InvokeKind.InvokeExpr e.loc { type := some toType }
    (Expr.StaticMemberExpr e.loc { type := some (Ty.func ctor Subst.none) } (env.getName ctor)
      (some { decl := ctor })
      (Expr.VarExpr e.loc { type := some (Ty.typeType toType) } (env.getName typeDecl)
        (some { decl := typeDecl })))
    [e]

/-- The context that `TryCoerceImpl` builds for the search of a conversion
constructor. -/
def conversionContext (fromType : Ty) (fromExpr : Option Expr) : OverloadResolveContext :=
  { disallowNestedConversions := true,
    argCount := 1,
    argTypes := some [fromType],
    originalExpr := none,
    loc := match fromExpr with
      | some e => e.loc
      | none => 0,
    funcLoc := match fromExpr with
      | some e => e.loc
      | none => 0,
    args := fromExpr.map (fun e => [e]),
    baseExpr := none,
    mode := Mode.JustTrying }

/-- The types of the fields of a struct, in declaration order. -/
def fieldTypes (env : Env) (structDeclRef : DeclRef) : List Ty :=
  (getMembersOfType env (fun k => decide (k = DeclKind.StructField)) structDeclRef).map env.GetType

/-- The call of the coercion engine on one argument of an initializer list,
paired with the type it is coerced to, returns normally with the result and the
diagnostics `r`; when an output expression is asked for and the coercion
succeeds, there is one. -/
def argumentResult (coerce : CoerceFn) (outToExpr outCost : Bool) (p : Ty × Expr)
    (r : CoerceResult × List Diagnostic) : Prop :=
  ∃ argType, p.2.type.type = some argType
    ∧ coerce p.1 outToExpr argType (some p.2) outCost = Check.ok r.1 r.2
    ∧ (outToExpr = true → r.1.ok = true → r.1.outToExpr ≠ none)

/-- Two outcomes are alike: both return normally with related values, or both
throw the same signal, or both run out of budget; in each case with the same
diagnostics. -/
def CheckRel {α β : Type} (R : α → β → Prop) : Check α → Check β → Prop
  | Check.ok a ds, Check.ok b ds' => R a b ∧ ds = ds'
  | Check.thrown s ds, Check.thrown s' ds' => s = s' ∧ ds = ds'
  | Check.outOfFuel, Check.outOfFuel => True
  | _, _ => False

/-- Two resolution contexts of a conversion query (mode `JustTrying`, nested
conversions disallowed, argument types given) that differ at most in the
argument expressions and in the locations. -/
structure SameQuery (c c' : OverloadResolveContext) : Prop where
  originalExpr : c'.originalExpr = c.originalExpr
  argCount : c'.argCount = c.argCount
  argTypes : c'.argTypes = c.argTypes
  disallowNestedConversions : c'.disallowNestedConversions = c.disallowNestedConversions
  baseExpr : c'.baseExpr = c.baseExpr
  mode : c'.mode = c.mode
  bestCandidate : c'.bestCandidate = c.bestCandidate
  bestCandidates : c'.bestCandidates = c.bestCandidates
  justTrying : c.mode = Mode.JustTrying
  exactTypes : c.disallowNestedConversions = true
  typesGiven : c.argTypes ≠ none

/-- The operation `SpecializeGenericForOverload` reads the argument count and
the argument types of the context (`getArgCount`, `getArgType`), not the
argument expressions or the locations: it gives the same result on two contexts
of the same conversion query. -/
def SpecializesByTypes (env : Env) : Prop :=
  ∀ genericDeclRef c c', SameQuery c c' →
    env.SpecializeGenericForOverload genericDeclRef c'
      = env.SpecializeGenericForOverload genericDeclRef c

/-! ## Constant folding

The values of an integer constant are of the type `IntegerLiteralValue`, which
is declared outside `check.cpp`: a 64-bit signed integer. They are integers in
the range from `-2^63` to `2^63 - 1`; the result of an arithmetic operation is
stored as the value of that range congruent to it modulo `2^64`. -/

/-- The value of type `IntegerLiteralValue` that the integer `x` is stored as
(two's complement, 64 bits). -/
def toIntegerLiteralValue (x : Int) : Int :=
  (x + 9223372036854775808) % 18446744073709551616 - 9223372036854775808

/-- The integers that are values of the type `IntegerLiteralValue`. -/
def IsIntegerLiteralValue (x : Int) : Prop :=
  -9223372036854775808 ≤ x ∧ x ≤ 9223372036854775807

instance (x : Int) : Decidable (IsIntegerLiteralValue x) := by
  unfold IsIntegerLiteralValue
  infer_instance

/-- The operands on which the operators `/` and `%` of C++ on
`IntegerLiteralValue` are defined: the divisor is not zero, and the quotient is
a value of the type (where the quotient is not representable in the type of the
result, the behaviour of both `a / b` and `a % b` is undefined); among the
values of the type it is not for the least value divided by `-1` only. -/
def DivisionDefined (a b : Int) : Prop :=
  b ≠ 0 ∧ IsIntegerLiteralValue (Int.tdiv a b)

instance (a b : Int) : Decidable (DivisionDefined a b) := by
  unfold DivisionDefined
  infer_instance

/-- The operator `/` of C++ on `IntegerLiteralValue`: the quotient truncated
toward zero. It is a function of the operands it is defined on only. -/
def divIntegerLiteralValue (a b : Int) (_ : DivisionDefined a b) : Int :=
  toIntegerLiteralValue (Int.tdiv a b)

/-- The operator `%` of C++ on `IntegerLiteralValue`: the remainder of the
truncated division. It is a function of the operands it is defined on only. -/
def modIntegerLiteralValue (a b : Int) (_ : DivisionDefined a b) : Int :=
  toIntegerLiteralValue (Int.tmod a b)

/-- The enumeration `SourceLanguage`. -/
inductive SourceLanguage where
  | Unknown | Slang | HLSL | GLSL
  deriving DecidableEq, Repr

/-- What the constant folder takes from the rest of the compiler: the source
language of the translation unit, the name pool, the modifiers of a declaration
and the initial-value expression of a variable. -/
structure FoldEnv where
  /-- The field `translationUnit->sourceLanguage`. -/
  sourceLanguage : SourceLanguage
  /-- The name pool: `getName(text)`. -/
  getName : String → Name
  /-- The test `FindModifier<IntrinsicOpModifier>()`. -/
  hasIntrinsicOpModifier : DeclId → Bool
  /-- The test `FindModifier<HLSLStaticModifier>()`. -/
  hasHLSLStaticModifier : DeclId → Bool
  /-- The test `FindModifier<ConstModifier>()`. -/
  hasConstModifier : DeclId → Bool
  /-- The test `FindModifier<GLSLConstantIDLayoutModifier>()`. -/
  hasGLSLConstantIDLayoutModifier : DeclId → Bool
  /-- The helper `getInitExpr(varRef)`. -/
  getInitExpr : DeclRef → Option Expr

/-- The test `As<VarDeclBase>()`: variables, fields, parameters and generic
value parameters. -/
def DeclKind.isVarDeclBase : DeclKind → Bool
  | StructField => true
  | Variable => true
  | ParamDecl => true
  | GenericValueParamDecl => true
  | _ => false

/-- The test `dynamic_cast<InvokeExpr*>(expr)`, giving the callee and the
arguments. `TypeCastExpr` is derived from `InvokeExpr` (`visitTypeCastExpr`
passes its node to `CheckInvokeExprWithCheckedOperands(InvokeExpr*)`), so the
test succeeds on a type cast too. -/
def Expr.asInvokeExpr : Expr → Option (Expr × List Expr)
  | InvokeExpr _ _ _ FunctionExpr Arguments => some (FunctionExpr, Arguments)
  | TypeCastExpr _ _ _ FunctionExpr Arguments => some (FunctionExpr, Arguments)
  | _ => none

/-- The test `dynamic_cast<TypeCastExpr*>(expr)`, giving the arguments. -/
def Expr.asTypeCastExpr : Expr → Option (List Expr)
  | TypeCastExpr _ _ _ _ Arguments => some Arguments
  | _ => none

/-- The loop `while (auto parenExpr = dynamic_cast<ParenExpr*>(expr)) expr =
parenExpr->base;` at the start of `TryConstantFoldExpr(Expr*)`. -/
def unwrapParenExprs : Expr → Expr
  | Expr.ParenExpr _ _ base => unwrapParenExprs base
  | e => e

/-- The test `argVal.As<ConstantIntVal>()`, giving the value. -/
def Val.asConstantIntVal : Val → Option Int
  | Val.constantInt value => some value
  | _ => none

/-- The array `constArgVals` when `allConst` holds at the end of the argument
loop: every argument value is a `ConstantIntVal`. -/
def constArgValsOf : List Val → Option (List Int)
  | [] => some []
  | argVal :: rest =>
    match argVal.asConstantIntVal, constArgValsOf rest with
    | some value, some values => some (value :: values)
    | _, _ => none

/-- The dispatch on the name of the operation at the end of
`TryConstantFoldExpr(InvokeExpr*)`, on the constant values of the arguments:
`some resultValue`, or `none` for `return nullptr`. The variable `resultValue`
starts as `0`. The cases for `/` and `%` test the divisor for zero and nothing
else: on the least value and `-1` the operator is applied where it is not
defined. -/
def foldIntrinsicOp (fenv : FoldEnv) (opName : Name) (constArgVals : List Int) :
    Check (Option Int) :=
  let argCount := constArgVals.length
  let a0 := constArgVals.getD 0 0
  let a1 := constArgVals.getD 1 0
  if opName = fenv.getName "-" then
    if argCount = 1 then pure (some (toIntegerLiteralValue (-a0)))
    else if argCount = 2 then pure (some (toIntegerLiteralValue (a0 - a1)))
    else pure (some 0)
  else if opName = fenv.getName "+" then
    if argCount ≠ 2 then pure none
    else pure (some (toIntegerLiteralValue (a0 + a1)))
  else if opName = fenv.getName "*" then
    if argCount ≠ 2 then pure none
    else pure (some (toIntegerLiteralValue (a0 * a1)))
  else if opName = fenv.getName "/" then
    if argCount ≠ 2 then pure none
    else if a1 = 0 then pure none
    else if h : DivisionDefined a0 a1 then pure (some (divIntegerLiteralValue a0 a1 h))
    else throwSignal Signal.divisionOverflow
  else if opName = fenv.getName "%" then
    if argCount ≠ 2 then pure none
    else if a1 = 0 then pure none
    else if h : DivisionDefined a0 a1 then pure (some (modIntegerLiteralValue a0 a1 h))
    else throwSignal Signal.divisionOverflow
  else pure none

/-- A constant folder for expressions, as the functions below call it. -/
abbrev FoldFn := Expr → Check (Option Val)

/-- The function `TryCheckIntegerConstantExpression`, over the folder `fold`. -/
def TryCheckIntegerConstantExpressionWith (fold : FoldFn) (exp : Expr) : Check (Option Val) :=
  match exp.type.type with
  | none => throwSignal Signal.nullDereference
  | some type =>
    if !type.Equals intType then pure none
    else fold exp

/-- The loop over the arguments in `TryConstantFoldExpr(InvokeExpr*)`: `none`
at the first argument without a value, and otherwise the values of the
arguments in order. -/
def foldArguments (fold : FoldFn) : List Expr → Check (Option (List Val))
  | [] => pure (some [])
  | argExpr :: rest =>
    TryCheckIntegerConstantExpressionWith fold argExpr >>= fun argVal =>
    match argVal with
    | none => pure none
    | some v =>
      foldArguments fold rest >>= fun argVals =>
      pure (argVals.map (fun vs => v :: vs))

/-- The function `TryConstantFoldExpr(InvokeExpr*)`, over the folder `fold` for
the arguments. -/
def TryConstantFoldInvokeExpr (env : Env) (fenv : FoldEnv) (fold : FoldFn)
    (FunctionExpr : Expr) (Arguments : List Expr) : Check (Option Val) :=
  match FunctionExpr.asDeclRefExpr with
  | none => pure none
  | some none => throwSignal Signal.nullDereference
  | some (some funcDeclRef) =>
    if !fenv.hasIntrinsicOpModifier funcDeclRef.decl then pure none
    else if Arguments.length > 8 then pure none
    else
      foldArguments fold Arguments >>= fun argVals =>
      match argVals with
      | none => pure none
      | some argVals =>
        match constArgValsOf argVals with
        | none => pure none
        | some constArgVals =>
          foldIntrinsicOp fenv (env.getName funcDeclRef.decl) constArgVals >>= fun result =>
          match result with
          | none => pure none
          | some resultValue => pure (some (Val.constantInt resultValue))

/-- The part of `TryConstantFoldExpr(Expr*)` for a reference to a variable
declaration, by source language. -/
def foldVarDeclRef (fenv : FoldEnv) (fold : FoldFn) (varRef : DeclRef) :
    Check (Option Val) :=
  match fenv.sourceLanguage with
  | SourceLanguage.Slang | SourceLanguage.HLSL =>
    if fenv.hasHLSLStaticModifier varRef.decl && fenv.hasConstModifier varRef.decl then
      match fenv.getInitExpr varRef with
      | some initExpr => fold initExpr
      | none => pure none
    else pure none
  | SourceLanguage.GLSL =>
    if fenv.hasConstModifier varRef.decl then
      if fenv.hasGLSLConstantIDLayoutModifier varRef.decl then
        pure (some (Val.genericParamInt varRef.decl varRef.substitutions))
      else
        match fenv.getInitExpr varRef with
        | some initExpr => fold initExpr
        | none => pure none
    else pure none
  | SourceLanguage.Unknown => pure none

/-- The function `TryConstantFoldExpr(Expr*)`. The budget bounds the depth of
the recursion through arguments, cast operands and the initial values of
constant variables. -/
def TryConstantFoldExpr (env : Env) (fenv : FoldEnv) : Nat → Expr → Check (Option Val)
  | 0, _ => Check.outOfFuel
  | fuel + 1, expr0 =>
    let expr := unwrapParenExprs expr0
    match expr with
    | Expr.ConstantExpr _ _ value => pure (some (Val.constantInt value))
    | _ =>
      match expr.asDeclRefExpr with
      | some none => pure none
      | some (some declRef) =>
        if env.declKind declRef.decl = DeclKind.GenericValueParamDecl then
          pure (some (Val.genericParamInt declRef.decl declRef.substitutions))
        else if (env.declKind declRef.decl).isVarDeclBase then
          foldVarDeclRef fenv (TryConstantFoldExpr env fenv fuel) declRef
        else pure none
      | none =>
        match expr.asInvokeExpr with
        | some (FunctionExpr, Arguments) =>
          TryConstantFoldInvokeExpr env fenv (TryConstantFoldExpr env fenv fuel)
            FunctionExpr Arguments
        | none =>
          match expr.asTypeCastExpr with
          | some Arguments =>
            match Arguments with
            | [] => throwSignal Signal.nullDereference
            | operand :: _ => TryConstantFoldExpr env fenv fuel operand
          | none => pure none

/-- The function `TryCheckIntegerConstantExpression`. -/
def TryCheckIntegerConstantExpression (env : Env) (fenv : FoldEnv) (fuel : Nat) (exp : Expr) :
    Check (Option Val) :=
  TryCheckIntegerConstantExpressionWith (TryConstantFoldExpr env fenv fuel) exp

/-! ## Joins of types -/

/-- The arguments of a substitution as a list (`List<RefPtr<Val>>`). -/
def ValList.toList : ValList → List Val
  | ValList.nil => []
  | ValList.cons head tail => head :: tail.toList

/-- The argument list of a substitution made of a list of values. -/
def ValList.ofList : List Val → ValList
  | [] => ValList.nil
  | head :: tail => ValList.cons head (ValList.ofList tail)

/-- Modelled from the spec: `Val::EqualsVal` is declared outside `check.cpp`;
values are compared by structure. -/
def Val.EqualsVal (a b : Val) : Bool := decide (a = b)

/-- The position of a basic type in the `BaseType` enumeration, which the
operator `>` compares. -/
def BaseType.toNat : BaseType → Nat
  | Void => 0
  | Bool => 1
  | Int => 2
  | UInt => 3
  | Float => 4

/-- The test `type->As<BasicExpressionType>()`, giving the field `baseType`. -/
def Ty.asBasicExpressionType : Ty → Option BaseType
  | Ty.basic baseType => some baseType
  | _ => none

/-- The test `type->As<VectorExpressionType>()`, giving the fields `elementType`
and `elementCount`. -/
def Ty.asVectorExpressionType : Ty → Option (Ty × Val)
  | Ty.vector elementType elementCount => some (elementType, elementCount)
  | _ => none

/-- The function `createVectorType`: the vector type with the given element
type and element count. -/
def createVectorType (elementType : Ty) (elementCount : Val) : Ty :=
  Ty.vector elementType elementCount

/-- A join of two types, as the functions below call it. -/
abbrev JoinFn := Ty → Ty → Check (Option Ty)

/-- The function `TryJoinVectorAndScalarType`, over the join `join` for the
element type. -/
def TryJoinVectorAndScalarType (join : JoinFn) (elementType : Ty) (elementCount : Val)
    (scalarType : Ty) : Check (Option Ty) :=
  join elementType scalarType >>= fun joinElementType =>
  match joinElementType with
  | none => pure none
  | some joinElementType => pure (some (createVectorType joinElementType elementCount))

/-- The function `TryJoinTypeWithInterface`. -/
def TryJoinTypeWithInterface (env : Env) (type : Ty) (interfaceDeclRef : DeclRef) : Option Ty :=
  if DoesTypeConformToInterface env type interfaceDeclRef then some type else none

/-- The test `type->As<DeclRefType>()` followed by
`declRef.As<InterfaceDecl>()`. -/
def Ty.asInterfaceDeclRef (env : Env) (type : Ty) : Option DeclRef :=
  match type.asDeclRefType env with
  | some typeDeclRef =>
    if env.declKind typeDeclRef.decl = DeclKind.InterfaceDecl then some typeDeclRef else none
  | none => none

/-- The last part of `TryJoinTypes`: the two cases for an interface type, the
left one first, and the default case. -/
def TryJoinTypesWithInterfaces (env : Env) (left right : Ty) : Option Ty :=
  match left.asInterfaceDeclRef env with
  | some leftInterfaceRef => TryJoinTypeWithInterface env right leftInterfaceRef
  | none =>
    match right.asInterfaceDeclRef env with
    | some rightInterfaceRef => TryJoinTypeWithInterface env left rightInterfaceRef
    | none => none

/-- The function `TryJoinTypes`. The budget bounds the depth of the recursion
into element types. The assertion `SLANG_ASSERT(rightFlavor > leftFlavor)` is
checked. -/
def TryJoinTypes (env : Env) : Nat → Ty → Ty → Check (Option Ty)
  | 0, _, _ => Check.outOfFuel
  | fuel + 1, left, right =>
    if left.Equals right then pure (some left)
    else
      match left.asBasicExpressionType, left.asVectorExpressionType with
      | some leftFlavor, _ =>
        match right.asBasicExpressionType, right.asVectorExpressionType with
        | some rightFlavor, _ =>
          if leftFlavor.toNat > rightFlavor.toNat then pure (some left)
          else if rightFlavor.toNat > leftFlavor.toNat then pure (some right)
          else throwSignal Signal.assertionFailed
        | none, some (elementType, elementCount) =>
          TryJoinVectorAndScalarType (TryJoinTypes env fuel) elementType elementCount left
        | none, none => pure (TryJoinTypesWithInterfaces env left right)
      | none, some (leftElementType, leftElementCount) =>
        match right.asVectorExpressionType, right.asBasicExpressionType with
        | some (rightElementType, rightElementCount), _ =>
          if !leftElementCount.EqualsVal rightElementCount then pure none
          else
            TryJoinTypes env fuel leftElementType rightElementType >>= fun joinElementType =>
            match joinElementType with
            | none => pure none
            | some joinElementType =>
              pure (some (createVectorType joinElementType leftElementCount))
        | none, some _ =>
          TryJoinVectorAndScalarType (TryJoinTypes env fuel) leftElementType leftElementCount
            right
        | none, none => pure (TryJoinTypesWithInterfaces env left right)
      | none, none => pure (TryJoinTypesWithInterfaces env left right)

/-! ## Unification -/

/-- One constraint of a constraint system (`Constraint`): the declaration
constrained, the value it is constrained to, and whether the constraint has
been met. -/
structure Constraint where
  decl : DeclId
  val : Val
  satisfied : Bool := false
  deriving DecidableEq

/-- The constraints collected for a generic (`ConstraintSystem`). -/
structure ConstraintSystem where
  constraints : List Constraint := []
  deriving DecidableEq

/-- The call `constraints.constraints.Add(constraint)`. -/
def ConstraintSystem.Add (constraints : ConstraintSystem) (constraint : Constraint) :
    ConstraintSystem :=
  { constraints := constraints.constraints ++ [constraint] }

/-- The result of a unification and the constraint system it leaves. -/
abbrev Unified := Check (Bool × ConstraintSystem)

/-- A unification of two types, as the functions below call it. -/
abbrev UnifyFn := ConstraintSystem → Ty → Ty → Unified

/-- The function `TryUnifyTypeParam`. -/
def TryUnifyTypeParam (constraints : ConstraintSystem) (typeParamDecl : DeclId) (type : Ty) :
    Bool × ConstraintSystem :=
  (true, constraints.Add { decl := typeParamDecl, val := Val.type type })

/-- The function `TryUnifyIntParam` for a `GenericValueParamDecl`. -/
def TryUnifyIntParamDecl (constraints : ConstraintSystem) (paramDecl : DeclId) (val : Val) :
    Bool × ConstraintSystem :=
  (true, constraints.Add { decl := paramDecl, val := val })

/-- The function `TryUnifyIntParam` for a reference to a variable. -/
def TryUnifyIntParam (env : Env) (constraints : ConstraintSystem) (varRef : DeclRef)
    (val : Val) : Bool × ConstraintSystem :=
  if env.declKind varRef.decl = DeclKind.GenericValueParamDecl then
    TryUnifyIntParamDecl constraints varRef.decl val
  else (false, constraints)

/-- The test `val.As<IntVal>()`: a constant or a reference to a parameter. -/
def Val.isIntVal : Val → Bool
  | Val.constantInt _ => true
  | Val.genericParamInt _ _ => true
  | _ => false

/-- The test `val.As<GenericParamIntVal>()`, giving the field `declRef`. -/
def Val.asGenericParamIntVal : Val → Option DeclRef
  | Val.genericParamInt decl substitutions => some { decl := decl, substitutions := substitutions }
  | _ => none

/-- The function `TryUnifyVals`, over the unification `unify` of types. -/
def TryUnifyVals (env : Env) (unify : UnifyFn) (constraints : ConstraintSystem)
    (fst snd : Val) : Unified :=
  match fst, snd with
  | Val.type fstType, Val.type sndType => unify constraints fstType sndType
  | Val.constantInt fstValue, Val.constantInt sndValue =>
    pure (decide (fstValue = sndValue), constraints)
  | _, _ =>
    if fst.isIntVal && snd.isIntVal then
      let constraints1 :=
        match fst.asGenericParamIntVal with
        | some declRef => (TryUnifyIntParam env constraints declRef snd).2
        | none => constraints
      let constraints2 :=
        match snd.asGenericParamIntVal with
        | some declRef => (TryUnifyIntParam env constraints1 declRef fst).2
        | none => constraints1
      if (fst.asGenericParamIntVal).isSome || (snd.asGenericParamIntVal).isSome then
        pure (true, constraints2)
      else throwSignal Signal.unimplemented
    else throwSignal Signal.unimplemented

/-- The loop over the arguments in `TryUnifySubstitutions`: the arguments are
unified in pairs, and the loop stops at the first pair that does not unify. -/
def unifyArguments (unifyVals : ConstraintSystem → Val → Val → Unified) :
    ConstraintSystem → List Val → List Val → Unified
  | constraints, fst :: fstRest, snd :: sndRest =>
    unifyVals constraints fst snd >>= fun r =>
    if !r.1 then pure (false, r.2)
    else unifyArguments unifyVals r.2 fstRest sndRest
  | constraints, _, _ => pure (true, constraints)

/-- The function `TryUnifySubstitutions`, over the unification `unifyVals` of
values. -/
def TryUnifySubstitutions (unifyVals : ConstraintSystem → Val → Val → Unified) :
    ConstraintSystem → Subst → Subst → Unified
  | constraints, Subst.none, Subst.none => pure (true, constraints)
  | constraints, Subst.none, Subst.mk _ _ _ => pure (false, constraints)
  | constraints, Subst.mk _ _ _, Subst.none => pure (false, constraints)
  | constraints, Subst.mk fstGenericDecl fstArgs fstOuter,
      Subst.mk sndGenericDecl sndArgs sndOuter =>
    if fstGenericDecl ≠ sndGenericDecl then pure (false, constraints)
    else if fstArgs.toList.length ≠ sndArgs.toList.length then
      throwSignal Signal.assertionFailed
    else
      unifyArguments unifyVals constraints fstArgs.toList sndArgs.toList >>= fun r =>
      if !r.1 then pure (false, r.2)
      else TryUnifySubstitutions unifyVals r.2 fstOuter sndOuter

/-- The function `TryUnifyTypesByStructuralMatch`, over the unification
`unify` of types. -/
def TryUnifyTypesByStructuralMatch (env : Env) (unify : UnifyFn)
    (constraints : ConstraintSystem) (fst snd : Ty) : Unified :=
  match fst.asDeclRefType env with
  | some fstDeclRef =>
    if env.declKind fstDeclRef.decl = DeclKind.GenericTypeParamDecl then
      pure (TryUnifyTypeParam constraints fstDeclRef.decl snd)
    else
      match snd.asDeclRefType env with
      | some sndDeclRef =>
        if env.declKind sndDeclRef.decl = DeclKind.GenericTypeParamDecl then
          pure (TryUnifyTypeParam constraints sndDeclRef.decl fst)
        else if fstDeclRef.decl ≠ sndDeclRef.decl then pure (false, constraints)
        else
          TryUnifySubstitutions (TryUnifyVals env unify) constraints
            fstDeclRef.substitutions sndDeclRef.substitutions
      | none => pure (false, constraints)
  | none => pure (false, constraints)

/-- The test `type->As<DeclRefType>()` followed by
`dynamic_cast<GenericTypeParamDecl*>(declRef.getDecl())`. -/
def Ty.asGenericTypeParamDecl (env : Env) (type : Ty) : Option DeclId :=
  match type.asDeclRefType env with
  | some typeDeclRef =>
    if env.declKind typeDeclRef.decl = DeclKind.GenericTypeParamDecl then some typeDeclRef.decl
    else none
  | none => none

/-- The last part of `TryUnifyTypes`: the cases of a vector type against a
basic type, after the structural match has failed. -/
def TryUnifyVectorAndScalar (unify : UnifyFn) (constraints : ConstraintSystem)
    (fst snd : Ty) : Unified :=
  match fst.asVectorExpressionType, snd.asBasicExpressionType with
  | some (fstElementType, _), some _ => unify constraints fstElementType snd
  | _, _ =>
    match fst.asBasicExpressionType, snd.asVectorExpressionType with
    | some _, some (sndElementType, _) => unify constraints fst sndElementType
    | _, _ => pure (false, constraints)

/-- The function `TryUnifyTypes`. The budget bounds the depth of the recursion
into the arguments of substitutions and into element types. -/
def TryUnifyTypes (env : Env) : Nat → ConstraintSystem → Ty → Ty → Unified
  | 0, _, _, _ => Check.outOfFuel
  | fuel + 1, constraints, fst, snd =>
    if fst.Equals snd then pure (true, constraints)
    else if fst.isErrorType then pure (true, constraints)
    else if snd.isErrorType then pure (true, constraints)
    else
      match fst.asGenericTypeParamDecl env with
      | some typeParamDecl => pure (TryUnifyTypeParam constraints typeParamDecl snd)
      | none =>
        match snd.asGenericTypeParamDecl env with
        | some typeParamDecl => pure (TryUnifyTypeParam constraints typeParamDecl fst)
        | none =>
          TryUnifyTypesByStructuralMatch env (TryUnifyTypes env fuel) constraints fst snd
            >>= fun r =>
          if r.1 then pure (true, r.2)
          else TryUnifyVectorAndScalar (TryUnifyTypes env fuel) r.2 fst snd

/-! ## Solving a constraint system -/

/-- What the solver and the extensions take from the rest of the compiler. -/
structure GenericEnv where
  /-- The helper `GetSub(constraintDeclRef)`. -/
  GetSub : DeclRef → Ty
  /-- The helper `GetSup(constraintDeclRef)`. -/
  GetSup : DeclRef → Ty
  /-- The field `decl->ParentDecl`. -/
  ParentDecl : DeclId → Option DeclId
  /-- The field `extDecl->targetType` of an extension. -/
  targetType : DeclId → Ty

/-- The first loop of `TrySolveConstraintSystem`, over the constraint
declarations of the generic: it stops at the first one whose two types do not
unify. -/
def unifyGenericConstraints (genv : GenericEnv) (unify : UnifyFn) :
    ConstraintSystem → List DeclRef → Unified
  | system, [] => pure (true, system)
  | system, constraintDeclRef :: rest =>
    unify system (genv.GetSub constraintDeclRef) (genv.GetSup constraintDeclRef) >>= fun r =>
    if !r.1 then pure (false, r.2)
    else unifyGenericConstraints genv unify r.2 rest

/-- The loop of `TrySolveConstraintSystem` over the constraints, for the type
parameter `typeParam`, from the running value `type`. The result is the
running type at the end of the loop, or `none` where the loop runs into
`return nullptr`, together with the constraints as the loop leaves them. -/
def solveTypeParam (join : JoinFn) (typeParam : DeclId) :
    Option Ty → List Constraint → Check (Option (Option Ty) × List Constraint)
  | type, [] => pure (some type, [])
  | type, c :: rest =>
    if c.decl ≠ typeParam then
      solveTypeParam join typeParam type rest >>= fun r => pure (r.1, c :: r.2)
    else
      match c.val with
      | Val.type cType =>
        match type with
        | none =>
          solveTypeParam join typeParam (some cType) rest >>= fun r =>
          pure (r.1, { c with satisfied := true } :: r.2)
        | some type =>
          join type cType >>= fun joinType =>
          match joinType with
          | none => pure (none, c :: rest)
          | some joinType =>
            solveTypeParam join typeParam (some joinType) rest >>= fun r =>
            pure (r.1, { c with satisfied := true } :: r.2)
      | _ => throwSignal Signal.assertionFailed

/-- The loop of `TrySolveConstraintSystem` over the constraints, for the value
parameter `valParam`, from the running value `val`. -/
def solveValueParam (valParam : DeclId) :
    Option Val → List Constraint → Check (Option (Option Val) × List Constraint)
  | val, [] => pure (some val, [])
  | val, c :: rest =>
    if c.decl ≠ valParam then
      solveValueParam valParam val rest >>= fun r => pure (r.1, c :: r.2)
    else if !c.val.isIntVal then throwSignal Signal.assertionFailed
    else
      match val with
      | none =>
        solveValueParam valParam (some c.val) rest >>= fun r =>
        pure (r.1, { c with satisfied := true } :: r.2)
      | some val =>
        if !val.EqualsVal c.val then pure (none, c :: rest)
        else
          solveValueParam valParam (some val) rest >>= fun r =>
          pure (r.1, { c with satisfied := true } :: r.2)

/-- The loop of `TrySolveConstraintSystem` over the members of the generic. The
result is the list `args`, or `none` where the loop runs into `return nullptr`,
together with the constraints as the loop leaves them. -/
def solveParameters (env : Env) (join : JoinFn) :
    List DeclRef → List Constraint → Check (Option (List Val) × List Constraint)
  | [], constraints => pure (some [], constraints)
  | m :: rest, constraints =>
    if env.declKind m.decl = DeclKind.GenericTypeParamDecl then
      solveTypeParam join m.decl none constraints >>= fun r =>
      match r.1 with
      | some (some type) =>
        solveParameters env join rest r.2 >>= fun s =>
        pure (s.1.map (fun args => Val.type type :: args), s.2)
      | _ => pure (none, r.2)
    else if env.declKind m.decl = DeclKind.GenericValueParamDecl then
      solveValueParam m.decl none constraints >>= fun r =>
      match r.1 with
      | some (some val) =>
        solveParameters env join rest r.2 >>= fun s =>
        pure (s.1.map (fun args => val :: args), s.2)
      | _ => pure (none, r.2)
    else solveParameters env join rest constraints

/-- The function `TrySolveConstraintSystem`: the solved substitution, or `none`
for `return nullptr`, together with the constraint system as the call leaves
it. -/
def TrySolveConstraintSystem (env : Env) (genv : GenericEnv) (fuel : Nat)
    (system : ConstraintSystem) (genericDeclRef : DeclRef) :
    Check (Option Subst × ConstraintSystem) :=
  unifyGenericConstraints genv (TryUnifyTypes env fuel) system
      (getMembersOfType env (fun k => decide (k = DeclKind.GenericTypeConstraintDecl))
        genericDeclRef) >>= fun u =>
  if !u.1 then pure (none, u.2)
  else
    solveParameters env (TryJoinTypes env fuel) (env.getMembers genericDeclRef)
        u.2.constraints >>= fun s =>
    match s.1 with
    | none => pure (none, { constraints := s.2 })
    | some args =>
      if s.2.any (fun c => !c.satisfied) then pure (none, { constraints := s.2 })
      else
        pure (some (Subst.mk genericDeclRef.decl (ValList.ofList args)
          genericDeclRef.substitutions), { constraints := s.2 })

/-! ## Extensions -/

/-- The function `GetOuterGeneric`. -/
def GetOuterGeneric (env : Env) (genv : GenericEnv) (decl : DeclId) : Option DeclId :=
  match genv.ParentDecl decl with
  | none => none
  | some parentDecl =>
    if env.declKind parentDecl = DeclKind.GenericDecl then some parentDecl else none

/-- Modelled from the spec: the parameters that a substitution of the generic
`genericDecl` binds, in the order of its arguments: the members of the generic
that are type or value parameters, in declaration order. -/
def genericParameters (env : Env) (genericDecl : DeclId) : List DeclId :=
  ((env.getMembers { decl := genericDecl }).filter (fun m =>
    decide (env.declKind m.decl = DeclKind.GenericTypeParamDecl)
      || decide (env.declKind m.decl = DeclKind.GenericValueParamDecl))).map (fun m => m.decl)

/-- Modelled from the spec: the argument that a substitution chain binds to
the parameter `param` of the generic `genericDecl`: the chain is searched,
innermost first, for the substitution of that generic, and the argument is the
one at the position of the parameter. -/
def Subst.lookup (env : Env) (genericDecl param : DeclId) : Subst → Option Val
  | Subst.none => Option.none
  | Subst.mk g args outer =>
    if g = genericDecl then
      (args.toList)[(genericParameters env genericDecl).indexOf param]?
    else outer.lookup env genericDecl param

mutual
/-- Modelled from the spec: `Substitute` is declared outside `check.cpp`. A
substitution is "a binding of a generic declaration's parameters to specific
arguments": applied to a type, it replaces every reference to a parameter that
it binds by the argument bound to it. -/
def Ty.Substitute (lookup : DeclId → Option Val) : Ty → Ty
  | Ty.basic b => Ty.basic b
  | Ty.error => Ty.error
  | Ty.initializerList => Ty.initializerList
  | Ty.overloaded => Ty.overloaded
  | Ty.declRef decl substitutions =>
    match lookup decl with
    | some (Val.type type) => type
    | _ => Ty.declRef decl (substitutions.Substitute lookup)
  | Ty.genericDeclRef decl substitutions =>
    Ty.genericDeclRef decl (substitutions.Substitute lookup)
  | Ty.vector elementType elementCount =>
    Ty.vector (elementType.Substitute lookup) (elementCount.Substitute lookup)
  | Ty.matrix elementType rowCount colCount =>
    Ty.matrix (elementType.Substitute lookup) (rowCount.Substitute lookup)
      (colCount.Substitute lookup)
  | Ty.array baseType arrayLength =>
    Ty.array (baseType.Substitute lookup) (arrayLength.Substitute lookup)
  | Ty.ptrLike decl elementType => Ty.ptrLike decl (elementType.Substitute lookup)
  | Ty.func decl substitutions => Ty.func decl (substitutions.Substitute lookup)
  | Ty.typeType type => Ty.typeType (type.Substitute lookup)
/-- Modelled from the spec: the substitution applied to a value. -/
def Val.Substitute (lookup : DeclId → Option Val) : Val → Val
  | Val.null => Val.null
  | Val.type type => Val.type (type.Substitute lookup)
  | Val.constantInt value => Val.constantInt value
  | Val.genericParamInt decl substitutions =>
    match lookup decl with
    | some val => val
    | none => Val.genericParamInt decl (substitutions.Substitute lookup)
/-- Modelled from the spec: the substitution applied to a list of arguments. -/
def ValList.Substitute (lookup : DeclId → Option Val) : ValList → ValList
  | ValList.nil => ValList.nil
  | ValList.cons head tail => ValList.cons (head.Substitute lookup) (tail.Substitute lookup)
/-- Modelled from the spec: the substitution applied to a substitution chain. -/
def Subst.Substitute (lookup : DeclId → Option Val) : Subst → Subst
  | Subst.none => Subst.none
  | Subst.mk genericDecl args outer =>
    Subst.mk genericDecl (args.Substitute lookup) (outer.Substitute lookup)
end

/-- Modelled from the spec: `GetTargetType(extDeclRef)` is declared outside
`check.cpp`; it is the target type of the extension under the substitution of
the reference. A parameter is bound by the substitution of the generic that
declares it. -/
def GetTargetType (env : Env) (genv : GenericEnv) (extDeclRef : DeclRef) : Ty :=
  (genv.targetType extDeclRef.decl).Substitute (fun param =>
    match genv.ParentDecl param with
    | some genericDecl => extDeclRef.substitutions.lookup env genericDecl param
    | none => none)

/-- The function `ApplyExtensionToType`: the reference to the extension, or
`none` for the null reference. The assertion
`SLANG_ASSERT(GetTargetType(extDeclRef)->Equals(type))` is checked. -/
def ApplyExtensionToType (env : Env) (genv : GenericEnv) (fuel : Nat) (extDecl : DeclId)
    (type : Ty) : Check (Option DeclRef) :=
  match GetOuterGeneric env genv extDecl with
  | some extGenericDecl =>
    TryUnifyTypes env fuel {} (genv.targetType extDecl) type >>= fun u =>
    if !u.1 then pure none
    else
      TrySolveConstraintSystem env genv fuel u.2 { decl := extGenericDecl } >>= fun s =>
      match s.1 with
      | none => pure none
      | some constraintSubst =>
        let extDeclRef : DeclRef := { decl := extDecl, substitutions := constraintSubst }
        if (GetTargetType env genv extDeclRef).Equals type then pure (some extDeclRef)
        else throwSignal Signal.assertionFailed
  | none =>
    if !type.Equals (genv.targetType extDecl) then pure none
    else pure (some { decl := extDecl })

/-! ## Definitions used by the statements about constant folding -/

/-- The five names that `TryConstantFoldExpr(InvokeExpr*)` compares the name of
the callee with, in the order of the comparisons. -/
def operatorNames (fenv : FoldEnv) : List Name :=
  [fenv.getName "-", fenv.getName "+", fenv.getName "*", fenv.getName "/", fenv.getName "%"]

/-- The name pool gives different texts different names; for the folder it
matters on the five operator names. -/
def OperatorNamesDistinct (fenv : FoldEnv) : Prop := (operatorNames fenv).Nodup

instance (fenv : FoldEnv) : Decidable (OperatorNamesDistinct fenv) := by
  unfold OperatorNamesDistinct
  infer_instance

/-- The expression `exp` checks as an integer constant expression with the
constant value `v`. -/
def FoldsTo (env : Env) (fenv : FoldEnv) (fuel : Nat) (exp : Expr) (v : Int) : Prop :=
  TryCheckIntegerConstantExpression env fenv fuel exp = Check.ok (some (Val.constantInt v)) []

/-- An HLSL translation unit for the examples, over the declarations of
`coercionEnv`: the intrinsic operators `-`, `+`, `*`, `/` and `%` are the
declarations 301 to 305, each named by its own number, and the variable
`static const int n = 4` is declaration 310. -/
def foldExample : FoldEnv where
  sourceLanguage := SourceLanguage.HLSL
  getName := fun text =>
    if text = "-" then 301
    else if text = "+" then 302
    else if text = "*" then 303
    else if text = "/" then 304
    else if text = "%" then 305
    else 0
  hasIntrinsicOpModifier := fun d => decide (301 ≤ d ∧ d ≤ 305)
  hasHLSLStaticModifier := fun d => decide (d = 310)
  hasConstModifier := fun d => decide (d = 310)
  hasGLSLConstantIDLayoutModifier := fun _ => false
  getInitExpr := fun r =>
    if r.decl = 310 then some (Expr.ConstantExpr 8 { type := some intType } 4) else none

/-- The call of the intrinsic operator declared as `op` on the arguments
`args`, as an expression of type `int`. -/
def operatorCall (op : DeclId) (args : List Expr) : Expr :=
  Expr.InvokeExpr InvokeKind.InfixExpr 5 { type := some intType }
    (Expr.VarExpr 5 { type := some (Ty.func op Subst.none) } op (some { decl := op })) args

/-- The checked explicit cast `(float) e`: a `TypeCastExpr` whose callee is the
reference to the constructor of `float` from `int` (declaration 31 of
`coercionEnv`). -/
def explicitCast (e : Expr) : Expr :=
  Expr.TypeCastExpr CastKind.ExplicitCastExpr e.loc { type := some floatType }
    (Expr.StaticMemberExpr e.loc { type := some (Ty.func 31 Subst.none) } 31
      (some { decl := 31 })
      (Expr.VarExpr e.loc { type := some (Ty.typeType floatType) } 30 (some { decl := 30 })))
    [e]

/-! ## Definitions used by the statements about generics -/

/-- The types that the constraints on the declaration `typeParam` constrain it
to, in the order of the constraint list. -/
def constraintTypesOf (typeParam : DeclId) (constraints : List Constraint) : List Ty :=
  constraints.filterMap (fun c =>
    if c.decl = typeParam then
      match c.val with
      | Val.type type => some type
      | _ => none
    else none)

/-- The left fold of a join over a list of types, from the running type
`running`: the running type is replaced by its join with the next type; the
fold stops with `none` at a join that is nil. -/
def joinFrom (join : JoinFn) : Ty → List Ty → Check (Option Ty)
  | running, [] => pure (some running)
  | running, next :: rest =>
    join running next >>= fun joinType =>
    match joinType with
    | none => pure none
    | some joinType => joinFrom join joinType rest

/-- The left fold of a join over a list of types, starting with the first type
of the list; `none` on the empty list. -/
def joinAll (join : JoinFn) : List Ty → Check (Option Ty)
  | [] => pure none
  | first :: rest => joinFrom join first rest

/-- The type and value parameters among the members `members` of a generic. -/
def parametersOf (env : Env) (members : List DeclRef) : List DeclRef :=
  members.filter (fun m =>
    decide (env.declKind m.decl = DeclKind.GenericTypeParamDecl)
      || decide (env.declKind m.decl = DeclKind.GenericValueParamDecl))

/-- The constraint added for a value parameter: the declaration `decl` is
pinned to the value `val` when `decl` is a generic value parameter, and nothing
is added otherwise. -/
def pinned (env : Env) (decl : DeclId) (val : Val) : List Constraint :=
  if env.declKind decl = DeclKind.GenericValueParamDecl then [{ decl := decl, val := val }]
  else []

/-- The vector type of the join of an element type with another type: `none`
when the element join is nil. -/
def vectorOfJoin (elementCount : Val) (joinElementType : Option Ty) : Check (Option Ty) :=
  match joinElementType with
  | none => pure none
  | some joinElementType => pure (some (Ty.vector joinElementType elementCount))

/-- A program with generics for the examples, over the declarations of
`coercionEnv`. The standard-library generic `vector` is declaration 100 with
the type parameter 101, the value parameter 102 and the inner struct 103. The
generic 200 has the type parameter `T` (201), the value parameter `N` (202)
and the extension 203 of `vector<T,N>`. The generic 210 has the type parameter
`T` (211) and the extension 213 of `vector<T,3>`. The generic `Pair` is
declaration 220 with the type parameters 221 and 222 and the inner struct 223.
The generic 230 has the type parameter `T` (231) and the extension 233 of
`Pair<T,T>`. The generic 240 has the type parameter `T` (241), the constraint
242 (`T : I`, the interface 50) and the extension 243 of `T`. -/
def genericsEnv : Env :=
  let base := coercionEnv false
  { base with
    declKind := fun d =>
      if d = 100 ∨ d = 200 ∨ d = 210 ∨ d = 220 ∨ d = 230 ∨ d = 240 then DeclKind.GenericDecl
      else if d = 101 ∨ d = 201 ∨ d = 211 ∨ d = 221 ∨ d = 222 ∨ d = 231 ∨ d = 241 then
        DeclKind.GenericTypeParamDecl
      else if d = 102 ∨ d = 202 then DeclKind.GenericValueParamDecl
      else if d = 103 ∨ d = 223 then DeclKind.StructDecl
      else if d = 203 ∨ d = 213 ∨ d = 233 ∨ d = 243 then DeclKind.ExtensionDecl
      else if d = 242 then DeclKind.GenericTypeConstraintDecl
      else base.declKind d
    getMembers := fun r =>
      if r.decl = 100 then [{ decl := 101 }, { decl := 102 }, { decl := 103 }]
      else if r.decl = 200 then [{ decl := 201 }, { decl := 202 }, { decl := 203 }]
      else if r.decl = 210 then [{ decl := 211 }, { decl := 213 }]
      else if r.decl = 220 then [{ decl := 221 }, { decl := 222 }, { decl := 223 }]
      else if r.decl = 230 then [{ decl := 231 }, { decl := 233 }]
      else if r.decl = 240 then [{ decl := 241 }, { decl := 242 }, { decl := 243 }]
      else base.getMembers r
    GetInner := fun r =>
      if r.decl = 100 then 103
      else if r.decl = 200 then 203
      else if r.decl = 210 then 213
      else if r.decl = 220 then 223
      else if r.decl = 230 then 233
      else if r.decl = 240 then 243
      else base.GetInner r
    builtinDeclRef := fun t =>
      match t with
      | Ty.vector elementType elementCount =>
        some { decl := 103,
               substitutions := Subst.mk 100
                 (ValList.cons (Val.type elementType) (ValList.cons elementCount ValList.nil))
                 Subst.none }
      | _ => base.builtinDeclRef t }

/-- The parents, constraints and extension targets of `genericsEnv`. -/
def genericsDecls : GenericEnv where
  GetSub := fun r => if r.decl = 242 then Ty.declRef 241 Subst.none else Ty.error
  GetSup := fun r => if r.decl = 242 then Ty.declRef 50 Subst.none else Ty.error
  ParentDecl := fun d =>
    if d = 101 ∨ d = 102 ∨ d = 103 then some 100
    else if d = 201 ∨ d = 202 ∨ d = 203 then some 200
    else if d = 211 ∨ d = 213 then some 210
    else if d = 221 ∨ d = 222 ∨ d = 223 then some 220
    else if d = 231 ∨ d = 233 then some 230
    else if d = 241 ∨ d = 242 ∨ d = 243 then some 240
    else none
  targetType := fun d =>
    if d = 203 then Ty.vector (Ty.declRef 201 Subst.none) (Val.genericParamInt 202 Subst.none)
    else if d = 213 then Ty.vector (Ty.declRef 211 Subst.none) (Val.constantInt 3)
    else if d = 233 then
      Ty.declRef 223 (Subst.mk 220
        (ValList.cons (Val.type (Ty.declRef 231 Subst.none))
          (ValList.cons (Val.type (Ty.declRef 231 Subst.none)) ValList.nil)) Subst.none)
    else if d = 243 then Ty.declRef 241 Subst.none
    else Ty.error

/-- The type `Pair<a, b>` of `genericsEnv`. -/
def pairType (a b : Ty) : Ty :=
  Ty.declRef 223 (Subst.mk 220
    (ValList.cons (Val.type a) (ValList.cons (Val.type b) ValList.nil)) Subst.none)

/-- The reference to a generic type parameter as a type. -/
def typeParameter (decl : DeclId) : Ty := Ty.declRef decl Subst.none

/-- A constraint of a type parameter to a type, not yet satisfied. -/
def typeConstraint (decl : DeclId) (type : Ty) : Constraint :=
  { decl := decl, val := Val.type type }

/-- The basic type of higher rank among two: the left one when its value in
the `BaseType` enumeration is the larger one, and the right one otherwise. -/
def higherRank (left right : BaseType) : BaseType :=
  if left.toNat > right.toNat then left else right

/-- The left fold of a join over a list of types from a running type that may
still be absent. -/
def joinRunning (join : JoinFn) : Option Ty → List Ty → Check (Option Ty)
  | none, types => joinAll join types
  | some running, types => joinFrom join running types

/-- What a constraint says: the declaration constrained and the value it is
constrained to. -/
def Constraint.target (c : Constraint) : DeclId × Val := (c.decl, c.val)

/-- The constraint `c`, marked as satisfied when its declaration is one of
`decls`. -/
def markIn (decls : List DeclId) (c : Constraint) : Constraint :=
  if c.decl ∈ decls then { c with satisfied := true } else c

/-- The declarations of the type and value parameters among the members
`members` of a generic. -/
def parameterDecls (env : Env) (members : List DeclRef) : List DeclId :=
  (parametersOf env members).map (fun m => m.decl)

/-- The constraints are of the form that the unifier gives them: a constraint
on a generic type parameter holds a type (`TryUnifyTypeParam`), and a constraint
on a generic value parameter holds an integer value (`TryUnifyIntParam`). On
other constraints the solver fails its assertions. -/
def WellFormedConstraints (env : Env) (constraints : List Constraint) : Prop :=
  ∀ c ∈ constraints,
    (env.declKind c.decl = DeclKind.GenericTypeParamDecl → ∃ t, c.val = Val.type t)
    ∧ (env.declKind c.decl = DeclKind.GenericValueParamDecl → c.val.isIntVal = true)

/-- The joins that the solver asks for return: for every type parameter among
the members, the left fold of the join over the types of the constraints on the
parameter returns (the budget of the join is enough and none of its assertions
fails). -/
def JoinsReturn (env : Env) (join : JoinFn) (members : List DeclRef)
    (constraints : List Constraint) : Prop :=
  ∀ m ∈ members, env.declKind m.decl = DeclKind.GenericTypeParamDecl →
    ∃ r ds, joinAll join (constraintTypesOf m.decl constraints) = Check.ok r ds

/-- The depth of the nesting of vector types in a type: the number of calls of
`TryJoinTypes` on element types that a join with the type can take. -/
def Ty.vectorDepth : Ty → Nat
  | Ty.vector elementType _ => elementType.vectorDepth + 1
  | _ => 0

/-- The budget `fuel` is enough for the joins of the types that the constraints
hold: it is more than twice the vector depth of each of them. -/
def BudgetForJoins (fuel : Nat) (constraints : List Constraint) : Prop :=
  ∀ c ∈ constraints, ∀ t, c.val = Val.type t → 2 * t.vectorDepth < fuel

/-! ## The rest of the checker

The functions of this part call the visitors for expressions and for type
expressions, which are not embedded; they are the fields of `Checker`. -/

/-- A type expression (`TypeExp`): the expression that names the type and,
once it is checked, the type. -/
structure TypeExp where
  exp : Option Expr := none
  type : Option Ty := none

/-- What the functions below take from the rest of the checker and of the
compiler: the text of a name, and the visitors for expressions and for type
expressions. -/
structure Checker where
  /-- The helper `getText(name)`. -/
  getText : Name → String
  /-- The function `CheckExpr`. -/
  CheckExpr : Expr → Check Expr
  /-- The function `CheckTerm`, on an expression that is not an initializer
  list. -/
  CheckTerm : Expr → Check Expr
  /-- The function `CheckUsableType`. -/
  CheckUsableType : TypeExp → Check TypeExp

/-! ## Modifiers -/

/-- Modifiers of a declaration (`Modifier` and its subclasses): the direction
modifiers of a parameter, the HLSL attribute `[name(args)]` before and after
checking, and any other modifier, told apart by a number. The `next` link of a
modifier is its position in the list of modifiers of the declaration. -/
inductive Modifier where
  | InModifier
  | OutModifier
  | InOutModifier
  | HLSLUncheckedAttribute (loc : SourceLoc) (name : Name) (args : List Expr)
  | HLSLNumThreadsAttribute (loc : SourceLoc) (name : Name) (args : List Expr) (x y z : Int)
  | other (tag : Nat)

/-- Modelled from the spec: the class `InOutModifier` is declared outside
`check.cpp` ("out and in-out are considered equivalent for matching"): the test
`dynamic_cast<OutModifier*>` succeeds on `out` and on `inout`. -/
def Modifier.isOutModifier : Modifier → Bool
  | OutModifier => true
  | InOutModifier => true
  | _ => false

/-- The value of type `int32_t` that the conversion `(int32_t) value` gives
(two's complement, 32 bits). -/
def toInt32 (value : Int) : Int :=
  (value + 2147483648) % 4294967296 - 2147483648

/-- The function `CheckIntegerConstantExpression`. -/
def CheckIntegerConstantExpression (env : Env) (fenv : FoldEnv) (fuel : Nat) (inExpr : Expr) :
    Check (Option Val) :=
  Coerce env fuel intType inExpr >>= fun expr =>
  match expr with
  | none => throwSignal Signal.nullDereference
  | some expr =>
    TryCheckIntegerConstantExpression env fenv fuel expr >>= fun result =>
    match result with
    | none =>
      (if !env.isRewriteMode then
        diagnose (Diagnostic.expectedIntegerConstantNotConstant expr.loc)
      else pure ()) >>= fun _ => pure none
    | some val => pure (some val)

/-- The function `checkConstantIntVal`: the value of the constant, or `none`
for the null pointer. -/
def checkConstantIntVal (env : Env) (fenv : FoldEnv) (checker : Checker) (fuel : Nat)
    (expr : Expr) : Check (Option Int) :=
  checker.CheckExpr expr >>= fun expr =>
  CheckIntegerConstantExpression env fenv fuel expr >>= fun intVal =>
  match intVal with
  | none => pure none
  | some intVal =>
    match intVal.asConstantIntVal with
    | none =>
      (if !env.isRewriteMode then
        diagnose (Diagnostic.expectedIntegerConstantNotLiteral expr.loc)
      else pure ()) >>= fun _ => pure none
    | some value => pure (some value)

/-- The function `checkModifier`. -/
def checkModifier (env : Env) (fenv : FoldEnv) (checker : Checker) (fuel : Nat)
    (m : Modifier) : Check Modifier :=
  match m with
  | Modifier.HLSLUncheckedAttribute loc name args =>
    if checker.getText name = "numthreads" then
      match args with
      | [arg0, arg1, arg2] =>
        checkConstantIntVal env fenv checker fuel arg0 >>= fun xVal =>
        checkConstantIntVal env fenv checker fuel arg1 >>= fun yVal =>
        checkConstantIntVal env fenv checker fuel arg2 >>= fun zVal =>
        match xVal, yVal, zVal with
        | some x, some y, some z =>
          pure (Modifier.HLSLNumThreadsAttribute loc name args (toInt32 x) (toInt32 y)
            (toInt32 z))
        | _, _, _ => pure m
      | _ => pure m
    else pure m
  | _ => pure m

/-- The function `checkModifiers`, on the list of modifiers of the declaration:
the list that replaces it. Every modifier is checked in turn, and the checked
modifier is attached at the end of the new list. (The state machine above takes
the effects of this function as given; here it runs on the modifiers.) -/
def Tree.checkModifiers (env : Env) (fenv : FoldEnv) (checker : Checker) (fuel : Nat) :
    List Modifier → Check (List Modifier)
  | [] => pure []
  | modifier :: next =>
    checkModifier env fenv checker fuel modifier >>= fun checkedModifier =>
    Tree.checkModifiers env fenv checker fuel next >>= fun resultModifiers =>
    pure (checkedModifier :: resultModifiers)

/-! ## Redeclaration of functions -/

/-- What the checks of a function declaration take from the syntax tree. -/
structure FunctionEnv where
  /-- The field `decl->ParentDecl`. -/
  ParentDecl : DeclId → Option DeclId
  /-- The field `decl->nextInContainerWithSameName`, as
  `buildMemberDictionary` sets it: the previous declaration of the same name in
  the same container. -/
  nextInContainerWithSameName : DeclId → Option DeclId
  /-- The field `genericDecl->inner`. -/
  inner : DeclId → DeclId
  /-- The modifiers of a declaration. -/
  modifiers : DeclId → List Modifier
  /-- The checked type `param->type` of a parameter. -/
  type : DeclId → Ty
  /-- The checked type `funcDecl->ReturnType`. -/
  ReturnType : DeclId → Ty
  /-- Whether `funcDecl->Body` is set. -/
  hasBody : DeclId → Bool

/-- The test `param->HasModifier<OutModifier>()`. -/
def HasOutModifier (fe : FunctionEnv) (param : DeclId) : Bool :=
  (fe.modifiers param).any Modifier.isOutModifier

/-- The loop of `DoFunctionSignaturesMatch` over the positions of two parameter
lists of the same length. -/
def parametersMatch (fe : FunctionEnv) : List DeclRef → List DeclRef → Bool
  | fstParam :: fstRest, sndParam :: sndRest =>
    if !(fe.type fstParam.decl).Equals (fe.type sndParam.decl) then false
    else if HasOutModifier fe fstParam.decl != HasOutModifier fe sndParam.decl then false
    else parametersMatch fe fstRest sndRest
  | _, _ => true

/-- The function `DoFunctionSignaturesMatch`. -/
def DoFunctionSignaturesMatch (env : Env) (fe : FunctionEnv) (fst snd : DeclId) : Bool :=
  let fstParams := GetParameters env { decl := fst }
  let sndParams := GetParameters env { decl := snd }
  if fstParams.length ≠ sndParams.length then false
  else parametersMatch fe fstParams sndParams

/-- The loop of `ValidateFunctionRedeclaration` from the declaration `prevDecl`
of the chain on. Where `prevDecl` is a generic, the loop variable itself is set
to the inner declaration, so the step of the loop follows the chain of that
inner declaration. The budget bounds the number of iterations. -/
def validateAgainstPrevious (env : Env) (fe : FunctionEnv) (funcDecl : DeclId) :
    Nat → Option DeclId → Check Unit
  | _, none => pure ()
  | 0, some _ => Check.outOfFuel
  | fuel + 1, some prevDecl0 =>
    let prevDecl :=
      if env.declKind prevDecl0 = DeclKind.GenericDecl then fe.inner prevDecl0 else prevDecl0
    let next := fe.nextInContainerWithSameName prevDecl
    if env.declKind prevDecl ≠ DeclKind.FuncDecl then
      validateAgainstPrevious env fe funcDecl fuel next
    else if !DoFunctionSignaturesMatch env fe funcDecl prevDecl then
      validateAgainstPrevious env fe funcDecl fuel next
    else if !(fe.ReturnType funcDecl).Equals (fe.ReturnType prevDecl) then
      if !env.isRewriteMode then
        diagnose (Diagnostic.unimplementedInDecl funcDecl
          "redeclaration has a different return type")
      else pure ()
    else if fe.hasBody funcDecl && fe.hasBody prevDecl then
      if !env.isRewriteMode then
        diagnose (Diagnostic.unimplementedInDecl funcDecl "function redefinition")
      else pure ()
    else validateAgainstPrevious env fe funcDecl fuel next

/-- The function `ValidateFunctionRedeclaration`. -/
def ValidateFunctionRedeclaration (env : Env) (fe : FunctionEnv) (fuel : Nat)
    (funcDecl : DeclId) : Check Unit :=
  match fe.ParentDecl funcDecl with
  | none => throwSignal Signal.assertionFailed
  | some _ =>
    validateAgainstPrevious env fe funcDecl fuel (fe.nextInContainerWithSameName funcDecl)

/-! ## Jump statements -/

/-- A statement on the stack `outerStmts`, with the results of the tests
`dynamic_cast<LoopStmt*>` and `dynamic_cast<SwitchStmt*>` on it. -/
structure Stmt where
  id : Nat
  isLoopStmt : Bool
  isSwitchStmt : Bool
  deriving DecidableEq

/-- Modelled from the spec: the class `BreakableStmt` is declared outside
`check.cpp`; a breakable statement is a "loop or switch". -/
def Stmt.isBreakableStmt (stmt : Stmt) : Bool :=
  stmt.isLoopStmt || stmt.isSwitchStmt

/-- The loop of `FindOuterStmt<T>` from the index `ii` down; `isT` is the test
`dynamic_cast<T*>`. -/
def findOuterStmtFrom (isT : Stmt → Bool) (outerStmts : List Stmt) : Nat → Option Stmt
  | 0 => none
  | ii + 1 =>
    match outerStmts[ii]? with
    | some outerStmt =>
      if isT outerStmt then some outerStmt
      else findOuterStmtFrom isT outerStmts ii
    | none => none

/-- The function `FindOuterStmt<T>`. -/
def FindOuterStmt (isT : Stmt → Bool) (outerStmts : List Stmt) : Option Stmt :=
  findOuterStmtFrom isT outerStmts outerStmts.length

/-- The function `visitBreakStmt`: the new value of `stmt->parentStmt`. -/
def visitBreakStmt (env : Env) (outerStmts : List Stmt) (loc : SourceLoc) :
    Check (Option Stmt) :=
  let outer := FindOuterStmt Stmt.isBreakableStmt outerStmts
  (if outer.isNone && !env.isRewriteMode then diagnose (Diagnostic.breakOutsideLoop loc)
    else pure ()) >>= fun _ =>
  pure outer

/-- The function `visitContinueStmt`: the new value of `stmt->parentStmt`. -/
def visitContinueStmt (env : Env) (outerStmts : List Stmt) (loc : SourceLoc) :
    Check (Option Stmt) :=
  let outer := FindOuterStmt Stmt.isLoopStmt outerStmts
  (if outer.isNone && !env.isRewriteMode then diagnose (Diagnostic.continueOutsideLoop loc)
    else pure ()) >>= fun _ =>
  pure outer

/-- The function `visitCaseStmt`: the new values of `stmt->expr` and of
`stmt->parentStmt`. -/
def visitCaseStmt (env : Env) (checker : Checker) (outerStmts : List Stmt) (loc : SourceLoc)
    (caseExpr : Expr) : Check (Expr × Option Stmt) :=
  checker.CheckExpr caseExpr >>= fun expr =>
  let switchStmt := FindOuterStmt (fun s => s.isSwitchStmt) outerStmts
  (if switchStmt.isNone && !env.isRewriteMode then
      diagnose (Diagnostic.caseOutsideSwitch loc)
    else pure ()) >>= fun _ =>
  pure (expr, switchStmt)

/-- The function `visitDefaultStmt`: the new value of `stmt->parentStmt`. -/
def visitDefaultStmt (env : Env) (outerStmts : List Stmt) (loc : SourceLoc) :
    Check (Option Stmt) :=
  let switchStmt := FindOuterStmt (fun s => s.isSwitchStmt) outerStmts
  (if switchStmt.isNone && !env.isRewriteMode then
      diagnose (Diagnostic.defaultOutsideSwitch loc)
    else pure ()) >>= fun _ =>
  pure switchStmt

/-! ## Variables -/

/-- A variable declaration (`Variable`): its type expression, its initial-value
expression and its check state. -/
structure Variable where
  decl : DeclId
  type : TypeExp
  initExpr : Option Expr := none
  checkState : DeclCheckState := DeclCheckState.Unchecked

/-- The type `void`. -/
def voidType : Ty := Ty.basic BaseType.Void

/-- The function `getArrayType`. -/
def getArrayType (baseType : Ty) (elementCount : Val) : Ty :=
  Ty.array baseType elementCount

/-- The test `type->AsArrayType()`, giving the fields `baseType` and
`ArrayLength`; an array without a size has the null length. -/
def Ty.AsArrayType : Ty → Option (Ty × Val)
  | Ty.array baseType arrayLength => some (baseType, arrayLength)
  | _ => none

/-- The function `GetMinBound`. -/
def GetMinBound (val : Val) : Int :=
  match val.asConstantIntVal with
  | some value => value
  | none => 1

/-- The function `maybeInferArraySizeForVariable`. -/
def maybeInferArraySizeForVariable (varDecl : Variable) : Check Variable :=
  match varDecl.type.type with
  | none => throwSignal Signal.nullDereference
  | some type =>
    match type.AsArrayType with
    | none => pure varDecl
    | some (baseType, elementCount) =>
      if elementCount ≠ Val.null then pure varDecl
      else
        match varDecl.initExpr with
        | none => pure varDecl
        | some initExpr =>
          match initExpr.asInitializerListExpr with
          | some args =>
            pure { varDecl with
              type := { varDecl.type with
                type := some (getArrayType baseType (Val.constantInt args.length)) } }
          | none =>
            match initExpr.type.type with
            | none => throwSignal Signal.nullDereference
            | some initType =>
              match initType.AsArrayType with
              | some (_, arrayLength) =>
                pure { varDecl with
                  type := { varDecl.type with
                    type := some (getArrayType baseType arrayLength) } }
              | none => pure varDecl

/-- The function `ValidateArraySizeForVariable`. -/
def ValidateArraySizeForVariable (env : Env) (varDecl : Variable) : Check Unit :=
  match varDecl.type.type with
  | none => throwSignal Signal.nullDereference
  | some type =>
    match type.AsArrayType with
    | none => pure ()
    | some (_, elementCount) =>
      if elementCount = Val.null then pure ()
      else if GetMinBound elementCount ≤ 0 then
        if !env.isRewriteMode then diagnose (Diagnostic.invalidArraySize varDecl.decl)
        else pure ()
      else pure ()

/-- The loop over the arguments in `visitInitializerListExpr`. -/
def checkTerms (checker : Checker) : List Expr → Check (List Expr)
  | [] => pure []
  | arg :: rest =>
    checker.CheckTerm arg >>= fun arg =>
    checkTerms checker rest >>= fun rest =>
    pure (arg :: rest)

/-- The function `visitInitializerListExpr`. -/
def visitInitializerListExpr (checker : Checker) (loc : SourceLoc) (args : List Expr) :
    Check Expr :=
  checkTerms checker args >>= fun args =>
  pure (Expr.InitializerListExpr loc { type := some Ty.initializerList } args)

/-- The function `CheckTerm`: an initializer list goes to
`visitInitializerListExpr`, and any other expression to its visitor. -/
def CheckTerm (checker : Checker) (term : Expr) : Check Expr :=
  match term with
  | Expr.InitializerListExpr loc _ args => visitInitializerListExpr checker loc args
  | _ => checker.CheckTerm term

/-- The function `visitVariable`, on the syntax of the variable. (The state
machine above takes the effects of this function as given.) -/
def Tree.visitVariable (env : Env) (checker : Checker) (fuel : Nat) (varDecl : Variable) :
    Check Variable :=
  checker.CheckUsableType varDecl.type >>= fun typeExp =>
  let varDecl := { varDecl with type := typeExp }
  (match varDecl.type.type with
    | none => throwSignal Signal.nullDereference
    | some type =>
      if type.Equals voidType && !env.isRewriteMode then
        diagnose (Diagnostic.invalidTypeVoid varDecl.decl)
      else pure ()) >>= fun _ =>
  (match varDecl.initExpr with
    | some initExpr =>
      CheckTerm checker initExpr >>= fun initExpr =>
      pure { varDecl with initExpr := some initExpr }
    | none => pure varDecl) >>= fun varDecl =>
  maybeInferArraySizeForVariable varDecl >>= fun varDecl =>
  ValidateArraySizeForVariable env varDecl >>= fun _ =>
  (match varDecl.initExpr, varDecl.type.type with
    | some initExpr, some type =>
      Coerce env fuel type initExpr >>= fun initExpr =>
      pure { varDecl with initExpr := initExpr }
    | some _, none => throwSignal Signal.nullDereference
    | none, _ => pure varDecl) >>= fun varDecl =>
  pure { varDecl with checkState := DeclCheckState.Checked }

/-! ## Swizzles -/

/-- The switch on a character of the swizzle text in `CheckSwizzleExpr`: the
element index, or `none` in the default case. -/
def swizzleElementIndex (ch : Char) : Option Int :=
  if ch = 'x' ∨ ch = 'r' then some 0
  else if ch = 'y' ∨ ch = 'g' then some 1
  else if ch = 'z' ∨ ch = 'b' then some 2
  else if ch = 'w' ∨ ch = 'a' then some 3
  else none

/-- The local variables of the loop of `CheckSwizzleExpr`: the entries of the
array `elementIndices` written so far (`elementCount` is their number), and the
two flags. -/
structure SwizzleState where
  elementIndices : List Int := []
  anyDuplicates : Bool := false
  anyError : Bool := false
  deriving DecidableEq

/-- One iteration of the loop of `CheckSwizzleExpr`, on the character `ch`. The
array `elementIndices` has four entries: the write `elementIndices[elementCount++]`
with `elementCount` at four is past its end. -/
def swizzleStep (env : Env) (loc : SourceLoc) (limitElement : Int) (state : SwizzleState)
    (ch : Char) : Check SwizzleState :=
  match swizzleElementIndex ch with
  | none =>
    (if !env.isRewriteMode then
      diagnose (Diagnostic.unimplemented loc "invalid component name for swizzle")
    else pure ()) >>= fun _ =>
    pure { state with anyError := true }
  | some elementIndex =>
    if elementIndex ≥ limitElement then
      (if !env.isRewriteMode then
        diagnose (Diagnostic.unimplemented loc "swizzle component out of range for type")
      else pure ()) >>= fun _ =>
      pure { state with anyError := true }
    else
      let anyDuplicates :=
        state.anyDuplicates || state.elementIndices.any (fun e => decide (e = elementIndex))
      if state.elementIndices.length ≥ 4 then throwSignal Signal.outOfBounds
      else
        pure { state with
          elementIndices := state.elementIndices ++ [elementIndex],
          anyDuplicates := anyDuplicates }

/-- The loop of `CheckSwizzleExpr` over the characters of the swizzle text. -/
def swizzleLoop (env : Env) (loc : SourceLoc) (limitElement : Int) :
    SwizzleState → List Char → Check SwizzleState
  | state, [] => pure state
  | state, ch :: rest =>
    swizzleStep env loc limitElement state ch >>= fun state =>
    swizzleLoop env loc limitElement state rest

/-- The function `CheckSwizzleExpr` for a constant element count, on the member
expression `MemberExpr loc type name declRef BaseExpression`. -/
def CheckSwizzleExpr (env : Env) (checker : Checker) (loc : SourceLoc) (type : QualType)
    (name : Name) (declRef : Option DeclRef) (BaseExpression : Expr) (baseElementType : Ty)
    (baseElementCount : Int) : Check Expr :=
  swizzleLoop env loc baseElementCount {} (checker.getText name).toList >>= fun state =>
  let elementCount : Int := state.elementIndices.length
  if state.anyError then
    pure (CreateErrorExpr (Expr.MemberExpr loc type name declRef BaseExpression))
  else
    let swizType : Ty :=
      if elementCount = 1 then baseElementType
      else createVectorType baseElementType (Val.constantInt elementCount)
    pure (Expr.SwizzleExpr loc { type := some swizType, IsLeftValue := !state.anyDuplicates }
      BaseExpression elementCount state.elementIndices)

/-- The function `CheckSwizzleExpr` for an element count that is a value. -/
def CheckSwizzleExprOfVal (env : Env) (checker : Checker) (loc : SourceLoc) (type : QualType)
    (name : Name) (declRef : Option DeclRef) (BaseExpression : Expr) (baseElementType : Ty)
    (baseElementCount : Val) : Check Expr :=
  match baseElementCount.asConstantIntVal with
  | some value =>
    CheckSwizzleExpr env checker loc type name declRef BaseExpression baseElementType value
  | none =>
    (if !env.isRewriteMode then
      diagnose (Diagnostic.unimplemented loc "swizzle on vector of unknown size")
    else pure ()) >>= fun _ =>
    pure (CreateErrorExpr (Expr.MemberExpr loc type name declRef BaseExpression))

/-- The first two cases of `visitMemberExpr`, on a member expression whose base
has been checked and dereferenced: a base of vector type and a base of basic
type are swizzled, the scalar as a vector of one element. The result is `none`
for a base of another type, which goes to the cases that are not embedded. -/
def visitMemberExprOnVectorOrScalar (env : Env) (checker : Checker) (loc : SourceLoc)
    (type : QualType) (name : Name) (declRef : Option DeclRef) (BaseExpression : Expr) :
    Option (Check Expr) :=
  match BaseExpression.type.type with
  | none => some (throwSignal Signal.nullDereference)
  | some baseType =>
    match baseType.asVectorExpressionType with
    | some (elementType, elementCount) =>
      some (CheckSwizzleExprOfVal env checker loc type name declRef BaseExpression elementType
        elementCount)
    | none =>
      match baseType.asBasicExpressionType with
      | some _ =>
        some (CheckSwizzleExpr env checker loc type name declRef BaseExpression baseType 1)
      | none => none

/-- The function `CheckSimpleSubscriptExpr`, as far as the l-value flag goes:
the flag of the subscript expression is that of its base. -/
def subscriptIsLeftValue (baseExpr : Expr) : Bool :=
  baseExpr.type.IsLeftValue

/-! ## Definitions used by the statements about declarations and statements -/

/-- A program with redeclared functions for the examples, over the declarations
of `genericsEnv`: the module 400 declares `float f(int a)` (function 401,
parameter 411), the generic 402 with the inner function
`void f<T>(T a, T b)` (function 403, type parameter 405, parameters 412 and
413), and then `int f(int a)` (function 404, parameter 414). -/
def functionsEnv : Env :=
  { genericsEnv with
    declKind := fun d =>
      if d = 401 ∨ d = 403 ∨ d = 404 then DeclKind.FuncDecl
      else if d = 402 then DeclKind.GenericDecl
      else if d = 405 then DeclKind.GenericTypeParamDecl
      else if d = 411 ∨ d = 412 ∨ d = 413 ∨ d = 414 then DeclKind.ParamDecl
      else if d = 400 then DeclKind.ModuleDecl
      else genericsEnv.declKind d
    getMembers := fun r =>
      if r.decl = 400 then [{ decl := 401 }, { decl := 402 }, { decl := 404 }]
      else if r.decl = 401 then [{ decl := 411 }]
      else if r.decl = 402 then [{ decl := 405 }]
      else if r.decl = 403 then [{ decl := 412 }, { decl := 413 }]
      else if r.decl = 404 then [{ decl := 414 }]
      else genericsEnv.getMembers r }

/-- The syntax of the functions of `functionsEnv`. With `withGeneric`, the
three declarations of `f` are on one chain of declarations of the same name:
from `int f(int)` to the generic and from the generic to `float f(int)`.
Without it the generic has another name, and the chain goes from `int f(int)`
to `float f(int)`. -/
def redeclarations (withGeneric : Bool) : FunctionEnv where
  ParentDecl := fun d =>
    if d = 401 ∨ d = 402 ∨ d = 404 then some 400
    else if d = 403 ∨ d = 405 then some 402
    else if d = 411 then some 401
    else if d = 412 ∨ d = 413 then some 403
    else if d = 414 then some 404
    else none
  nextInContainerWithSameName := fun d =>
    if d = 404 then (if withGeneric then some 402 else some 401)
    else if d = 402 then (if withGeneric then some 401 else none)
    else none
  inner := fun d => if d = 402 then 403 else d
  modifiers := fun _ => []
  type := fun d =>
    if d = 411 ∨ d = 414 then intType
    else if d = 412 ∨ d = 413 then Ty.declRef 405 Subst.none
    else Ty.error
  ReturnType := fun d =>
    if d = 401 then floatType
    else if d = 404 then intType
    else voidType
  hasBody := fun _ => false

/-- The innermost statement on the stack of outer statements that passes the
test `isT`, as the specification words it: the first one from the top of the
stack (the end of the list) down. `FindOuterStmt` is compared with it. -/
def innermost (isT : Stmt → Bool) (outerStmts : List Stmt) : Option Stmt :=
  outerStmts.reverse.find? isT

/-- A checker for the examples: names 501 to 509 have the texts of the swizzles
used below, the name 510 has the text `numthreads`; a reference to a name
without a declaration is reported as an undefined identifier, and any other
expression is checked as it is. -/
def exampleChecker : Checker where
  getText := fun name =>
    if name = 501 then "x"
    else if name = 502 then "xy"
    else if name = 503 then "xx"
    else if name = 504 then "xyzw"
    else if name = 505 then "xyzwx"
    else if name = 506 then "xxxxx"
    else if name = 507 then "xq"
    else if name = 508 then "w"
    else if name = 510 then "numthreads"
    else ""
  CheckExpr := fun e =>
    match e with
    | Expr.VarExpr loc _ name none =>
      Check.ok (CreateErrorExpr e) [Diagnostic.undefinedIdentifier2 loc name]
    | _ => pure e
  CheckTerm := fun e => pure e
  CheckUsableType := fun t => pure t

/-- The call `f()` of a function that returns `float4`: an expression that is
not an l-value. -/
def float4Call : Expr :=
  Expr.InvokeExpr InvokeKind.InvokeExpr 3
    { type := some (Ty.vector floatType (Val.constantInt 4)), IsLeftValue := false }
    (Expr.VarExpr 3 { type := some (Ty.func 1 Subst.none) } 1 (some { decl := 1 })) []

/-- The variable `v` of type `float4`: an l-value. -/
def float4Variable : Expr :=
  Expr.VarExpr 3 { type := some (Ty.vector floatType (Val.constantInt 4)), IsLeftValue := true }
    2 (some { decl := 2 })

/-- The element index of a character of a swizzle text that is in the alphabet
and in range for `limitElement` elements. -/
def swizzleComponent (limitElement : Int) (ch : Char) : Option Int :=
  match swizzleElementIndex ch with
  | some elementIndex => if elementIndex ≥ limitElement then none else some elementIndex
  | none => none

/-- The diagnostics of `CheckSwizzleExpr` for the characters of a swizzle text:
one for each character outside the alphabet or out of range. -/
def swizzleDiagnostics (env : Env) (loc : SourceLoc) (limitElement : Int) :
    List Char → List Diagnostic
  | [] => []
  | ch :: rest =>
    (match swizzleElementIndex ch with
      | none =>
        if !env.isRewriteMode then
          [Diagnostic.unimplemented loc "invalid component name for swizzle"]
        else []
      | some elementIndex =>
        if elementIndex ≥ limitElement then
          if !env.isRewriteMode then
            [Diagnostic.unimplemented loc "swizzle component out of range for type"]
          else []
        else []) ++ swizzleDiagnostics env loc limitElement rest

/-- Whether one of the indices `added`, taken in order, is equal to an index
recorded before it: to one of `seen` or to an earlier one of `added`. -/
def repeatsIndex : List Int → List Int → Bool
  | _, [] => false
  | seen, index :: rest =>
    seen.any (fun e => decide (e = index)) || repeatsIndex (seen ++ [index]) rest

/-- The type of a swizzle of `count` components of a base with element type
`elementType`. -/
def swizzleType (elementType : Ty) (count : Nat) : Ty :=
  if count = 1 then elementType else Ty.vector elementType (Val.constantInt count)

/-- The integers that are values of the type `int32_t`. -/
def IsInt32 (x : Int) : Prop := -2147483648 ≤ x ∧ x ≤ 2147483647

/-- The attribute `[numthreads(x, y, z)]` before checking, with literal
arguments. -/
def numthreadsAttribute (x y z : Int) : Modifier :=
  Modifier.HLSLUncheckedAttribute 9 510 [intLiteral 9 x, intLiteral 9 y, intLiteral 9 z]

/-- The declaration `int xs[] = { 1, 2, 3 };` before it is checked. -/
def unsizedArrayVariable : Variable :=
  { decl := 420,
    type := { type := some (Ty.array intType Val.null) },
    initExpr := some (Expr.InitializerListExpr 9 { type := none }
      [intLiteral 6 1, intLiteral 7 2, intLiteral 8 3]) }

/-- The attribute `[numthreads(65536 * 65536, 1, 1)]` before checking, with its
arguments checked. -/
def wideNumthreadsAttribute : Modifier :=
  Modifier.HLSLUncheckedAttribute 9 510
    [operatorCall 303 [intLiteral 6 65536, intLiteral 7 65536], intLiteral 9 1, intLiteral 9 1]

/-! # Theorems -/

/-! ## Properties of the ranking -/

theorem intOfUInt_subUInt_ne_zero (a b : Nat) (h : a % uintModulus ≠ b % uintModulus) :
    intOfUInt (subUInt a b) ≠ 0 := by
  unfold intOfUInt subUInt
  unfold uintModulus at h ⊢
  have h1 : a % 4294967296 < 4294967296 := Nat.mod_lt _ (by norm_num)
  have h2 : b % 4294967296 < 4294967296 := Nat.mod_lt _ (by norm_num)
  generalize a % 4294967296 = x at *
  generalize b % 4294967296 = y at *
  split <;> omega

theorem intOfUInt_subUInt_of_fit (a b : Nat) (h1 : (a : Int) - b < 2147483648)
    (h2 : -2147483648 ≤ (a : Int) - b) : intOfUInt (subUInt a b) = (a : Int) - b := by
  unfold intOfUInt subUInt
  unfold uintModulus
  split <;> omega

theorem Status.toInt_injective (s t : Status) (h : s.toInt = t.toInt) : s = t := by
  cases s <;> cases t <;> simp [Status.toInt] at h ⊢

theorem cmp_self (c : OverloadCandidate) : CompareOverloadCandidates c c = 0 := by
  simp [CompareOverloadCandidates]

theorem cmp_eq_zero_iff (a b : OverloadCandidate) :
    CompareOverloadCandidates a b = 0 ↔
      a.status = b.status ∧ (a.status = Status.Appicable →
        a.conversionCostSum % uintModulus = b.conversionCostSum % uintModulus) := by
  unfold CompareOverloadCandidates
  by_cases hs : a.status = b.status
  · by_cases hap : a.status = Status.Appicable
    · by_cases hc : a.conversionCostSum % uintModulus = b.conversionCostSum % uintModulus
      · simp [hs, hc]
      · have := intOfUInt_subUInt_ne_zero _ _ hc
        simp [← hs, hap, hc, this]
    · simp [← hs, hap]
  · have : b.status.toInt - a.status.toInt ≠ 0 := by
      intro h
      exact hs (Status.toInt_injective _ _ (by omega))
    simp [hs, this]

theorem cmp_zero_symm (a b : OverloadCandidate) (h : CompareOverloadCandidates a b = 0) :
    CompareOverloadCandidates b a = 0 := by
  rw [cmp_eq_zero_iff] at h ⊢
  obtain ⟨hs, hc⟩ := h
  exact ⟨hs.symm, fun hb => (hc (hs.trans hb)).symm⟩

theorem cmp_congr_right (c x y : OverloadCandidate) (h : CompareOverloadCandidates x y = 0) :
    CompareOverloadCandidates c x = CompareOverloadCandidates c y := by
  rw [cmp_eq_zero_iff] at h
  obtain ⟨hs, hc⟩ := h
  unfold CompareOverloadCandidates
  by_cases hcx : c.status = x.status
  · by_cases hap : c.status = Status.Appicable
    · have hx : x.status = Status.Appicable := hcx ▸ hap
      have := hc hx
      simp [← hs, hcx, subUInt, this]
    · simp [← hs, hcx, hap]
      simp [← hcx, hap]
  · simp [← hs, hcx]

theorem mem_of_mem_FastRemoveAt {α : Type} (l : List α) (idx : Nat) (r : α)
    (h : r ∈ FastRemoveAt l idx) : r ∈ l := by
  unfold FastRemoveAt at h
  cases hl : l.getLast? with
  | none => simpa [hl] using h
  | some last =>
    rw [hl] at h
    have h1 : r ∈ l.set idx last := List.mem_of_mem_dropLast h
    rcases List.mem_or_eq_of_mem_set h1 with h2 | h2
    · exact h2
    · subst h2
      exact List.mem_of_getLast?_eq_some hl

theorem length_FastRemoveAt {α : Type} (l : List α) (idx : Nat) :
    (FastRemoveAt l idx).length = l.length - 1 := by
  unfold FastRemoveAt
  cases hl : l.getLast? with
  | none =>
    have : l = [] := by simpa using hl
    simp [this]
  | some last => simp

theorem filterBestCandidates_all_better (c : OverloadCandidate) :
    ∀ (fuel : Nat) (l : List OverloadCandidate) (keep any : Bool),
      (∀ r ∈ l, CompareOverloadCandidates c r < 0) → l.length ≤ fuel →
      filterBestCandidates c fuel 0 l keep any = ([], keep, any || !l.isEmpty) := by
  intro fuel
  induction fuel with
  | zero =>
    intro l keep any _ hlen
    have : l = [] := List.length_eq_zero.mp (by omega)
    subst this
    simp [filterBestCandidates]
  | succ n ih =>
    intro l keep any hall hlen
    cases l with
    | nil => simp [filterBestCandidates]
    | cons x xs =>
      have hx := hall x (List.mem_cons_self _ _)
      have hrec := ih (FastRemoveAt (x :: xs) 0) keep true
        (fun r hr => hall r (mem_of_mem_FastRemoveAt _ _ _ hr))
        (by rw [length_FastRemoveAt]; simp at hlen ⊢; omega)
      simp [filterBestCandidates, hx, hrec]

theorem filterBestCandidates_none_better (c : OverloadCandidate) :
    ∀ (fuel cc : Nat) (l : List OverloadCandidate) (keep any : Bool),
      (∀ r ∈ l, ¬ CompareOverloadCandidates c r < 0) →
      (filterBestCandidates c fuel cc l keep any).1 = l
      ∧ (filterBestCandidates c fuel cc l keep any).2.2 = any := by
  intro fuel
  induction fuel with
  | zero => intro cc l keep any _; simp [filterBestCandidates]
  | succ n ih =>
    intro cc l keep any hall
    unfold filterBestCandidates
    cases hget : l[cc]? with
    | none => simp
    | some existing =>
      have hmem : existing ∈ l := List.getElem?_mem hget
      have hx := hall existing hmem
      simp only [hx, if_false]
      split
      · exact ih _ _ _ _ hall
      · exact ih _ _ _ _ hall

theorem filterBestCandidates_all_tied (c : OverloadCandidate) :
    ∀ (fuel cc : Nat) (l : List OverloadCandidate) (keep any : Bool),
      (∀ r ∈ l, CompareOverloadCandidates c r = 0) →
      filterBestCandidates c fuel cc l keep any = (l, keep, any) := by
  intro fuel
  induction fuel with
  | zero => intro cc l keep any _; simp [filterBestCandidates]
  | succ n ih =>
    intro cc l keep any hall
    unfold filterBestCandidates
    cases hget : l[cc]? with
    | none => simp
    | some existing =>
      have hx := hall existing (List.getElem?_mem hget)
      simp [hx, ih _ _ _ _ hall]

theorem filterBestCandidates_all_worse (c : OverloadCandidate) :
    ∀ (fuel cc : Nat) (l : List OverloadCandidate) (keep any : Bool),
      (∀ r ∈ l, 0 < CompareOverloadCandidates c r) →
      filterBestCandidates c fuel cc l keep any
        = (l, (if 0 < fuel ∧ cc < l.length then false else keep), any) := by
  intro fuel
  induction fuel with
  | zero => intro cc l keep any _; simp [filterBestCandidates]
  | succ n ih =>
    intro cc l keep any hall
    unfold filterBestCandidates
    cases hget : l[cc]? with
    | none =>
      have : ¬ cc < l.length := by
        have := List.getElem?_eq_none_iff.mp hget
        omega
      simp [this]
    | some existing =>
      have hx := hall existing (List.getElem?_mem hget)
      have hx' : ¬ CompareOverloadCandidates c existing < 0 := by omega
      have hlt : cc < l.length := by
        by_contra hcon
        rw [List.getElem?_eq_none (by omega)] at hget
        cases hget
      simp only [hx', hx, if_false, if_true]
      rw [ih _ _ _ _ hall]
      simp [hlt]

theorem add_of_filtered (context : OverloadResolveContext) (c : OverloadCandidate)
    (l : List OverloadCandidate) (keep any : Bool) (hne : context.bestCandidates ≠ [])
    (hf : filterBestCandidates c context.bestCandidates.length 0 context.bestCandidates
      true false = (l, keep, any)) :
    AddOverloadCandidateInner context c =
      if !keep then { context with bestCandidates := l }
      else if l.length > 0 then { context with bestCandidates := l ++ [c] }
      else
        match context.bestCandidate with
        | some best => { context with bestCandidates := [best, c], bestCandidate := none }
        | none => { context with bestCandidates := l, bestCandidate := some c } := by
  have hlen : context.bestCandidates.length ≠ 0 := by
    intro h
    exact hne (List.length_eq_zero.mp h)
  unfold AddOverloadCandidateInner filterExistingCandidates
  rw [if_pos hlen, hf]

theorem add_slot_empty (context : OverloadResolveContext) (c : OverloadCandidate)
    (hl : context.bestCandidates = []) (hb : context.bestCandidate = none) :
    AddOverloadCandidateInner context c = { context with bestCandidate := some c } := by
  unfold AddOverloadCandidateInner filterExistingCandidates
  simp [hl, hb]

theorem add_slot_full (context : OverloadResolveContext) (c best : OverloadCandidate)
    (hl : context.bestCandidates = []) (hb : context.bestCandidate = some best) :
    AddOverloadCandidateInner context c =
      if CompareOverloadCandidates c best < 0 then { context with bestCandidate := some c }
      else if 0 < CompareOverloadCandidates c best then context
      else { context with bestCandidates := [best, c], bestCandidate := none } := by
  unfold AddOverloadCandidateInner filterExistingCandidates
  rcases lt_trichotomy (CompareOverloadCandidates c best) 0 with hlt | heq | hgt
  · simp [hl, hb, hlt]
  · simp [hl, hb, heq]
  · have hnlt : ¬ CompareOverloadCandidates c best < 0 := by omega
    simp [hl, hb, hgt, hnlt]

theorem add_tidy (context : OverloadResolveContext) (c : OverloadCandidate)
    (h : Tidy context) :
    Tidy (AddOverloadCandidateInner context c)
    ∧ (AddOverloadCandidateInner context c).retained = retainedAfterAdd context.retained c := by
  obtain ⟨hslot, hlen, htied⟩ := h
  by_cases hl : context.bestCandidates = []
  · cases hb : context.bestCandidate with
    | none =>
      rw [add_slot_empty context c hl hb]
      simp [Tidy, OverloadResolveContext.retained, retainedAfterAdd, hl, hb]
    | some best =>
      rw [add_slot_full context c best hl hb]
      rcases lt_trichotomy (CompareOverloadCandidates c best) 0 with hlt | heq | hgt
      · simp [Tidy, OverloadResolveContext.retained, retainedAfterAdd, hl, hb, hlt]
      · have hsym := cmp_zero_symm _ _ heq
        simp [Tidy, OverloadResolveContext.retained, retainedAfterAdd, hl, hb, heq, hsym,
          cmp_self]
      · have hnlt : ¬ CompareOverloadCandidates c best < 0 := by omega
        simp [Tidy, OverloadResolveContext.retained, retainedAfterAdd, hl, hb, hgt, hnlt]
  · have hb : context.bestCandidate = none := by
      by_contra hne
      exact hl (hslot hne)
    obtain ⟨x, xs, hxs⟩ := List.exists_cons_of_ne_nil hl
    have hxmem : x ∈ context.bestCandidates := by rw [hxs]; exact List.mem_cons_self _ _
    have hsame : ∀ r ∈ context.bestCandidates,
        CompareOverloadCandidates c r = CompareOverloadCandidates c x :=
      fun r hr => cmp_congr_right c r x (htied r hr x hxmem)
    have hret : context.retained = context.bestCandidates := by
      simp [OverloadResolveContext.retained, hb]
    have hhead : context.bestCandidates.head? = some x := by rw [hxs]; rfl
    rcases lt_trichotomy (CompareOverloadCandidates c x) 0 with hlt | heq | hgt
    · have hall : ∀ r ∈ context.bestCandidates, CompareOverloadCandidates c r < 0 :=
        fun r hr => by rw [hsame r hr]; exact hlt
      have hf := filterBestCandidates_all_better c context.bestCandidates.length
        context.bestCandidates true false hall (le_refl _)
      rw [add_of_filtered context c _ _ _ hl hf]
      simp [Tidy, OverloadResolveContext.retained, retainedAfterAdd, hb, hhead, hlt]
    · have hall : ∀ r ∈ context.bestCandidates, CompareOverloadCandidates c r = 0 :=
        fun r hr => by rw [hsame r hr]; exact heq
      have hf := filterBestCandidates_all_tied c context.bestCandidates.length 0
        context.bestCandidates true false hall
      have hpos : context.bestCandidates.length > 0 := List.length_pos.mpr hl
      rw [add_of_filtered context c _ _ _ hl hf]
      simp only [Bool.not_true, Bool.false_eq_true, if_false, hpos, if_true]
      refine ⟨⟨?_, ?_, ?_⟩, ?_⟩
      · intro hcon; exact absurd hb hcon
      · simp only [List.length_append, List.length_singleton]; omega
      · intro a ha b hb'
        simp only [List.mem_append, List.mem_singleton] at ha hb'
        rcases ha with ha | ha <;> rcases hb' with hb' | hb'
        · exact htied a ha b hb'
        · subst hb'; exact cmp_zero_symm _ _ (hall a ha)
        · subst ha; exact hall b hb'
        · subst ha; subst hb'; exact cmp_self _
      · simp [OverloadResolveContext.retained, retainedAfterAdd, hb, hhead, heq]
    · have hall : ∀ r ∈ context.bestCandidates, 0 < CompareOverloadCandidates c r :=
        fun r hr => by rw [hsame r hr]; exact hgt
      have hpos : context.bestCandidates.length > 0 := List.length_pos.mpr hl
      have hf := filterBestCandidates_all_worse c context.bestCandidates.length 0
        context.bestCandidates true false hall
      rw [if_pos ⟨hpos, hpos⟩] at hf
      have hnlt : ¬ CompareOverloadCandidates c x < 0 := by omega
      rw [add_of_filtered context c _ _ _ hl hf]
      simp only [Bool.not_false, if_true]
      refine ⟨⟨?_, hlen, htied⟩, ?_⟩
      · intro hcon; exact absurd hb hcon
      · simp [OverloadResolveContext.retained, retainedAfterAdd, hb, hhead, hgt, hnlt]

theorem addCandidates_tidy (candidates : List OverloadCandidate) :
    ∀ context : OverloadResolveContext, Tidy context → Tidy (addCandidates context candidates) := by
  induction candidates with
  | nil => intro context h; exact h
  | cons c cs ih =>
    intro context h
    exact ih _ (add_tidy context c h).1

theorem tidy_of_empty (context : OverloadResolveContext) (hslot : context.bestCandidate = none)
    (hlist : context.bestCandidates = []) : Tidy context := by
  simp [Tidy, hslot, hlist]

theorem Status.toInt_eq_five (s : Status) : s.toInt = 5 ↔ s = Status.Appicable := by
  cases s <;> simp [Status.toInt]

theorem Status.toInt_le_five (s : Status) : s.toInt ≤ 5 := by
  cases s <;> simp [Status.toInt]

theorem mod_eq_of_fit (a b : Nat) (h1 : (a : Int) - b < 2147483648)
    (h2 : (b : Int) - a < 2147483648) (hc : a % 4294967296 = b % 4294967296) : a = b := by
  omega

theorem cmp_of_costsFit (a b : OverloadCandidate) (hfit : costsFit a b) :
    (CompareOverloadCandidates a b < 0 ↔ rankedBefore a b)
    ∧ (0 < CompareOverloadCandidates a b ↔ rankedBefore b a) := by
  unfold CompareOverloadCandidates rankedBefore
  by_cases hs : a.status = b.status
  · rw [if_neg (by simpa using hs)]
    have hst : a.status.toInt = b.status.toInt := by rw [hs]
    by_cases hap : a.status = Status.Appicable
    · have hbp : b.status = Status.Appicable := hs ▸ hap
      obtain ⟨h1, h2⟩ := hfit hap hbp
      have ha5 := (Status.toInt_eq_five a.status).mpr hap
      have hb5 := (Status.toInt_eq_five b.status).mpr hbp
      by_cases hc : a.conversionCostSum % uintModulus = b.conversionCostSum % uintModulus
      · have heq : (a.conversionCostSum : Nat) = b.conversionCostSum :=
          mod_eq_of_fit _ _ h1 h2 hc
        rw [if_neg (by simp [hc])]
        constructor <;> constructor <;> intro h <;> omega
      · have hval := intOfUInt_subUInt_of_fit a.conversionCostSum b.conversionCostSum h1
          (by omega)
        rw [if_pos ⟨hap, hc⟩, hval]
        constructor <;> constructor <;> intro h <;> omega
    · have ha5 : a.status.toInt ≠ 5 := fun h => hap ((Status.toInt_eq_five _).mp h)
      have hb5 : b.status.toInt ≠ 5 := by rw [← hs]; exact ha5
      rw [if_neg (by simp [hap])]
      constructor <;> constructor <;> intro h <;> omega
  · have hne : a.status.toInt ≠ b.status.toInt := fun h => hs (Status.toInt_injective _ _ h)
    rw [if_pos hs]
    constructor <;> constructor <;> intro h <;> omega

theorem rankedBefore_asymm (a b : OverloadCandidate) (h : rankedBefore a b) :
    ¬ rankedBefore b a := by
  unfold rankedBefore at *
  omega

theorem rankedBefore_of_not (c r x : OverloadCandidate) (h1 : rankedBefore c r)
    (h2 : ¬ rankedBefore x r) : rankedBefore c x := by
  have := Status.toInt_le_five x.status
  unfold rankedBefore at *
  omega

theorem rankedBefore_of_not_left (r c x : OverloadCandidate) (h1 : ¬ rankedBefore c r)
    (h2 : rankedBefore c x) : rankedBefore r x := by
  have := Status.toInt_le_five c.status
  have := Status.toInt_le_five r.status
  unfold rankedBefore at *
  omega

theorem mem_unbeaten (l : List OverloadCandidate) (x : OverloadCandidate) :
    x ∈ unbeaten l ↔ x ∈ l ∧ ∀ y ∈ l, ¬ CompareOverloadCandidates y x < 0 := by
  simp [unbeaten, List.mem_filter, List.all_eq_true]

theorem unbeaten_append_singleton (q : List OverloadCandidate) (c : OverloadCandidate)
    (hfit : ∀ a ∈ q ++ [c], ∀ b ∈ q ++ [c], costsFit a b)
    (hne : q ≠ [] → unbeaten q ≠ []) :
    unbeaten (q ++ [c]) = retainedAfterAdd (unbeaten q) c := by
  have hb : ∀ a ∈ q ++ [c], ∀ b ∈ q ++ [c],
      (CompareOverloadCandidates a b < 0 ↔ rankedBefore a b) :=
    fun a ha b hb => (cmp_of_costsFit a b (hfit a ha b hb)).1
  have hw : ∀ a ∈ q ++ [c], ∀ b ∈ q ++ [c],
      (0 < CompareOverloadCandidates a b ↔ rankedBefore b a) :=
    fun a ha b hb => (cmp_of_costsFit a b (hfit a ha b hb)).2
  have hcmem : c ∈ q ++ [c] := by simp
  have hqmem : ∀ x ∈ q, x ∈ q ++ [c] := fun x hx => by simp [hx]
  have hcc : ¬ CompareOverloadCandidates c c < 0 := by rw [cmp_self]; omega
  cases hq : unbeaten q with
  | nil =>
    have hqnil : q = [] := by
      by_contra hcon
      exact hne hcon hq
    subst hqnil
    simp [unbeaten, retainedAfterAdd, cmp_self]
  | cons r rs =>
    have hr : r ∈ unbeaten q := by rw [hq]; exact List.mem_cons_self _ _
    obtain ⟨hrq, hrmax⟩ := (mem_unbeaten q r).mp hr
    have hrmax' : ∀ y ∈ q, ¬ rankedBefore y r :=
      fun y hy h => hrmax y hy ((hb y (hqmem y hy) r (hqmem r hrq)).mpr h)
    simp only [retainedAfterAdd, List.head?_cons]
    rw [← hq]
    unfold unbeaten
    rw [List.filter_append]
    by_cases hlt : CompareOverloadCandidates c r < 0
    · -- the new candidate beats every candidate so far
      have hcr : rankedBefore c r := (hb c hcmem r (hqmem r hrq)).mp hlt
      rw [if_pos hlt]
      have h1 : q.filter (fun x => (q ++ [c]).all
          (fun c' => decide (¬ CompareOverloadCandidates c' x < 0))) = [] := by
        rw [List.filter_eq_nil_iff]
        intro x hx
        simp only [List.all_eq_true, decide_eq_true_eq, not_forall]
        refine ⟨c, hcmem, ?_⟩
        have := rankedBefore_of_not c r x hcr (hrmax' x hx)
        have := (hb c hcmem x (hqmem x hx)).mpr this
        simpa using this
      have h2 : [c].filter (fun x => (q ++ [c]).all
          (fun c' => decide (¬ CompareOverloadCandidates c' x < 0))) = [c] := by
        rw [List.filter_eq_self]
        intro x hx
        rw [List.mem_singleton] at hx
        subst hx
        simp only [List.all_eq_true, decide_eq_true_eq]
        intro y hy
        rcases List.mem_append.mp hy with hyq | hyc
        · intro hcon
          have h3 := (hb y hy x hcmem).mp hcon
          have h4 := rankedBefore_of_not x r y hcr (hrmax' y hyq)
          exact rankedBefore_asymm _ _ h3 h4
        · rw [List.mem_singleton] at hyc
          subst hyc
          exact hcc
      rw [h1, h2]
      rfl
    · rw [if_neg hlt]
      have hncr : ¬ rankedBefore c r := fun h => hlt ((hb c hcmem r (hqmem r hrq)).mpr h)
      have h1 : q.filter (fun x => (q ++ [c]).all
          (fun c' => decide (¬ CompareOverloadCandidates c' x < 0)))
          = q.filter (fun x => q.all
          (fun c' => decide (¬ CompareOverloadCandidates c' x < 0))) := by
        apply List.filter_congr
        intro x hx
        rw [List.all_append]
        have : ¬ CompareOverloadCandidates c x < 0 ∨
            ¬ (∀ y ∈ q, ¬ CompareOverloadCandidates y x < 0) := by
          by_cases hcx : CompareOverloadCandidates c x < 0
          · right
            intro hall
            have h3 := (hb c hcmem x (hqmem x hx)).mp hcx
            have h4 := rankedBefore_of_not_left r c x hncr h3
            exact hall r hrq ((hb r (hqmem r hrq) x (hqmem x hx)).mpr h4)
          · left; exact hcx
        cases hqa : q.all (fun c' => decide (¬ CompareOverloadCandidates c' x < 0)) with
        | false => rfl
        | true =>
          rcases this with h | h
          · simp only [Bool.true_and, List.all_cons, List.all_nil, Bool.and_true,
              decide_eq_true_eq]
            exact h
          · exact absurd (by simpa [List.all_eq_true] using hqa) h
      rw [h1]
      by_cases hgt : 0 < CompareOverloadCandidates c r
      · rw [if_pos hgt]
        have hrc : rankedBefore r c := (hw c hcmem r (hqmem r hrq)).mp hgt
        have h2 : [c].filter (fun x => (q ++ [c]).all
            (fun c' => decide (¬ CompareOverloadCandidates c' x < 0))) = [] := by
          rw [List.filter_eq_nil_iff]
          intro x hx
          rw [List.mem_singleton] at hx
          subst hx
          simp only [List.all_eq_true, decide_eq_true_eq, not_forall]
          refine ⟨r, hqmem r hrq, ?_⟩
          have := (hb r (hqmem r hrq) x hcmem).mpr hrc
          simpa using this
        rw [h2, List.append_nil]
      · rw [if_neg hgt]
        have hnrc : ¬ rankedBefore r c := fun h => hgt ((hw c hcmem r (hqmem r hrq)).mpr h)
        have h2 : [c].filter (fun x => (q ++ [c]).all
            (fun c' => decide (¬ CompareOverloadCandidates c' x < 0))) = [c] := by
          rw [List.filter_eq_self]
          intro x hx
          rw [List.mem_singleton] at hx
          subst hx
          simp only [List.all_eq_true, decide_eq_true_eq]
          intro y hy
          rcases List.mem_append.mp hy with hyq | hyc
          · intro hcon
            have h3 := (hb y hy x hcmem).mp hcon
            have h4 := rankedBefore_of_not_left r y x (hrmax' y hyq) h3
            exact hnrc h4
          · rw [List.mem_singleton] at hyc
            subst hyc
            exact hcc
        rw [h2]

theorem retained_addCandidates (context : OverloadResolveContext)
    (hslot : context.bestCandidate = none) (hlist : context.bestCandidates = []) :
    ∀ candidates : List OverloadCandidate,
      (∀ a ∈ candidates, ∀ b ∈ candidates, costsFit a b) →
      (addCandidates context candidates).retained = unbeaten candidates
      ∧ (candidates ≠ [] → unbeaten candidates ≠ []) := by
  intro candidates
  induction candidates using List.reverseRecOn with
  | nil =>
    intro _
    simp [addCandidates, OverloadResolveContext.retained, hslot, hlist, unbeaten]
  | append_singleton q c ih =>
    intro hfit
    have hfitq : ∀ a ∈ q, ∀ b ∈ q, costsFit a b :=
      fun a ha b hb => hfit a (by simp [ha]) b (by simp [hb])
    obtain ⟨ihr, ihne⟩ := ih hfitq
    have htidy := addCandidates_tidy q context (tidy_of_empty context hslot hlist)
    have hstep := (add_tidy (addCandidates context q) c htidy).2
    have hun := unbeaten_append_singleton q c hfit ihne
    have hfold : addCandidates context (q ++ [c])
        = AddOverloadCandidateInner (addCandidates context q) c := by
      simp [addCandidates, List.foldl_append]
    rw [hfold, hstep, ihr, ← hun]
    refine ⟨rfl, fun _ => ?_⟩
    rw [hun]
    unfold retainedAfterAdd
    cases unbeaten q with
    | nil => simp
    | cons r rs =>
      simp only [List.head?_cons]
      split
      · simp
      · split <;> simp

/-- C3 (as stated) fails: for two applicable candidates whose cost sums differ by
`2 ^ 31`, each compares as strictly better than the other, so no candidate is
unbeaten, yet one candidate is retained, and which one depends on the insertion
order. -/
theorem retained_depends_on_order_counterexample :
    (∀ x ∈ [exampleCandidate 1 Status.Appicable 2147483648,
              exampleCandidate 2 Status.Appicable 0],
        ∃ y ∈ [exampleCandidate 1 Status.Appicable 2147483648,
                exampleCandidate 2 Status.Appicable 0],
          CompareOverloadCandidates y x < 0)
    ∧ (addCandidates {} [exampleCandidate 1 Status.Appicable 2147483648,
          exampleCandidate 2 Status.Appicable 0]).retained
        = [exampleCandidate 2 Status.Appicable 0]
    ∧ (addCandidates {} [exampleCandidate 2 Status.Appicable 0,
          exampleCandidate 1 Status.Appicable 2147483648]).retained
        = [exampleCandidate 1 Status.Appicable 2147483648] := by
  decide

/-- C3 (amended): when the cost sums of the applicable candidates differ
pairwise by less than `2 ^ 31`, the candidates retained after adding
`candidates` to an empty context are exactly the candidates that no candidate
is strictly better than, in insertion order; adding any permutation of them
retains a permutation of the same candidates. -/
theorem retained_are_the_unbeaten (context : OverloadResolveContext)
    (candidates : List OverloadCandidate)
    (hslot : context.bestCandidate = none) (hlist : context.bestCandidates = [])
    (hfit : ∀ a ∈ candidates, ∀ b ∈ candidates,
      a.status = Status.Appicable → b.status = Status.Appicable →
        (a.conversionCostSum : Int) - b.conversionCostSum < 2147483648) :
    (addCandidates context candidates).retained
        = candidates.filter (fun c => candidates.all
            (fun c' => decide (¬ CompareOverloadCandidates c' c < 0)))
    ∧ ∀ permuted : List OverloadCandidate, permuted.Perm candidates →
        (addCandidates context permuted).retained.Perm
          (addCandidates context candidates).retained := by
  have hcf : ∀ l : List OverloadCandidate, (∀ x, x ∈ l → x ∈ candidates) →
      ∀ a ∈ l, ∀ b ∈ l, costsFit a b :=
    fun l hsub a ha b hb ha' hb' =>
      ⟨hfit a (hsub a ha) b (hsub b hb) ha' hb', hfit b (hsub b hb) a (hsub a ha) hb' ha'⟩
  have hmain := (retained_addCandidates context hslot hlist candidates
    (hcf candidates (fun _ h => h))).1
  refine ⟨hmain, ?_⟩
  intro permuted hperm
  have hp := (retained_addCandidates context hslot hlist permuted
    (hcf permuted (fun x hx => hperm.mem_iff.mp hx))).1
  rw [hp, hmain]
  unfold unbeaten
  have hpred : ∀ c, permuted.all (fun c' => decide (¬ CompareOverloadCandidates c' c < 0))
      = candidates.all (fun c' => decide (¬ CompareOverloadCandidates c' c < 0)) := by
    intro c
    rw [Bool.eq_iff_iff, List.all_eq_true, List.all_eq_true]
    exact ⟨fun h x hx => h x (hperm.mem_iff.mpr hx), fun h x hx => h x (hperm.mem_iff.mp hx)⟩
  simp only [hpred]
  exact hperm.filter _

/-- Witness for `retained_are_the_unbeaten`: three candidates, two of them tied
for the lowest cost. -/
theorem retained_are_the_unbeaten_witness :
    (addCandidates {} [exampleCandidate 1 Status.Appicable 5,
        exampleCandidate 2 Status.Appicable 3, exampleCandidate 3 Status.Appicable 3]).retained
      = [exampleCandidate 2 Status.Appicable 3, exampleCandidate 3 Status.Appicable 3] :=
  (retained_are_the_unbeaten {} [exampleCandidate 1 Status.Appicable 5,
      exampleCandidate 2 Status.Appicable 3, exampleCandidate 3 Status.Appicable 3]
    rfl rfl (by decide)).1.trans (by decide)

/-- C4: starting from an empty context, after any sequence of
`AddOverloadCandidateInner` calls the single slot `bestCandidate` is set only
while `bestCandidates` is empty, `bestCandidates` never has exactly one
element, and its elements pairwise compare equal. -/
theorem best_candidate_invariant (context : OverloadResolveContext)
    (candidates : List OverloadCandidate)
    (hslot : context.bestCandidate = none) (hlist : context.bestCandidates = []) :
    ((addCandidates context candidates).bestCandidate ≠ none →
        (addCandidates context candidates).bestCandidates = [])
    ∧ (addCandidates context candidates).bestCandidates.length ≠ 1
    ∧ ∀ a ∈ (addCandidates context candidates).bestCandidates,
        ∀ b ∈ (addCandidates context candidates).bestCandidates,
          CompareOverloadCandidates a b = 0 :=
  addCandidates_tidy candidates context (tidy_of_empty context hslot hlist)

/-- Witness for `best_candidate_invariant`: two tied candidates end up in the
list and leave the slot empty. -/
theorem best_candidate_invariant_witness :
    ((addCandidates {} [exampleCandidate 1 Status.Appicable 3,
        exampleCandidate 2 Status.Appicable 3]).bestCandidate ≠ none →
      (addCandidates {} [exampleCandidate 1 Status.Appicable 3,
        exampleCandidate 2 Status.Appicable 3]).bestCandidates = [])
    ∧ (addCandidates {} [exampleCandidate 1 Status.Appicable 3,
        exampleCandidate 2 Status.Appicable 3]).bestCandidates.length ≠ 1
    ∧ ∀ a ∈ (addCandidates {} [exampleCandidate 1 Status.Appicable 3,
          exampleCandidate 2 Status.Appicable 3]).bestCandidates,
        ∀ b ∈ (addCandidates {} [exampleCandidate 1 Status.Appicable 3,
          exampleCandidate 2 Status.Appicable 3]).bestCandidates,
          CompareOverloadCandidates a b = 0 :=
  best_candidate_invariant {} [exampleCandidate 1 Status.Appicable 3,
    exampleCandidate 2 Status.Appicable 3] rfl rfl

/-- C5 (as stated) fails: both candidates are applicable, the left cost sum
`2 ^ 31` is not below the right cost sum `0`, and the result is negative. -/
theorem compare_negative_counterexample :
    ¬ (CompareOverloadCandidates (exampleCandidate 1 Status.Appicable 2147483648)
          (exampleCandidate 2 Status.Appicable 0) < 0
        ↔ (exampleCandidate 1 Status.Appicable 2147483648).conversionCostSum
            < (exampleCandidate 2 Status.Appicable 0).conversionCostSum) := by
  decide

/-- C5 (amended): `CompareOverloadCandidates a b` is negative when the status of
`a` is further advanced than that of `b` and positive in the converse case; when
both are applicable it is zero iff the cost sums are equal and, provided the
difference of the cost sums fits in `int`, negative iff the cost sum of `a` is
the lower one; when the statuses are equal and not applicable it is zero. -/
theorem compare_spec (a b : OverloadCandidate) :
    (b.status.toInt < a.status.toInt → CompareOverloadCandidates a b < 0)
    ∧ (a.status.toInt < b.status.toInt → 0 < CompareOverloadCandidates a b)
    ∧ (a.status = Status.Appicable → b.status = Status.Appicable →
        -2147483648 ≤ (a.conversionCostSum : Int) - b.conversionCostSum →
        (a.conversionCostSum : Int) - b.conversionCostSum < 2147483648 →
          (CompareOverloadCandidates a b < 0 ↔ a.conversionCostSum < b.conversionCostSum))
    ∧ (a.status = Status.Appicable → b.status = Status.Appicable →
        a.conversionCostSum < uintModulus → b.conversionCostSum < uintModulus →
          (CompareOverloadCandidates a b = 0 ↔ a.conversionCostSum = b.conversionCostSum))
    ∧ (a.status = b.status → a.status ≠ Status.Appicable →
        CompareOverloadCandidates a b = 0) := by
  refine ⟨?_, ?_, ?_, ?_, ?_⟩
  · intro h
    have hs : a.status ≠ b.status := fun he => by rw [he] at h; omega
    unfold CompareOverloadCandidates
    rw [if_pos hs]
    omega
  · intro h
    have hs : a.status ≠ b.status := fun he => by rw [he] at h; omega
    unfold CompareOverloadCandidates
    rw [if_pos hs]
    omega
  · intro ha hb h1 h2
    have hval := intOfUInt_subUInt_of_fit a.conversionCostSum b.conversionCostSum h2 h1
    unfold CompareOverloadCandidates
    rw [if_neg (by simp [ha, hb])]
    by_cases hc : a.conversionCostSum % uintModulus = b.conversionCostSum % uintModulus
    · rw [if_neg (by simp [hc])]
      have heq : a.conversionCostSum = b.conversionCostSum := by
        unfold uintModulus at hc
        omega
      constructor <;> intro h <;> omega
    · rw [if_pos ⟨ha, hc⟩, hval]
      constructor <;> intro h <;> omega
  · intro ha hb hla hlb
    rw [cmp_eq_zero_iff, Nat.mod_eq_of_lt hla, Nat.mod_eq_of_lt hlb]
    constructor
    · exact fun h => h.2 ha
    · exact fun h => ⟨ha.trans hb.symm, fun _ => h⟩
  · intro hs hna
    exact (cmp_eq_zero_iff a b).mpr ⟨hs, fun h => absurd h hna⟩

/-- Witness for `compare_spec`: two applicable candidates with cost sums 3 and 7. -/
theorem compare_spec_witness :
    CompareOverloadCandidates (exampleCandidate 1 Status.Appicable 3)
        (exampleCandidate 2 Status.Appicable 7) < 0
    ∧ CompareOverloadCandidates (exampleCandidate 1 Status.TypeChecked 3)
        (exampleCandidate 2 Status.TypeChecked 7) = 0 :=
  ⟨((compare_spec (exampleCandidate 1 Status.Appicable 3)
      (exampleCandidate 2 Status.Appicable 7)).2.2.1 rfl rfl (by decide) (by decide)).mpr
      (by decide),
   (compare_spec (exampleCandidate 1 Status.TypeChecked 3)
      (exampleCandidate 2 Status.TypeChecked 7)).2.2.2.2 rfl (by decide)⟩

theorem Ty.Equals_self (t : Ty) : t.Equals t = true := by
  simp [Ty.Equals]

/-- C1: coercion is reflexive. With any positive recursion budget,
`TryCoerceImpl` from a type to itself succeeds without a diagnostic, reports
`kConversionCost_None` when a cost is asked for, and hands back the source
expression itself when an expression is asked for; so does `CanCoerce`. -/
theorem coerce_reflexive (env : Env) (fuel : Nat) (T : Ty) (fromExpr : Option Expr)
    (outToExpr outCost : Bool) :
    TryCoerceImpl env (fuel + 1) T outToExpr T fromExpr outCost
      = Check.ok { ok := true, outToExpr := if outToExpr then fromExpr else none,
                   outCost := if outCost then some kConversionCost_None else none } []
    ∧ CanCoerce env (fuel + 1) T T true
      = Check.ok { ok := true, outToExpr := none, outCost := some kConversionCost_None } [] := by
  constructor
  · simp only [TryCoerceImpl, TryCoerceImplBody, Ty.Equals_self, if_true]
    rfl
  · simp only [CanCoerce, TryCoerceImpl, TryCoerceImplBody, Ty.Equals_self, if_true]
    rfl

/-- C2: coercion is absorbing on error. For unequal types of which one is the
error type, `TryCoerceImpl` succeeds with cost `kConversionCost_None` and emits
no diagnostic; the output expression is a new implicit cast (the hidden kind in
rewrite mode) to `toType` whose only argument is the unchanged source
expression. -/
theorem coerce_absorbs_error (env : Env) (fuel : Nat) (toType fromType : Ty) (fromExpr : Expr)
    (outCost : Bool) (hne : toType ≠ fromType)
    (herr : toType = Ty.error ∨ fromType = Ty.error) :
    TryCoerceImpl env (fuel + 1) toType true fromType (some fromExpr) outCost
      = Check.ok
          { ok := true,
            outToExpr := some (Expr.TypeCastExpr
              (if env.isRewriteMode then CastKind.HiddenImplicitCastExpr
               else CastKind.ImplicitCastExpr)
              fromExpr.loc { type := some toType }
              (Expr.SharedTypeExpr 0 { type := some (Ty.typeType toType) } (some toType))
              [fromExpr]),
            outCost := if outCost then some kConversionCost_None else none } []
    ∧ TryCoerceImpl env (fuel + 1) toType false fromType (some fromExpr) outCost
      = Check.ok { ok := true, outToExpr := none,
                   outCost := if outCost then some kConversionCost_None else none } [] := by
  have heq : toType.Equals fromType = false := by simp [Ty.Equals, hne]
  have hor : (toType.isErrorType || fromType.isErrorType) = true := by
    rcases herr with h | h <;> simp [h, Ty.isErrorType]
  constructor
  · simp only [TryCoerceImpl, TryCoerceImplBody, heq, hor, if_true, CreateImplicitCastExpr]
    rfl
  · simp only [TryCoerceImpl, TryCoerceImplBody, heq, hor, if_true]
    rfl

theorem Check.bind_eq_ok {α β : Type} (x : Check α) (f : α → Check β) (b : β)
    (ds : List Diagnostic) (h : (x >>= f) = Check.ok b ds) :
    ∃ a ds1 ds2, x = Check.ok a ds1 ∧ f a = Check.ok b ds2 ∧ ds = ds1 ++ ds2 := by
  cases x with
  | ok a ds1 =>
    cases hf : f a with
    | ok b' ds2 =>
      have : (Check.ok a ds1 >>= f) = Check.ok b' (ds1 ++ ds2) := by
        show Check.bind _ _ = _
        simp [Check.bind, hf]
      rw [this] at h
      cases h
      exact ⟨a, ds1, ds2, rfl, hf, rfl⟩
    | thrown s ds2 =>
      have : (Check.ok a ds1 >>= f) = Check.thrown s (ds1 ++ ds2) := by
        show Check.bind _ _ = _
        simp [Check.bind, hf]
      rw [this] at h
      cases h
    | outOfFuel =>
      have : (Check.ok a ds1 >>= f) = Check.outOfFuel := by
        show Check.bind _ _ = _
        simp [Check.bind, hf]
      rw [this] at h
      cases h
  | thrown s ds1 =>
    have : (Check.thrown s ds1 >>= f) = Check.thrown s ds1 := rfl
    rw [this] at h
    cases h
  | outOfFuel =>
    have : ((Check.outOfFuel : Check α) >>= f) = Check.outOfFuel := rfl
    rw [this] at h
    cases h

theorem Check.pure_eq_ok {α : Type} (a b : α) (ds : List Diagnostic)
    (h : (pure a : Check α) = Check.ok b ds) : a = b ∧ ds = [] := by
  cases h
  exact ⟨rfl, rfl⟩

theorem checkArgumentTypes_cost (coerce : CoerceFn) (env : Env) (params : List DeclRef)
    (context : OverloadResolveContext) (hmode : context.mode = Mode.JustTrying)
    (hnest : context.disallowNestedConversions = false) :
    ∀ (remaining ii : Nat) (candidate candidate' : OverloadCandidate)
      (context' : OverloadResolveContext) (ds : List Diagnostic),
      candidate.conversionCostSum < uintModulus →
      checkArgumentTypes coerce env params remaining ii context candidate
        = Check.ok (true, candidate', context') ds →
      candidate'.conversionCostSum
          = (candidate.conversionCostSum
              + ((List.range remaining).map
                  (fun j => reportedCost coerce env context params (ii + j))).sum) % uintModulus
      ∧ candidate'.status = candidate.status
      ∧ ∀ j, j < remaining → argumentCoerces coerce env context params (ii + j) := by
  intro remaining
  induction remaining with
  | zero =>
    intro ii candidate candidate' context' ds hlt h
    have := (Check.pure_eq_ok _ _ _ h).1
    cases this
    refine ⟨?_, rfl, fun j hj => absurd hj (Nat.not_lt_zero j)⟩
    simp [Nat.mod_eq_of_lt hlt]
  | succ n ih =>
    intro ii candidate candidate' context' ds hlt h
    unfold checkArgumentTypes at h
    cases hat : context.getArgType ii with
    | none => simp [hat] at h; cases h
    | some argType =>
      cases hp : params[ii]? with
      | none => simp [hat, hp] at h; cases h
      | some param =>
        simp only [hat, hp, hmode, if_true, hnest, Bool.false_eq_true, if_false] at h
        obtain ⟨r, ds1, ds2, hcan, hrest, _⟩ := Check.bind_eq_ok _ _ _ _ h
        cases hok : r.ok with
        | false =>
          simp only [hok, Bool.not_false, if_true] at hrest
          have := (Check.pure_eq_ok _ _ _ hrest).1
          cases this
        | true =>
          simp only [hok, Bool.not_true, Bool.false_eq_true, if_false] at hrest
          have hlt' : addUInt candidate.conversionCostSum (r.outCost.getD kConversionCost_None)
              < uintModulus := Nat.mod_lt _ (by unfold uintModulus; omega)
          obtain ⟨hsum, hst, hall⟩ := ih (ii + 1) _ candidate' context' ds2 hlt' hrest
          have hcost : reportedCost coerce env context params ii
              = r.outCost.getD kConversionCost_None := by
            simp [reportedCost, hat, hp, hcan]
          refine ⟨?_, hst, ?_⟩
          · rw [hsum, List.range_succ_eq_map, List.map_cons, List.sum_cons, List.map_map]
            have hfun : ((fun j => reportedCost coerce env context params (ii + 1 + j)))
                = ((fun j => reportedCost coerce env context params (ii + j)) ∘ Nat.succ) := by
              funext j
              simp only [Function.comp, Nat.succ_eq_add_one]
              congr 1
              omega
            rw [hfun, Nat.add_zero, hcost]
            simp only [addUInt]
            generalize (List.map ((fun j => reportedCost coerce env context params (ii + j)) ∘ Nat.succ)
              (List.range n)).sum = S
            unfold uintModulus
            omega
          · intro j hj
            cases j with
            | zero => exact ⟨argType, param, r, ds1, hat, hp, hcan, hok⟩
            | succ k =>
              have := hall k (by omega)
              have he : ii + (k + 1) = ii + 1 + k := by omega
              rw [he]
              exact this

theorem CountParameters_allowed (env : Env) (params : List DeclRef) :
    (CountParameters env params).allowed = params.length
    ∧ (CountParameters env params).required
        = (params.filter (fun p => !env.hasInit p.decl)).length := by
  induction params with
  | nil => simp [CountParameters]
  | cons p ps ih =>
    obtain ⟨h1, h2⟩ := ih
    cases hp : env.hasInit p.decl <;> simp [CountParameters, h1, h2, hp]

theorem checkArgumentTypes_status (coerce : CoerceFn) (env : Env) (params : List DeclRef) :
    ∀ (remaining ii : Nat) (context : OverloadResolveContext) (candidate : OverloadCandidate)
      (r : Bool × OverloadCandidate × OverloadResolveContext) (ds : List Diagnostic),
      checkArgumentTypes coerce env params remaining ii context candidate = Check.ok r ds →
      r.2.1.status = candidate.status := by
  intro remaining
  induction remaining with
  | zero =>
    intro ii context candidate r ds h
    have := (Check.pure_eq_ok _ _ _ h).1
    rw [← this]
  | succ n ih =>
    intro ii context candidate r ds h
    unfold checkArgumentTypes at h
    split at h
    · split at h
      · split at h
        · split at h
          · have := (Check.pure_eq_ok _ _ _ h).1
            rw [← this]
          · exact (ih _ _ _ _ _ h).trans rfl
        · obtain ⟨cr, ds1, ds2, _, hrest, _⟩ := Check.bind_eq_ok _ _ _ _ h
          split at hrest
          · have := (Check.pure_eq_ok _ _ _ hrest).1
            rw [← this]
          · exact (ih _ _ _ _ _ hrest).trans rfl
      · split at h
        · obtain ⟨coerced, ds1, ds2, _, hrest, _⟩ := Check.bind_eq_ok _ _ _ _ h
          split at hrest
          · exact ih _ _ _ _ _ hrest
          · cases hrest
        · cases h
    · cases h

theorem conversionCostSum_of_applicable (coerce : CoerceFn) (env : Env)
    (context context' : OverloadResolveContext) (candidate candidate' : OverloadCandidate)
    (ds : List Diagnostic)
    (hmode : context.mode = Mode.JustTrying)
    (hnest : context.disallowNestedConversions = false)
    (hflavor : candidate.flavor = Flavor.Func)
    (hstatus : candidate.status = Status.Unchecked)
    (hcost : candidate.conversionCostSum = kConversionCost_None)
    (hrun : TryCheckOverloadCandidate coerce env context candidate
      = Check.ok (candidate', context') ds)
    (happ : candidate'.status = Status.Appicable) :
    candidate'.conversionCostSum
        = ((List.range context.argCount).map
            (reportedCost coerce env context
              (GetParameters env candidate.item.declRef))).sum % uintModulus
    ∧ ∀ i, i < context.argCount →
        argumentCoerces coerce env context (GetParameters env candidate.item.declRef) i := by
  obtain ⟨flavor, status, item, resultType, cost⟩ := candidate
  simp only at hflavor hstatus hcost
  subst hflavor hstatus hcost
  unfold TryCheckOverloadCandidate at hrun
  obtain ⟨arityOk, ds1, ds2, _, hrest, _⟩ := Check.bind_eq_ok _ _ _ _ hrun
  cases arityOk with
  | false =>
    simp only [Bool.not_false, if_true] at hrest
    have := (Check.pure_eq_ok _ _ _ hrest).1
    cases this
    cases happ
  | true =>
    simp only [Bool.not_true, Bool.false_eq_true, if_false] at hrest
    obtain ⟨fixityOk, ds3, ds4, _, hrest2, _⟩ := Check.bind_eq_ok _ _ _ _ hrest
    cases fixityOk with
    | false =>
      simp only [Bool.not_false, if_true] at hrest2
      have := (Check.pure_eq_ok _ _ _ hrest2).1
      cases this
      cases happ
    | true =>
      simp only [Bool.not_true, Bool.false_eq_true, if_false] at hrest2
      obtain ⟨r, ds5, ds6, htypes, hrest3, _⟩ := Check.bind_eq_ok _ _ _ _ hrest2
      obtain ⟨typesOk, candidate3, context3⟩ := r
      unfold TryCheckOverloadCandidateTypes at htypes
      simp only at htypes
      split at htypes
      · cases htypes
      · have hst := checkArgumentTypes_status coerce env _ _ _ _ _ _ _ htypes
        simp only at hst
        cases typesOk with
        | false =>
          simp only [Bool.not_false, if_true] at hrest3
          have := (Check.pure_eq_ok _ _ _ hrest3).1
          cases this
          rw [hst] at happ
          cases happ
        | true =>
          obtain ⟨hsum, _, hall⟩ := checkArgumentTypes_cost coerce env _ context hmode hnest
            context.getArgCount 0 _ candidate3 context3 ds5
            (by show kConversionCost_None < uintModulus; decide) htypes
          simp only [Bool.not_true, Bool.false_eq_true, if_false,
            TryCheckOverloadCandidateDirections] at hrest3
          have := (Check.pure_eq_ok _ _ _ hrest3).1
          cases this
          refine ⟨?_, ?_⟩
          · show candidate3.conversionCostSum = _
            rw [hsum]
            simp [kConversionCost_None, OverloadResolveContext.getArgCount]
          · intro i hi
            have := hall i hi
            simpa using this

theorem Check.pure_bind {α β : Type} (a : α) (f : α → Check β) :
    ((pure a : Check α) >>= f) = f a := by
  show Check.bind (Check.ok a []) f = f a
  cases h : f a <;> simp [Check.bind, h]

theorem Check.diagnose_bind_pure {β : Type} (d : Diagnostic) (b : β) :
    (diagnose d >>= fun _ => (pure b : Check β)) = Check.ok b [d] := rfl

theorem arity_result (env : Env) (context : OverloadResolveContext)
    (candidate : OverloadCandidate) (hflavor : candidate.flavor = Flavor.Func) :
    ∃ ds, TryCheckOverloadCandidateArity env context candidate
      = Check.ok (decide
          ((CountParameters env (GetParameters env candidate.item.declRef)).required
              ≤ context.argCount
            ∧ context.argCount
              ≤ (CountParameters env (GetParameters env candidate.item.declRef)).allowed)) ds := by
  unfold TryCheckOverloadCandidateArity
  simp only [hflavor, OverloadResolveContext.getArgCount, Check.pure_bind, ge_iff_le,
    Check.diagnose_bind_pure]
  split
  · rename_i hin
    exact ⟨[], by simp only [hin, and_self, decide_True]; rfl⟩
  · rename_i hin
    simp only [hin, decide_False]
    split
    · split
      · split
        · exact ⟨_, rfl⟩
        · exact ⟨_, rfl⟩
      · split
        · exact ⟨_, rfl⟩
        · exact ⟨_, rfl⟩
    · exact ⟨_, rfl⟩

/-- C7: for a function candidate, `allowed` is the number of parameters of the
callable and `required` the number of those without a default initializer, so
`required ≤ allowed`; `TryCheckOverloadCandidateArity` returns true iff
`required ≤ argCount ≤ allowed`; and `TryCheckOverloadCandidate` hands a
candidate that fails this test back as it received it, so a candidate that
came in `Unchecked` is still `Unchecked`. -/
theorem arity_check_spec (env : Env) (context : OverloadResolveContext)
    (candidate : OverloadCandidate) (hflavor : candidate.flavor = Flavor.Func) :
    (CountParameters env (GetParameters env candidate.item.declRef)).allowed
        = (GetParameters env candidate.item.declRef).length
    ∧ (CountParameters env (GetParameters env candidate.item.declRef)).required
        = ((GetParameters env candidate.item.declRef).filter
            (fun p => !env.hasInit p.decl)).length
    ∧ (CountParameters env (GetParameters env candidate.item.declRef)).required
        ≤ (CountParameters env (GetParameters env candidate.item.declRef)).allowed
    ∧ (∃ ds, TryCheckOverloadCandidateArity env context candidate
        = Check.ok (decide
            ((CountParameters env (GetParameters env candidate.item.declRef)).required
                ≤ context.argCount
              ∧ context.argCount
                ≤ (CountParameters env (GetParameters env candidate.item.declRef)).allowed)) ds)
    ∧ ∀ coerce : CoerceFn,
        ¬ ((CountParameters env (GetParameters env candidate.item.declRef)).required
              ≤ context.argCount
            ∧ context.argCount
              ≤ (CountParameters env (GetParameters env candidate.item.declRef)).allowed) →
        ∃ ds, TryCheckOverloadCandidate coerce env context candidate
            = Check.ok (candidate, context) ds
          ∧ (candidate.status = Status.Unchecked → (candidate, context).1.status
              = Status.Unchecked) := by
  obtain ⟨hallowed, hrequired⟩ :=
    CountParameters_allowed env (GetParameters env candidate.item.declRef)
  refine ⟨hallowed, hrequired, ?_, arity_result env context candidate hflavor, ?_⟩
  · rw [hallowed, hrequired]
    exact List.length_filter_le _ _
  · intro coerce hout
    obtain ⟨ds, hds⟩ := arity_result env context candidate hflavor
    refine ⟨ds, ?_, fun h => h⟩
    unfold TryCheckOverloadCandidate
    rw [hds]
    simp only [hout, decide_False]
    show Check.bind (Check.ok false ds) _ = _
    simp [Check.bind, pure]

/-- Witness for `coerce_absorbs_error`: an `int` constant is coerced to the
error type. -/
theorem coerce_absorbs_error_witness :
    TryCoerceImpl (exampleEnv false 400) 1 Ty.error true intType
        (some (Expr.ConstantExpr 6 { type := some intType } 1)) true
      = Check.ok
          { ok := true,
            outToExpr := some (Expr.TypeCastExpr CastKind.ImplicitCastExpr 6
              { type := some Ty.error }
              (Expr.SharedTypeExpr 0 { type := some (Ty.typeType Ty.error) } (some Ty.error))
              [Expr.ConstantExpr 6 { type := some intType } 1]),
            outCost := some kConversionCost_None } [] :=
  (coerce_absorbs_error (exampleEnv false 400) 0 Ty.error intType
    (Expr.ConstantExpr 6 { type := some intType } 1) true (by decide) (Or.inl rfl)).1

/-- Witness for `arity_check_spec`: a call with two arguments meets the arity of
`f(int, float)`. -/
theorem arity_check_spec_witness :
    ∃ ds, TryCheckOverloadCandidateArity (exampleEnv false 400) exampleContext
      (exampleFuncCandidate 1) = Check.ok true ds :=
  (arity_check_spec (exampleEnv false 400) exampleContext (exampleFuncCandidate 1) rfl).2.2.2.1

/-- C6 (as stated) fails twice. In rewrite mode the ambiguous call `f(1, 1)` gets
its error type without any diagnostic. And the cost sum is kept in an
`unsigned int`: with an `int`-to-`float` conversion of cost `2 ^ 31`, the
candidate `g(float, float)` called with `(int, int)` is applicable with cost sum
`0`, while the two reported costs add up to `2 ^ 32`. -/
theorem cost_sum_and_diagnostic_counterexample :
    ResolveInvoke (exampleEnv true 400) 1 InvokeKind.InvokeExpr 4 { type := none }
        exampleCallee exampleArguments
      = Check.ok (some (Expr.InvokeExpr InvokeKind.InvokeExpr 4 { type := some Ty.error }
          exampleCallee exampleArguments)) []
    ∧ TryCheckOverloadCandidate (TryCoerceImpl (exampleEnv false 2147483648) 1)
        (exampleEnv false 2147483648) exampleContext (exampleFuncCandidate 3)
      = Check.ok ({ exampleFuncCandidate 3 with
          status := Status.Appicable, conversionCostSum := 0 }, exampleContext) []
    ∧ ((List.range exampleContext.argCount).map
        (reportedCost (TryCoerceImpl (exampleEnv false 2147483648) 1)
          (exampleEnv false 2147483648) exampleContext
          (GetParameters (exampleEnv false 2147483648) { decl := 3 }))).sum = 4294967296 := by
  refine ⟨rfl, rfl, ?_⟩
  decide

/-- C6 (amended): for a function candidate that `TryCheckOverloadCandidate`
brings from `Unchecked` to applicable in `JustTrying` mode without
`disallowNestedConversions`, every `CanCoerce(parameter type, argument type)`
returns true and `conversionCostSum` is the sum of the reported costs modulo
`2 ^ 32`. For `f(int, float)` and `f(float, int)` called with `(int, int)` both
candidates are applicable with the same sum, both are retained in
`bestCandidates`, and `ResolveInvoke` returns the call typed as an error, after
an ambiguous-overload diagnostic that lists both candidates unless the checker
is in rewrite mode, where nothing is diagnosed. -/
theorem cost_sum_and_ambiguous_call :
    (∀ (coerce : CoerceFn) (env : Env) (context context' : OverloadResolveContext)
        (candidate candidate' : OverloadCandidate) (ds : List Diagnostic),
        context.mode = Mode.JustTrying → context.disallowNestedConversions = false →
        candidate.flavor = Flavor.Func → candidate.status = Status.Unchecked →
        candidate.conversionCostSum = kConversionCost_None →
        TryCheckOverloadCandidate coerce env context candidate
          = Check.ok (candidate', context') ds →
        candidate'.status = Status.Appicable →
        candidate'.conversionCostSum
            = ((List.range context.argCount).map
                (reportedCost coerce env context
                  (GetParameters env candidate.item.declRef))).sum % uintModulus
        ∧ ∀ i, i < context.argCount →
            argumentCoerces coerce env context (GetParameters env candidate.item.declRef) i)
    ∧ ∀ (fuel : Nat) (isRewriteMode : Bool),
        TryCheckOverloadCandidate (TryCoerceImpl (exampleEnv isRewriteMode 400) (fuel + 1))
            (exampleEnv isRewriteMode 400) exampleContext (exampleFuncCandidate 1)
          = Check.ok ({ exampleFuncCandidate 1 with
              status := Status.Appicable, conversionCostSum := 400 }, exampleContext) []
        ∧ TryCheckOverloadCandidate (TryCoerceImpl (exampleEnv isRewriteMode 400) (fuel + 1))
            (exampleEnv isRewriteMode 400) exampleContext (exampleFuncCandidate 2)
          = Check.ok ({ exampleFuncCandidate 2 with
              status := Status.Appicable, conversionCostSum := 400 }, exampleContext) []
        ∧ AddOverloadCandidates (TryCoerceImpl (exampleEnv isRewriteMode 400) (fuel + 1))
            (exampleEnv isRewriteMode 400) (fuel + 1) exampleCallee exampleContext
          = Check.ok { exampleContext with
              bestCandidate := none,
              bestCandidates :=
                [{ exampleFuncCandidate 1 with
                    status := Status.Appicable, conversionCostSum := 400 },
                 { exampleFuncCandidate 2 with
                    status := Status.Appicable, conversionCostSum := 400 }] } []
        ∧ ResolveInvoke (exampleEnv isRewriteMode 400) (fuel + 1) InvokeKind.InvokeExpr 4
            { type := none } exampleCallee exampleArguments
          = Check.ok (some (Expr.InvokeExpr InvokeKind.InvokeExpr 4 { type := some Ty.error }
              exampleCallee exampleArguments))
              (if isRewriteMode then []
               else [Diagnostic.ambiguousOverloadWithArgs 4 [intType, intType],
                     Diagnostic.overloadCandidate { decl := 1 } 400,
                     Diagnostic.overloadCandidate { decl := 2 } 400]) := by
  refine ⟨?_, ?_⟩
  · intro coerce env context context' candidate candidate' ds hmode hnest hflavor hstatus hcost
      hrun happ
    exact conversionCostSum_of_applicable coerce env context context' candidate candidate' ds
      hmode hnest hflavor hstatus hcost hrun happ
  · intro fuel isRewriteMode
    cases isRewriteMode
    · exact ⟨rfl, rfl, rfl, rfl⟩
    · exact ⟨rfl, rfl, rfl, rfl⟩

/-- Witness for `cost_sum_and_ambiguous_call`: the candidate `f(int, float)` of
the call `f(1, 1)` has cost sum `0 + 400`. -/
theorem cost_sum_and_ambiguous_call_witness :
    (400 : Nat) = ((List.range 2).map
        (reportedCost (TryCoerceImpl (exampleEnv false 400) 1) (exampleEnv false 400)
          exampleContext (GetParameters (exampleEnv false 400) { decl := 1 }))).sum
        % uintModulus :=
  (cost_sum_and_ambiguous_call.1 (TryCoerceImpl (exampleEnv false 400) 1) (exampleEnv false 400)
    exampleContext exampleContext (exampleFuncCandidate 1)
    { exampleFuncCandidate 1 with status := Status.Appicable, conversionCostSum := 400 } []
    rfl rfl rfl rfl rfl rfl rfl).1

theorem DeclCheck.bind_apply {α β : Type} (m : DeclCheck α) (f : α → DeclCheck β) (w : World) :
    (m >>= f) w =
      match m w with
      | (Outcome.ok a, w1) => f a w1
      | (Outcome.thrown s, w1) => (Outcome.thrown s, w1)
      | (Outcome.outOfFuel, w1) => (Outcome.outOfFuel, w1) := rfl

theorem DeclCheck.pure_apply {α : Type} (a : α) (w : World) :
    (pure a : DeclCheck α) w = (Outcome.ok a, w) := rfl

/-- C9: `EnsureDecl(decl, state)` on a declaration whose check state has reached
`state` returns normally and leaves the whole state as it was: no state is
assigned and no visitor is dispatched (the history is unchanged). In particular
`checkDecl` on a declaration that is `Checked`, and `checkTranslationUnit` on a
module that is `Checked`, do nothing. -/
theorem ensureDecl_reached_is_noop (program : Program) (fuel : Nat) (decl : DeclId)
    (state : DeclCheckState) (w : World)
    (hreached : state.toNat ≤ (w.checkState decl).toNat) :
    EnsureDecl program (fuel + 1) decl state w = (Outcome.ok (), w)
    ∧ (w.checkState decl = DeclCheckState.Checked →
        checkDecl (EnsureDecl program (fuel + 1)) decl w = (Outcome.ok (), w))
    ∧ (w.checkState program.SyntaxNode = DeclCheckState.Checked →
        checkTranslationUnit program (fuel + 1) w = (Outcome.ok (), w)) := by
  have key : ∀ (d : DeclId) (s : DeclCheckState), s.toNat ≤ (w.checkState d).toNat →
      EnsureDecl program (fuel + 1) d s w = (Outcome.ok (), w) := by
    intro d s h
    simp [EnsureDecl, DeclCheck.bind_apply, IsChecked, h, DeclCheck.pure_apply]
  refine ⟨key decl state hreached, ?_, ?_⟩
  · intro h
    exact key decl DeclCheckState.Checked (by rw [h])
  · intro h
    exact key program.SyntaxNode DeclCheckState.Checked (by rw [h])

theorem Extends.refl (d : DeclId) (w : World) : Extends d w w :=
  ⟨fun h => h, [], by simp, fun _ _ _ h => by simp at h⟩

theorem Extends.trans {d : DeclId} {w w1 w2 : World} (h1 : Extends d w w1)
    (h2 : Extends d w1 w2) : Extends d w w2 := by
  obtain ⟨hs1, new1, hl1, hn1⟩ := h1
  obtain ⟨hs2, new2, hl2, hn2⟩ := h2
  refine ⟨fun h => hs2 (hs1 h), new1 ++ new2, by rw [hl2, hl1, List.append_assoc], ?_⟩
  intro h old new' hmem
  rcases List.mem_append.mp hmem with hm | hm
  · exact hn1 h old new' hm
  · exact hn2 (hs1 h) old new' hm

theorem safe_pure {α : Type} (a : α) : Safe (pure a : DeclCheck α) :=
  fun d w => Extends.refl d w

theorem safe_bind {α β : Type} {m : DeclCheck α} {f : α → DeclCheck β} (hm : Safe m)
    (hf : ∀ a, Safe (f a)) : Safe (m >>= f) := by
  intro d w
  rw [DeclCheck.bind_apply]
  have h1 := hm d w
  cases hmw : m w with
  | mk out w1 =>
    rw [hmw] at h1
    cases out with
    | ok a => exact h1.trans (hf a d w1)
    | thrown s => exact h1
    | outOfFuel => exact h1

theorem safe_IsChecked (decl : DeclId) (state : DeclCheckState) : Safe (IsChecked decl state) :=
  fun d w => Extends.refl d w

theorem safe_checkStateIs (decl : DeclId) (state : DeclCheckState) :
    Safe (checkStateIs decl state) :=
  fun d w => Extends.refl d w

theorem safe_GetErrorCount : Safe GetErrorCount :=
  fun d w => Extends.refl d w

theorem safe_throw {α : Type} (s : Signal) : Safe (DeclCheck.throw s : DeclCheck α) :=
  fun d w => Extends.refl d w

theorem safe_outOfFuel {α : Type} : Safe (DeclCheck.outOfFuel : DeclCheck α) :=
  fun d w => Extends.refl d w

theorem safe_reportError : Safe reportError :=
  fun _ _ => ⟨fun h => h, [], by simp [Slang.reportError], fun _ _ _ h => by simp at h⟩

theorem safe_recordDispatch (decl : DeclId) : Safe (recordDispatch decl) :=
  fun _ _ => ⟨fun h => h, [Event.dispatch decl], rfl, fun _ _ _ h => by simp at h⟩

theorem safe_SetCheckState (decl : DeclId) (state : DeclCheckState)
    (hstate : state ≠ DeclCheckState.Unchecked) : Safe (SetCheckState decl state) := by
  intro d w
  refine ⟨?_, [Event.SetCheckState decl (w.checkState decl) state], rfl, ?_⟩
  · intro h
    show (if d = decl then state else w.checkState d) ≠ DeclCheckState.Unchecked
    split
    · exact hstate
    · exact h
  · intro h old new' hmem
    simp only [List.mem_singleton, Event.SetCheckState.injEq] at hmem
    obtain ⟨hd, hold, _⟩ := hmem
    rw [hold, ← hd]
    exact h

theorem safe_ite {α : Type} (c : Prop) [Decidable c] {m1 m2 : DeclCheck α} (h1 : Safe m1)
    (h2 : Safe m2) : Safe (if c then m1 else m2) := by
  split
  · exact h1
  · exact h2

theorem safe_forEach {α : Type} {body : α → DeclCheck Unit} (hbody : ∀ a, Safe (body a))
    (l : List α) : Safe (forEach body l) := by
  induction l with
  | nil => exact safe_pure ()
  | cons a rest ih => exact safe_bind (hbody a) (fun _ => ih)

theorem safe_reportErrors (n : Nat) : Safe (reportErrors n) := by
  induction n with
  | zero => exact safe_pure ()
  | succ k ih => exact safe_bind safe_reportError (fun _ => ih)

theorem safe_runEffects {ensure : EnsureFn} {dispatch : DispatchFn}
    (hensure : ∀ d s, Safe (ensure d s)) (hdispatch : ∀ d, Safe (dispatch d))
    (effects : List Effect) : Safe (runEffects ensure dispatch effects) := by
  induction effects with
  | nil => exact safe_pure ()
  | cons e rest ih =>
    cases e with
    | EnsureDecl decl state => exact safe_bind (hensure decl state) (fun _ => ih)
    | error => exact safe_bind safe_reportError (fun _ => ih)
    | DeclStmt decl => exact safe_bind (hdispatch decl) (fun _ => ih)
    | DeclGroupStmt decls =>
      exact safe_bind (safe_forEach (fun d => hensure d DeclCheckState.Checked) decls)
        (fun _ => ih)

theorem safe_VisitFunctionDeclaration {ensure : EnsureFn} {dispatch : DispatchFn}
    (hensure : ∀ d s, Safe (ensure d s)) (hdispatch : ∀ d, Safe (dispatch d))
    (program : Program) (decl : DeclId) :
    Safe (VisitFunctionDeclaration ensure dispatch program decl) := by
  unfold VisitFunctionDeclaration
  refine safe_bind (safe_IsChecked _ _) (fun checked => safe_ite _ (safe_pure ()) ?_)
  refine safe_bind (safe_SetCheckState _ _ (by decide)) (fun _ => ?_)
  refine safe_bind (safe_runEffects hensure hdispatch _) (fun _ => ?_)
  refine safe_bind (safe_forEach (fun para => ?_) _) (fun _ => ?_)
  · exact safe_bind (hensure _ _) (fun _ => safe_ite _ safe_reportError (safe_pure ()))
  · exact safe_bind (safe_SetCheckState _ _ (by decide))
      (fun _ => safe_ite _ (safe_pure ()) (safe_reportErrors _))

theorem safe_visitDecl {ensure : EnsureFn} {dispatch ensureAll : DispatchFn}
    (hensure : ∀ d s, Safe (ensure d s)) (hdispatch : ∀ d, Safe (dispatch d))
    (hall : ∀ d, Safe (ensureAll d)) (program : Program) (decl : DeclId) :
    Safe (visitDecl ensure dispatch ensureAll program decl) := by
  have hrun := fun effects => safe_runEffects hensure hdispatch effects
  have hset := fun (x : DeclId) (s : DeclCheckState) (hs : s ≠ DeclCheckState.Unchecked) =>
    safe_SetCheckState x s hs
  unfold visitDecl
  split
  · -- module
    unfold visitModuleDecl checkDecl
    refine safe_bind (safe_forEach (fun _ => hensure _ _) _) (fun _ => ?_)
    refine safe_bind (safe_forEach (fun _ => hensure _ _) _) (fun _ => ?_)
    refine safe_bind (safe_forEach (fun _ => hensure _ _) _) (fun _ => ?_)
    refine safe_bind (safe_forEach (fun _ => hensure _ _) _) (fun _ => ?_)
    refine safe_bind (safe_forEach (fun _ => hensure _ _) _) (fun _ => ?_)
    refine safe_bind (safe_forEach (fun func => ?_) _) (fun _ => ?_)
    · exact safe_bind (safe_IsChecked _ _) (fun _ => safe_ite _
        (safe_VisitFunctionDeclaration hensure hdispatch program func) (safe_pure ()))
    refine safe_bind (safe_forEach (fun _ => hensure _ _) _) (fun _ => ?_)
    refine safe_bind safe_GetErrorCount (fun _ => safe_ite _ (safe_pure ()) ?_)
    refine safe_bind (safe_forEach hall _) (fun _ => ?_)
    exact safe_forEach (fun d => hrun _) _
  · -- import
    unfold visitImportDecl
    exact safe_bind (safe_IsChecked _ _) (fun _ => safe_ite _ (safe_pure ())
      (safe_ite _ (safe_pure ()) (hset _ _ (by decide))))
  · -- typedef
    unfold visitTypeDefDecl
    exact safe_bind (safe_IsChecked _ _) (fun _ => safe_ite _ (safe_pure ())
      (safe_bind (hset _ _ (by decide)) (fun _ => safe_bind (hrun _)
        (fun _ => hset _ _ (by decide)))))
  · -- struct
    unfold visitStructDecl checkDecl
    exact safe_bind (safe_IsChecked _ _) (fun _ => safe_ite _ (safe_pure ())
      (safe_bind (hset _ _ (by decide)) (fun _ => safe_forEach (fun _ => hensure _ _) _)))
  · -- class
    unfold visitClassDecl
    exact safe_bind (safe_IsChecked _ _) (fun _ => safe_ite _ (safe_pure ())
      (safe_bind (hset _ _ (by decide)) (fun _ => safe_forEach
        (fun _ => safe_bind (hrun _) (fun _ => hset _ _ (by decide))) _)))
  · exact safe_pure ()
  · -- struct field
    unfold visitStructField
    exact safe_bind (hrun _) (fun _ => hset _ _ (by decide))
  · -- variable
    unfold visitVariable
    exact safe_bind (hrun _) (fun _ => hset _ _ (by decide))
  · -- parameter
    exact hrun _
  · -- function
    unfold visitFuncDecl
    refine safe_bind (safe_IsChecked _ _) (fun _ => safe_ite _ (safe_pure ()) ?_)
    refine safe_bind (safe_VisitFunctionDeclaration hensure hdispatch program decl)
      (fun _ => safe_bind (hset _ _ (by decide)) (fun _ => ?_))
    split
    · exact hrun _
    · exact safe_pure ()
  · -- constructor
    unfold visitConstructorDecl
    exact safe_bind (safe_IsChecked _ _) (fun _ => safe_ite _ (safe_pure ())
      (safe_bind (hset _ _ (by decide)) (fun _ =>
        safe_bind (safe_forEach (fun _ => hrun _) _) (fun _ =>
          safe_bind (hset _ _ (by decide)) (fun _ => hset _ _ (by decide))))))
  · -- subscript
    unfold visitSubscriptDecl
    exact safe_bind (safe_IsChecked _ _) (fun _ => safe_ite _ (safe_pure ())
      (safe_bind (hset _ _ (by decide)) (fun _ =>
        safe_bind (safe_forEach (fun _ => hrun _) _) (fun _ =>
          safe_bind (hrun _) (fun _ =>
            safe_bind (hset _ _ (by decide)) (fun _ => hset _ _ (by decide)))))))
  · exact hset _ _ (by decide)
  · exact hset _ _ (by decide)
  · -- generic
    unfold visitGenericDecl checkDecl
    exact safe_bind (safe_forEach (fun _ => safe_ite _ (hrun _) (safe_pure ())) _)
      (fun _ => hensure _ _)
  · exact safe_pure ()
  · exact safe_pure ()
  · exact safe_pure ()
  · -- extension
    unfold visitExtensionDecl
    exact safe_bind (safe_IsChecked _ _) (fun _ => safe_ite _ (safe_pure ())
      (safe_bind (hset _ _ (by decide)) (fun _ =>
        safe_bind (hrun _) (fun _ =>
          safe_bind (hset _ _ (by decide)) (fun _ =>
            safe_bind (safe_forEach (fun _ => hensure _ _) _) (fun _ =>
              hset _ _ (by decide)))))))
  · exact hrun _
  · exact safe_pure ()
  · exact safe_pure ()
  · exact safe_pure ()

theorem safe_checker (program : Program) (fuel : Nat) :
    (∀ d s, Safe (EnsureDecl program fuel d s))
    ∧ (∀ d, Safe (dispatchDecl program fuel d))
    ∧ (∀ d, Safe (EnusreAllDeclsRec program fuel d)) := by
  induction fuel with
  | zero =>
    refine ⟨fun d s => ?_, fun d => ?_, fun d => ?_⟩
    · unfold EnsureDecl; exact safe_outOfFuel
    · unfold dispatchDecl; exact safe_outOfFuel
    · unfold EnusreAllDeclsRec; exact safe_outOfFuel
  | succ n ih =>
    obtain ⟨hensure, hdispatch, hall⟩ := ih
    refine ⟨fun d s => ?_, fun d => ?_, fun d => ?_⟩
    · unfold EnsureDecl
      refine safe_bind (safe_IsChecked _ _) (fun _ => safe_ite _ (safe_pure ()) ?_)
      refine safe_bind (safe_checkStateIs _ _) (fun _ => safe_ite _ (safe_throw _) ?_)
      refine safe_bind (safe_IsChecked _ _) (fun _ => ?_)
      refine safe_bind (safe_ite _ (safe_SetCheckState _ _ (by decide)) (safe_pure ()))
        (fun _ => ?_)
      exact safe_bind (hdispatch d) (fun _ => safe_SetCheckState _ _ (by decide))
    · unfold dispatchDecl
      exact safe_bind (safe_recordDispatch d)
        (fun _ => safe_visitDecl hensure hdispatch hall program d)
    · unfold EnusreAllDeclsRec
      exact safe_bind (hensure d _) (fun _ => safe_ite _ (safe_forEach hall _) (safe_pure ()))

/-- C8: `EnsureDecl(decl, state)` on a declaration in state `CheckingHeader`,
asked for `CheckedHeader` or `Checked`, throws the circularity signal and leaves
the whole state unchanged. Checking `typedef A B; typedef B A;` ends with this
signal: the module dispatches the first typedef, whose type expression
dispatches the second, whose type expression re-enters the first while it is
still in `CheckingHeader`. -/
theorem circularity_signal (program : Program) (fuel : Nat) (decl : DeclId)
    (state : DeclCheckState) (w : World)
    (hstate : w.checkState decl = DeclCheckState.CheckingHeader)
    (htarget : state = DeclCheckState.CheckedHeader ∨ state = DeclCheckState.Checked) :
    EnsureDecl program (fuel + 1) decl state w = (Outcome.thrown Signal.circularity, w)
    ∧ (checkTranslationUnit circularTypedefs (fuel + 7) uncheckedWorld).1
        = Outcome.thrown Signal.circularity
    ∧ (checkTranslationUnit circularTypedefs (fuel + 7) uncheckedWorld).2.log
        = [Event.SetCheckState 0 DeclCheckState.Unchecked DeclCheckState.CheckingHeader,
           Event.dispatch 0,
           Event.SetCheckState 1 DeclCheckState.Unchecked DeclCheckState.CheckingHeader,
           Event.dispatch 1,
           Event.SetCheckState 1 DeclCheckState.CheckingHeader DeclCheckState.CheckingHeader,
           Event.SetCheckState 2 DeclCheckState.Unchecked DeclCheckState.CheckingHeader,
           Event.dispatch 2,
           Event.SetCheckState 2 DeclCheckState.CheckingHeader DeclCheckState.CheckingHeader]
    ∧ (checkTranslationUnit circularTypedefs (fuel + 7) uncheckedWorld).2.checkState 1
        = DeclCheckState.CheckingHeader := by
  refine ⟨?_, rfl, rfl, rfl⟩
  rcases htarget with h | h <;>
    simp [EnsureDecl, DeclCheck.bind_apply, IsChecked, checkStateIs, hstate, h,
      DeclCheckState.toNat, DeclCheck.throw]

/-- Witness for `circularity_signal`: the first typedef of
`typedef A B; typedef B A;` is in `CheckingHeader` and is asked for
`CheckedHeader`. -/
theorem circularity_signal_witness :
    EnsureDecl circularTypedefs 1 1 DeclCheckState.CheckedHeader
        { checkState := fun d =>
            if d = 1 then DeclCheckState.CheckingHeader else DeclCheckState.Unchecked }
      = (Outcome.thrown Signal.circularity,
        { checkState := fun d =>
            if d = 1 then DeclCheckState.CheckingHeader else DeclCheckState.Unchecked }) :=
  (circularity_signal circularTypedefs 0 1 DeclCheckState.CheckedHeader
    { checkState := fun d =>
        if d = 1 then DeclCheckState.CheckingHeader else DeclCheckState.Unchecked }
    rfl (Or.inl rfl)).1

/-- Witness for `ensureDecl_reached_is_noop`: a checked struct is asked for
`CheckedHeader`. -/
theorem ensureDecl_reached_is_noop_witness :
    EnsureDecl emptyStruct 1 1 DeclCheckState.CheckedHeader
        { checkState := fun _ => DeclCheckState.Checked }
      = (Outcome.ok (), { checkState := fun _ => DeclCheckState.Checked }) :=
  (ensureDecl_reached_is_noop emptyStruct 0 1 DeclCheckState.CheckedHeader
    { checkState := fun _ => DeclCheckState.Checked } (by decide)).1

/-- C10 (as stated) fails: `EnsureDecl` on an unchecked `struct` assigns
`Checked` to it while its state is `CheckingHeader`. -/
theorem struct_checked_from_checkingHeader_counterexample :
    (EnsureDecl emptyStruct 2 1 DeclCheckState.Checked uncheckedWorld).2.log
      = [Event.SetCheckState 1 DeclCheckState.Unchecked DeclCheckState.CheckingHeader,
         Event.dispatch 1,
         Event.SetCheckState 1 DeclCheckState.CheckingHeader DeclCheckState.Checked,
         Event.SetCheckState 1 DeclCheckState.Checked DeclCheckState.Checked] := by
  rfl

theorem EnsureDecl_of_unchecked (program : Program) (n : Nat) (decl : DeclId)
    (state : DeclCheckState) (w : World)
    (h0 : w.checkState decl = DeclCheckState.Unchecked)
    (hs : state ≠ DeclCheckState.Unchecked) :
    EnsureDecl program (n + 1) decl state w
      = (dispatchDecl program n decl >>= fun _ => SetCheckState decl DeclCheckState.Checked)
          (SetCheckState decl DeclCheckState.CheckingHeader w).2 := by
  cases state with
  | Unchecked => exact absurd rfl hs
  | CheckingHeader =>
    simp [EnsureDecl, DeclCheck.bind_apply, IsChecked, checkStateIs, h0, DeclCheckState.toNat]
    rfl
  | CheckedHeader =>
    simp [EnsureDecl, DeclCheck.bind_apply, IsChecked, checkStateIs, h0, DeclCheckState.toNat]
    rfl
  | Checked =>
    simp [EnsureDecl, DeclCheck.bind_apply, IsChecked, checkStateIs, h0, DeclCheckState.toNat]
    rfl

/-! ## The state from which `Checked` is assigned -/

theorem headerRun_weaken {d : DeclId} {p q p' q' : Prop} {α : Type} {m : DeclCheck α}
    (h : HeaderRun d p q m) (hp : p → p') (hq : q' → q) : HeaderRun d p' q' m := by
  intro w hw
  obtain ⟨hlog, hpost⟩ := h w (fun hp0 => hw (hp hp0))
  exact ⟨hlog, fun a ha hq0 => hpost a ha (hq hq0)⟩

theorem headerRun_of_unchanged {d : DeclId} {p : Prop} {α : Type} {m : DeclCheck α}
    (hstate : ∀ w, (m w).2.checkState = w.checkState)
    (hlog : ∀ w, ∃ new, (m w).2.log = w.log ++ new
      ∧ ∀ x old s, Event.SetCheckState x old s ∉ new) : HeaderRun d p p m := by
  intro w hw
  obtain ⟨new, hnew, hnone⟩ := hlog w
  refine ⟨⟨new, hnew, fun old hmem => absurd hmem (hnone d old _)⟩, ?_⟩
  intro a _ hp
  rw [hstate w]
  exact hw hp

theorem headerRun_pure {d : DeclId} {p : Prop} {α : Type} (a : α) :
    HeaderRun d p p (pure a : DeclCheck α) :=
  headerRun_of_unchanged (fun _ => rfl) (fun w => ⟨[], by simp [DeclCheck.pure_apply], by simp⟩)

theorem headerRun_throw {d : DeclId} {p q : Prop} {α : Type} (s : Signal) :
    HeaderRun d p q (DeclCheck.throw s : DeclCheck α) := by
  intro w _
  refine ⟨⟨[], by simp [DeclCheck.throw], by simp⟩, ?_⟩
  intro a ha
  cases ha

theorem headerRun_outOfFuel {d : DeclId} {p q : Prop} {α : Type} :
    HeaderRun d p q (DeclCheck.outOfFuel : DeclCheck α) := by
  intro w _
  refine ⟨⟨[], by simp [DeclCheck.outOfFuel], by simp⟩, ?_⟩
  intro a ha
  cases ha

theorem headerRun_bind {d : DeclId} {p q r : Prop} {α β : Type} {m : DeclCheck α}
    {f : α → DeclCheck β} (hm : HeaderRun d p q m) (hf : ∀ a, HeaderRun d q r (f a)) :
    HeaderRun d p r (m >>= f) := by
  intro w hw
  obtain ⟨⟨new1, hlog1, hnew1⟩, hpost1⟩ := hm w hw
  rw [DeclCheck.bind_apply]
  cases hmw : m w with
  | mk out w1 =>
    rw [hmw] at hlog1 hpost1
    cases out with
    | ok a =>
      obtain ⟨⟨new2, hlog2, hnew2⟩, hpost2⟩ := hf a w1 (fun hq => hpost1 a rfl hq)
      refine ⟨⟨new1 ++ new2, ?_, ?_⟩, hpost2⟩
      · show (f a w1).2.log = _
        rw [hlog2, hlog1, List.append_assoc]
      · intro old hmem
        rcases List.mem_append.mp hmem with h | h
        · exact hnew1 old h
        · exact hnew2 old h
    | thrown s =>
      refine ⟨⟨new1, hlog1, hnew1⟩, ?_⟩
      intro a ha
      cases ha
    | outOfFuel =>
      refine ⟨⟨new1, hlog1, hnew1⟩, ?_⟩
      intro a ha
      cases ha

theorem headerRun_IsChecked {d : DeclId} {p : Prop} (x : DeclId) (s : DeclCheckState) :
    HeaderRun d p p (IsChecked x s) :=
  headerRun_of_unchanged (fun _ => rfl) (fun w => ⟨[], by simp [IsChecked], by simp⟩)

theorem headerRun_checkStateIs {d : DeclId} {p : Prop} (x : DeclId) (s : DeclCheckState) :
    HeaderRun d p p (checkStateIs x s) :=
  headerRun_of_unchanged (fun _ => rfl) (fun w => ⟨[], by simp [checkStateIs], by simp⟩)

theorem headerRun_GetErrorCount {d : DeclId} {p : Prop} : HeaderRun d p p GetErrorCount :=
  headerRun_of_unchanged (fun _ => rfl) (fun w => ⟨[], by simp [GetErrorCount], by simp⟩)

theorem headerRun_reportError {d : DeclId} {p : Prop} : HeaderRun d p p reportError :=
  headerRun_of_unchanged (fun _ => rfl) (fun w => ⟨[], by simp [Slang.reportError], by simp⟩)

theorem headerRun_recordDispatch {d : DeclId} {p : Prop} (x : DeclId) :
    HeaderRun d p p (recordDispatch x) :=
  headerRun_of_unchanged (fun _ => rfl)
    (fun w => ⟨[Event.dispatch x], rfl, by simp⟩)

/-- An assignment to the state of another declaration. -/
theorem headerRun_set_other {d x : DeclId} {p : Prop} (s : DeclCheckState) (hx : x ≠ d) :
    HeaderRun d p p (SetCheckState x s) := by
  intro w hw
  refine ⟨⟨[Event.SetCheckState x (w.checkState x) s], rfl, ?_⟩, ?_⟩
  · intro old hmem
    simp only [List.mem_singleton, Event.SetCheckState.injEq] at hmem
    exact absurd hmem.1.symm hx
  · intro a _ hp
    show (if d = x then s else w.checkState d).headerChecked
    rw [if_neg (fun h => hx h.symm)]
    exact hw hp

/-- An assignment of a state before `Checked` to the declaration itself. -/
theorem headerRun_set_below {d : DeclId} {p : Prop} (s : DeclCheckState)
    (hs : s ≠ DeclCheckState.Checked) : HeaderRun d p False (SetCheckState d s) := by
  intro w _
  refine ⟨⟨[Event.SetCheckState d (w.checkState d) s], rfl, ?_⟩, ?_⟩
  · intro old hmem
    simp only [List.mem_singleton, Event.SetCheckState.injEq] at hmem
    exact absurd hmem.2.2.symm hs
  · intro a _ hq
    exact absurd hq id

/-- The assignment of `CheckedHeader` to the declaration itself. -/
theorem headerRun_set_header {d : DeclId} {p q : Prop} :
    HeaderRun d p q (SetCheckState d DeclCheckState.CheckedHeader) := by
  intro w _
  refine ⟨⟨[Event.SetCheckState d (w.checkState d) DeclCheckState.CheckedHeader], rfl, ?_⟩, ?_⟩
  · intro old hmem
    simp only [List.mem_singleton, Event.SetCheckState.injEq] at hmem
    exact absurd hmem.2.2 (by decide)
  · intro a _ _
    show (if d = d then DeclCheckState.CheckedHeader else w.checkState d).headerChecked
    rw [if_pos rfl]
    exact Or.inl rfl

/-- The assignment of `Checked` to the declaration itself, when its header is
checked. -/
theorem headerRun_set_checked {d : DeclId} {q : Prop} :
    HeaderRun d True q (SetCheckState d DeclCheckState.Checked) := by
  intro w hw
  refine ⟨⟨[Event.SetCheckState d (w.checkState d) DeclCheckState.Checked], rfl, ?_⟩, ?_⟩
  · intro old hmem
    simp only [List.mem_singleton, Event.SetCheckState.injEq] at hmem
    rw [hmem.2.1]
    exact hw trivial
  · intro a _ _
    show (if d = d then DeclCheckState.Checked else w.checkState d).headerChecked
    rw [if_pos rfl]
    exact Or.inr rfl

/-- The test `decl->IsChecked(state)` on the declaration itself, for a state
from `CheckedHeader` on: where it succeeds, the header is checked. -/
theorem headerRun_IsChecked_bind {d : DeclId} {p q : Prop} {α : Type} (s : DeclCheckState)
    (hs : s.headerChecked) {f : Bool → DeclCheck α}
    (htrue : HeaderRun d True q (f true)) (hfalse : HeaderRun d p q (f false)) :
    HeaderRun d p q (IsChecked d s >>= f) := by
  intro w hw
  rw [DeclCheck.bind_apply]
  by_cases hc : s.toNat ≤ (w.checkState d).toNat
  · have hreached : (w.checkState d).headerChecked := by
      unfold DeclCheckState.headerChecked at *
      revert hc
      rcases hs with hs | hs <;> subst hs <;> cases w.checkState d <;>
        simp [DeclCheckState.toNat]
    simp only [IsChecked, hc, decide_True]
    exact htrue w (fun _ => hreached)
  · simp only [IsChecked, hc, decide_False]
    exact hfalse w hw

theorem headerRun_ite {d : DeclId} {p q : Prop} {α : Type} (c : Prop) [Decidable c]
    {m1 m2 : DeclCheck α} (h1 : HeaderRun d p q m1) (h2 : HeaderRun d p q m2) :
    HeaderRun d p q (if c then m1 else m2) := by
  split
  · exact h1
  · exact h2

theorem headerRun_forEach {d : DeclId} {p : Prop} {α : Type} {body : α → DeclCheck Unit}
    (l : List α) (hbody : ∀ a ∈ l, HeaderRun d p p (body a)) :
    HeaderRun d p p (forEach body l) := by
  induction l with
  | nil => exact headerRun_pure ()
  | cons a rest ih =>
    exact headerRun_bind (hbody a (List.mem_cons_self a rest))
      (fun _ => ih (fun b hb => hbody b (List.mem_cons_of_mem a hb)))

theorem headerRun_reportErrors {d : DeclId} {p : Prop} (n : Nat) :
    HeaderRun d p p (reportErrors n) := by
  induction n with
  | zero => exact headerRun_pure ()
  | succ k ih => exact headerRun_bind headerRun_reportError (fun _ => ih)

theorem headerRun_runEffects {d : DeclId} {p : Prop} {ensure : EnsureFn} {dispatch : DispatchFn}
    (hensure : ∀ x s, HeaderRun d p p (ensure x s)) (hdispatch : ∀ x, HeaderRun d p p (dispatch x))
    (effects : List Effect) : HeaderRun d p p (runEffects ensure dispatch effects) := by
  induction effects with
  | nil => exact headerRun_pure ()
  | cons e rest ih =>
    cases e with
    | EnsureDecl decl state => exact headerRun_bind (hensure decl state) (fun _ => ih)
    | error => exact headerRun_bind headerRun_reportError (fun _ => ih)
    | DeclStmt decl => exact headerRun_bind (hdispatch decl) (fun _ => ih)
    | DeclGroupStmt decls =>
      exact headerRun_bind (headerRun_forEach decls (fun x _ => hensure x DeclCheckState.Checked))
        (fun _ => ih)

/-- `VisitFunctionDeclaration` on the declaration itself ends with its header
checked. -/
theorem headerRun_VisitFunctionDeclaration_same {d : DeclId} {ensure : EnsureFn}
    {dispatch : DispatchFn}
    (hensure : ∀ x s, HeaderRun d False False (ensure x s))
    (hdispatch : ∀ x, HeaderRun d False False (dispatch x)) (program : Program) :
    HeaderRun d False True (VisitFunctionDeclaration ensure dispatch program d) := by
  unfold VisitFunctionDeclaration
  refine headerRun_IsChecked_bind _ (Or.inl rfl) (headerRun_weaken (headerRun_pure ()) id id) ?_
  simp only [Bool.false_eq_true, if_false]
  refine headerRun_bind (headerRun_set_below _ (by decide)) (fun _ => ?_)
  refine headerRun_bind (headerRun_runEffects hensure hdispatch _) (fun _ => ?_)
  refine headerRun_bind (headerRun_forEach _ (fun para _ => ?_)) (fun _ => ?_)
  · exact headerRun_bind (hensure _ _)
      (fun _ => headerRun_ite _ headerRun_reportError (headerRun_pure ()))
  · exact headerRun_bind headerRun_set_header
      (fun _ => headerRun_ite _ (headerRun_pure ()) (headerRun_reportErrors _))

theorem headerRun_VisitFunctionDeclaration {d : DeclId} {ensure : EnsureFn}
    {dispatch : DispatchFn}
    (hensure : ∀ x s p, HeaderRun d p p (ensure x s))
    (hdispatch : ∀ x p, HeaderRun d p p (dispatch x)) (program : Program) (x : DeclId)
    (p : Prop) : HeaderRun d p p (VisitFunctionDeclaration ensure dispatch program x) := by
  by_cases hx : x = d
  · subst hx
    exact headerRun_weaken (headerRun_VisitFunctionDeclaration_same (fun y s => hensure y s False)
      (fun y => hdispatch y False) program) False.elim (fun _ => trivial)
  · unfold VisitFunctionDeclaration
    refine headerRun_bind (headerRun_IsChecked _ _)
      (fun checked => headerRun_ite _ (headerRun_pure ()) ?_)
    refine headerRun_bind (headerRun_set_other _ hx) (fun _ => ?_)
    refine headerRun_bind (headerRun_runEffects (fun y s => hensure y s p)
      (fun y => hdispatch y p) _) (fun _ => ?_)
    refine headerRun_bind (headerRun_forEach _ (fun para _ => ?_)) (fun _ => ?_)
    · exact headerRun_bind (hensure _ _ p)
        (fun _ => headerRun_ite _ headerRun_reportError (headerRun_pure ()))
    · exact headerRun_bind (headerRun_set_other _ hx)
        (fun _ => headerRun_ite _ (headerRun_pure ()) (headerRun_reportErrors _))

/-- The visitor of a declaration other than `d`. -/
theorem headerRun_visitDecl_other {d : DeclId} {ensure : EnsureFn}
    {dispatch ensureAll : DispatchFn} (program : Program)
    (hd : (program.decl d).kind.hasHeaderState = true)
    (hensure : ∀ x s p, HeaderRun d p p (ensure x s))
    (hdispatch : ∀ x p, HeaderRun d p p (dispatch x))
    (hall : ∀ x p, HeaderRun d p p (ensureAll x)) (x : DeclId) (hx : x ≠ d) (p : Prop) :
    HeaderRun d p p (visitDecl ensure dispatch ensureAll program x) := by
  have hrun := fun effects =>
    headerRun_runEffects (fun y s => hensure y s p) (fun y => hdispatch y p) effects
  have hset := fun (s : DeclCheckState) => headerRun_set_other (p := p) s hx
  have hloop : ∀ (l : List DeclId) (s : DeclCheckState),
      HeaderRun d p p (forEach (fun y => ensure y s) l) :=
    fun l s => headerRun_forEach l (fun y _ => hensure y s p)
  unfold visitDecl
  split
  · -- module
    unfold visitModuleDecl checkDecl
    refine headerRun_bind (hloop _ _) (fun _ => ?_)
    refine headerRun_bind (hloop _ _) (fun _ => ?_)
    refine headerRun_bind (hloop _ _) (fun _ => ?_)
    refine headerRun_bind (hloop _ _) (fun _ => ?_)
    refine headerRun_bind (hloop _ _) (fun _ => ?_)
    refine headerRun_bind (headerRun_forEach _ (fun func _ => ?_)) (fun _ => ?_)
    · exact headerRun_bind (headerRun_IsChecked _ _) (fun _ => headerRun_ite _
        (headerRun_VisitFunctionDeclaration hensure hdispatch program func p) (headerRun_pure ()))
    refine headerRun_bind (hloop _ _) (fun _ => ?_)
    refine headerRun_bind headerRun_GetErrorCount
      (fun _ => headerRun_ite _ (headerRun_pure ()) ?_)
    refine headerRun_bind (headerRun_forEach _ (fun y _ => hall y p)) (fun _ => ?_)
    exact headerRun_forEach _ (fun y _ => hrun _)
  · -- import
    unfold visitImportDecl
    exact headerRun_bind (headerRun_IsChecked _ _) (fun _ => headerRun_ite _ (headerRun_pure ())
      (headerRun_ite _ (headerRun_pure ()) (hset _)))
  · -- typedef
    unfold visitTypeDefDecl
    exact headerRun_bind (headerRun_IsChecked _ _) (fun _ => headerRun_ite _ (headerRun_pure ())
      (headerRun_bind (hset _) (fun _ => headerRun_bind (hrun _) (fun _ => hset _))))
  · -- struct
    unfold visitStructDecl checkDecl
    exact headerRun_bind (headerRun_IsChecked _ _) (fun _ => headerRun_ite _ (headerRun_pure ())
      (headerRun_bind (hset _) (fun _ => hloop _ _)))
  · -- class
    unfold visitClassDecl
    refine headerRun_bind (headerRun_IsChecked _ _) (fun _ => headerRun_ite _ (headerRun_pure ())
      (headerRun_bind (hset _) (fun _ => headerRun_forEach _ (fun field hfield => ?_))))
    have hkind : (program.decl field).kind = DeclKind.StructField := by
      simpa [Program.getMembersOfType] using (List.mem_filter.mp hfield).2
    have hne : field ≠ d := by
      intro h
      rw [h] at hkind
      rw [hkind] at hd
      exact absurd hd (by decide)
    exact headerRun_bind (hrun _) (fun _ => headerRun_set_other _ hne)
  · exact headerRun_pure ()
  · -- struct field
    unfold visitStructField
    exact headerRun_bind (hrun _) (fun _ => hset _)
  · -- variable
    unfold visitVariable
    exact headerRun_bind (hrun _) (fun _ => hset _)
  · -- parameter
    exact hrun _
  · -- function
    unfold visitFuncDecl
    refine headerRun_bind (headerRun_IsChecked _ _)
      (fun _ => headerRun_ite _ (headerRun_pure ()) ?_)
    refine headerRun_bind (headerRun_VisitFunctionDeclaration hensure hdispatch program x p)
      (fun _ => headerRun_bind (hset _) (fun _ => ?_))
    split
    · exact hrun _
    · exact headerRun_pure ()
  · -- constructor
    unfold visitConstructorDecl
    exact headerRun_bind (headerRun_IsChecked _ _) (fun _ => headerRun_ite _ (headerRun_pure ())
      (headerRun_bind (hset _) (fun _ =>
        headerRun_bind (headerRun_forEach _ (fun _ _ => hrun _)) (fun _ =>
          headerRun_bind (hset _) (fun _ => hset _)))))
  · -- subscript
    unfold visitSubscriptDecl
    exact headerRun_bind (headerRun_IsChecked _ _) (fun _ => headerRun_ite _ (headerRun_pure ())
      (headerRun_bind (hset _) (fun _ =>
        headerRun_bind (headerRun_forEach _ (fun _ _ => hrun _)) (fun _ =>
          headerRun_bind (hrun _) (fun _ =>
            headerRun_bind (hset _) (fun _ => hset _))))))
  · exact hset _
  · exact hset _
  · -- generic
    unfold visitGenericDecl checkDecl
    exact headerRun_bind
      (headerRun_forEach _ (fun _ _ => headerRun_ite _ (hrun _) (headerRun_pure ())))
      (fun _ => hensure _ _ p)
  · exact headerRun_pure ()
  · exact headerRun_pure ()
  · exact headerRun_pure ()
  · -- extension
    unfold visitExtensionDecl
    exact headerRun_bind (headerRun_IsChecked _ _) (fun _ => headerRun_ite _ (headerRun_pure ())
      (headerRun_bind (hset _) (fun _ =>
        headerRun_bind (hrun _) (fun _ =>
          headerRun_bind (hset _) (fun _ =>
            headerRun_bind (hloop _ _) (fun _ => hset _))))))
  · exact hrun _
  · exact headerRun_pure ()
  · exact headerRun_pure ()
  · exact headerRun_pure ()

/-- The visitor of the declaration `d` itself, a function, an extension, a
constructor or a subscript: it assigns `Checked` to `d` only when the header of
`d` is checked, and it ends with the header of `d` checked. -/
theorem headerRun_visitDecl_same {d : DeclId} {ensure : EnsureFn}
    {dispatch ensureAll : DispatchFn} (program : Program)
    (hd : (program.decl d).kind.hasHeaderState = true)
    (hensure : ∀ x s p, HeaderRun d p p (ensure x s))
    (hdispatch : ∀ x p, HeaderRun d p p (dispatch x)) :
    HeaderRun d False True (visitDecl ensure dispatch ensureAll program d) := by
  have hrun := fun (p : Prop) effects =>
    headerRun_runEffects (fun y s => hensure y s p) (fun y => hdispatch y p) effects
  have hdone : HeaderRun d True True (pure () : DeclCheck Unit) := headerRun_pure ()
  unfold visitDecl
  split
  all_goals rename_i hkind
  all_goals try (exfalso; rw [hkind] at hd; exact absurd hd (by decide))
  · -- function
    unfold visitFuncDecl
    refine headerRun_IsChecked_bind _ (Or.inr rfl) (by simpa using hdone) ?_
    simp only [Bool.false_eq_true, if_false]
    refine headerRun_bind (headerRun_VisitFunctionDeclaration_same
      (fun y s => hensure y s False) (fun y => hdispatch y False) program) (fun _ => ?_)
    refine headerRun_bind (headerRun_set_checked (q := True)) (fun _ => ?_)
    split
    · exact hrun True _
    · exact headerRun_pure ()
  · -- constructor
    unfold visitConstructorDecl
    refine headerRun_IsChecked_bind _ (Or.inr rfl) (by simpa using hdone) ?_
    simp only [Bool.false_eq_true, if_false]
    refine headerRun_bind (headerRun_set_below _ (by decide)) (fun _ => ?_)
    refine headerRun_bind (headerRun_forEach _ (fun _ _ => hrun False _)) (fun _ => ?_)
    exact headerRun_bind headerRun_set_header (fun _ => headerRun_set_checked)
  · -- subscript
    unfold visitSubscriptDecl
    refine headerRun_IsChecked_bind _ (Or.inr rfl) (by simpa using hdone) ?_
    simp only [Bool.false_eq_true, if_false]
    refine headerRun_bind (headerRun_set_below _ (by decide)) (fun _ => ?_)
    refine headerRun_bind (headerRun_forEach _ (fun _ _ => hrun False _)) (fun _ => ?_)
    refine headerRun_bind (hrun False _) (fun _ => ?_)
    exact headerRun_bind headerRun_set_header (fun _ => headerRun_set_checked)
  · -- extension
    unfold visitExtensionDecl
    refine headerRun_IsChecked_bind _ (Or.inr rfl) (by simpa using hdone) ?_
    simp only [Bool.false_eq_true, if_false]
    refine headerRun_bind (headerRun_set_below _ (by decide)) (fun _ => ?_)
    refine headerRun_bind (hrun False _) (fun _ => ?_)
    refine headerRun_bind (headerRun_set_header (q := True)) (fun _ => ?_)
    refine headerRun_bind (headerRun_forEach _ (fun y _ => hensure y _ True)) (fun _ => ?_)
    exact headerRun_set_checked

theorem headerRun_checker (program : Program) (d : DeclId)
    (hd : (program.decl d).kind.hasHeaderState = true) (fuel : Nat) :
    (∀ x s p, HeaderRun d p p (EnsureDecl program fuel x s))
    ∧ (∀ x p, HeaderRun d p p (dispatchDecl program fuel x))
    ∧ HeaderRun d False True (dispatchDecl program fuel d)
    ∧ (∀ x p, HeaderRun d p p (EnusreAllDeclsRec program fuel x)) := by
  induction fuel with
  | zero =>
    refine ⟨fun x s p => ?_, fun x p => ?_, ?_, fun x p => ?_⟩
    · unfold EnsureDecl; exact headerRun_outOfFuel
    · unfold dispatchDecl; exact headerRun_outOfFuel
    · unfold dispatchDecl; exact headerRun_outOfFuel
    · unfold EnusreAllDeclsRec; exact headerRun_outOfFuel
  | succ n ih =>
    obtain ⟨hensure, hdispatch, hsame, hall⟩ := ih
    have hvisit : HeaderRun d False True (dispatchDecl program (n + 1) d) := by
      unfold dispatchDecl
      exact headerRun_bind (headerRun_recordDispatch d)
        (fun _ => headerRun_visitDecl_same program hd hensure hdispatch)
    refine ⟨fun x s p => ?_, fun x p => ?_, hvisit, fun x p => ?_⟩
    · unfold EnsureDecl
      refine headerRun_bind (headerRun_IsChecked _ _)
        (fun _ => headerRun_ite _ (headerRun_pure ()) ?_)
      refine headerRun_bind (headerRun_checkStateIs _ _)
        (fun _ => headerRun_ite _ (headerRun_throw _) ?_)
      refine headerRun_bind (headerRun_IsChecked _ _) (fun _ => ?_)
      by_cases hx : x = d
      · subst hx
        have hfirst : ∀ reached : Bool, HeaderRun x p False
            (if (!reached) = true then SetCheckState x DeclCheckState.CheckingHeader
              else pure ()) := by
          intro reached
          exact headerRun_ite _ (headerRun_set_below _ (by decide))
            (headerRun_weaken (headerRun_pure ()) id False.elim)
        refine headerRun_weaken (q := True) ?_ id (fun _ => trivial)
        exact headerRun_bind (hfirst _)
          (fun _ => headerRun_bind hsame (fun _ => headerRun_set_checked))
      · refine headerRun_bind (headerRun_ite _ (headerRun_set_other _ hx) (headerRun_pure ()))
          (fun _ => ?_)
        exact headerRun_bind (hdispatch x p) (fun _ => headerRun_set_other _ hx)
    · by_cases hx : x = d
      · subst hx
        exact headerRun_weaken hvisit False.elim (fun _ => trivial)
      · unfold dispatchDecl
        exact headerRun_bind (headerRun_recordDispatch x)
          (fun _ => headerRun_visitDecl_other program hd hensure hdispatch hall x hx p)
    · unfold EnusreAllDeclsRec
      exact headerRun_bind (hensure x _ p)
        (fun _ => headerRun_ite _ (headerRun_forEach _ (fun y _ => hall y p))
          (headerRun_pure ()))

/-- During `EnsureDecl(decl, state)` the state of `decl` is never assigned
`Checked` while it is `Unchecked`. -/
theorem ensured_not_from_unchecked (program : Program) (fuel : Nat) (decl : DeclId)
    (state : DeclCheckState) (w : World) :
    ∃ new, (EnsureDecl program fuel decl state w).2.log = w.log ++ new
      ∧ ∀ old, Event.SetCheckState decl old DeclCheckState.Checked ∈ new →
          old = DeclCheckState.CheckingHeader ∨ old = DeclCheckState.CheckedHeader
            ∨ old = DeclCheckState.Checked := by
  have hcases : ∀ old : DeclCheckState, old ≠ DeclCheckState.Unchecked →
      old = DeclCheckState.CheckingHeader ∨ old = DeclCheckState.CheckedHeader
        ∨ old = DeclCheckState.Checked := by
    intro old h
    cases old <;> simp at h ⊢
  by_cases h0 : w.checkState decl = DeclCheckState.Unchecked
  · cases fuel with
    | zero => exact ⟨[], by simp [EnsureDecl, DeclCheck.outOfFuel], fun _ h => by simp at h⟩
    | succ n =>
      by_cases hs : state = DeclCheckState.Unchecked
      · refine ⟨[], ?_, fun _ h => by simp at h⟩
        simp [EnsureDecl, DeclCheck.bind_apply, IsChecked, h0, hs, DeclCheck.pure_apply]
      · have hrest := (safe_bind ((safe_checker program n).2.1 decl)
          (fun _ => safe_SetCheckState decl DeclCheckState.Checked (by decide))) decl
          (SetCheckState decl DeclCheckState.CheckingHeader w).2
        obtain ⟨_, new2, hlog, hnew⟩ := hrest
        refine ⟨Event.SetCheckState decl DeclCheckState.Unchecked
          DeclCheckState.CheckingHeader :: new2, ?_, ?_⟩
        · rw [EnsureDecl_of_unchecked program n decl state w h0 hs, hlog]
          simp [SetCheckState, h0]
        · intro old hmem
          rcases List.mem_cons.mp hmem with h | h
          · cases h
          · exact hcases old (hnew (by simp [SetCheckState]) old _ h)
  · obtain ⟨_, new, hlog, hnew⟩ := (safe_checker program fuel).1 decl state decl w
    exact ⟨new, hlog, fun old hmem => hcases old (hnew h0 old _ hmem)⟩

/-- C10 (amended): in every call `EnsureDecl(decl, state)`, from every state,
a declaration `d` that is a function, an extension, a constructor or a
subscript is assigned `Checked` only while its state is `CheckedHeader` (or
already `Checked`, which changes nothing): its state changes to `Checked` only
from `CheckedHeader`, never from `Unchecked` or `CheckingHeader`; this holds for
every such declaration that the call reaches, not only for `decl`. Whatever
the variant of `decl`, its own state is assigned `Checked` during the call only
while it is `CheckingHeader`, `CheckedHeader` or already `Checked`, never while
it is `Unchecked`. -/
theorem checked_only_after_header (program : Program) (fuel : Nat) (decl : DeclId)
    (state : DeclCheckState) (w : World) :
    ∃ new, (EnsureDecl program fuel decl state w).2.log = w.log ++ new
      ∧ (∀ d old, (program.decl d).kind.hasHeaderState = true →
          Event.SetCheckState d old DeclCheckState.Checked ∈ new →
          old = DeclCheckState.CheckedHeader ∨ old = DeclCheckState.Checked)
      ∧ (∀ d old, (program.decl d).kind.hasHeaderState = true →
          Event.SetCheckState d old DeclCheckState.Checked ∈ new →
          old ≠ DeclCheckState.Checked → old = DeclCheckState.CheckedHeader)
      ∧ (∀ old, Event.SetCheckState decl old DeclCheckState.Checked ∈ new →
          old = DeclCheckState.CheckingHeader ∨ old = DeclCheckState.CheckedHeader
            ∨ old = DeclCheckState.Checked)
      ∧ (∀ kind : DeclKind, kind.hasHeaderState = true ↔
          kind = DeclKind.FuncDecl ∨ kind = DeclKind.ExtensionDecl
            ∨ kind = DeclKind.ConstructorDecl ∨ kind = DeclKind.SubscriptDecl) := by
  obtain ⟨new, hlog, hown⟩ := ensured_not_from_unchecked program fuel decl state w
  have hheader : ∀ d old, (program.decl d).kind.hasHeaderState = true →
      Event.SetCheckState d old DeclCheckState.Checked ∈ new →
      old = DeclCheckState.CheckedHeader ∨ old = DeclCheckState.Checked := by
    intro d old hd hmem
    obtain ⟨⟨new', hlog', hnew'⟩, _⟩ :=
      (headerRun_checker program d hd fuel).1 decl state False w False.elim
    have heq : new' = new := List.append_cancel_left (hlog'.symm.trans hlog)
    subst heq
    exact hnew' old hmem
  refine ⟨new, hlog, hheader, ?_, hown, ?_⟩
  · intro d old hd hmem hne
    rcases hheader d old hd hmem with h | h
    · exact h
    · exact absurd h hne
  · intro kind
    cases kind <;> simp [DeclKind.hasHeaderState]

/-- The run of `EnsureDecl` on the unchecked function of `void f() {}`: the
function is assigned `Checked` while it is `CheckedHeader`, and once more by
`EnsureDecl` while it is `Checked`. -/
theorem function_checked_from_checkedHeader :
    (EnsureDecl emptyFunction 2 1 DeclCheckState.Checked uncheckedWorld).2.log
      = [Event.SetCheckState 1 DeclCheckState.Unchecked DeclCheckState.CheckingHeader,
         Event.dispatch 1,
         Event.SetCheckState 1 DeclCheckState.CheckingHeader DeclCheckState.CheckingHeader,
         Event.SetCheckState 1 DeclCheckState.CheckingHeader DeclCheckState.CheckedHeader,
         Event.SetCheckState 1 DeclCheckState.CheckedHeader DeclCheckState.Checked,
         Event.SetCheckState 1 DeclCheckState.Checked DeclCheckState.Checked] := by
  rfl

/-! ## Module checking: which declarations end up checked -/

theorem grows_refl (w : World) : Grows w w := fun _ h => h

theorem grows_trans {w w1 w2 : World} (h1 : Grows w w1) (h2 : Grows w1 w2) : Grows w w2 :=
  fun d h => h2 d (h1 d h)

theorem steady_pure {α : Type} (a : α) : Steady (pure a : DeclCheck α) :=
  fun w => grows_refl w

theorem grows_bind {α β : Type} {m : DeclCheck α} {f : α → DeclCheck β} {w : World}
    (hm : Grows w (m w).2) (hf : ∀ a, Steady (f a)) : Grows w ((m >>= f) w).2 := by
  rw [DeclCheck.bind_apply]
  cases hmw : m w with
  | mk out w1 =>
    rw [hmw] at hm
    cases out with
    | ok a => exact grows_trans hm (hf a w1)
    | thrown s => exact hm
    | outOfFuel => exact hm

theorem steady_bind {α β : Type} {m : DeclCheck α} {f : α → DeclCheck β} (hm : Steady m)
    (hf : ∀ a, Steady (f a)) : Steady (m >>= f) :=
  fun w => grows_bind (hm w) hf

theorem steady_IsChecked (decl : DeclId) (state : DeclCheckState) :
    Steady (IsChecked decl state) :=
  fun w => grows_refl w

theorem steady_checkStateIs (decl : DeclId) (state : DeclCheckState) :
    Steady (checkStateIs decl state) :=
  fun w => grows_refl w

theorem steady_GetErrorCount : Steady GetErrorCount :=
  fun w => grows_refl w

theorem steady_throw {α : Type} (s : Signal) : Steady (DeclCheck.throw s : DeclCheck α) :=
  fun w => grows_refl w

theorem steady_outOfFuel {α : Type} : Steady (DeclCheck.outOfFuel : DeclCheck α) :=
  fun w => grows_refl w

theorem steady_reportError : Steady reportError :=
  fun _ _ h => h

theorem steady_recordDispatch (decl : DeclId) : Steady (recordDispatch decl) :=
  fun _ _ h => h

theorem steady_SetCheckState_Checked (decl : DeclId) :
    Steady (SetCheckState decl DeclCheckState.Checked) := by
  intro w d h
  show (if d = decl then DeclCheckState.Checked else w.checkState d) = DeclCheckState.Checked
  split
  · rfl
  · exact h

theorem grows_SetCheckState (decl : DeclId) (state : DeclCheckState) (w : World)
    (h : w.checkState decl ≠ DeclCheckState.Checked) :
    Grows w (SetCheckState decl state w).2 := by
  intro d hd
  show (if d = decl then state else w.checkState d) = DeclCheckState.Checked
  split
  · next heq => rw [heq] at hd; exact absurd hd h
  · exact hd

theorem steadyFrom_of_steady {α : Type} {m : DeclCheck α} (w0 : World) (hm : Steady m) :
    SteadyFrom w0 m :=
  fun w h => grows_trans h (hm w)

theorem steadyFrom_bind {α β : Type} {w0 : World} {m : DeclCheck α} {f : α → DeclCheck β}
    (hm : SteadyFrom w0 m) (hf : ∀ a, SteadyFrom w0 (f a)) : SteadyFrom w0 (m >>= f) := by
  intro w hw
  rw [DeclCheck.bind_apply]
  have h1 := hm w hw
  cases hmw : m w with
  | mk out w1 =>
    rw [hmw] at h1
    cases out with
    | ok a => exact hf a w1 h1
    | thrown s => exact h1
    | outOfFuel => exact h1

theorem steadyFrom_ite {α : Type} {w0 : World} (c : Prop) [Decidable c] {m1 m2 : DeclCheck α}
    (h1 : SteadyFrom w0 m1) (h2 : SteadyFrom w0 m2) : SteadyFrom w0 (if c then m1 else m2) := by
  split
  · exact h1
  · exact h2

theorem steadyFrom_SetCheckState {w0 : World} (decl : DeclId) (state : DeclCheckState)
    (h : w0.checkState decl ≠ DeclCheckState.Checked) :
    SteadyFrom w0 (SetCheckState decl state) := by
  intro w hw d hd
  show (if d = decl then state else w.checkState d) = DeclCheckState.Checked
  split
  · next heq => rw [heq] at hd; exact absurd hd h
  · exact hw d hd

theorem steady_unless_reached (decl : DeclId) (state : DeclCheckState) {m : DeclCheck Unit}
    (hm : ∀ w0, w0.checkState decl ≠ DeclCheckState.Checked → SteadyFrom w0 m) :
    Steady (IsChecked decl state >>= fun checked => if checked then pure () else m) := by
  intro w
  rw [DeclCheck.bind_apply]
  by_cases hc : state.toNat ≤ (w.checkState decl).toNat
  · simp [IsChecked, hc]
    exact grows_refl w
  · simp [IsChecked, hc]
    apply hm w _ w (grows_refl w)
    intro h
    rw [h] at hc
    cases state <;> simp [DeclCheckState.toNat] at hc

theorem steady_ite {α : Type} (c : Prop) [Decidable c] {m1 m2 : DeclCheck α} (h1 : Steady m1)
    (h2 : Steady m2) : Steady (if c then m1 else m2) := by
  split
  · exact h1
  · exact h2

theorem steady_forEach {α : Type} {body : α → DeclCheck Unit} (hbody : ∀ a, Steady (body a))
    (l : List α) : Steady (forEach body l) := by
  induction l with
  | nil => exact steady_pure ()
  | cons a rest ih => exact steady_bind (hbody a) (fun _ => ih)

theorem steady_reportErrors (n : Nat) : Steady (reportErrors n) := by
  induction n with
  | zero => exact steady_pure ()
  | succ k ih => exact steady_bind steady_reportError (fun _ => ih)

theorem steady_runEffects {ensure : EnsureFn} {dispatch : DispatchFn}
    (hensure : ∀ d s, Steady (ensure d s)) (hdispatch : ∀ d, Steady (dispatch d))
    (effects : List Effect) : Steady (runEffects ensure dispatch effects) := by
  induction effects with
  | nil => exact steady_pure ()
  | cons e rest ih =>
    cases e with
    | EnsureDecl decl state => exact steady_bind (hensure decl state) (fun _ => ih)
    | error => exact steady_bind steady_reportError (fun _ => ih)
    | DeclStmt decl => exact steady_bind (hdispatch decl) (fun _ => ih)
    | DeclGroupStmt decls =>
      exact steady_bind (steady_forEach (fun d => hensure d DeclCheckState.Checked) decls)
        (fun _ => ih)

theorem steady_VisitFunctionDeclaration {ensure : EnsureFn} {dispatch : DispatchFn}
    (hensure : ∀ d s, Steady (ensure d s)) (hdispatch : ∀ d, Steady (dispatch d))
    (program : Program) (decl : DeclId) :
    Steady (VisitFunctionDeclaration ensure dispatch program decl) := by
  unfold VisitFunctionDeclaration
  refine steady_unless_reached _ _ (fun w0 h0 => ?_)
  refine steadyFrom_bind (steadyFrom_SetCheckState _ _ h0) (fun _ => ?_)
  refine steadyFrom_bind (steadyFrom_of_steady w0 (steady_runEffects hensure hdispatch _))
    (fun _ => ?_)
  refine steadyFrom_bind (steadyFrom_of_steady w0 (steady_forEach (fun para => ?_) _))
    (fun _ => ?_)
  · exact steady_bind (hensure _ _) (fun _ => steady_ite _ steady_reportError (steady_pure ()))
  · exact steadyFrom_bind (steadyFrom_SetCheckState _ _ h0)
      (fun _ => steadyFrom_of_steady w0 (steady_ite _ (steady_pure ()) (steady_reportErrors _)))

theorem steady_visitDecl {ensure : EnsureFn} {dispatch ensureAll : DispatchFn}
    (hensure : ∀ d s, Steady (ensure d s)) (hdispatch : ∀ d, Steady (dispatch d))
    (hall : ∀ d, Steady (ensureAll d)) (program : Program) (decl : DeclId) :
    Steady (visitDecl ensure dispatch ensureAll program decl) := by
  have hrun := fun effects => steady_runEffects hensure hdispatch effects
  have hset := fun (w0 : World) (x : DeclId) (s : DeclCheckState)
      (h : w0.checkState x ≠ DeclCheckState.Checked) =>
    @steadyFrom_SetCheckState w0 x s h
  have hchk := fun (x : DeclId) => steady_SetCheckState_Checked x
  have lift := fun (w0 : World) {α : Type} {m : DeclCheck α} (h : Steady m) =>
    steadyFrom_of_steady w0 h
  unfold visitDecl
  split
  · -- module
    unfold visitModuleDecl checkDecl
    refine steady_bind (steady_forEach (fun _ => hensure _ _) _) (fun _ => ?_)
    refine steady_bind (steady_forEach (fun _ => hensure _ _) _) (fun _ => ?_)
    refine steady_bind (steady_forEach (fun _ => hensure _ _) _) (fun _ => ?_)
    refine steady_bind (steady_forEach (fun _ => hensure _ _) _) (fun _ => ?_)
    refine steady_bind (steady_forEach (fun _ => hensure _ _) _) (fun _ => ?_)
    refine steady_bind (steady_forEach (fun func => ?_) _) (fun _ => ?_)
    · exact steady_bind (steady_IsChecked _ _) (fun _ => steady_ite _
        (steady_VisitFunctionDeclaration hensure hdispatch program func) (steady_pure ()))
    refine steady_bind (steady_forEach (fun _ => hensure _ _) _) (fun _ => ?_)
    refine steady_bind steady_GetErrorCount (fun _ => steady_ite _ (steady_pure ()) ?_)
    refine steady_bind (steady_forEach hall _) (fun _ => ?_)
    exact steady_forEach (fun d => hrun _) _
  · -- import
    unfold visitImportDecl
    exact steady_unless_reached _ _ (fun w0 h0 => steadyFrom_ite _ (lift w0 (steady_pure ()))
      (lift w0 (hchk _)))
  · -- typedef
    unfold visitTypeDefDecl
    exact steady_unless_reached _ _ (fun w0 h0 =>
      steadyFrom_bind (hset w0 _ _ h0) (fun _ => steadyFrom_bind (lift w0 (hrun _))
        (fun _ => lift w0 (hchk _))))
  · -- struct
    unfold visitStructDecl checkDecl
    exact steady_unless_reached _ _ (fun w0 h0 =>
      lift w0 (steady_bind (hchk _) (fun _ => steady_forEach (fun _ => hensure _ _) _)))
  · -- class
    unfold visitClassDecl
    exact steady_unless_reached _ _ (fun w0 h0 =>
      lift w0 (steady_bind (hchk _) (fun _ => steady_forEach
        (fun _ => steady_bind (hrun _) (fun _ => hchk _)) _)))
  · exact steady_pure ()
  · -- struct field
    unfold visitStructField
    exact steady_bind (hrun _) (fun _ => hchk _)
  · -- variable
    unfold visitVariable
    exact steady_bind (hrun _) (fun _ => hchk _)
  · -- parameter
    exact hrun _
  · -- function
    unfold visitFuncDecl
    refine steady_unless_reached _ _ (fun w0 h0 => lift w0 ?_)
    refine steady_bind (steady_VisitFunctionDeclaration hensure hdispatch program decl)
      (fun _ => steady_bind (hchk _) (fun _ => ?_))
    split
    · exact hrun _
    · exact steady_pure ()
  · -- constructor
    unfold visitConstructorDecl
    exact steady_unless_reached _ _ (fun w0 h0 =>
      steadyFrom_bind (hset w0 _ _ h0) (fun _ =>
        steadyFrom_bind (lift w0 (steady_forEach (fun _ => hrun _) _)) (fun _ =>
          steadyFrom_bind (hset w0 _ _ h0) (fun _ => lift w0 (hchk _)))))
  · -- subscript
    unfold visitSubscriptDecl
    exact steady_unless_reached _ _ (fun w0 h0 =>
      steadyFrom_bind (hset w0 _ _ h0) (fun _ =>
        steadyFrom_bind (lift w0 (steady_forEach (fun _ => hrun _) _)) (fun _ =>
          steadyFrom_bind (lift w0 (hrun _)) (fun _ =>
            steadyFrom_bind (hset w0 _ _ h0) (fun _ => lift w0 (hchk _))))))
  · exact hchk _
  · exact hchk _
  · -- generic
    unfold visitGenericDecl checkDecl
    exact steady_bind (steady_forEach (fun _ => steady_ite _ (hrun _) (steady_pure ())) _)
      (fun _ => hensure _ _)
  · exact steady_pure ()
  · exact steady_pure ()
  · exact steady_pure ()
  · -- extension
    unfold visitExtensionDecl
    exact steady_unless_reached _ _ (fun w0 h0 =>
      steadyFrom_bind (hset w0 _ _ h0) (fun _ =>
        steadyFrom_bind (lift w0 (hrun _)) (fun _ =>
          steadyFrom_bind (hset w0 _ _ h0) (fun _ =>
            steadyFrom_bind (lift w0 (steady_forEach (fun _ => hensure _ _) _)) (fun _ =>
              lift w0 (hchk _))))))
  · exact hrun _
  · exact steady_pure ()
  · exact steady_pure ()
  · exact steady_pure ()

theorem steady_checker (program : Program) (fuel : Nat) :
    (∀ d s, Steady (EnsureDecl program fuel d s))
    ∧ (∀ d, Steady (dispatchDecl program fuel d))
    ∧ (∀ d, Steady (EnusreAllDeclsRec program fuel d)) := by
  induction fuel with
  | zero =>
    refine ⟨fun d s => ?_, fun d => ?_, fun d => ?_⟩
    · unfold EnsureDecl; exact steady_outOfFuel
    · unfold dispatchDecl; exact steady_outOfFuel
    · unfold EnusreAllDeclsRec; exact steady_outOfFuel
  | succ n ih =>
    obtain ⟨hensure, hdispatch, hall⟩ := ih
    refine ⟨fun d s => ?_, fun d => ?_, fun d => ?_⟩
    · unfold EnsureDecl
      refine steady_unless_reached _ _ (fun w0 h0 => ?_)
      refine steadyFrom_bind (steadyFrom_of_steady w0 (steady_checkStateIs _ _))
        (fun _ => steadyFrom_ite _ (steadyFrom_of_steady w0 (steady_throw _)) ?_)
      refine steadyFrom_bind (steadyFrom_of_steady w0 (steady_IsChecked _ _)) (fun _ => ?_)
      refine steadyFrom_bind (steadyFrom_ite _ (steadyFrom_SetCheckState _ _ h0)
        (steadyFrom_of_steady w0 (steady_pure ()))) (fun _ => ?_)
      exact steadyFrom_of_steady w0
        (steady_bind (hdispatch d) (fun _ => steady_SetCheckState_Checked _))
    · unfold dispatchDecl
      exact steady_bind (steady_recordDispatch d)
        (fun _ => steady_visitDecl hensure hdispatch hall program d)
    · unfold EnusreAllDeclsRec
      exact steady_bind (hensure d _) (fun _ => steady_ite _ (steady_forEach hall _)
        (steady_pure ()))

theorem DeclCheck.bind_returns {α β : Type} {m : DeclCheck α} {f : α → DeclCheck β}
    {w w' : World} {b : β} (h : (m >>= f) w = (Outcome.ok b, w')) :
    ∃ a w1, m w = (Outcome.ok a, w1) ∧ f a w1 = (Outcome.ok b, w') := by
  rw [DeclCheck.bind_apply] at h
  cases hmw : m w with
  | mk out w1 =>
    rw [hmw] at h
    cases out with
    | ok a => exact ⟨a, w1, rfl, h⟩
    | thrown s => simp at h
    | outOfFuel => simp at h

theorem forEach_ok {α : Type} {body : α → DeclCheck Unit} (P : α → World → Prop)
    (hstable : ∀ a w w', P a w → Grows w w' → P a w')
    (hsteady : ∀ a, Steady (body a)) (l : List α)
    (hbody : ∀ a ∈ l, ∀ w w', body a w = (Outcome.ok (), w') → P a w')
    (w w' : World) (h : forEach body l w = (Outcome.ok (), w')) : ∀ a ∈ l, P a w' := by
  induction l generalizing w with
  | nil => intro a ha; simp at ha
  | cons x rest ih =>
    obtain ⟨_, w1, h1, h2⟩ := DeclCheck.bind_returns (show (body x >>= fun _ =>
      forEach body rest) w = (Outcome.ok (), w') from h)
    intro a ha
    rcases List.mem_cons.mp ha with hx | hr
    · subst hx
      have hg : Grows w1 w' := by
        have := steady_forEach hsteady rest w1
        rw [h2] at this
        exact this
      exact hstable a w1 w' (hbody a (List.mem_cons_self _ _) w w1 h1) hg
    · exact ih (fun a ha => hbody a (List.mem_cons_of_mem _ ha)) w1 h2 a hr

theorem EnsureDecl_ok_checked (program : Program) (fuel : Nat) (decl : DeclId) (w w' : World)
    (h : EnsureDecl program fuel decl DeclCheckState.Checked w = (Outcome.ok (), w')) :
    w'.checkState decl = DeclCheckState.Checked := by
  cases fuel with
  | zero => simp [EnsureDecl, DeclCheck.outOfFuel] at h
  | succ n =>
    unfold EnsureDecl at h
    obtain ⟨checked, w1, h1, h2⟩ := DeclCheck.bind_returns h
    simp only [IsChecked, Prod.mk.injEq, Outcome.ok.injEq] at h1
    obtain ⟨hc, hw⟩ := h1
    subst hw
    cases checked with
    | true =>
      simp only [if_true, DeclCheck.pure_apply, Prod.mk.injEq, true_and] at h2
      subst h2
      have : DeclCheckState.Checked.toNat ≤ (w.checkState decl).toNat := by
        simpa using hc
      revert this
      cases w.checkState decl <;> simp [DeclCheckState.toNat]
    | false =>
      simp only [Bool.false_eq_true, if_false] at h2
      obtain ⟨checking, w2, _, h3⟩ := DeclCheck.bind_returns h2
      cases checking with
      | true => simp [DeclCheck.throw] at h3
      | false =>
        simp only [Bool.false_eq_true, if_false] at h3
        obtain ⟨_, w3, _, h4⟩ := DeclCheck.bind_returns h3
        obtain ⟨_, w4, _, h5⟩ := DeclCheck.bind_returns h4
        obtain ⟨_, w5, _, h6⟩ := DeclCheck.bind_returns h5
        simp only [SetCheckState, Prod.mk.injEq, true_and] at h6
        subst h6
        simp

theorem EnusreAllDeclsRec_ok (program : Program) (fuel : Nat) :
    ∀ (decl : DeclId) (w w' : World),
      EnusreAllDeclsRec program fuel decl w = (Outcome.ok (), w') →
      ∀ d, InTree program decl d → w'.checkState d = DeclCheckState.Checked := by
  induction fuel with
  | zero =>
    intro decl w w' h
    simp [EnusreAllDeclsRec, DeclCheck.outOfFuel] at h
  | succ n ih =>
    intro decl w w' h d hd
    unfold EnusreAllDeclsRec at h
    obtain ⟨_, w1, h1, h2⟩ := DeclCheck.bind_returns h
    have hdecl := EnsureDecl_ok_checked program n decl w w1 h1
    have hsteady : ∀ m, Steady (EnusreAllDeclsRec program n m) := (steady_checker program n).2.2
    cases hd with
    | self =>
      have hg : Grows w1 w' := by
        have := steady_ite ((program.decl decl).kind.isContainerDecl = true)
          (steady_forEach hsteady (program.decl decl).Members) (steady_pure ()) w1
        rw [h2] at this
        exact this
      exact hg decl hdecl
    | member _ m _ hcontainer hmember hrest =>
      rw [if_pos hcontainer] at h2
      exact forEach_ok
        (fun m w => ∀ d, InTree program m d → w.checkState d = DeclCheckState.Checked)
        (fun a w w' hP hg d hd => hg d (hP d hd)) hsteady _
        (fun a _ w w' h => ih a w w' h) w1 w' h2 m hmember d hrest

/-- C11 (amended): when `checkTranslationUnit`, started on a module that is not
yet `Checked`, returns normally and the error count of the sink is zero, every
declaration of the tree under the module (the module and, recursively, the
members of every container declaration) is `Checked`. -/
theorem all_checked_without_error (program : Program) (fuel : Nat) (w : World)
    (hkind : (program.decl program.SyntaxNode).kind = DeclKind.ModuleDecl)
    (hstart : w.checkState program.SyntaxNode ≠ DeclCheckState.Checked)
    (hreturn : (checkTranslationUnit program fuel w).1 = Outcome.ok ())
    (hclean : (checkTranslationUnit program fuel w).2.errorCount = 0) :
    ∀ d, InTree program program.SyntaxNode d →
      (checkTranslationUnit program fuel w).2.checkState d = DeclCheckState.Checked := by
  have hrun : checkTranslationUnit program fuel w
      = (Outcome.ok (), (checkTranslationUnit program fuel w).2) := Prod.ext hreturn rfl
  revert hclean
  generalize (checkTranslationUnit program fuel w).2 = w' at hrun ⊢
  intro herr
  unfold checkTranslationUnit checkDecl at hrun
  have hroot := EnsureDecl_ok_checked program fuel _ w w' hrun
  cases fuel with
  | zero => simp [EnsureDecl, DeclCheck.outOfFuel] at hrun
  | succ n =>
    unfold EnsureDecl at hrun
    obtain ⟨checked, w1, h1, h2⟩ := DeclCheck.bind_returns hrun
    simp only [IsChecked, Prod.mk.injEq, Outcome.ok.injEq] at h1
    obtain ⟨hc, hw⟩ := h1
    subst hw
    have hnot : checked = false := by
      rw [← hc]
      simp only [decide_eq_false_iff_not]
      revert hstart
      cases w.checkState program.SyntaxNode <;> simp [DeclCheckState.toNat]
    subst hnot
    simp only [Bool.false_eq_true, if_false] at h2
    obtain ⟨checking, w2, _, h3⟩ := DeclCheck.bind_returns h2
    cases checking with
    | true => simp [DeclCheck.throw] at h3
    | false =>
      simp only [Bool.false_eq_true, if_false] at h3
      obtain ⟨_, w3, _, h4⟩ := DeclCheck.bind_returns h3
      obtain ⟨_, w4, _, h5⟩ := DeclCheck.bind_returns h4
      obtain ⟨_, w5, h6, h7⟩ := DeclCheck.bind_returns h5
      simp only [SetCheckState, Prod.mk.injEq, true_and] at h7
      have herr5 : w5.errorCount = 0 := by rw [← h7] at herr; exact herr
      have hfinal : Grows w5 w' := by
        have := steady_SetCheckState_Checked program.SyntaxNode w5
        simp only [SetCheckState] at this
        rw [h7] at this
        exact this
      cases n with
      | zero => simp [dispatchDecl, DeclCheck.outOfFuel] at h6
      | succ k =>
        unfold dispatchDecl at h6
        obtain ⟨_, w6, _, h8⟩ := DeclCheck.bind_returns h6
        simp only [visitDecl, hkind] at h8
        unfold visitModuleDecl at h8
        obtain ⟨_, v1, _, g1⟩ := DeclCheck.bind_returns h8
        obtain ⟨_, v2, _, g2⟩ := DeclCheck.bind_returns g1
        obtain ⟨_, v3, _, g3⟩ := DeclCheck.bind_returns g2
        obtain ⟨_, v4, _, g4⟩ := DeclCheck.bind_returns g3
        obtain ⟨_, v5, _, g5⟩ := DeclCheck.bind_returns g4
        obtain ⟨_, v6, _, g6⟩ := DeclCheck.bind_returns g5
        obtain ⟨_, v7, _, g7⟩ := DeclCheck.bind_returns g6
        obtain ⟨errorCount, v8, g8, g9⟩ := DeclCheck.bind_returns g7
        simp only [GetErrorCount, Prod.mk.injEq, Outcome.ok.injEq] at g8
        obtain ⟨he, hv⟩ := g8
        subst hv
        by_cases hzero : errorCount = 0
        · rw [if_neg (not_not.mpr hzero)] at g9
          obtain ⟨_, v9, g10, g11⟩ := DeclCheck.bind_returns g9
          obtain ⟨hensure, hdispatch, hall⟩ := steady_checker program k
          have hmods : Grows v9 w5 := by
            have := steady_forEach
              (fun d => steady_runEffects hensure hdispatch (program.decl d).modifierEffects)
              (program.decl program.SyntaxNode).Members v9
            unfold checkModifiers at g11
            rw [g11] at this
            exact this
          intro d hd
          cases hd with
          | self => exact hroot
          | member _ m _ hcontainer hmember hrest =>
            have := forEach_ok
              (fun m w => ∀ d, InTree program m d → w.checkState d = DeclCheckState.Checked)
              (fun a w w' hP hg d hd => hg d (hP d hd)) hall _
              (fun a _ w w' h => EnusreAllDeclsRec_ok program k a w w' h) v7 v9 g10 m hmember
              d hrest
            exact hfinal d (hmods d this)
        · rw [if_pos hzero] at g9
          simp only [DeclCheck.pure_apply, Prod.mk.injEq, true_and] at g9
          rw [← g9, he] at herr5
          exact absurd herr5 hzero

/-- C11 (as stated) fails: checking `typedef Undefined T; int g;` returns
normally, with one error reported, and leaves the global variable `g`, a member
of the module, `Unchecked`: the error gate of `visitModuleDecl` returns before
`EnusreAllDeclsRec` runs. -/
theorem unchecked_after_error_counterexample :
    (checkTranslationUnit errorAndGlobal 4 uncheckedWorld).1 = Outcome.ok ()
    ∧ InTree errorAndGlobal errorAndGlobal.SyntaxNode 2
    ∧ (checkTranslationUnit errorAndGlobal 4 uncheckedWorld).2.checkState 2
        = DeclCheckState.Unchecked
    ∧ (checkTranslationUnit errorAndGlobal 4 uncheckedWorld).2.errorCount = 1 :=
  ⟨by decide!, InTree.member 0 2 2 rfl (by simp [errorAndGlobal]) (InTree.self 2), by decide!,
    by decide!⟩

/-- Witness for `all_checked_without_error`: after checking
`typedef int T; void f() { int x; }` the function `f` is `Checked`. -/
theorem all_checked_without_error_witness :
    (checkTranslationUnit typedefAndFunction 6 uncheckedWorld).2.checkState 2
      = DeclCheckState.Checked :=
  all_checked_without_error typedefAndFunction 6 uncheckedWorld rfl
    (by simp [uncheckedWorld]) (by decide!) (by decide!) 2
    (InTree.member 0 2 2 rfl (by simp [typedefAndFunction]) (InTree.self 2))

/-- C12 fails on the code: checking `typedef Undefined T; void f() { int x; }`
returns normally with one error; the function `f` is left in `CheckedHeader`, its
visitor is never dispatched and the local variable of its body stays
`Unchecked`, because `EnsureDecl(func)` asks for `CheckedHeader` only, which
`VisitFunctionDeclaration` has already reached. Without the error
(`typedef int T; void f() { int x; }`) the body is checked, by
`EnusreAllDeclsRec` after the error gate. -/
theorem function_body_skipped_after_error :
    (checkTranslationUnit errorBeforeBody 5 uncheckedWorld).1 = Outcome.ok ()
    ∧ (checkTranslationUnit errorBeforeBody 5 uncheckedWorld).2.errorCount = 1
    ∧ (checkTranslationUnit errorBeforeBody 5 uncheckedWorld).2.checkState 2
        = DeclCheckState.CheckedHeader
    ∧ (checkTranslationUnit errorBeforeBody 5 uncheckedWorld).2.checkState 3
        = DeclCheckState.Unchecked
    ∧ (checkTranslationUnit errorBeforeBody 5 uncheckedWorld).2.log
        = [Event.SetCheckState 0 DeclCheckState.Unchecked DeclCheckState.CheckingHeader,
           Event.dispatch 0,
           Event.SetCheckState 1 DeclCheckState.Unchecked DeclCheckState.CheckingHeader,
           Event.dispatch 1,
           Event.SetCheckState 1 DeclCheckState.CheckingHeader DeclCheckState.CheckingHeader,
           Event.SetCheckState 1 DeclCheckState.CheckingHeader DeclCheckState.Checked,
           Event.SetCheckState 1 DeclCheckState.Checked DeclCheckState.Checked,
           Event.SetCheckState 2 DeclCheckState.Unchecked DeclCheckState.CheckingHeader,
           Event.SetCheckState 2 DeclCheckState.CheckingHeader DeclCheckState.CheckedHeader,
           Event.SetCheckState 0 DeclCheckState.CheckingHeader DeclCheckState.Checked]
    ∧ (checkTranslationUnit typedefAndFunction 6 uncheckedWorld).2.checkState 3
        = DeclCheckState.Checked
    ∧ (checkTranslationUnit typedefAndFunction 6 uncheckedWorld).2.log
        = [Event.SetCheckState 0 DeclCheckState.Unchecked DeclCheckState.CheckingHeader,
           Event.dispatch 0,
           Event.SetCheckState 1 DeclCheckState.Unchecked DeclCheckState.CheckingHeader,
           Event.dispatch 1,
           Event.SetCheckState 1 DeclCheckState.CheckingHeader DeclCheckState.CheckingHeader,
           Event.SetCheckState 1 DeclCheckState.CheckingHeader DeclCheckState.Checked,
           Event.SetCheckState 1 DeclCheckState.Checked DeclCheckState.Checked,
           Event.SetCheckState 2 DeclCheckState.Unchecked DeclCheckState.CheckingHeader,
           Event.SetCheckState 2 DeclCheckState.CheckingHeader DeclCheckState.CheckedHeader,
           Event.dispatch 2,
           Event.SetCheckState 2 DeclCheckState.CheckedHeader DeclCheckState.Checked,
           Event.dispatch 3,
           Event.SetCheckState 3 DeclCheckState.Unchecked DeclCheckState.Checked,
           Event.SetCheckState 2 DeclCheckState.Checked DeclCheckState.Checked,
           Event.SetCheckState 0 DeclCheckState.CheckingHeader DeclCheckState.Checked] :=
  ⟨by decide!, by decide!, by decide!, by decide!, by decide!, by decide!, by decide!⟩

/-! ## Coercion: initializer lists, interfaces and conversion constructors -/

theorem DoesTypeConformToInterface_iff (env : Env) (type : Ty) (interfaceDeclRef : DeclRef) :
    DoesTypeConformToInterface env type interfaceDeclRef = true ↔
      ∃ aggTypeDeclRef inheritanceDeclRef, type.asDeclRefType env = some aggTypeDeclRef
        ∧ (env.declKind aggTypeDeclRef.decl).isAggTypeDecl = true
        ∧ inheritanceDeclRef ∈ env.getMembers aggTypeDeclRef
        ∧ env.declKind inheritanceDeclRef.decl = DeclKind.InheritanceDecl
        ∧ (env.getBaseType inheritanceDeclRef).asDeclRefType env = some interfaceDeclRef := by
  unfold DoesTypeConformToInterface
  cases htype : type.asDeclRefType env with
  | none => simp
  | some aggTypeDeclRef =>
    by_cases hagg : (env.declKind aggTypeDeclRef.decl).isAggTypeDecl = true
    · simp only [hagg, if_true, List.any_eq_true, getMembersOfType, List.mem_filter,
        decide_eq_true_eq, Option.some.injEq]
      constructor
      · rintro ⟨inh, ⟨hmem, hkind⟩, hbase⟩
        refine ⟨aggTypeDeclRef, inh, rfl, hagg, hmem, hkind, ?_⟩
        cases hb : (env.getBaseType inh).asDeclRefType env with
        | none => rw [hb] at hbase; simp at hbase
        | some inherited =>
          rw [hb] at hbase
          simp only [decide_eq_true_eq] at hbase
          rw [hbase]
      · rintro ⟨agg, inh, hagg2, _, hmem, hkind, hbase⟩
        subst hagg2
        exact ⟨inh, ⟨hmem, hkind⟩, by rw [hbase]; simp⟩
    · simp only [hagg, Bool.false_eq_true, if_false, false_iff, not_exists, not_and,
        Option.some.injEq]
      rintro agg inh hagg2 h
      subst hagg2
      exact absurd h hagg

theorem TryCoerceImplBody_of_not_list (coerce : CoerceFn) (env : Env) (toType fromType : Ty)
    (e : Expr) (outToExpr outCost : Bool) (hne : toType.Equals fromType = false)
    (hto : toType.isErrorType = false) (hfrom : fromType.isErrorType = false)
    (hlist : e.asInitializerListExpr = none) :
    TryCoerceImplBody coerce env toType outToExpr fromType (some e) outCost
      = (let costOut (cost : Nat) : Option Nat := if outCost then some cost else none
         let toInterface : Bool :=
          match toType.asDeclRefType env with
          | some toTypeDeclRef =>
            decide (env.declKind toTypeDeclRef.decl = DeclKind.InterfaceDecl)
              && DoesTypeConformToInterface env fromType toTypeDeclRef
          | none => false
         if toInterface then
           if outToExpr then
             pure { ok := true, outToExpr := some (CreateImplicitCastExpr env toType e),
                    outCost := costOut env.kConversionCost_CastToInterface }
           else pure { ok := true, outCost := costOut env.kConversionCost_CastToInterface }
         else
           AddTypeOverloadCandidates coerce env toType (conversionContext fromType (some e))
             >>= fun context =>
           match context.bestCandidates, context.bestCandidate with
           | first :: others, _ =>
             if first.status ≠ Status.Appicable then pure { ok := false }
             else
               let cost := minimumConversionCost env (first :: others)
                 env.kConversionCost_GeneralConversion
               if outToExpr then throwSignal Signal.fooBarBaz
               else pure { ok := true, outCost := costOut cost }
           | [], some best =>
             if best.status ≠ Status.Appicable then pure { ok := false }
             else
               let cost := getImplicitConversionCost env best.item.declRef.decl
               if outToExpr then
                 CompleteOverloadCandidate coerce env context best >>= fun e =>
                 pure { ok := true, outToExpr := e, outCost := costOut cost }
               else pure { ok := true, outCost := costOut cost }
           | [], none => pure { ok := false }) := by
  unfold TryCoerceImplBody
  simp only [hne, hto, hfrom, Bool.false_eq_true, if_false, Bool.or_self]
  cases e <;> first | rfl | simp [Expr.asInitializerListExpr] at hlist

theorem TryCoerceImplBody_of_no_expr (coerce : CoerceFn) (env : Env) (toType fromType : Ty)
    (outCost : Bool) (hne : toType.Equals fromType = false)
    (hto : toType.isErrorType = false) (hfrom : fromType.isErrorType = false) :
    TryCoerceImplBody coerce env toType false fromType none outCost
      = (let costOut (cost : Nat) : Option Nat := if outCost then some cost else none
         let toInterface : Bool :=
          match toType.asDeclRefType env with
          | some toTypeDeclRef =>
            decide (env.declKind toTypeDeclRef.decl = DeclKind.InterfaceDecl)
              && DoesTypeConformToInterface env fromType toTypeDeclRef
          | none => false
         if toInterface then pure { ok := true, outCost := costOut env.kConversionCost_CastToInterface }
         else
           AddTypeOverloadCandidates coerce env toType (conversionContext fromType none)
             >>= fun context =>
           match context.bestCandidates, context.bestCandidate with
           | first :: others, _ =>
             if first.status ≠ Status.Appicable then pure { ok := false }
             else
               pure { ok := true, outCost := costOut (minimumConversionCost env (first :: others)
                 env.kConversionCost_GeneralConversion) }
           | [], some best =>
             if best.status ≠ Status.Appicable then pure { ok := false }
             else
               pure { ok := true,
                      outCost := costOut (getImplicitConversionCost env best.item.declRef.decl) }
           | [], none => pure { ok := false }) := by
  unfold TryCoerceImplBody
  simp only [hne, hto, hfrom, Bool.false_eq_true, if_false, Bool.or_self]
  rfl

/-- C13 fails on the code: for `struct U { __init(int x); __init(int y); }` the
two constructors are tied applicable candidates of the conversion from `int`, and
`TryCoerceImpl` with an output expression, hence `Coerce` of the literal `1` to
`U`, ends in `throw "foo bar baz"`. -/
theorem coerce_throws_on_tied_constructors (isRewriteMode : Bool) (fuel : Nat) :
    TryCoerceImpl (coercionEnv isRewriteMode) (fuel + 1) (namedType 90) true intType
        (some (intLiteral 6 1)) false
      = Check.thrown Signal.fooBarBaz []
    ∧ Coerce (coercionEnv isRewriteMode) (fuel + 1) (namedType 90) (intLiteral 6 1)
      = Check.thrown Signal.fooBarBaz [] := by
  cases isRewriteMode <;> exact ⟨rfl, rfl⟩

/-- C15 fails on the code: coercing the initializer list `{1, 2}` to the class
type `C`, or to the interface type `I`, returns true, with an initializer list
of the target type that has no arguments, and `Coerce` reports no type
mismatch. -/
theorem initializer_list_to_class (isRewriteMode : Bool) (fuel : Nat) :
    TryCoerceImpl (coercionEnv isRewriteMode) (fuel + 1) (namedType 70) true Ty.initializerList
        (some exampleInitializerList) true
      = Check.ok { ok := true,
                   outToExpr := some (Expr.InitializerListExpr 9 { type := some (namedType 70) } []),
                   outCost := some kConversionCost_None } []
    ∧ Coerce (coercionEnv isRewriteMode) (fuel + 1) (namedType 70) exampleInitializerList
      = Check.ok (some (Expr.InitializerListExpr 9 { type := some (namedType 70) } [])) []
    ∧ TryCoerceImpl (coercionEnv isRewriteMode) (fuel + 1) (namedType 50) true Ty.initializerList
        (some exampleInitializerList) true
      = Check.ok { ok := true,
                   outToExpr := some (Expr.InitializerListExpr 9 { type := some (namedType 50) } []),
                   outCost := some kConversionCost_None } [] := by
  cases isRewriteMode <;> exact ⟨rfl, rfl, rfl⟩

/-- C16 fails on the code: the only constructor of `struct T { __init(int x); }`
has no implicit-conversion modifier, yet `TryCoerceImpl` from `int` to `T`
returns true with the cost `kConversionCost_Explicit`, `CanCoerce` returns true,
and `Coerce` returns the call of the constructor without a diagnostic. -/
theorem explicit_constructor_converts (isRewriteMode : Bool) (fuel : Nat) :
    (coercionEnv isRewriteMode).implicitConversionModifier 81 = none
    ∧ TryCoerceImpl (coercionEnv isRewriteMode) (fuel + 2) (namedType 80) true intType
        (some (intLiteral 6 1)) true
      = Check.ok { ok := true,
                   outToExpr := some (constructorCall (coercionEnv isRewriteMode) 80 81
                     (namedType 80) (intLiteral 6 1)),
                   outCost := some (coercionEnv isRewriteMode).kConversionCost_Explicit } []
    ∧ CanCoerce (coercionEnv isRewriteMode) (fuel + 1) (namedType 80) intType true
      = Check.ok { ok := true,
                   outCost := some (coercionEnv isRewriteMode).kConversionCost_Explicit } []
    ∧ Coerce (coercionEnv isRewriteMode) (fuel + 2) (namedType 80) (intLiteral 6 1)
      = Check.ok (some (constructorCall (coercionEnv isRewriteMode) 80 81 (namedType 80)
          (intLiteral 6 1))) [] := by
  cases isRewriteMode <;> exact ⟨rfl, rfl, rfl, rfl⟩

/-- C17 (as stated) fails: `Coerce` of the literal `1` to `float` does not
return a type-cast node around the literal. -/
theorem conversion_is_a_call_counterexample :
    ¬ ∃ kind loc type callee,
      Coerce (coercionEnv false) 2 floatType (intLiteral 6 1)
        = Check.ok (some (Expr.TypeCastExpr kind loc type callee [intLiteral 6 1])) [] := by
  rintro ⟨kind, loc, type, callee, h⟩
  have h2 : Coerce (coercionEnv false) 2 floatType (intLiteral 6 1)
      = Check.ok (some (constructorCall (coercionEnv false) 30 31 floatType (intLiteral 6 1))) [] :=
    rfl
  rw [h2] at h
  simp [constructorCall] at h

set_option maxHeartbeats 4000000 in
/-- C17 (amended): `Coerce` of an expression `e` of type `int` (not an
initializer list) to `float`, through the implicit-conversion constructor of
`float` from `int`, returns the call of that constructor on `e`: an `InvokeExpr`
of type `float` at the location of `e`, whose callee is the reference to the
constructor and whose only argument is `e`; no diagnostic is emitted. -/
theorem conversion_is_a_call (isRewriteMode : Bool) (fuel : Nat) (e : Expr)
    (htype : e.type.type = some intType) (hlist : e.asInitializerListExpr = none) :
    Coerce (coercionEnv isRewriteMode) (fuel + 2) floatType e
      = Check.ok (some (constructorCall (coercionEnv isRewriteMode) 30 31 floatType e)) [] := by
  cases e with
  | InitializerListExpr l t a => simp [Expr.asInitializerListExpr] at hlist
  | VarExpr l t n d =>
    obtain ⟨ty, lv⟩ := t
    simp only [Expr.type] at htype
    subst htype
    cases isRewriteMode <;> rfl
  | MemberExpr l t n d b =>
    obtain ⟨ty, lv⟩ := t
    simp only [Expr.type] at htype
    subst htype
    cases isRewriteMode <;> rfl
  | StaticMemberExpr l t n d b =>
    obtain ⟨ty, lv⟩ := t
    simp only [Expr.type] at htype
    subst htype
    cases isRewriteMode <;> rfl
  | DerefExpr l t b =>
    obtain ⟨ty, lv⟩ := t
    simp only [Expr.type] at htype
    subst htype
    cases isRewriteMode <;> rfl
  | OverloadedExpr l t b r =>
    obtain ⟨ty, lv⟩ := t
    simp only [Expr.type] at htype
    subst htype
    cases isRewriteMode <;> rfl
  | ConstantExpr l t v =>
    obtain ⟨ty, lv⟩ := t
    simp only [Expr.type] at htype
    subst htype
    cases isRewriteMode <;> rfl
  | InvokeExpr k l t f a =>
    obtain ⟨ty, lv⟩ := t
    simp only [Expr.type] at htype
    subst htype
    cases isRewriteMode <;> rfl
  | TypeCastExpr k l t f a =>
    obtain ⟨ty, lv⟩ := t
    simp only [Expr.type] at htype
    subst htype
    cases isRewriteMode <;> rfl
  | SharedTypeExpr l t b =>
    obtain ⟨ty, lv⟩ := t
    simp only [Expr.type] at htype
    subst htype
    cases isRewriteMode <;> rfl
  | ParenExpr l t b =>
    obtain ⟨ty, lv⟩ := t
    simp only [Expr.type] at htype
    subst htype
    cases isRewriteMode <;> rfl
  | SwizzleExpr l t b n is =>
    obtain ⟨ty, lv⟩ := t
    simp only [Expr.type] at htype
    subst htype
    cases isRewriteMode <;> rfl

/-- Witness for `conversion_is_a_call`: the literal `1`. -/
theorem conversion_is_a_call_witness :
    Coerce (coercionEnv false) 2 floatType (intLiteral 6 1)
      = Check.ok (some (constructorCall (coercionEnv false) 30 31 floatType (intLiteral 6 1))) [] :=
  conversion_is_a_call false 0 (intLiteral 6 1) rfl rfl

theorem coerceInitializerArgs_spec (coerce : CoerceFn) (outToExpr outCost : Bool)
    (pairs : List (Ty × Expr)) (results : List (CoerceResult × List Diagnostic))
    (hargs : List.Forall₂ (argumentResult coerce outToExpr outCost) pairs results) :
    ∃ ds, coerceInitializerArgs coerce outToExpr outCost pairs
      = Check.ok
          (if results.all (fun r => r.1.ok) then
            some (if outToExpr then results.filterMap (fun r => r.1.outToExpr) else [])
           else none) ds := by
  induction hargs with
  | nil => exact ⟨[], by simp [coerceInitializerArgs, pure]⟩
  | @cons p r pairs results hhead _ ih =>
    obtain ⟨ds, ih⟩ := ih
    obtain ⟨argType, htype, hcall, hexpr⟩ := hhead
    obtain ⟨toType, arg⟩ := p
    simp only at htype hcall
    unfold coerceInitializerArgs
    simp only [htype, hcall]
    show ∃ ds, Check.bind (Check.ok r.1 r.2) _ = _
    cases hok : r.1.ok with
    | false =>
      refine ⟨r.2, ?_⟩
      simp [Check.bind, hok, pure]
    | true =>
      cases outToExpr with
      | false =>
        refine ⟨r.2 ++ ds, ?_⟩
        simp only [Check.bind, hok, Bool.not_true, Bool.false_eq_true, if_false, ih]
        simp [hok]
        rw [hok, Bool.true_and]
      | true =>
        obtain ⟨x, hx⟩ := Option.ne_none_iff_exists'.mp (hexpr rfl hok)
        refine ⟨r.2 ++ (ds ++ []), ?_⟩
        simp only [Check.bind, hok, Bool.not_true, Bool.false_eq_true, if_false, if_true, hx, ih]
        by_cases hall : (results.all fun r => r.1.ok) = true
        · simp [Bind.bind, Check.bind, hall, hok, hx, pure]
        · simp [Bind.bind, Check.bind, hall, hok, hx, pure]

/-- C14: coercing an initializer list with arguments `args` to a struct type
(a type different from the source type, neither being the error type). Let
`results` be what the coercion engine returns on argument `i` and the type of
field `i`, for the `min(n, m)` pairs of a field and an argument. Then the
coercion returns normally; it succeeds iff every one of these coercions
succeeds; and on success the cost is `kConversionCost_None` and the output is a
new initializer list at the location of the old one, of the struct type, whose
arguments are the `min(n, m)` coerced arguments in order. For
`struct S { int a; float b; }` and `{1, 2}` the result has type `S`, first
argument the literal `1` and second argument the conversion of `2` to
`float`. -/
theorem initializer_list_to_struct (coerce : CoerceFn) (env : Env) (toType fromType : Ty)
    (structDeclRef : DeclRef) (loc : SourceLoc) (type : QualType) (args : List Expr)
    (outToExpr outCost : Bool) (results : List (CoerceResult × List Diagnostic))
    (hne : toType.Equals fromType = false) (hto : toType.isErrorType = false)
    (hfrom : fromType.isErrorType = false)
    (hdecl : toType.asDeclRefType env = some structDeclRef)
    (hkind : env.declKind structDeclRef.decl = DeclKind.StructDecl)
    (hargs : List.Forall₂ (argumentResult coerce outToExpr outCost)
      ((fieldTypes env structDeclRef).zip args) results) :
    results.length = min (fieldTypes env structDeclRef).length args.length
    ∧ (∃ ds, TryCoerceImplBody coerce env toType outToExpr fromType
        (some (Expr.InitializerListExpr loc type args)) outCost
      = Check.ok
          { ok := results.all (fun r => r.1.ok),
            outToExpr :=
              if outToExpr ∧ results.all (fun r => r.1.ok) then
                some (Expr.InitializerListExpr loc { type := some toType }
                  (results.filterMap (fun r => r.1.outToExpr)))
              else none,
            outCost :=
              if outCost ∧ results.all (fun r => r.1.ok) then some kConversionCost_None
              else none } ds)
    ∧ ∀ (isRewriteMode : Bool) (fuel : Nat),
        Coerce (coercionEnv isRewriteMode) (fuel + 3) (namedType 60) exampleInitializerList
          = Check.ok (some (Expr.InitializerListExpr 9 { type := some (namedType 60) }
              [intLiteral 6 1,
               constructorCall (coercionEnv isRewriteMode) 30 31 floatType (intLiteral 7 2)])) [] := by
  refine ⟨?_, ?_, fun isRewriteMode fuel => by cases isRewriteMode <;> rfl⟩
  · rw [← hargs.length_eq, List.length_zip]
  · obtain ⟨ds, h⟩ := coerceInitializerArgs_spec coerce outToExpr outCost _ results hargs
    unfold fieldTypes at h
    refine ⟨ds ++ [], ?_⟩
    unfold TryCoerceImplBody
    simp only [hne, hto, hfrom, Bool.false_eq_true, if_false, Bool.or_self, hdecl, hkind,
      if_true, h]
    show Check.bind (Check.ok _ ds) _ = _
    by_cases hall : (results.all fun r => r.1.ok) = true
    · cases outToExpr <;> cases outCost <;> simp [Check.bind, hall, pure]
    · cases outToExpr <;> cases outCost <;> simp [Check.bind, hall, pure]

/-- Witness for `initializer_list_to_struct`: `{1, 2}` coerced to
`struct S { int a; float b; }`. -/
theorem initializer_list_to_struct_witness :
    ∃ ds, TryCoerceImplBody (TryCoerceImpl (coercionEnv false) 2) (coercionEnv false)
        (namedType 60) true Ty.initializerList (some exampleInitializerList) true
      = Check.ok
          { ok := true,
            outToExpr := some (Expr.InitializerListExpr 9 { type := some (namedType 60) }
              [intLiteral 6 1,
               constructorCall (coercionEnv false) 30 31 floatType (intLiteral 7 2)]),
            outCost := some kConversionCost_None } ds :=
  (initializer_list_to_struct (TryCoerceImpl (coercionEnv false) 2) (coercionEnv false)
    (namedType 60) Ty.initializerList { decl := 60 } 9 { type := some Ty.initializerList }
    [intLiteral 6 1, intLiteral 7 2] true true
    [({ ok := true, outToExpr := some (intLiteral 6 1), outCost := some kConversionCost_None }, []),
     ({ ok := true,
        outToExpr := some (constructorCall (coercionEnv false) 30 31 floatType (intLiteral 7 2)),
        outCost := some 400 }, [])]
    rfl rfl rfl rfl rfl
    (List.Forall₂.cons ⟨intType, rfl, rfl, fun _ _ => by simp⟩
      (List.Forall₂.cons ⟨intType, rfl, rfl, fun _ _ => by simp⟩ List.Forall₂.nil))).2.1

theorem Check.bind_ok_pure {α β : Type} (a : α) (ds : List Diagnostic) (f : α → β) :
    (Check.ok a ds >>= fun x => (pure (f x) : Check β)) = Check.ok (f a) ds := by
  show Check.bind (Check.ok a ds) _ = _
  simp [Check.bind, pure]

/-- C18 (as stated) fails: `int` does not conform to the interface
`interface I { __init(int x); }`, yet the coercion of the literal `1` to `I`
succeeds, through the constructor of the interface. -/
theorem interface_constructor_counterexample :
    DoesTypeConformToInterface (coercionEnv false) intType { decl := 50 } = false
    ∧ (coercionEnv false).declKind 50 = DeclKind.InterfaceDecl
    ∧ TryCoerceImpl (coercionEnv false) 2 (namedType 50) true intType (some (intLiteral 6 1)) true
      = Check.ok { ok := true,
                   outToExpr := some (constructorCall (coercionEnv false) 50 51 (namedType 50)
                     (intLiteral 6 1)),
                   outCost := some (coercionEnv false).kConversionCost_Explicit } [] :=
  ⟨rfl, rfl, rfl⟩

/-- C18 (amended): for a target type that refers to an interface `I`, a source
type that differs from it, neither being the error type, and a source
expression that is not an initializer list. The source type conforms iff it is
an aggregate declaration-reference type with an inheritance member whose base
type refers to `I`. If it conforms, the coercion succeeds with cost
`kConversionCost_CastToInterface` and the output is the implicit cast of the
source expression to the interface type. If it does not conform and neither the
interface nor an extension contributes a constructor, the coercion fails. -/
theorem coerce_to_interface (coerce : CoerceFn) (env : Env) (toType fromType : Ty)
    (interfaceDeclRef : DeclRef) (e : Expr) (outToExpr outCost : Bool)
    (hne : toType.Equals fromType = false) (hto : toType.isErrorType = false)
    (hfrom : fromType.isErrorType = false) (hlist : e.asInitializerListExpr = none)
    (hdecl : toType.asDeclRefType env = some interfaceDeclRef)
    (hkind : env.declKind interfaceDeclRef.decl = DeclKind.InterfaceDecl) :
    (DoesTypeConformToInterface env fromType interfaceDeclRef = true ↔
      ∃ aggTypeDeclRef inheritanceDeclRef, fromType.asDeclRefType env = some aggTypeDeclRef
        ∧ (env.declKind aggTypeDeclRef.decl).isAggTypeDecl = true
        ∧ inheritanceDeclRef ∈ env.getMembers aggTypeDeclRef
        ∧ env.declKind inheritanceDeclRef.decl = DeclKind.InheritanceDecl
        ∧ (env.getBaseType inheritanceDeclRef).asDeclRefType env = some interfaceDeclRef)
    ∧ (DoesTypeConformToInterface env fromType interfaceDeclRef = true →
        TryCoerceImplBody coerce env toType outToExpr fromType (some e) outCost
          = Check.ok
              { ok := true,
                outToExpr := if outToExpr then some (CreateImplicitCastExpr env toType e) else none,
                outCost := if outCost then some env.kConversionCost_CastToInterface else none } [])
    ∧ (DoesTypeConformToInterface env fromType interfaceDeclRef = false →
        getMembersOfType env (fun k => decide (k = DeclKind.ConstructorDecl)) interfaceDeclRef = [] →
        env.GetCandidateExtensions interfaceDeclRef = [] →
        TryCoerceImplBody coerce env toType outToExpr fromType (some e) outCost
          = Check.ok { ok := false } []) := by
  refine ⟨DoesTypeConformToInterface_iff env fromType interfaceDeclRef, ?_, ?_⟩
  · intro hconf
    rw [TryCoerceImplBody_of_not_list coerce env toType fromType e outToExpr outCost hne hto hfrom
      hlist]
    simp only [hdecl, hkind, hconf, decide_True, Bool.and_self, if_true]
    cases outToExpr <;> rfl
  · intro hconf hctors hexts
    rw [TryCoerceImplBody_of_not_list coerce env toType fromType e outToExpr outCost hne hto hfrom
      hlist]
    simp only [hdecl, hkind, hconf, decide_True, Bool.and_false, Bool.false_eq_true, if_false]
    have hagg : (env.declKind interfaceDeclRef.decl).isAggTypeDecl = true := by rw [hkind]; rfl
    simp only [AddTypeOverloadCandidates, hdecl, hagg, if_true, AddAggTypeOverloadCandidates,
      hctors, hexts, forEachCandidate]
    rfl

/-- Witness for `coerce_to_interface`: `struct D : I {}` converts to `I`. -/
theorem coerce_to_interface_witness :
    TryCoerceImplBody (TryCoerceImpl (coercionEnv false) 1) (coercionEnv false) (namedType 50) true
        (namedType 55) (some (Expr.VarExpr 6 { type := some (namedType 55) } 1 none)) true
      = Check.ok
          { ok := true,
            outToExpr := some (CreateImplicitCastExpr (coercionEnv false) (namedType 50)
              (Expr.VarExpr 6 { type := some (namedType 55) } 1 none)),
            outCost := some (coercionEnv false).kConversionCost_CastToInterface } [] :=
  (coerce_to_interface (TryCoerceImpl (coercionEnv false) 1) (coercionEnv false) (namedType 50)
    (namedType 55) { decl := 50 } (Expr.VarExpr 6 { type := some (namedType 55) } 1 none) true true
    rfl rfl rfl rfl rfl rfl).2.1 rfl

theorem minimumConversionCost_spec (env : Env) (candidates : List OverloadCandidate) :
    ∀ cost : Nat,
      minimumConversionCost env candidates cost ≤ cost
      ∧ (∀ c ∈ candidates,
          minimumConversionCost env candidates cost
            ≤ getImplicitConversionCost env c.item.declRef.decl)
      ∧ (minimumConversionCost env candidates cost = cost
          ∨ ∃ c ∈ candidates,
              minimumConversionCost env candidates cost
                = getImplicitConversionCost env c.item.declRef.decl) := by
  induction candidates with
  | nil => intro cost; simp [minimumConversionCost]
  | cons x rest ih =>
    intro cost
    unfold minimumConversionCost
    simp only []
    by_cases hlt : getImplicitConversionCost env x.item.declRef.decl < cost
    · rw [if_pos hlt]
      obtain ⟨h1, h2, h3⟩ := ih (getImplicitConversionCost env x.item.declRef.decl)
      refine ⟨by omega, ?_, ?_⟩
      · intro c hc
        rcases List.mem_cons.mp hc with h | h
        · subst h; exact h1
        · exact h2 c h
      · rcases h3 with h | ⟨c, hc, h⟩
        · exact Or.inr ⟨x, List.mem_cons_self _ _, h⟩
        · exact Or.inr ⟨c, List.mem_cons_of_mem _ hc, h⟩
    · rw [if_neg hlt]
      obtain ⟨h1, h2, h3⟩ := ih cost
      refine ⟨h1, ?_, ?_⟩
      · intro c hc
        rcases List.mem_cons.mp hc with h | h
        · subst h; omega
        · exact h2 c h
      · rcases h3 with h | ⟨c, hc, h⟩
        · exact Or.inl h
        · exact Or.inr ⟨c, List.mem_cons_of_mem _ hc, h⟩

/-- C19, the reported cost is not the minimum of the costs of the tied
candidates. The comment in the code says "we will compute a nominal conversion
cost as the minimum over all the conversions available", but the loop starts
from `kConversionCost_GeneralConversion` instead of the cost of a candidate.
The two constructors of `struct U { __init(int x); __init(int y); }` are the
tied applicable candidates of the conversion from `int`, each has
implicit-conversion cost 90000, and `CanCoerce` reports the cost 900, which is
`kConversionCost_GeneralConversion`. The branch for a single candidate reports
the cost of the candidate: for `struct T { __init(int x); }` it is 90000. -/
theorem tied_cost_is_capped :
    AddTypeOverloadCandidates (TryCoerceImpl (coercionEnv false) 0) (coercionEnv false)
        (namedType 90) (conversionContext intType none)
      = Check.ok
          { conversionContext intType none with
            bestCandidates :=
              [{ flavor := Flavor.Func, status := Status.Appicable,
                 item := { declRef := { decl := 91 },
                           breadcrumbs := [{ kind := BreadcrumbKind.Member,
                                             declRef := { decl := 90 } }] },
                 resultType := some (namedType 90) },
               { flavor := Flavor.Func, status := Status.Appicable,
                 item := { declRef := { decl := 93 },
                           breadcrumbs := [{ kind := BreadcrumbKind.Member,
                                             declRef := { decl := 90 } }] },
                 resultType := some (namedType 90) }] } []
    ∧ getImplicitConversionCost (coercionEnv false) 91 = 90000
    ∧ getImplicitConversionCost (coercionEnv false) 93 = 90000
    ∧ (coercionEnv false).kConversionCost_GeneralConversion = 900
    ∧ CanCoerce (coercionEnv false) 1 (namedType 90) intType true
      = Check.ok { ok := true, outCost := some 900 } []
    ∧ getImplicitConversionCost (coercionEnv false) 81 = 90000
    ∧ CanCoerce (coercionEnv false) 1 (namedType 80) intType true
      = Check.ok { ok := true, outCost := some 90000 } [] :=
  ⟨rfl, rfl, rfl, rfl, rfl, rfl, rfl⟩

/-! ## `CanCoerce` against `TryCoerceImpl` -/

theorem CheckRel.pure {α β : Type} {R : α → β → Prop} {a : α} {b : β} (h : R a b) :
    CheckRel R (pure a : Check α) (pure b : Check β) :=
  ⟨h, rfl⟩

theorem CheckRel.same {α : Type} (x : Check α) : CheckRel Eq x x := by
  cases x <;> simp [CheckRel]

theorem CheckRel.bind {α β γ δ : Type} {R : α → β → Prop} {S : γ → δ → Prop}
    {x : Check α} {y : Check β} {f : α → Check γ} {g : β → Check δ}
    (hxy : CheckRel R x y) (hfg : ∀ a b, R a b → CheckRel S (f a) (g b)) :
    CheckRel S (x >>= f) (y >>= g) := by
  show CheckRel S (Check.bind x f) (Check.bind y g)
  cases x with
  | ok a ds =>
    cases y with
    | ok b ds' =>
      obtain ⟨hab, hds⟩ := hxy
      subst hds
      have h := hfg a b hab
      unfold Check.bind
      cases hf : f a <;> cases hg : g b <;> rw [hf, hg] at h <;> simp_all [CheckRel]
    | thrown s ds' => exact absurd hxy (by simp [CheckRel])
    | outOfFuel => exact absurd hxy (by simp [CheckRel])
  | thrown s ds =>
    cases y with
    | ok b ds' => exact absurd hxy (by simp [CheckRel])
    | thrown s' ds' => exact hxy
    | outOfFuel => exact absurd hxy (by simp [CheckRel])
  | outOfFuel =>
    cases y with
    | ok b ds' => exact absurd hxy (by simp [CheckRel])
    | thrown s' ds' => exact absurd hxy (by simp [CheckRel])
    | outOfFuel => trivial

theorem CheckRel.of_ok {α β : Type} {R : α → β → Prop} {x : Check α} {y : Check β} {a : α}
    {ds : List Diagnostic} (h : CheckRel R x y) (hx : x = Check.ok a ds) :
    ∃ b, y = Check.ok b ds ∧ R a b := by
  subst hx
  cases y with
  | ok b ds' => exact ⟨b, by rw [h.2], h.1⟩
  | thrown s ds' => exact absurd h (by simp [CheckRel])
  | outOfFuel => exact absurd h (by simp [CheckRel])

theorem SameQuery.getArgType {c c' : OverloadResolveContext} (h : SameQuery c c') (ii : Nat) :
    c'.getArgType ii = c.getArgType ii := by
  unfold OverloadResolveContext.getArgType
  rw [h.argTypes]
  cases hc : c.argTypes with
  | none => exact absurd hc h.typesGiven
  | some ts => rfl

theorem arity_sameQuery (env : Env) {c c' : OverloadResolveContext} (h : SameQuery c c')
    (candidate : OverloadCandidate) :
    TryCheckOverloadCandidateArity env c' candidate
      = TryCheckOverloadCandidateArity env c candidate := by
  unfold TryCheckOverloadCandidateArity OverloadResolveContext.getArgCount
  simp [h.argCount, h.mode, h.justTrying]

theorem fixity_sameQuery (env : Env) {c c' : OverloadResolveContext} (h : SameQuery c c')
    (candidate : OverloadCandidate) :
    TryCheckOverloadCandidateFixity env c' candidate
      = TryCheckOverloadCandidateFixity env c candidate := by
  unfold TryCheckOverloadCandidateFixity
  simp [h.originalExpr, h.mode, h.justTrying]

theorem checkArgumentTypes_sameQuery (coerce : CoerceFn) (env : Env) (params : List DeclRef)
    {c c' : OverloadResolveContext} (h : SameQuery c c') :
    ∀ (remaining ii : Nat) (candidate : OverloadCandidate),
      CheckRel (fun p q => p.1 = q.1 ∧ p.2.1 = q.2.1 ∧ SameQuery p.2.2 q.2.2)
        (checkArgumentTypes coerce env params remaining ii c candidate)
        (checkArgumentTypes coerce env params remaining ii c' candidate) := by
  intro remaining
  induction remaining with
  | zero =>
    intro ii candidate
    exact CheckRel.pure ⟨rfl, rfl, h⟩
  | succ n ih =>
    intro ii candidate
    unfold checkArgumentTypes
    rw [h.getArgType ii]
    cases c.getArgType ii with
    | none => simp [CheckRel, throwSignal]
    | some argType =>
      cases params[ii]? with
      | none => simp [CheckRel, throwSignal]
      | some param =>
        simp only [h.mode, h.justTrying, h.disallowNestedConversions, h.exactTypes, if_true]
        split
        · exact CheckRel.pure ⟨rfl, rfl, h⟩
        · exact ih _ _

theorem types_sameQuery (coerce : CoerceFn) (env : Env) {c c' : OverloadResolveContext}
    (h : SameQuery c c') (candidate : OverloadCandidate) (hflavor : candidate.flavor = Flavor.Func) :
    CheckRel (fun p q => p.1 = q.1 ∧ p.2.1 = q.2.1 ∧ SameQuery p.2.2 q.2.2)
      (TryCheckOverloadCandidateTypes coerce env c candidate)
      (TryCheckOverloadCandidateTypes coerce env c' candidate) := by
  unfold TryCheckOverloadCandidateTypes OverloadResolveContext.getArgCount
  simp only [hflavor, h.argCount]
  split
  · simp [CheckRel, throwSignal]
  · exact checkArgumentTypes_sameQuery coerce env _ h _ _ _

theorem tryCheck_sameQuery (coerce : CoerceFn) (env : Env) {c c' : OverloadResolveContext}
    (h : SameQuery c c') (candidate : OverloadCandidate) (hflavor : candidate.flavor = Flavor.Func) :
    CheckRel (fun p q => p.1 = q.1 ∧ SameQuery p.2 q.2)
      (TryCheckOverloadCandidate coerce env c candidate)
      (TryCheckOverloadCandidate coerce env c' candidate) := by
  unfold TryCheckOverloadCandidate
  simp only [arity_sameQuery env h, fixity_sameQuery env h]
  refine CheckRel.bind (CheckRel.same _) (fun a b hab => ?_)
  subst hab
  split
  · exact CheckRel.pure ⟨rfl, h⟩
  · refine CheckRel.bind (CheckRel.same _) (fun a2 b2 hab2 => ?_)
    subst hab2
    split
    · exact CheckRel.pure ⟨rfl, h⟩
    · refine CheckRel.bind (types_sameQuery coerce env h _ hflavor) (fun p q hpq => ?_)
      obtain ⟨h1, h2, h3⟩ := hpq
      rw [← h1, ← h2]
      split
      · exact CheckRel.pure ⟨rfl, h3⟩
      · simp only [TryCheckOverloadCandidateDirections, Bool.not_true, Bool.false_eq_true,
          if_false]
        exact CheckRel.pure ⟨rfl, h3⟩

theorem filterExisting_sameQuery {c c' : OverloadResolveContext} (h : SameQuery c c')
    (candidate : OverloadCandidate) :
    SameQuery (filterExistingCandidates c candidate).1 (filterExistingCandidates c' candidate).1
    ∧ (filterExistingCandidates c candidate).2 = (filterExistingCandidates c' candidate).2 := by
  obtain ⟨h1, h2, h3, h4, h5, h6, h7, h8, h9, h10, h11⟩ := h
  unfold filterExistingCandidates
  rw [h8, h7]
  by_cases hlen : c.bestCandidates.length ≠ 0
  · rw [if_pos hlen, if_pos hlen]
    exact ⟨⟨h1, h2, h3, h4, h5, h6, rfl, rfl, h9, h10, h11⟩, rfl⟩
  · rw [if_neg hlen, if_neg hlen]
    cases hb : c.bestCandidate with
    | none => exact ⟨⟨h1, h2, h3, h4, h5, h6, by rw [h7, hb], h8, h9, h10, h11⟩, rfl⟩
    | some best =>
      simp only []
      by_cases hlt : CompareOverloadCandidates candidate best < 0
      · rw [if_pos hlt, if_pos hlt]
        exact ⟨⟨h1, h2, h3, h4, h5, h6, rfl, rfl, h9, h10, h11⟩, rfl⟩
      · rw [if_neg hlt, if_neg hlt]
        by_cases hgt : CompareOverloadCandidates candidate best > 0
        · rw [if_pos hgt, if_pos hgt]
          exact ⟨⟨h1, h2, h3, h4, h5, h6, by rw [h7, hb], h8, h9, h10, h11⟩, rfl⟩
        · rw [if_neg hgt, if_neg hgt]
          exact ⟨⟨h1, h2, h3, h4, h5, h6, by rw [h7, hb], h8, h9, h10, h11⟩, rfl⟩

theorem addInner_sameQuery {c c' : OverloadResolveContext} (h : SameQuery c c')
    (candidate : OverloadCandidate) :
    SameQuery (AddOverloadCandidateInner c candidate) (AddOverloadCandidateInner c' candidate) := by
  obtain ⟨hctx, hflags⟩ := filterExisting_sameQuery h candidate
  unfold AddOverloadCandidateInner
  simp only []
  rw [← hflags]
  generalize (filterExistingCandidates c candidate).1 = d at hctx
  generalize (filterExistingCandidates c' candidate).1 = d' at hctx
  generalize (filterExistingCandidates c candidate).2.1 = keep
  obtain ⟨h1, h2, h3, h4, h5, h6, h7, h8, h9, h10, h11⟩ := hctx
  cases keep with
  | false => exact ⟨h1, h2, h3, h4, h5, h6, h7, h8, h9, h10, h11⟩
  | true =>
    simp only [Bool.not_true, Bool.false_eq_true, if_false]
    rw [h8, h7]
    by_cases hlen : d.bestCandidates.length > 0
    · rw [if_pos hlen, if_pos hlen]
      exact ⟨h1, h2, h3, h4, h5, h6, rfl, rfl, h9, h10, h11⟩
    · rw [if_neg hlen, if_neg hlen]
      cases hb : d.bestCandidate with
      | none => exact ⟨h1, h2, h3, h4, h5, h6, rfl, rfl, h9, h10, h11⟩
      | some best => exact ⟨h1, h2, h3, h4, h5, h6, rfl, rfl, h9, h10, h11⟩

theorem addCandidate_sameQuery (coerce : CoerceFn) (env : Env) {c c' : OverloadResolveContext}
    (h : SameQuery c c') (candidate : OverloadCandidate) (hflavor : candidate.flavor = Flavor.Func) :
    CheckRel SameQuery (AddOverloadCandidate coerce env c candidate)
      (AddOverloadCandidate coerce env c' candidate) := by
  unfold AddOverloadCandidate
  refine CheckRel.bind (tryCheck_sameQuery coerce env h candidate hflavor) (fun p q hpq => ?_)
  obtain ⟨h1, h2⟩ := hpq
  rw [← h1]
  exact CheckRel.pure (addInner_sameQuery h2 _)

theorem addCtor_sameQuery (coerce : CoerceFn) (env : Env) (typeItem : LookupResultItem)
    (type : Ty) (ctorDeclRef : DeclRef) {c c' : OverloadResolveContext} (h : SameQuery c c') :
    CheckRel SameQuery (AddCtorOverloadCandidate coerce env typeItem type ctorDeclRef c)
      (AddCtorOverloadCandidate coerce env typeItem type ctorDeclRef c') :=
  addCandidate_sameQuery coerce env h _ rfl

theorem forEachCandidate_sameQuery {α : Type}
    {body : α → OverloadResolveContext → Check OverloadResolveContext}
    (hbody : ∀ a c c', SameQuery c c' → CheckRel SameQuery (body a c) (body a c'))
    (l : List α) : ∀ c c', SameQuery c c' →
      CheckRel SameQuery (forEachCandidate body l c) (forEachCandidate body l c') := by
  induction l with
  | nil => intro c c' h; exact CheckRel.pure h
  | cons a rest ih =>
    intro c c' h
    exact CheckRel.bind (hbody a c c' h) (fun c1 c1' h1 => ih c1 c1' h1)

theorem addExtension_sameQuery (coerce : CoerceFn) (env : Env) (horacle : SpecializesByTypes env)
    (typeItem : LookupResultItem) (type : Ty) (ext : DeclId) {c c' : OverloadResolveContext}
    (h : SameQuery c c') :
    CheckRel SameQuery (addExtensionCandidates coerce env typeItem type ext c)
      (addExtensionCandidates coerce env typeItem type ext c') := by
  unfold addExtensionCandidates
  split
  · exact CheckRel.pure h
  · refine CheckRel.bind (forEachCandidate_sameQuery
      (fun a c c' h => addCtor_sameQuery coerce env typeItem type a h) _ c c' h)
      (fun c1 c1' h1 => ?_)
    refine forEachCandidate_sameQuery (fun g c2 c2' h2 => ?_) _ c1 c1' h1
    split
    · rw [horacle g c2 c2' h2]
      split
      · exact CheckRel.pure h2
      · exact addCtor_sameQuery coerce env typeItem type _ h2
    · exact CheckRel.pure h2

theorem addType_sameQuery (coerce : CoerceFn) (env : Env) (horacle : SpecializesByTypes env)
    (type : Ty) {c c' : OverloadResolveContext} (h : SameQuery c c') :
    CheckRel SameQuery (AddTypeOverloadCandidates coerce env type c)
      (AddTypeOverloadCandidates coerce env type c') := by
  unfold AddTypeOverloadCandidates
  split
  · split
    · unfold AddAggTypeOverloadCandidates
      refine CheckRel.bind (forEachCandidate_sameQuery
        (fun a c c' h => addCtor_sameQuery coerce env _ type a h) _ c c' h)
        (fun c1 c1' h1 => ?_)
      exact forEachCandidate_sameQuery
        (fun ext c2 c2' h2 => addExtension_sameQuery coerce env horacle _ type ext h2) _ c1 c1' h1
    · exact CheckRel.pure h
  · exact CheckRel.pure h

theorem Check.ok_bind_eq {α β : Type} (a : α) (ds : List Diagnostic) (f : α → Check β) (b : β)
    (ds2 : List Diagnostic) (h : f a = Check.ok b ds2) :
    (Check.ok a ds >>= f) = Check.ok b (ds ++ ds2) := by
  show Check.bind (Check.ok a ds) f = _
  simp [Check.bind, h]

theorem conversionContext_sameQuery (fromType : Ty) (e : Expr) :
    SameQuery (conversionContext fromType (some e)) (conversionContext fromType none) :=
  ⟨rfl, rfl, rfl, rfl, rfl, rfl, rfl, rfl, rfl, rfl, by simp [conversionContext]⟩

/-- C20 (as stated) fails: for the initializer list `{1, 2}`, whose type is the
initializer-list type, and the target `struct S { int a; float b; }`,
`TryCoerceImpl` on the expression succeeds with cost `kConversionCost_None`
while `CanCoerce` on the two types returns false: `CanCoerce` passes a null
source expression, so the initializer-list case is not entered. -/
theorem canCoerce_ignores_initializer_list_counterexample :
    exampleInitializerList.type.type = some Ty.initializerList
    ∧ CanCoerce (coercionEnv false) 3 (namedType 60) Ty.initializerList true
      = Check.ok { ok := false } []
    ∧ TryCoerceImpl (coercionEnv false) 3 (namedType 60) true Ty.initializerList
        (some exampleInitializerList) true
      = Check.ok
          { ok := true,
            outToExpr := some (Expr.InitializerListExpr 9 { type := some (namedType 60) }
              [intLiteral 6 1,
               constructorCall (coercionEnv false) 30 31 floatType (intLiteral 7 2)]),
            outCost := some kConversionCost_None } [] :=
  ⟨rfl, rfl, rfl⟩

/-- C20 (amended): for every target type, source type and source expression
that is not an initializer list, if `TryCoerceImpl` with both outputs requested
returns normally with result `r`, then `CanCoerce` on the two types returns
normally with the same truth value and the same cost and builds no expression.
(`SpecializeGenericForOverload` is taken to read the argument types of the
context, not the argument expressions.) -/
theorem canCoerce_agrees (env : Env) (fuel : Nat) (toType fromType : Ty) (e : Expr)
    (r : CoerceResult) (ds : List Diagnostic)
    (hlist : e.asInitializerListExpr = none) (horacle : SpecializesByTypes env)
    (hrun : TryCoerceImpl env (fuel + 1) toType true fromType (some e) true = Check.ok r ds) :
    ∃ ds', CanCoerce env (fuel + 1) toType fromType true
      = Check.ok { ok := r.ok, outCost := r.outCost } ds' := by
  change TryCoerceImplBody (TryCoerceImpl env fuel) env toType true fromType (some e) true
    = Check.ok r ds at hrun
  show ∃ ds', TryCoerceImplBody (TryCoerceImpl env fuel) env toType false fromType none true
    = Check.ok { ok := r.ok, outCost := r.outCost } ds'
  by_cases heq : toType.Equals fromType = true
  · simp only [TryCoerceImplBody, heq, if_true] at hrun ⊢
    cases hrun
    exact ⟨[], rfl⟩
  · have hne : toType.Equals fromType = false := by simpa using heq
    by_cases herr : (toType.isErrorType || fromType.isErrorType) = true
    · simp only [TryCoerceImplBody, hne, herr, if_true, Bool.false_eq_true, if_false] at hrun ⊢
      cases hrun
      exact ⟨[], rfl⟩
    · have hto : toType.isErrorType = false := by
        cases h : toType.isErrorType <;> simp [h] at herr ⊢
      have hfrom : fromType.isErrorType = false := by
        cases h : fromType.isErrorType <;> simp [h] at herr ⊢
      rw [TryCoerceImplBody_of_not_list _ env toType fromType e true true hne hto hfrom hlist]
        at hrun
      rw [TryCoerceImplBody_of_no_expr _ env toType fromType true hne hto hfrom]
      simp only [if_true] at hrun ⊢
      split at hrun
      · next hiface =>
        rw [if_pos hiface]
        cases hrun
        exact ⟨[], rfl⟩
      · next hiface =>
        rw [if_neg hiface]
        obtain ⟨context, ds1, ds2, hadd, hrest, _⟩ := Check.bind_eq_ok _ _ _ _ hrun
        obtain ⟨context', hadd', hsame⟩ := CheckRel.of_ok
          (addType_sameQuery (TryCoerceImpl env fuel) env horacle toType
            (conversionContext_sameQuery fromType e)) hadd
        rw [hadd']
        refine ⟨ds1 ++ [], Check.ok_bind_eq _ _ _ _ _ ?_⟩
        simp only [hsame.bestCandidates, hsame.bestCandidate]
        cases hlist2 : context.bestCandidates with
        | cons first others =>
          rw [hlist2] at hrest
          simp only at hrest ⊢
          by_cases happ : first.status ≠ Status.Appicable
          · rw [if_pos happ] at hrest ⊢
            cases hrest
            rfl
          · rw [if_neg happ] at hrest
            cases hrest
        | nil =>
          rw [hlist2] at hrest
          cases hbest : context.bestCandidate with
          | none =>
            rw [hbest] at hrest
            cases hrest
            rfl
          | some best =>
            rw [hbest] at hrest
            simp only at hrest ⊢
            by_cases happ : best.status ≠ Status.Appicable
            · rw [if_pos happ] at hrest ⊢
              cases hrest
              rfl
            · rw [if_neg happ] at hrest ⊢
              obtain ⟨x, ds3, ds4, _, hpure, _⟩ := Check.bind_eq_ok _ _ _ _ hrest
              cases hpure
              rfl

/-- Witness for `canCoerce_agrees`: `int` to `float`. -/
theorem canCoerce_agrees_witness :
    ∃ ds', CanCoerce (coercionEnv false) 2 floatType intType true
      = Check.ok { ok := true, outCost := some 400 } ds' :=
  canCoerce_agrees (coercionEnv false) 1 floatType intType (intLiteral 6 1)
    { ok := true,
      outToExpr := some (constructorCall (coercionEnv false) 30 31 floatType (intLiteral 6 1)),
      outCost := some 400 } [] rfl (fun _ _ _ _ => rfl) rfl

/-! ## Constant folding -/

theorem toIntegerLiteralValue_of_range {x : Int} (h : IsIntegerLiteralValue x) :
    toIntegerLiteralValue x = x := by
  unfold IsIntegerLiteralValue at h
  unfold toIntegerLiteralValue
  omega

theorem constArgValsOf_constants (vals : List Int) :
    constArgValsOf (vals.map Val.constantInt) = some vals := by
  induction vals with
  | nil => rfl
  | cons v rest ih => simp [constArgValsOf, Val.asConstantIntVal, ih]

theorem foldArguments_constants (fold : FoldFn) (args : List Expr) (vals : List Int)
    (h : List.Forall₂ (fun e v =>
      TryCheckIntegerConstantExpressionWith fold e = Check.ok (some (Val.constantInt v)) [])
      args vals) :
    foldArguments fold args = Check.ok (some (vals.map Val.constantInt)) [] := by
  induction h with
  | nil => rfl
  | cons hhead _ ih => simp [foldArguments, Bind.bind, Check.bind, hhead, ih, pure]

theorem TryConstantFoldExpr_invoke (env : Env) (fenv : FoldEnv) (fuel : Nat) (kind : InvokeKind)
    (loc : SourceLoc) (type : QualType) (callee : Expr) (args : List Expr) :
    TryConstantFoldExpr env fenv (fuel + 1) (Expr.InvokeExpr kind loc type callee args)
      = TryConstantFoldInvokeExpr env fenv (TryConstantFoldExpr env fenv fuel) callee args := rfl

theorem TryConstantFoldInvokeExpr_constants (env : Env) (fenv : FoldEnv) (fold : FoldFn)
    (callee : Expr) (funcDeclRef : DeclRef) (args : List Expr) (vals : List Int)
    (hcallee : callee.asDeclRefExpr = some (some funcDeclRef))
    (hintrinsic : fenv.hasIntrinsicOpModifier funcDeclRef.decl = true)
    (hargs : List.Forall₂ (fun e v =>
      TryCheckIntegerConstantExpressionWith fold e = Check.ok (some (Val.constantInt v)) [])
      args vals) :
    TryConstantFoldInvokeExpr env fenv fold callee args
      = if args.length > 8 then Check.ok none []
        else foldIntrinsicOp fenv (env.getName funcDeclRef.decl) vals >>= fun result =>
          pure (result.map Val.constantInt) := by
  unfold TryConstantFoldInvokeExpr
  rw [hcallee]
  simp only [hintrinsic, Bool.not_true, Bool.false_eq_true, if_false]
  by_cases hlen : args.length > 8
  · simp [hlen, pure]
  · simp only [hlen, if_false]
    rw [foldArguments_constants fold args vals hargs]
    have hstep : ∀ f : Option (List Val) → Check (Option Val),
        (Check.ok (some (vals.map Val.constantInt)) [] >>= f)
          = f (some (vals.map Val.constantInt)) := fun f => Check.pure_bind _ f
    rw [hstep]
    simp only [constArgValsOf_constants]
    congr 1
    funext result
    cases result <;> rfl

theorem operatorNames_ne {fenv : FoldEnv} (h : OperatorNamesDistinct fenv) :
    fenv.getName "-" ≠ fenv.getName "+" ∧ fenv.getName "-" ≠ fenv.getName "*"
      ∧ fenv.getName "-" ≠ fenv.getName "/" ∧ fenv.getName "-" ≠ fenv.getName "%"
      ∧ fenv.getName "+" ≠ fenv.getName "*" ∧ fenv.getName "+" ≠ fenv.getName "/"
      ∧ fenv.getName "+" ≠ fenv.getName "%" ∧ fenv.getName "*" ≠ fenv.getName "/"
      ∧ fenv.getName "*" ≠ fenv.getName "%" ∧ fenv.getName "/" ≠ fenv.getName "%" := by
  unfold OperatorNamesDistinct operatorNames at h
  simp only [List.nodup_cons, List.mem_cons, List.mem_singleton, not_or, List.not_mem_nil,
    not_false_eq_true, List.nodup_nil, and_true] at h
  obtain ⟨⟨h1, h2, h3, h4⟩, ⟨h5, h6, h7⟩, ⟨h8, h9⟩, h10⟩ := h
  exact ⟨h1, h2, h3, h4, h5, h6, h7, h8, h9, h10⟩

theorem foldIntrinsicOp_minus (fenv : FoldEnv) (vals : List Int) :
    foldIntrinsicOp fenv (fenv.getName "-") vals
      = Check.ok (if vals.length = 1 then some (toIntegerLiteralValue (-(vals.getD 0 0)))
        else if vals.length = 2 then
          some (toIntegerLiteralValue (vals.getD 0 0 - vals.getD 1 0))
        else some 0) [] := by
  simp only [foldIntrinsicOp, if_true]
  by_cases h1 : vals.length = 1
  · simp only [h1, if_true]
    rfl
  · by_cases h2 : vals.length = 2
    · simp only [h1, h2, if_true, if_false]
      rfl
    · simp only [h1, h2, if_false]
      rfl

theorem foldIntrinsicOp_plus {fenv : FoldEnv} (h : OperatorNamesDistinct fenv)
    (vals : List Int) :
    foldIntrinsicOp fenv (fenv.getName "+") vals
      = Check.ok (if vals.length ≠ 2 then none
        else some (toIntegerLiteralValue (vals.getD 0 0 + vals.getD 1 0))) [] := by
  obtain ⟨h1, h2, h3, h4, h5, h6, h7, h8, h9, h10⟩ := operatorNames_ne h
  simp only [foldIntrinsicOp, Ne.symm h1, if_true, if_false]
  by_cases hl : vals.length = 2
  · simp only [hl, ne_eq, not_true_eq_false, if_false]
    rfl
  · simp only [hl, ne_eq, not_false_eq_true, if_true]
    rfl

theorem foldIntrinsicOp_times {fenv : FoldEnv} (h : OperatorNamesDistinct fenv)
    (vals : List Int) :
    foldIntrinsicOp fenv (fenv.getName "*") vals
      = Check.ok (if vals.length ≠ 2 then none
        else some (toIntegerLiteralValue (vals.getD 0 0 * vals.getD 1 0))) [] := by
  obtain ⟨h1, h2, h3, h4, h5, h6, h7, h8, h9, h10⟩ := operatorNames_ne h
  simp only [foldIntrinsicOp, Ne.symm h2, Ne.symm h5, if_true, if_false]
  by_cases hl : vals.length = 2
  · simp only [hl, ne_eq, not_true_eq_false, if_false]
    rfl
  · simp only [hl, ne_eq, not_false_eq_true, if_true]
    rfl

theorem foldIntrinsicOp_divide {fenv : FoldEnv} (h : OperatorNamesDistinct fenv)
    (vals : List Int) :
    foldIntrinsicOp fenv (fenv.getName "/") vals
      = if vals.length ≠ 2 then Check.ok none []
        else if vals.getD 1 0 = 0 then Check.ok none []
        else if hd : DivisionDefined (vals.getD 0 0) (vals.getD 1 0) then
          Check.ok (some (divIntegerLiteralValue (vals.getD 0 0) (vals.getD 1 0) hd)) []
        else Check.thrown Signal.divisionOverflow [] := by
  obtain ⟨h1, h2, h3, h4, h5, h6, h7, h8, h9, h10⟩ := operatorNames_ne h
  simp only [foldIntrinsicOp, Ne.symm h3, Ne.symm h6, Ne.symm h8, if_true, if_false]
  rfl

theorem foldIntrinsicOp_modulo {fenv : FoldEnv} (h : OperatorNamesDistinct fenv)
    (vals : List Int) :
    foldIntrinsicOp fenv (fenv.getName "%") vals
      = if vals.length ≠ 2 then Check.ok none []
        else if vals.getD 1 0 = 0 then Check.ok none []
        else if hd : DivisionDefined (vals.getD 0 0) (vals.getD 1 0) then
          Check.ok (some (modIntegerLiteralValue (vals.getD 0 0) (vals.getD 1 0) hd)) []
        else Check.thrown Signal.divisionOverflow [] := by
  obtain ⟨h1, h2, h3, h4, h5, h6, h7, h8, h9, h10⟩ := operatorNames_ne h
  simp only [foldIntrinsicOp, Ne.symm h4, Ne.symm h7, Ne.symm h9, Ne.symm h10, if_true,
    if_false]
  rfl

theorem foldIntrinsicOp_other (fenv : FoldEnv) (opName : Name) (vals : List Int)
    (h : opName ∉ operatorNames fenv) : foldIntrinsicOp fenv opName vals = Check.ok none [] := by
  simp only [operatorNames, List.mem_cons, List.mem_singleton, not_or, List.not_mem_nil,
    not_false_eq_true, and_true] at h
  obtain ⟨h1, h2, h3, h4, h5⟩ := h
  simp only [foldIntrinsicOp, h1, h2, h3, h4, h5, if_false]
  rfl

theorem Check.thrown_bind {α β : Type} (signal : Signal) (ds : List Diagnostic)
    (f : α → Check β) : ((Check.thrown signal ds : Check α) >>= f) = Check.thrown signal ds :=
  rfl

/-- The fold of a call of `/` or `%` on two constant arguments: nil for the
divisor zero, the signal where the operator is not defined, and the quotient or
the remainder otherwise. -/
theorem fold_of_division (env : Env) (fenv : FoldEnv) (fuel : Nat) (kind : InvokeKind)
    (loc : SourceLoc) (type : QualType) (callee : Expr) (funcDeclRef : DeclRef)
    (x y : Expr) (a b : Int)
    (hnames : OperatorNamesDistinct fenv)
    (hcallee : callee.asDeclRefExpr = some (some funcDeclRef))
    (hintrinsic : fenv.hasIntrinsicOpModifier funcDeclRef.decl = true)
    (hx : FoldsTo env fenv fuel x a) (hy : FoldsTo env fenv fuel y b) :
    (env.getName funcDeclRef.decl = fenv.getName "/" →
      TryConstantFoldExpr env fenv (fuel + 1) (Expr.InvokeExpr kind loc type callee [x, y])
        = if b = 0 then Check.ok none []
          else if h : DivisionDefined a b then
            Check.ok (some (Val.constantInt (divIntegerLiteralValue a b h))) []
          else Check.thrown Signal.divisionOverflow [])
    ∧ (env.getName funcDeclRef.decl = fenv.getName "%" →
      TryConstantFoldExpr env fenv (fuel + 1) (Expr.InvokeExpr kind loc type callee [x, y])
        = if b = 0 then Check.ok none []
          else if h : DivisionDefined a b then
            Check.ok (some (Val.constantInt (modIntegerLiteralValue a b h))) []
          else Check.thrown Signal.divisionOverflow []) := by
  have hargs : List.Forall₂ (fun e v =>
      TryCheckIntegerConstantExpressionWith (TryConstantFoldExpr env fenv fuel) e
        = Check.ok (some (Val.constantInt v)) []) [x, y] [a, b] :=
    List.Forall₂.cons hx (List.Forall₂.cons hy List.Forall₂.nil)
  have hfold := TryConstantFoldInvokeExpr_constants env fenv (TryConstantFoldExpr env fenv fuel)
    callee funcDeclRef [x, y] [a, b] hcallee hintrinsic hargs
  rw [TryConstantFoldExpr_invoke, hfold]
  have hlen : ¬ ([x, y] : List Expr).length > 8 := by simp
  simp only [hlen, if_false]
  refine ⟨?_, ?_⟩
  · intro hname
    rw [hname, foldIntrinsicOp_divide hnames]
    simp only [List.length_cons, List.length_nil, List.getD_cons_zero, List.getD_cons_succ,
      ne_eq, not_true_eq_false, if_false, Nat.reduceAdd]
    by_cases hb : b = 0
    · simp only [hb, if_true]
      rfl
    · simp only [hb, if_false]
      by_cases hd : DivisionDefined a b
      · simp only [hd, dif_pos]
        rfl
      · simp only [hd, dif_neg, not_false_eq_true]
        rfl
  · intro hname
    rw [hname, foldIntrinsicOp_modulo hnames]
    simp only [List.length_cons, List.length_nil, List.getD_cons_zero, List.getD_cons_succ,
      ne_eq, not_true_eq_false, if_false, Nat.reduceAdd]
    by_cases hb : b = 0
    · simp only [hb, if_true]
      rfl
    · simp only [hb, if_false]
      by_cases hd : DivisionDefined a b
      · simp only [hd, dif_pos]
        rfl
      · simp only [hd, dif_neg, not_false_eq_true]
        rfl

/-- C21: an invoke of an intrinsic operator named `/` or `%` on two arguments
that check as the integer constants `a` and `0` folds to no value, for every
`a`: `TryConstantFoldExpr` returns nil, without a diagnostic. The quotient and
the remainder are evaluated only on a divisor that is not zero: they are
functions of the operands on which the C++ operators are defined
(`DivisionDefined`, which has the divisor non-zero), and for every divisor `b`
the fold is nil when `b = 0`, and otherwise the quotient or the remainder where
the operator is defined and the signal of an undefined division where it is
not (the least value by `-1`). The five operator names are different names. -/
theorem fold_division_by_zero (env : Env) (fenv : FoldEnv) (fuel : Nat) (kind : InvokeKind)
    (loc : SourceLoc) (type : QualType) (callee : Expr) (funcDeclRef : DeclRef)
    (x y : Expr) (a b : Int)
    (hnames : OperatorNamesDistinct fenv)
    (hcallee : callee.asDeclRefExpr = some (some funcDeclRef))
    (hintrinsic : fenv.hasIntrinsicOpModifier funcDeclRef.decl = true)
    (hx : FoldsTo env fenv fuel x a) (hy : FoldsTo env fenv fuel y b) :
    ((env.getName funcDeclRef.decl = fenv.getName "/"
        ∨ env.getName funcDeclRef.decl = fenv.getName "%") → b = 0 →
      TryConstantFoldExpr env fenv (fuel + 1) (Expr.InvokeExpr kind loc type callee [x, y])
        = Check.ok none [])
    ∧ (env.getName funcDeclRef.decl = fenv.getName "/" →
      TryConstantFoldExpr env fenv (fuel + 1) (Expr.InvokeExpr kind loc type callee [x, y])
        = if b = 0 then Check.ok none []
          else if h : DivisionDefined a b then
            Check.ok (some (Val.constantInt (divIntegerLiteralValue a b h))) []
          else Check.thrown Signal.divisionOverflow [])
    ∧ (env.getName funcDeclRef.decl = fenv.getName "%" →
      TryConstantFoldExpr env fenv (fuel + 1) (Expr.InvokeExpr kind loc type callee [x, y])
        = if b = 0 then Check.ok none []
          else if h : DivisionDefined a b then
            Check.ok (some (Val.constantInt (modIntegerLiteralValue a b h))) []
          else Check.thrown Signal.divisionOverflow [])
    ∧ (∀ p q : Int, DivisionDefined p q → q ≠ 0) := by
  obtain ⟨hdiv, hmod⟩ := fold_of_division env fenv fuel kind loc type callee funcDeclRef x y a b
    hnames hcallee hintrinsic hx hy
  refine ⟨?_, hdiv, hmod, fun p q h => h.1⟩
  intro hname hb
  rcases hname with hname | hname
  · rw [hdiv hname, if_pos hb]
  · rw [hmod hname, if_pos hb]

/-- Witness for `fold_division_by_zero`: the calls `7 / 0` and `7 % 0`. -/
theorem fold_division_by_zero_witness :
    TryConstantFoldExpr genericsEnv foldExample 2 (operatorCall 304 [intLiteral 6 7, intLiteral 7 0])
      = Check.ok none []
    ∧ TryConstantFoldExpr genericsEnv foldExample 2
        (operatorCall 305 [intLiteral 6 7, intLiteral 7 0])
      = Check.ok none [] :=
  ⟨(fold_division_by_zero genericsEnv foldExample 1 InvokeKind.InfixExpr 5
      { type := some intType } (Expr.VarExpr 5 { type := some (Ty.func 304 Subst.none) } 304
        (some { decl := 304 })) { decl := 304 } (intLiteral 6 7) (intLiteral 7 0) 7 0
      (by decide) rfl rfl rfl rfl).1 (Or.inl rfl) rfl,
   (fold_division_by_zero genericsEnv foldExample 1 InvokeKind.InfixExpr 5
      { type := some intType } (Expr.VarExpr 5 { type := some (Ty.func 305 Subst.none) } 305
        (some { decl := 305 })) { decl := 305 } (intLiteral 6 7) (intLiteral 7 0) 7 0
      (by decide) rfl rfl rfl rfl).1 (Or.inr rfl) rfl⟩

theorem tmod_isIntegerLiteralValue {a : Int} (b : Int) (ha : IsIntegerLiteralValue a) :
    IsIntegerLiteralValue (Int.tmod a b) := by
  unfold IsIntegerLiteralValue at *
  rcases a with m | m <;> rcases b with n | n
  · have h := Nat.mod_le m n
    rw [Int.tmod.eq_1]
    simp only [Int.ofNat_eq_coe] at *
    omega
  · have h := Nat.mod_le m (Nat.succ n)
    rw [Int.tmod.eq_2]
    simp only [Int.ofNat_eq_coe] at *
    omega
  · have h := Nat.mod_le (Nat.succ m) n
    rw [Int.tmod.eq_3]
    simp only [Int.ofNat_eq_coe, Int.negSucc_eq] at *
    omega
  · have h := Nat.mod_le (Nat.succ m) (Nat.succ n)
    rw [Int.tmod.eq_4]
    simp only [Int.ofNat_eq_coe, Int.negSucc_eq] at *
    omega

/-- A division with a non-zero divisor whose quotient is a value of
`IntegerLiteralValue` is one that the C++ operators are defined on. -/
theorem divisionDefined_of_quotient {a b : Int} (hb : b ≠ 0)
    (hq : IsIntegerLiteralValue (Int.tdiv a b)) : DivisionDefined a b :=
  ⟨hb, hq⟩

/-- C22, the claim fails on a sum that is not a value of `IntegerLiteralValue`:
the call `9223372036854775807 + 1` of the intrinsic operator `+` folds to
`-9223372036854775808`, not to the sum of the two arguments. -/
theorem fold_sum_wraps_counterexample :
    TryConstantFoldExpr genericsEnv foldExample 2
        (operatorCall 302 [intLiteral 6 9223372036854775807, intLiteral 7 1])
      = Check.ok (some (Val.constantInt (-9223372036854775808))) []
    ∧ TryConstantFoldExpr genericsEnv foldExample 2
        (operatorCall 302 [intLiteral 6 9223372036854775807, intLiteral 7 1])
      ≠ Check.ok (some (Val.constantInt (9223372036854775807 + 1))) [] := by
  refine ⟨rfl, ?_⟩
  intro h
  have h' : (Check.ok (some (Val.constantInt (-9223372036854775808))) [] : Check (Option Val))
      = Check.ok (some (Val.constantInt (9223372036854775807 + 1))) [] := h
  simp at h'

/-- C22, amended: for an invoke whose callee carries the intrinsic-operator
modifier and whose arguments are all `int`-typed and fold to constants, the
names `+`, `*`, `-` with two arguments `a`, `b` fold to `a + b`, `a * b`,
`a - b`, and `-` with one argument `a` folds to `-a`, when that result is a
value of `IntegerLiteralValue` (a 64-bit signed integer); `/` and `%` with
`b ≠ 0` fold to the truncating quotient and to the remainder when the quotient
is such a value (so `(a / b) * b + a % b = a`); `+`, `*`, `/`, `%` with an
argument count other than two yield nil; any other callee name yields nil. The
quotient is not such a value for the least value divided by `-1` only, where
the C++ operators are not defined and neither call folds. -/
theorem fold_intrinsic_operator (env : Env) (fenv : FoldEnv) (fuel : Nat) (kind : InvokeKind)
    (loc : SourceLoc) (type : QualType) (callee : Expr) (funcDeclRef : DeclRef)
    (args : List Expr) (vals : List Int)
    (hnames : OperatorNamesDistinct fenv)
    (hcallee : callee.asDeclRefExpr = some (some funcDeclRef))
    (hintrinsic : fenv.hasIntrinsicOpModifier funcDeclRef.decl = true)
    (hargs : List.Forall₂ (FoldsTo env fenv fuel) args vals)
    (hrange : ∀ v ∈ vals, IsIntegerLiteralValue v) :
    (∀ a b, vals = [a, b] → env.getName funcDeclRef.decl = fenv.getName "+" →
      IsIntegerLiteralValue (a + b) →
      TryConstantFoldExpr env fenv (fuel + 1) (Expr.InvokeExpr kind loc type callee args)
        = Check.ok (some (Val.constantInt (a + b))) [])
    ∧ (∀ a b, vals = [a, b] → env.getName funcDeclRef.decl = fenv.getName "*" →
      IsIntegerLiteralValue (a * b) →
      TryConstantFoldExpr env fenv (fuel + 1) (Expr.InvokeExpr kind loc type callee args)
        = Check.ok (some (Val.constantInt (a * b))) [])
    ∧ (∀ a b, vals = [a, b] → env.getName funcDeclRef.decl = fenv.getName "-" →
      IsIntegerLiteralValue (a - b) →
      TryConstantFoldExpr env fenv (fuel + 1) (Expr.InvokeExpr kind loc type callee args)
        = Check.ok (some (Val.constantInt (a - b))) [])
    ∧ (∀ a, vals = [a] → env.getName funcDeclRef.decl = fenv.getName "-" →
      IsIntegerLiteralValue (-a) →
      TryConstantFoldExpr env fenv (fuel + 1) (Expr.InvokeExpr kind loc type callee args)
        = Check.ok (some (Val.constantInt (-a))) [])
    ∧ (∀ a b, vals = [a, b] → env.getName funcDeclRef.decl = fenv.getName "/" → b ≠ 0 →
      IsIntegerLiteralValue (Int.tdiv a b) →
      TryConstantFoldExpr env fenv (fuel + 1) (Expr.InvokeExpr kind loc type callee args)
        = Check.ok (some (Val.constantInt (Int.tdiv a b))) [])
    ∧ (∀ a b, vals = [a, b] → env.getName funcDeclRef.decl = fenv.getName "%" → b ≠ 0 →
      IsIntegerLiteralValue (Int.tdiv a b) →
      TryConstantFoldExpr env fenv (fuel + 1) (Expr.InvokeExpr kind loc type callee args)
        = Check.ok (some (Val.constantInt (Int.tmod a b))) [])
    ∧ (∀ a b : Int, Int.tdiv a b * b + Int.tmod a b = a)
    ∧ (∀ a b : Int, IsIntegerLiteralValue a → IsIntegerLiteralValue b → b ≠ 0 →
        (IsIntegerLiteralValue (Int.tdiv a b) ↔ ¬ (a = -9223372036854775808 ∧ b = -1)))
    ∧ (vals = [-9223372036854775808, -1] →
      (env.getName funcDeclRef.decl = fenv.getName "/"
        ∨ env.getName funcDeclRef.decl = fenv.getName "%") →
      TryConstantFoldExpr env fenv (fuel + 1) (Expr.InvokeExpr kind loc type callee args)
        = Check.thrown Signal.divisionOverflow [])
    ∧ (vals.length ≠ 2 →
      (env.getName funcDeclRef.decl = fenv.getName "+"
        ∨ env.getName funcDeclRef.decl = fenv.getName "*"
        ∨ env.getName funcDeclRef.decl = fenv.getName "/"
        ∨ env.getName funcDeclRef.decl = fenv.getName "%") →
      TryConstantFoldExpr env fenv (fuel + 1) (Expr.InvokeExpr kind loc type callee args)
        = Check.ok none [])
    ∧ (env.getName funcDeclRef.decl ∉ operatorNames fenv →
      TryConstantFoldExpr env fenv (fuel + 1) (Expr.InvokeExpr kind loc type callee args)
        = Check.ok none []) := by
  have hfold := TryConstantFoldInvokeExpr_constants env fenv (TryConstantFoldExpr env fenv fuel)
    callee funcDeclRef args vals hcallee hintrinsic hargs
  have hlen : args.length = vals.length := List.Forall₂.length_eq hargs
  rw [TryConstantFoldExpr_invoke, hfold]
  refine ⟨?_, ?_, ?_, ?_, ?_, ?_, ?_, ?_, ?_, ?_, ?_⟩
  · intro a b hv hname hr
    subst hv
    rw [hname, foldIntrinsicOp_plus hnames, Check.bind_ok_pure]
    simp [hlen, toIntegerLiteralValue_of_range hr]
  · intro a b hv hname hr
    subst hv
    rw [hname, foldIntrinsicOp_times hnames, Check.bind_ok_pure]
    simp [hlen, toIntegerLiteralValue_of_range hr]
  · intro a b hv hname hr
    subst hv
    rw [hname, foldIntrinsicOp_minus, Check.bind_ok_pure]
    simp [hlen, toIntegerLiteralValue_of_range hr]
  · intro a hv hname hr
    subst hv
    rw [hname, foldIntrinsicOp_minus, Check.bind_ok_pure]
    simp [hlen, toIntegerLiteralValue_of_range hr]
  · intro a b hv hname hb hr
    subst hv
    have hd : DivisionDefined a b := divisionDefined_of_quotient hb hr
    rw [hname, foldIntrinsicOp_divide hnames]
    simp only [List.length_cons, List.length_nil, List.getD_cons_zero, List.getD_cons_succ,
      ne_eq, not_true_eq_false, if_false, Nat.reduceAdd, hb, hd, dif_pos, hlen]
    rw [Check.bind_ok_pure]
    simp [divIntegerLiteralValue, toIntegerLiteralValue_of_range hr]
  · intro a b hv hname hb hq
    subst hv
    have hd : DivisionDefined a b := divisionDefined_of_quotient hb hq
    have hr : IsIntegerLiteralValue (Int.tmod a b) :=
      tmod_isIntegerLiteralValue b (hrange a (by simp))
    rw [hname, foldIntrinsicOp_modulo hnames]
    simp only [List.length_cons, List.length_nil, List.getD_cons_zero, List.getD_cons_succ,
      ne_eq, not_true_eq_false, if_false, Nat.reduceAdd, hb, hd, dif_pos, hlen]
    rw [Check.bind_ok_pure]
    simp [modIntegerLiteralValue, toIntegerLiteralValue_of_range hr]
  · intro a b
    exact Int.tdiv_add_tmod' a b
  · intro a b ha hb hne
    constructor
    · intro hq
      rintro ⟨ha', hb'⟩
      subst ha' hb'
      revert hq
      decide
    · intro hnot
      unfold IsIntegerLiteralValue at *
      have habs : (Int.tdiv a b).natAbs ≤ a.natAbs := by
        rw [Int.natAbs_tdiv]
        exact Nat.div_le_self _ _
      by_cases hm : a = -9223372036854775808
      · subst hm
        have hb1 : b ≠ -1 := fun h => hnot ⟨rfl, h⟩
        by_cases hb2 : b = 1
        · subst hb2
          simp
        · have h2 : 2 ≤ b.natAbs := by omega
          have hdiv : (Int.tdiv (-9223372036854775808) b).natAbs ≤ 4611686018427387904 := by
            rw [Int.natAbs_tdiv]
            calc (-9223372036854775808 : Int).natAbs / b.natAbs
                ≤ (-9223372036854775808 : Int).natAbs / 2 :=
                  Nat.div_le_div_left h2 (by decide)
              _ = 4611686018427387904 := by decide
          omega
      · omega
  · intro hv hname
    subst hv
    have hnd : ¬ DivisionDefined (-9223372036854775808) (-1) := by decide
    rcases hname with hname | hname
    · rw [hname, foldIntrinsicOp_divide hnames]
      simp only [List.length_cons, List.length_nil, List.getD_cons_zero, List.getD_cons_succ,
        ne_eq, not_true_eq_false, if_false, Nat.reduceAdd, hnd, dif_neg, not_false_eq_true,
        hlen]
      simp [Check.thrown_bind]
    · rw [hname, foldIntrinsicOp_modulo hnames]
      simp only [List.length_cons, List.length_nil, List.getD_cons_zero, List.getD_cons_succ,
        ne_eq, not_true_eq_false, if_false, Nat.reduceAdd, hnd, dif_neg, not_false_eq_true,
        hlen]
      simp [Check.thrown_bind]
  · intro hv hname
    rcases hname with hname | hname | hname | hname
    · rw [hname, foldIntrinsicOp_plus hnames, Check.bind_ok_pure]
      simp [hv]
    · rw [hname, foldIntrinsicOp_times hnames, Check.bind_ok_pure]
      simp [hv]
    · rw [hname, foldIntrinsicOp_divide hnames]
      simp only [ne_eq, hv, not_false_eq_true, if_true]
      rw [Check.bind_ok_pure]
      simp
    · rw [hname, foldIntrinsicOp_modulo hnames]
      simp only [ne_eq, hv, not_false_eq_true, if_true]
      rw [Check.bind_ok_pure]
      simp
  · intro hname
    rw [foldIntrinsicOp_other fenv _ vals hname, Check.bind_ok_pure]
    simp

/-- Witness for `fold_intrinsic_operator`: the call `2 + 3` folds to `5`. -/
theorem fold_intrinsic_operator_witness :
    TryConstantFoldExpr genericsEnv foldExample 2 (operatorCall 302 [intLiteral 6 2, intLiteral 7 3])
      = Check.ok (some (Val.constantInt (2 + 3))) [] :=
  (fold_intrinsic_operator genericsEnv foldExample 1 InvokeKind.InfixExpr 5
    { type := some intType } (Expr.VarExpr 5 { type := some (Ty.func 302 Subst.none) } 302
      (some { decl := 302 })) { decl := 302 } [intLiteral 6 2, intLiteral 7 3] [2, 3]
    (by decide) rfl rfl
    (List.Forall₂.cons (show FoldsTo _ _ _ _ _ from rfl)
      (List.Forall₂.cons (show FoldsTo _ _ _ _ _ from rfl) List.Forall₂.nil))
    (by decide)).1 2 3 rfl rfl (by decide)

/-- C23, the code does not look through a type cast: `TryConstantFoldExpr`
tests for `InvokeExpr` before it tests for `TypeCastExpr`, and a type cast is an
`InvokeExpr`, so the branch that folds the operand of a cast is never reached.
A compiler-inserted implicit cast folds to no value whatever its operand is
(its callee is not a reference to a declaration). The checked explicit cast
`(float) 3` folds to no value although its operand `3` folds to `3`, and so
does the implicit cast of `3` to `int`. -/
theorem cast_operand_is_not_folded :
    (∀ (env : Env) (fenv : FoldEnv) (fuel : Nat) (toType : Ty) (e : Expr),
      TryConstantFoldExpr env fenv (fuel + 1) (CreateImplicitCastExpr env toType e)
        = Check.ok none [])
    ∧ TryConstantFoldExpr genericsEnv foldExample 1 (intLiteral 6 3)
        = Check.ok (some (Val.constantInt 3)) []
    ∧ TryConstantFoldExpr genericsEnv foldExample 2
        (CreateImplicitCastExpr genericsEnv intType (intLiteral 6 3)) = Check.ok none []
    ∧ TryConstantFoldExpr genericsEnv foldExample 2 (explicitCast (intLiteral 6 3))
        = Check.ok none [] :=
  ⟨fun _ _ _ _ _ => rfl, rfl, rfl, rfl⟩

/-! ## Joins -/

/-- C28: on basic types `TryJoinTypes` is the maximum by rank. It returns the
type itself on two equal types, and on two basic types the one of higher rank
in the `BaseType` enumeration, whose rank is the maximum of the two ranks, in
either argument order; it never fails its assertion. The join of basic types is
commutative, associative and idempotent. -/
theorem join_of_basic_types (env : Env) (fuel : Nat) :
    (∀ t : BaseType,
      TryJoinTypes env (fuel + 1) (Ty.basic t) (Ty.basic t) = Check.ok (some (Ty.basic t)) [])
    ∧ (∀ l r : BaseType,
      TryJoinTypes env (fuel + 1) (Ty.basic l) (Ty.basic r)
        = Check.ok (some (Ty.basic (higherRank l r))) [])
    ∧ (∀ l r : BaseType, (higherRank l r).toNat = max l.toNat r.toNat
        ∧ higherRank l r = higherRank r l ∧ (l.toNat = r.toNat ↔ l = r))
    ∧ (∀ l r : BaseType,
      TryJoinTypes env (fuel + 1) (Ty.basic l) (Ty.basic r)
        = TryJoinTypes env (fuel + 1) (Ty.basic r) (Ty.basic l))
    ∧ (∀ a b c : BaseType,
      (TryJoinTypes env (fuel + 1) (Ty.basic a) (Ty.basic b) >>= fun ab =>
        match ab with
        | some ab => TryJoinTypes env (fuel + 1) ab (Ty.basic c)
        | none => pure none)
      = (TryJoinTypes env (fuel + 1) (Ty.basic b) (Ty.basic c) >>= fun bc =>
        match bc with
        | some bc => TryJoinTypes env (fuel + 1) (Ty.basic a) bc
        | none => pure none))
    ∧ (∀ (l r : BaseType) (ds : List Diagnostic),
      TryJoinTypes env (fuel + 1) (Ty.basic l) (Ty.basic r)
        ≠ Check.thrown Signal.assertionFailed ds) := by
  have hjoin : ∀ l r : BaseType,
      TryJoinTypes env (fuel + 1) (Ty.basic l) (Ty.basic r)
        = Check.ok (some (Ty.basic (higherRank l r))) [] := by
    intro l r
    cases l <;> cases r <;> rfl
  refine ⟨?_, hjoin, ?_, ?_, ?_, ?_⟩
  · intro t
    cases t <;> rfl
  · intro l r
    cases l <;> cases r <;> decide
  · intro l r
    rw [hjoin, hjoin]
    cases l <;> cases r <;> rfl
  · intro a b c
    rw [hjoin a b, hjoin b c]
    simp only [Bind.bind, Check.bind, hjoin]
    cases a <;> cases b <;> cases c <;> rfl
  · intro l r ds h
    rw [hjoin] at h
    cases h

/-- C29: vector joins are element-wise. The join of `vector<E,N>` with a basic
scalar `S`, in either argument order, is the vector of the join of `E` with `S`
and of `N` elements, and nil when that join is nil. The join of `vector<E1,N1>`
with `vector<E2,N2>` is nil when `N1` differs from `N2`, and otherwise the
vector of the join of `E1` with `E2` and of `N1` elements, nil when that join
is nil. For basic element types the joins return with two units of budget:
the vector of the element type of higher rank. -/
theorem join_of_vector_types (env : Env) (fuel : Nat) (E E1 E2 : Ty) (N N1 N2 : Val)
    (s e e1 e2 : BaseType) :
    TryJoinTypes env (fuel + 1) (Ty.vector E N) (Ty.basic s)
        = (TryJoinTypes env fuel E (Ty.basic s) >>= vectorOfJoin N)
    ∧ TryJoinTypes env (fuel + 1) (Ty.basic s) (Ty.vector E N)
        = (TryJoinTypes env fuel E (Ty.basic s) >>= vectorOfJoin N)
    ∧ TryJoinTypes env (fuel + 1) (Ty.vector E1 N1) (Ty.vector E2 N2)
        = (if E1 = E2 ∧ N1 = N2 then Check.ok (some (Ty.vector E1 N1)) []
          else if N1 = N2 then TryJoinTypes env fuel E1 E2 >>= vectorOfJoin N1
          else Check.ok none [])
    ∧ TryJoinTypes env (fuel + 2) (Ty.vector (Ty.basic e) N) (Ty.basic s)
        = Check.ok (some (Ty.vector (Ty.basic (higherRank e s)) N)) []
    ∧ TryJoinTypes env (fuel + 2) (Ty.basic s) (Ty.vector (Ty.basic e) N)
        = Check.ok (some (Ty.vector (Ty.basic (higherRank e s)) N)) []
    ∧ TryJoinTypes env (fuel + 2) (Ty.vector (Ty.basic e1) N) (Ty.vector (Ty.basic e2) N)
        = Check.ok (some (Ty.vector (Ty.basic (higherRank e1 e2)) N)) [] := by
  have hbasic : ∀ l r : BaseType,
      TryJoinTypes env (fuel + 1) (Ty.basic l) (Ty.basic r)
        = Check.ok (some (Ty.basic (higherRank l r))) [] := by
    intro l r
    cases l <;> cases r <;> rfl
  have hvs : ∀ (f : Nat) (E : Ty), TryJoinTypes env (f + 1) (Ty.vector E N) (Ty.basic s)
        = (TryJoinTypes env f E (Ty.basic s) >>= vectorOfJoin N) := by
    intro f E
    simp only [TryJoinTypes, Ty.Equals, Ty.asBasicExpressionType, Ty.asVectorExpressionType,
      TryJoinVectorAndScalarType, createVectorType, vectorOfJoin]
    simp
    rfl
  have hsv : ∀ (f : Nat) (E : Ty), TryJoinTypes env (f + 1) (Ty.basic s) (Ty.vector E N)
        = (TryJoinTypes env f E (Ty.basic s) >>= vectorOfJoin N) := by
    intro f E
    simp only [TryJoinTypes, Ty.Equals, Ty.asBasicExpressionType, Ty.asVectorExpressionType,
      TryJoinVectorAndScalarType, createVectorType, vectorOfJoin]
    simp
    rfl
  have hvv : ∀ (f : Nat) (E1 E2 : Ty) (N1 N2 : Val),
      TryJoinTypes env (f + 1) (Ty.vector E1 N1) (Ty.vector E2 N2)
        = (if E1 = E2 ∧ N1 = N2 then Check.ok (some (Ty.vector E1 N1)) []
          else if N1 = N2 then TryJoinTypes env f E1 E2 >>= vectorOfJoin N1
          else Check.ok none []) := by
    intro f E1 E2 N1 N2
    by_cases h : E1 = E2 ∧ N1 = N2
    · obtain ⟨h1, h2⟩ := h
      subst h1 h2
      simp [TryJoinTypes, Ty.Equals, pure]
    · rw [if_neg h]
      by_cases hn : N1 = N2
      · subst hn
        have hne : ¬ (Ty.vector E1 N1 = Ty.vector E2 N1) := by
          intro heq
          injection heq with h1 h2
          exact h ⟨h1, h2⟩
        simp only [TryJoinTypes, Ty.Equals, Ty.asBasicExpressionType,
          Ty.asVectorExpressionType, createVectorType, vectorOfJoin, Val.EqualsVal, hne,
          decide_False, decide_True, Bool.false_eq_true, if_false, if_true, Bool.not_true]
        rfl
      · have hne : ¬ (Ty.vector E1 N1 = Ty.vector E2 N2) := by
          intro heq
          injection heq with h1 h2
          exact h ⟨h1, h2⟩
        simp only [TryJoinTypes, Ty.Equals, Ty.asBasicExpressionType,
          Ty.asVectorExpressionType, createVectorType, vectorOfJoin, Val.EqualsVal, hne, hn,
          decide_False, decide_True, Bool.false_eq_true, if_false, if_true, Bool.not_false]
        rfl
  refine ⟨hvs fuel E, hsv fuel E, hvv fuel E1 E2 N1 N2, ?_, ?_, ?_⟩
  · rw [hvs (fuel + 1), hbasic]
    rfl
  · rw [hsv (fuel + 1), hbasic]
    rfl
  · rw [hvv (fuel + 1)]
    by_cases he : e1 = e2
    · subst he
      have hsame : higherRank e1 e1 = e1 := by cases e1 <;> rfl
      simp [hsame]
    · have hne : ¬ (Ty.basic e1 = Ty.basic e2 ∧ N = N) := by
        rintro ⟨h1, _⟩
        injection h1 with h1
        exact he h1
      rw [if_neg hne, if_pos rfl, hbasic]
      rfl

/-! ## Unification -/

/-- C27: `TryUnifyVals` on two integer values. On two constants it succeeds
exactly when the two values are equal, and adds no constraint. When at least
one side is a generic-parameter integer it succeeds and adds, for each side
that refers to a generic value parameter, the one constraint that pins that
parameter to the value of the other side, the constraint for the first side
first. -/
theorem unify_integer_values (env : Env) (unify : UnifyFn) (constraints : ConstraintSystem)
    (a b : Int) (p q : DeclId) (s t : Subst) :
    TryUnifyVals env unify constraints (Val.constantInt a) (Val.constantInt b)
        = Check.ok (decide (a = b), constraints) []
    ∧ TryUnifyVals env unify constraints (Val.genericParamInt p s) (Val.constantInt b)
        = Check.ok (true,
            { constraints := constraints.constraints ++ pinned env p (Val.constantInt b) }) []
    ∧ TryUnifyVals env unify constraints (Val.constantInt a) (Val.genericParamInt q t)
        = Check.ok (true,
            { constraints := constraints.constraints ++ pinned env q (Val.constantInt a) }) []
    ∧ TryUnifyVals env unify constraints (Val.genericParamInt p s) (Val.genericParamInt q t)
        = Check.ok (true,
            { constraints := constraints.constraints ++ pinned env p (Val.genericParamInt q t)
                ++ pinned env q (Val.genericParamInt p s) }) [] := by
  refine ⟨rfl, ?_, ?_, ?_⟩
  · by_cases hp : env.declKind p = DeclKind.GenericValueParamDecl
    · simp [TryUnifyVals, Val.isIntVal, Val.asGenericParamIntVal, TryUnifyIntParam,
        TryUnifyIntParamDecl, ConstraintSystem.Add, pinned, hp, pure]
    · simp [TryUnifyVals, Val.isIntVal, Val.asGenericParamIntVal, TryUnifyIntParam,
        TryUnifyIntParamDecl, ConstraintSystem.Add, pinned, hp, pure]
  · by_cases hq : env.declKind q = DeclKind.GenericValueParamDecl
    · simp [TryUnifyVals, Val.isIntVal, Val.asGenericParamIntVal, TryUnifyIntParam,
        TryUnifyIntParamDecl, ConstraintSystem.Add, pinned, hq, pure]
    · simp [TryUnifyVals, Val.isIntVal, Val.asGenericParamIntVal, TryUnifyIntParam,
        TryUnifyIntParamDecl, ConstraintSystem.Add, pinned, hq, pure]
  · by_cases hp : env.declKind p = DeclKind.GenericValueParamDecl <;>
      by_cases hq : env.declKind q = DeclKind.GenericValueParamDecl <;>
      simp [TryUnifyVals, Val.isIntVal, Val.asGenericParamIntVal, TryUnifyIntParam,
        TryUnifyIntParamDecl, ConstraintSystem.Add, pinned, hp, hq, pure]

/-- C26: unifying two declaration-reference types that name the same
declaration, which is not a generic type parameter. Equal types unify without
a constraint; different ones unify as their substitutions do: the arguments in
pairs, then the outer chains, and the unification succeeds exactly when the
unification of the arguments and then that of the outer chains succeed.
Unifying `vector<T,N>`, with `T` a generic type parameter and `N` a generic
value parameter, with `vector<float,3>` succeeds and adds exactly the two
constraints `T := float` and `N := 3`. Two declaration-reference types with
different declarations, neither of them a generic type parameter, do not
unify. -/
theorem unify_same_declaration (env : Env) (fuel : Nat) (constraints : ConstraintSystem)
    (decl : DeclId) (fstSubst sndSubst : Subst)
    (hdecl : env.declKind decl ≠ DeclKind.GenericTypeParamDecl) :
    TryUnifyTypes env (fuel + 1) constraints (Ty.declRef decl fstSubst)
        (Ty.declRef decl sndSubst)
      = (if fstSubst = sndSubst then Check.ok (true, constraints) []
        else TryUnifySubstitutions (TryUnifyVals env (TryUnifyTypes env fuel)) constraints
          fstSubst sndSubst)
    ∧ (∀ (unifyVals : ConstraintSystem → Val → Val → Unified) (genericDecl : DeclId)
        (fstArgs sndArgs : ValList) (fstOuter sndOuter : Subst),
        fstArgs.toList.length = sndArgs.toList.length →
        (TryUnifySubstitutions unifyVals constraints (Subst.mk genericDecl fstArgs fstOuter)
            (Subst.mk genericDecl sndArgs sndOuter)
          = (unifyArguments unifyVals constraints fstArgs.toList sndArgs.toList >>= fun r =>
              if !r.1 then pure (false, r.2)
              else TryUnifySubstitutions unifyVals r.2 fstOuter sndOuter))
        ∧ ∀ result ds,
          (TryUnifySubstitutions unifyVals constraints (Subst.mk genericDecl fstArgs fstOuter)
              (Subst.mk genericDecl sndArgs sndOuter) = Check.ok (true, result) ds
            ↔ ∃ afterArgs ds1 ds2,
                unifyArguments unifyVals constraints fstArgs.toList sndArgs.toList
                  = Check.ok (true, afterArgs) ds1
                ∧ TryUnifySubstitutions unifyVals afterArgs fstOuter sndOuter
                  = Check.ok (true, result) ds2
                ∧ ds = ds1 ++ ds2))
    ∧ TryUnifyTypes genericsEnv 2 {}
        (Ty.vector (typeParameter 201) (Val.genericParamInt 202 Subst.none))
        (Ty.vector floatType (Val.constantInt 3))
      = Check.ok (true, { constraints :=
          [{ decl := 201, val := Val.type floatType },
           { decl := 202, val := Val.constantInt 3 }] }) []
    ∧ (∀ other : DeclId, other ≠ decl →
        env.declKind other ≠ DeclKind.GenericTypeParamDecl →
        TryUnifyTypes env (fuel + 1) constraints (Ty.declRef decl fstSubst)
            (Ty.declRef other sndSubst)
          = Check.ok (false, constraints) []) := by
  refine ⟨?_, ?_, rfl, ?_⟩
  · by_cases hs : fstSubst = sndSubst
    · subst hs
      simp [TryUnifyTypes, Ty.Equals, pure]
    · rw [if_neg hs]
      have hne : ¬ (Ty.declRef decl fstSubst = Ty.declRef decl sndSubst) := by
        intro h
        injection h with _ h2
        exact hs h2
      simp only [TryUnifyTypes, Ty.Equals, hne, decide_False, Bool.false_eq_true, if_false,
        Ty.isErrorType, Ty.asGenericTypeParamDecl, Ty.asDeclRefType, hdecl,
        TryUnifyTypesByStructuralMatch, ne_eq, not_true_eq_false]
      generalize TryUnifySubstitutions (TryUnifyVals env (TryUnifyTypes env fuel)) constraints
        fstSubst sndSubst = x
      cases x with
      | ok r ds =>
        obtain ⟨b, cs⟩ := r
        cases b <;>
          simp [Bind.bind, Check.bind, pure, TryUnifyVectorAndScalar,
            Ty.asVectorExpressionType, Ty.asBasicExpressionType]
      | thrown s ds => rfl
      | outOfFuel => rfl
  · intro unifyVals genericDecl fstArgs sndArgs fstOuter sndOuter hlen
    have heq : TryUnifySubstitutions unifyVals constraints (Subst.mk genericDecl fstArgs fstOuter)
            (Subst.mk genericDecl sndArgs sndOuter)
          = (unifyArguments unifyVals constraints fstArgs.toList sndArgs.toList >>= fun r =>
              if !r.1 then pure (false, r.2)
              else TryUnifySubstitutions unifyVals r.2 fstOuter sndOuter) := by
      simp [TryUnifySubstitutions, hlen]
    refine ⟨heq, ?_⟩
    intro result ds
    rw [heq]
    generalize unifyArguments unifyVals constraints fstArgs.toList sndArgs.toList = x
    cases x with
    | ok r ds1 =>
      obtain ⟨b, cs⟩ := r
      cases b
      · simp [Bind.bind, Check.bind, pure]
      · simp only [Bind.bind, Check.bind, Bool.not_true, Bool.false_eq_true, if_false]
        constructor
        · intro h
          refine ⟨cs, ds1, ?_⟩
          cases hy : TryUnifySubstitutions unifyVals cs fstOuter sndOuter with
          | ok r2 ds2 =>
            rw [hy] at h
            injection h with h1 h2
            exact ⟨ds2, rfl, by rw [h1], h2.symm⟩
          | thrown s ds2 =>
            rw [hy] at h
            cases h
          | outOfFuel =>
            rw [hy] at h
            cases h
        · rintro ⟨afterArgs, e1, e2, h1, h2, h3⟩
          injection h1 with h1a h1b
          injection h1a with _ h1c
          subst h1c h1b h3
          rw [h2]
    | thrown s ds1 =>
      constructor
      · intro h
        cases h
      · rintro ⟨afterArgs, e1, e2, h1, h2, h3⟩
        cases h1
    | outOfFuel =>
      constructor
      · intro h
        cases h
      · rintro ⟨afterArgs, e1, e2, h1, h2, h3⟩
        cases h1
  · intro other hother hkind
    have hne : ¬ (Ty.declRef decl fstSubst = Ty.declRef other sndSubst) := by
      intro h
      injection h with h1 _
      exact hother h1.symm
    simp [TryUnifyTypes, Ty.Equals, hne, Ty.isErrorType, Ty.asGenericTypeParamDecl,
      Ty.asDeclRefType, hdecl, hkind, TryUnifyTypesByStructuralMatch, Ne.symm hother,
      Bind.bind, Check.bind, pure, TryUnifyVectorAndScalar, Ty.asVectorExpressionType,
      Ty.asBasicExpressionType]

/-- Witness for `unify_same_declaration`: `Pair<int,float>` against
`Pair<float,float>` in the example program. -/
theorem unify_same_declaration_witness :
    TryUnifyTypes genericsEnv 2 {} (pairType intType floatType) (pairType floatType floatType)
      = TryUnifySubstitutions (TryUnifyVals genericsEnv (TryUnifyTypes genericsEnv 1)) {}
          (Subst.mk 220 (ValList.cons (Val.type intType)
            (ValList.cons (Val.type floatType) ValList.nil)) Subst.none)
          (Subst.mk 220 (ValList.cons (Val.type floatType)
            (ValList.cons (Val.type floatType) ValList.nil)) Subst.none) :=
  (unify_same_declaration genericsEnv 1 {} 223
    (Subst.mk 220 (ValList.cons (Val.type intType)
      (ValList.cons (Val.type floatType) ValList.nil)) Subst.none)
    (Subst.mk 220 (ValList.cons (Val.type floatType)
      (ValList.cons (Val.type floatType) ValList.nil)) Subst.none) (by decide)).1

/-! ## Solving a constraint system -/

theorem Check.bind_assoc {α β γ : Type} (x : Check α) (f : α → Check β) (g : β → Check γ) :
    ((x >>= f) >>= g) = (x >>= fun a => f a >>= g) := by
  show Check.bind (Check.bind x f) g = Check.bind x (fun a => Check.bind (f a) g)
  cases x with
  | ok a ds =>
    cases hf : f a with
    | ok b ds2 =>
      cases hg : g b <;> simp [Check.bind, hf, hg, List.append_assoc]
    | thrown s ds2 => simp [Check.bind, hf]
    | outOfFuel => simp [Check.bind, hf]
  | thrown s ds => rfl
  | outOfFuel => rfl

theorem constraintTypesOf_cons_other {P : DeclId} {c : Constraint} (h : c.decl ≠ P)
    (rest : List Constraint) : constraintTypesOf P (c :: rest) = constraintTypesOf P rest := by
  simp [constraintTypesOf, List.filterMap_cons, h]

theorem constraintTypesOf_cons_type {P : DeclId} {c : Constraint} (h : c.decl = P) {t : Ty}
    (hval : c.val = Val.type t) (rest : List Constraint) :
    constraintTypesOf P (c :: rest) = t :: constraintTypesOf P rest := by
  simp [constraintTypesOf, List.filterMap_cons, h, hval]

theorem constraintTypesOf_target (P : DeclId) {cs cs' : List Constraint}
    (h : cs'.map Constraint.target = cs.map Constraint.target) :
    constraintTypesOf P cs' = constraintTypesOf P cs := by
  induction cs' generalizing cs with
  | nil =>
    cases cs with
    | nil => rfl
    | cons c rest => simp at h
  | cons c' rest' ih =>
    cases cs with
    | nil => simp at h
    | cons c rest =>
      simp only [List.map_cons, List.cons.injEq] at h
      obtain ⟨hc, hrest⟩ := h
      have hdecl : c'.decl = c.decl := congrArg Prod.fst hc
      have hval : c'.val = c.val := congrArg Prod.snd hc
      simp only [constraintTypesOf, List.filterMap_cons, hdecl, hval]
      have := ih hrest
      simp only [constraintTypesOf] at this
      rw [this]

theorem markIn_target (decls : List DeclId) (cs : List Constraint) :
    (cs.map (markIn decls)).map Constraint.target = cs.map Constraint.target := by
  induction cs with
  | nil => rfl
  | cons c rest ih =>
    simp only [List.map_cons, ih, List.cons.injEq, and_true]
    unfold markIn
    split <;> rfl

theorem markIn_other {P : DeclId} {c : Constraint} (h : c.decl ≠ P) : markIn [P] c = c := by
  simp [markIn, h]

theorem markIn_same {P : DeclId} {c : Constraint} (h : c.decl = P) :
    markIn [P] c = { c with satisfied := true } := by
  simp [markIn, h]

theorem markIn_append (A B : List DeclId) (c : Constraint) :
    markIn B (markIn A c) = markIn (A ++ B) c := by
  unfold markIn
  by_cases hA : c.decl ∈ A <;> by_cases hB : c.decl ∈ B <;> simp [hA, hB]

theorem markIn_nil (c : Constraint) : markIn [] c = c := by
  simp [markIn]

/-- The loop for a type parameter, when it returns: the running type it ends
with is the left fold of the join over the types of the constraints on the
parameter; the constraints keep their declarations and values; and when the
loop runs to its end, the constraints on the parameter, and only they, are
marked. -/
theorem solveTypeParam_returns (join : JoinFn) (P : DeclId) (cs : List Constraint) :
    ∀ (type : Option Ty) (r : Option (Option Ty) × List Constraint) (ds : List Diagnostic),
      solveTypeParam join P type cs = Check.ok r ds →
      joinRunning join type (constraintTypesOf P cs) = Check.ok r.1.join ds
        ∧ (r.1 ≠ none → r.2 = cs.map (markIn [P]))
        ∧ r.2.map Constraint.target = cs.map Constraint.target := by
  induction cs with
  | nil =>
    intro type r ds h
    simp only [solveTypeParam] at h
    obtain ⟨h1, h2⟩ := Check.pure_eq_ok _ _ _ h
    subst h1 h2
    cases type <;> exact ⟨rfl, fun _ => rfl, rfl⟩
  | cons c rest ih =>
    intro type r ds h
    by_cases hc : c.decl = P
    · cases hval : c.val with
      | type cType =>
        rw [constraintTypesOf_cons_type hc hval]
        cases type with
        | none =>
          simp only [solveTypeParam, hc, ne_eq, not_true_eq_false, if_false, hval] at h
          obtain ⟨r1, ds1, ds2, hrec, hret, hds⟩ := Check.bind_eq_ok _ _ _ _ h
          obtain ⟨h1, h2⟩ := Check.pure_eq_ok _ _ _ hret
          subst h1 h2 hds
          obtain ⟨ih1, ih2, ih3⟩ := ih (some cType) r1 ds1 hrec
          refine ⟨?_, ?_, ?_⟩
          · simpa [joinRunning, joinAll] using ih1
          · intro hne
            simp [markIn_same hc, ih2 hne, hc, hval]
          · simp [ih3, Constraint.target, hc, hval]
        | some running =>
          simp only [solveTypeParam, hc, ne_eq, not_true_eq_false, if_false, hval] at h
          obtain ⟨joinType, ds1, ds2, hjoin, hrest, hds⟩ := Check.bind_eq_ok _ _ _ _ h
          subst hds
          cases joinType with
          | none =>
            obtain ⟨h1, h2⟩ := Check.pure_eq_ok _ _ _ hrest
            subst h1 h2
            refine ⟨?_, ?_, rfl⟩
            · simp only [joinRunning, joinFrom]
              rw [hjoin]
              rfl
            · intro hne
              exact absurd rfl hne
          | some joinType =>
            simp only at hrest
            obtain ⟨r1, ds3, ds4, hrec, hret, hds⟩ := Check.bind_eq_ok _ _ _ _ hrest
            obtain ⟨h1, h2⟩ := Check.pure_eq_ok _ _ _ hret
            subst h1 h2 hds
            obtain ⟨ih1, ih2, ih3⟩ := ih (some joinType) r1 ds3 hrec
            refine ⟨?_, ?_, ?_⟩
            · simp only [joinRunning, joinFrom]
              rw [hjoin]
              simp only [joinRunning] at ih1
              exact Check.ok_bind_eq _ _ _ _ _ (by simpa using ih1)
            · intro hne
              simp [markIn_same hc, ih2 hne, hc, hval]
            · simp [ih3, Constraint.target, hc, hval]
      | null =>
        simp [solveTypeParam, hc, hval, throwSignal] at h
      | constantInt v =>
        simp [solveTypeParam, hc, hval, throwSignal] at h
      | genericParamInt d s =>
        simp [solveTypeParam, hc, hval, throwSignal] at h
    · rw [constraintTypesOf_cons_other hc]
      simp only [solveTypeParam, ne_eq, hc, not_false_eq_true, if_true] at h
      obtain ⟨r1, ds1, ds2, hrec, hret, hds⟩ := Check.bind_eq_ok _ _ _ _ h
      obtain ⟨h1, h2⟩ := Check.pure_eq_ok _ _ _ hret
      subst h1 h2 hds
      obtain ⟨ih1, ih2, ih3⟩ := ih type r1 ds1 hrec
      refine ⟨by simpa using ih1, ?_, ?_⟩
      · intro hne
        simp only [List.map_cons, markIn_other hc, ih2 hne]
      · simp only [List.map_cons, ih3]

/-- The loop for a type parameter computes the left fold of the join, whatever
the outcome of the joins, when the constraints on the parameter hold types. -/
theorem solveTypeParam_fold (join : JoinFn) (P : DeclId) (cs : List Constraint) :
    ∀ type : Option Ty, (∀ c ∈ cs, c.decl = P → ∃ t, c.val = Val.type t) →
      (solveTypeParam join P type cs >>= fun r => (pure r.1.join : Check (Option Ty)))
        = joinRunning join type (constraintTypesOf P cs) := by
  induction cs with
  | nil =>
    intro type _
    cases type <;> rfl
  | cons c rest ih =>
    intro type hall
    have hrest : ∀ c' ∈ rest, c'.decl = P → ∃ t, c'.val = Val.type t :=
      fun c' hc' => hall c' (List.mem_cons_of_mem c hc')
    by_cases hc : c.decl = P
    · obtain ⟨cType, hval⟩ := hall c (List.mem_cons_self c rest) hc
      rw [constraintTypesOf_cons_type hc hval]
      cases type with
      | none =>
        simp only [solveTypeParam, hc, ne_eq, not_true_eq_false, if_false, hval]
        rw [Check.bind_assoc]
        simp only [Check.pure_bind]
        exact ih (some cType) hrest
      | some running =>
        simp only [solveTypeParam, hc, ne_eq, not_true_eq_false, if_false, hval]
        rw [Check.bind_assoc]
        simp only [joinRunning, joinFrom]
        congr 1
        funext joinType
        cases joinType with
        | none => rfl
        | some joinType =>
          simp only
          rw [Check.bind_assoc]
          simp only [Check.pure_bind]
          exact ih (some joinType) hrest
    · rw [constraintTypesOf_cons_other hc]
      simp only [solveTypeParam, ne_eq, hc, not_false_eq_true, if_true]
      rw [Check.bind_assoc]
      simp only [Check.pure_bind]
      exact ih type hrest

theorem solveValueParam_returns (P : DeclId) (cs : List Constraint) :
    ∀ (val : Option Val) (r : Option (Option Val) × List Constraint) (ds : List Diagnostic),
      solveValueParam P val cs = Check.ok r ds →
      (r.1 ≠ none → r.2 = cs.map (markIn [P]))
        ∧ r.2.map Constraint.target = cs.map Constraint.target := by
  induction cs with
  | nil =>
    intro val r ds h
    simp only [solveValueParam] at h
    obtain ⟨h1, h2⟩ := Check.pure_eq_ok _ _ _ h
    subst h1 h2
    exact ⟨fun _ => rfl, rfl⟩
  | cons c rest ih =>
    intro val r ds h
    by_cases hc : c.decl = P
    · by_cases hint : c.val.isIntVal = true
      · cases val with
        | none =>
          simp only [solveValueParam, hc, ne_eq, not_true_eq_false, if_false, hint,
            Bool.not_true, Bool.false_eq_true] at h
          obtain ⟨r1, ds1, ds2, hrec, hret, hds⟩ := Check.bind_eq_ok _ _ _ _ h
          obtain ⟨h1, h2⟩ := Check.pure_eq_ok _ _ _ hret
          subst h1 h2 hds
          obtain ⟨ih2, ih3⟩ := ih (some c.val) r1 ds1 hrec
          refine ⟨?_, ?_⟩
          · intro hne
            simp [markIn_same hc, ih2 hne, hc]
          · simp [ih3, Constraint.target, hc]
        | some running =>
          by_cases heq : running.EqualsVal c.val = true
          · simp only [solveValueParam, hc, ne_eq, not_true_eq_false, if_false, hint,
              Bool.not_true, Bool.false_eq_true, heq] at h
            obtain ⟨r1, ds1, ds2, hrec, hret, hds⟩ := Check.bind_eq_ok _ _ _ _ h
            obtain ⟨h1, h2⟩ := Check.pure_eq_ok _ _ _ hret
            subst h1 h2 hds
            obtain ⟨ih2, ih3⟩ := ih (some running) r1 ds1 hrec
            refine ⟨?_, ?_⟩
            · intro hne
              simp [markIn_same hc, ih2 hne, hc]
            · simp [ih3, Constraint.target, hc]
          · simp only [solveValueParam, hc, ne_eq, not_true_eq_false, if_false, hint,
              Bool.not_true, Bool.false_eq_true, heq, Bool.not_false, if_true] at h
            obtain ⟨h1, h2⟩ := Check.pure_eq_ok _ _ _ h
            subst h1 h2
            exact ⟨fun hne => absurd rfl hne, rfl⟩
      · simp [solveValueParam, hc, hint, throwSignal] at h
    · simp only [solveValueParam, ne_eq, hc, not_false_eq_true, if_true] at h
      obtain ⟨r1, ds1, ds2, hrec, hret, hds⟩ := Check.bind_eq_ok _ _ _ _ h
      obtain ⟨h1, h2⟩ := Check.pure_eq_ok _ _ _ hret
      subst h1 h2 hds
      obtain ⟨ih2, ih3⟩ := ih val r1 ds1 hrec
      refine ⟨?_, ?_⟩
      · intro hne
        simp only [List.map_cons, markIn_other hc, ih2 hne]
      · simp only [List.map_cons, ih3]

theorem parametersOf_cons_param (env : Env) (m : DeclRef) (rest : List DeclRef)
    (h : env.declKind m.decl = DeclKind.GenericTypeParamDecl
      ∨ env.declKind m.decl = DeclKind.GenericValueParamDecl) :
    parametersOf env (m :: rest) = m :: parametersOf env rest := by
  rcases h with h | h <;> simp [parametersOf, List.filter_cons, h]

theorem parametersOf_cons_other (env : Env) (m : DeclRef) (rest : List DeclRef)
    (h1 : env.declKind m.decl ≠ DeclKind.GenericTypeParamDecl)
    (h2 : env.declKind m.decl ≠ DeclKind.GenericValueParamDecl) :
    parametersOf env (m :: rest) = parametersOf env rest := by
  simp [parametersOf, List.filter_cons, h1, h2]

theorem solveParameters_returns (env : Env) (join : JoinFn) (members : List DeclRef) :
    ∀ (cs : List Constraint) (r : Option (List Val) × List Constraint) (ds : List Diagnostic),
      solveParameters env join members cs = Check.ok r ds →
      r.2.map Constraint.target = cs.map Constraint.target
        ∧ ∀ args, r.1 = some args →
          r.2 = cs.map (markIn (parameterDecls env members))
            ∧ List.Forall₂ (fun m arg =>
                env.declKind m.decl = DeclKind.GenericTypeParamDecl →
                ∃ t ds', arg = Val.type t
                  ∧ joinAll join (constraintTypesOf m.decl cs) = Check.ok (some t) ds')
              (parametersOf env members) args := by
  induction members with
  | nil =>
    intro cs r ds h
    simp only [solveParameters] at h
    obtain ⟨h1, h2⟩ := Check.pure_eq_ok _ _ _ h
    subst h1 h2
    refine ⟨rfl, ?_⟩
    intro args hargs
    injection hargs with hargs
    subst hargs
    refine ⟨?_, List.Forall₂.nil⟩
    have hid : markIn [] = id := funext markIn_nil
    simp [parameterDecls, parametersOf, hid]
  | cons m rest ih =>
    intro cs r ds h
    by_cases ht : env.declKind m.decl = DeclKind.GenericTypeParamDecl
    · simp only [solveParameters, ht, if_true] at h
      obtain ⟨r1, ds1, ds2, hloop, hrest, hds⟩ := Check.bind_eq_ok _ _ _ _ h
      obtain ⟨hfold, hmark, htarget⟩ := solveTypeParam_returns join m.decl cs none r1 ds1 hloop
      have hfail : r1.1 = none ∨ r1.1 = some none →
          (pure (none, r1.2) : Check (Option (List Val) × List Constraint)) = Check.ok r ds2 →
          r.2.map Constraint.target = cs.map Constraint.target
            ∧ ∀ args, r.1 = some args →
              r.2 = cs.map (markIn (parameterDecls env (m :: rest)))
                ∧ List.Forall₂ (fun m arg =>
                    env.declKind m.decl = DeclKind.GenericTypeParamDecl →
                    ∃ t ds', arg = Val.type t
                      ∧ joinAll join (constraintTypesOf m.decl cs) = Check.ok (some t) ds')
                  (parametersOf env (m :: rest)) args := by
        intro _ hret
        obtain ⟨h1, h2⟩ := Check.pure_eq_ok _ _ _ hret
        subst h1
        refine ⟨htarget, ?_⟩
        intro args hargs
        cases hargs
      cases hr : r1.1 with
      | none =>
        rw [hr] at hrest
        exact hfail (Or.inl hr) hrest
      | some o =>
        cases o with
        | none =>
          rw [hr] at hrest
          exact hfail (Or.inr hr) hrest
        | some type =>
          rw [hr] at hrest
          simp only at hrest
          obtain ⟨s, ds3, ds4, hs, hret, hds'⟩ := Check.bind_eq_ok _ _ _ _ hrest
          obtain ⟨h1, h2⟩ := Check.pure_eq_ok _ _ _ hret
          subst h1
          obtain ⟨ihtarget, ihargs⟩ := ih r1.2 s ds3 hs
          refine ⟨by rw [ihtarget, htarget], ?_⟩
          intro args hargs
          cases hs1 : s.1 with
          | none => simp [hs1] at hargs
          | some restArgs =>
            simp only [hs1, Option.map_some', Option.some.injEq] at hargs
            subst hargs
            obtain ⟨ihmark, ihall⟩ := ihargs restArgs hs1
            have hmark' : r1.2 = cs.map (markIn [m.decl]) := hmark (by rw [hr]; simp)
            refine ⟨?_, ?_⟩
            · simp only [ihmark, hmark', List.map_map, parameterDecls,
                parametersOf_cons_param env m rest (Or.inl ht), List.map_cons]
              apply List.map_congr_left
              intro c _
              simp only [Function.comp, markIn_append, List.singleton_append]
            · rw [parametersOf_cons_param env m rest (Or.inl ht)]
              refine List.Forall₂.cons ?_ ?_
              · intro _
                refine ⟨type, ds1, rfl, ?_⟩
                rw [hr] at hfold
                simpa [joinRunning] using hfold
              · refine List.Forall₂.imp ?_ ihall
                intro m' arg hm' hkind
                obtain ⟨t, ds', harg, hj⟩ := hm' hkind
                exact ⟨t, ds', harg, by rw [← constraintTypesOf_target m'.decl htarget]; exact hj⟩
    · by_cases hv : env.declKind m.decl = DeclKind.GenericValueParamDecl
      · simp only [solveParameters, ht, hv, if_true, if_false] at h
        obtain ⟨r1, ds1, ds2, hloop, hrest, hds⟩ := Check.bind_eq_ok _ _ _ _ h
        obtain ⟨hmark, htarget⟩ := solveValueParam_returns m.decl cs none r1 ds1 hloop
        have hfail : r1.1 = none ∨ r1.1 = some none →
            (pure (none, r1.2) : Check (Option (List Val) × List Constraint)) = Check.ok r ds2 →
            r.2.map Constraint.target = cs.map Constraint.target
              ∧ ∀ args, r.1 = some args →
                r.2 = cs.map (markIn (parameterDecls env (m :: rest)))
                  ∧ List.Forall₂ (fun m arg =>
                      env.declKind m.decl = DeclKind.GenericTypeParamDecl →
                      ∃ t ds', arg = Val.type t
                        ∧ joinAll join (constraintTypesOf m.decl cs) = Check.ok (some t) ds')
                    (parametersOf env (m :: rest)) args := by
          intro _ hret
          obtain ⟨h1, h2⟩ := Check.pure_eq_ok _ _ _ hret
          subst h1
          refine ⟨htarget, ?_⟩
          intro args hargs
          cases hargs
        cases hr : r1.1 with
        | none =>
          rw [hr] at hrest
          exact hfail (Or.inl hr) hrest
        | some o =>
          cases o with
          | none =>
            rw [hr] at hrest
            exact hfail (Or.inr hr) hrest
          | some val =>
            rw [hr] at hrest
            simp only at hrest
            obtain ⟨s, ds3, ds4, hs, hret, hds'⟩ := Check.bind_eq_ok _ _ _ _ hrest
            obtain ⟨h1, h2⟩ := Check.pure_eq_ok _ _ _ hret
            subst h1
            obtain ⟨ihtarget, ihargs⟩ := ih r1.2 s ds3 hs
            refine ⟨by rw [ihtarget, htarget], ?_⟩
            intro args hargs
            cases hs1 : s.1 with
            | none => simp [hs1] at hargs
            | some restArgs =>
              simp only [hs1, Option.map_some', Option.some.injEq] at hargs
              subst hargs
              obtain ⟨ihmark, ihall⟩ := ihargs restArgs hs1
              have hmark' : r1.2 = cs.map (markIn [m.decl]) := hmark (by rw [hr]; simp)
              refine ⟨?_, ?_⟩
              · simp only [ihmark, hmark', List.map_map, parameterDecls,
                  parametersOf_cons_param env m rest (Or.inr hv), List.map_cons]
                apply List.map_congr_left
                intro c _
                simp only [Function.comp, markIn_append, List.singleton_append]
              · rw [parametersOf_cons_param env m rest (Or.inr hv)]
                refine List.Forall₂.cons ?_ ?_
                · intro hkind
                  exact absurd hkind ht
                · refine List.Forall₂.imp ?_ ihall
                  intro m' arg hm' hkind
                  obtain ⟨t, ds', harg, hj⟩ := hm' hkind
                  exact ⟨t, ds', harg,
                    by rw [← constraintTypesOf_target m'.decl htarget]; exact hj⟩
      · simp only [solveParameters, ht, hv, if_false] at h
        have := ih cs r ds h
        rw [parameterDecls, parametersOf_cons_other env m rest ht hv]
        exact this

/-- A call of `TrySolveConstraintSystem` that returns either returns nil, or
has unified the constraint declarations of the generic, has run the loop over
the parameters to its end, and has found every constraint marked. -/
theorem TrySolveConstraintSystem_returns (env : Env) (genv : GenericEnv) (fuel : Nat)
    (system : ConstraintSystem) (genericDeclRef : DeclRef) (result : Option Subst)
    (system' : ConstraintSystem) (ds : List Diagnostic)
    (hsolve : TrySolveConstraintSystem env genv fuel system genericDeclRef
      = Check.ok (result, system') ds) :
    result = none
      ∨ ∃ before ds1 args ds2,
          unifyGenericConstraints genv (TryUnifyTypes env fuel) system
              (getMembersOfType env (fun k => decide (k = DeclKind.GenericTypeConstraintDecl))
                genericDeclRef) = Check.ok (true, before) ds1
          ∧ solveParameters env (TryJoinTypes env fuel) (env.getMembers genericDeclRef)
              before.constraints = Check.ok (some args, system'.constraints) ds2
          ∧ (∀ c ∈ system'.constraints, c.satisfied = true)
          ∧ result = some (Subst.mk genericDeclRef.decl (ValList.ofList args)
              genericDeclRef.substitutions) := by
  unfold TrySolveConstraintSystem at hsolve
  obtain ⟨u, ds1, ds2, hu, hrest, hds⟩ := Check.bind_eq_ok _ _ _ _ hsolve
  obtain ⟨ok, before⟩ := u
  cases ok with
  | false =>
    simp only [Bool.not_false, if_true] at hrest
    obtain ⟨h1, _⟩ := Check.pure_eq_ok _ _ _ hrest
    injection h1 with h1 _
    exact Or.inl h1.symm
  | true =>
    simp only [Bool.not_true, Bool.false_eq_true, if_false] at hrest
    obtain ⟨s, ds3, ds4, hs, hret, hds'⟩ := Check.bind_eq_ok _ _ _ _ hrest
    obtain ⟨sargs, scs⟩ := s
    cases sargs with
    | none =>
      simp only at hret
      obtain ⟨h1, _⟩ := Check.pure_eq_ok _ _ _ hret
      injection h1 with h1 _
      exact Or.inl h1.symm
    | some args =>
      simp only at hret
      by_cases hany : scs.any (fun c => !c.satisfied) = true
      · rw [if_pos hany] at hret
        obtain ⟨h1, _⟩ := Check.pure_eq_ok _ _ _ hret
        injection h1 with h1 _
        exact Or.inl h1.symm
      · rw [if_neg hany] at hret
        obtain ⟨h1, _⟩ := Check.pure_eq_ok _ _ _ hret
        injection h1 with h1 h2
        subst h2
        refine Or.inr ⟨before, ds1, args, ds3, hu, hs, ?_, h1.symm⟩
        intro c hc
        simp only [List.any_eq_true, Bool.not_eq_true', not_exists, not_and,
          Bool.not_eq_false] at hany
        exact hany c hc

/-- A call of `TrySolveConstraintSystem` that returns: the arguments of a
returned substitution are those of the type and value parameters of the
generic, in member order, and the argument of a type parameter `P` is the left
fold of `TryJoinTypes` over the types of the constraints on `P`; the call
returns nil when that fold is nil for a type parameter of the generic. The loop
over the constraints computes the fold whatever the joins do. -/
theorem returned_solution_is_fold (env : Env) (genv : GenericEnv) (fuel : Nat)
    (system : ConstraintSystem) (genericDeclRef : DeclRef) (result : Option Subst)
    (system' : ConstraintSystem) (ds : List Diagnostic)
    (hsolve : TrySolveConstraintSystem env genv fuel system genericDeclRef
      = Check.ok (result, system') ds) :
    (∀ solved, result = some solved →
      ∃ args, solved = Subst.mk genericDeclRef.decl (ValList.ofList args)
          genericDeclRef.substitutions
        ∧ List.Forall₂ (fun P arg =>
            env.declKind P.decl = DeclKind.GenericTypeParamDecl →
            ∃ t ds', arg = Val.type t
              ∧ joinAll (TryJoinTypes env fuel) (constraintTypesOf P.decl system'.constraints)
                = Check.ok (some t) ds')
          (parametersOf env (env.getMembers genericDeclRef)) args)
    ∧ (∀ P ∈ env.getMembers genericDeclRef,
        env.declKind P.decl = DeclKind.GenericTypeParamDecl →
        ∀ ds', joinAll (TryJoinTypes env fuel) (constraintTypesOf P.decl system'.constraints)
            = Check.ok none ds' →
          result = none)
    ∧ (∀ (P : DeclId) (constraints : List Constraint),
        (∀ c ∈ constraints, c.decl = P → ∃ t, c.val = Val.type t) →
        (solveTypeParam (TryJoinTypes env fuel) P none constraints >>= fun r =>
            (pure r.1.join : Check (Option Ty)))
          = joinAll (TryJoinTypes env fuel) (constraintTypesOf P constraints)) := by
  have hargs : ∀ solved, result = some solved →
      ∃ args, solved = Subst.mk genericDeclRef.decl (ValList.ofList args)
          genericDeclRef.substitutions
        ∧ List.Forall₂ (fun P arg =>
            env.declKind P.decl = DeclKind.GenericTypeParamDecl →
            ∃ t ds', arg = Val.type t
              ∧ joinAll (TryJoinTypes env fuel) (constraintTypesOf P.decl system'.constraints)
                = Check.ok (some t) ds')
          (parametersOf env (env.getMembers genericDeclRef)) args := by
    intro solved hsolved
    rcases TrySolveConstraintSystem_returns env genv fuel system genericDeclRef result system'
      ds hsolve with hnone | ⟨before, ds1, args, ds2, _, hsweep, _, hresult⟩
    · rw [hnone] at hsolved
      cases hsolved
    · rw [hresult] at hsolved
      injection hsolved with hsolved
      obtain ⟨htarget, hall⟩ := solveParameters_returns env (TryJoinTypes env fuel)
        (env.getMembers genericDeclRef) before.constraints _ ds2 hsweep
      obtain ⟨_, hforall⟩ := hall args rfl
      refine ⟨args, hsolved.symm, List.Forall₂.imp ?_ hforall⟩
      intro P arg hP hkind
      obtain ⟨t, ds', harg, hj⟩ := hP hkind
      exact ⟨t, ds', harg, by rw [constraintTypesOf_target P.decl htarget]; exact hj⟩
  refine ⟨hargs, ?_, ?_⟩
  · intro P hP hkind ds' hnil
    cases hresult : result with
    | none => rfl
    | some solved =>
      exfalso
      obtain ⟨args, _, hall⟩ := hargs solved hresult
      have hmem : P ∈ parametersOf env (env.getMembers genericDeclRef) := by
        simp [parametersOf, hP, hkind]
      have hex : ∀ (ps : List DeclRef) (as : List Val),
          List.Forall₂ (fun P arg =>
            env.declKind P.decl = DeclKind.GenericTypeParamDecl →
            ∃ t ds', arg = Val.type t
              ∧ joinAll (TryJoinTypes env fuel) (constraintTypesOf P.decl system'.constraints)
                = Check.ok (some t) ds') ps as →
          P ∈ ps → ∃ t ds'', joinAll (TryJoinTypes env fuel)
            (constraintTypesOf P.decl system'.constraints) = Check.ok (some t) ds'' := by
        intro ps as hfa
        induction hfa with
        | nil => intro h; cases h
        | cons hhead _ ih =>
          intro h
          rcases List.mem_cons.mp h with h | h
          · subst h
            obtain ⟨t, ds'', _, hj⟩ := hhead hkind
            exact ⟨t, ds'', hj⟩
          · exact ih h
      obtain ⟨t, ds'', hj⟩ := hex _ _ hall hmem
      rw [hnil] at hj
      cases hj
  · intro P constraints hall
    exact solveTypeParam_fold (TryJoinTypes env fuel) P constraints none hall

/-- A call of `TrySolveConstraintSystem` that returns, returns nil whenever it
leaves a constraint in the system that is not marked satisfied, and on every
return of a substitution all constraints of the system are marked satisfied.
The loop over the parameters, run to its end, marks exactly the constraints on
these parameters. -/
theorem returned_solution_marks_all (env : Env) (genv : GenericEnv) (fuel : Nat)
    (system : ConstraintSystem) (genericDeclRef : DeclRef) (result : Option Subst)
    (system' : ConstraintSystem) (ds : List Diagnostic)
    (hsolve : TrySolveConstraintSystem env genv fuel system genericDeclRef
      = Check.ok (result, system') ds) :
    ((∃ c ∈ system'.constraints, c.satisfied = false) → result = none)
    ∧ (result ≠ none →
        (∀ c ∈ system'.constraints, c.satisfied = true)
        ∧ ∃ before ds1,
            unifyGenericConstraints genv (TryUnifyTypes env fuel) system
              (getMembersOfType env (fun k => decide (k = DeclKind.GenericTypeConstraintDecl))
                genericDeclRef) = Check.ok (true, before) ds1
            ∧ system'.constraints = before.constraints.map
                (markIn (parameterDecls env (env.getMembers genericDeclRef))))
    ∧ (∀ (join : JoinFn) (members : List DeclRef) (constraints after : List Constraint)
        (args : List Val) (ds' : List Diagnostic),
        solveParameters env join members constraints = Check.ok (some args, after) ds' →
        after = constraints.map (markIn (parameterDecls env members))
          ∧ ∀ c ∈ constraints,
              ((markIn (parameterDecls env members) c).satisfied = false
                ↔ c.satisfied = false ∧ c.decl ∉ parameterDecls env members)) := by
  have hcases := TrySolveConstraintSystem_returns env genv fuel system genericDeclRef result
    system' ds hsolve
  refine ⟨?_, ?_, ?_⟩
  · rintro ⟨c, hc, hunsat⟩
    rcases hcases with hnone | ⟨before, ds1, args, ds2, _, _, hall, _⟩
    · exact hnone
    · rw [hall c hc] at hunsat
      cases hunsat
  · intro hne
    rcases hcases with hnone | ⟨before, ds1, args, ds2, hu, hsweep, hall, _⟩
    · exact absurd hnone hne
    · obtain ⟨_, hmarks⟩ := solveParameters_returns env (TryJoinTypes env fuel)
        (env.getMembers genericDeclRef) before.constraints _ ds2 hsweep
      exact ⟨hall, before, ds1, hu, (hmarks args rfl).1⟩
  · intro join members constraints after args ds' hsweep
    obtain ⟨_, hmarks⟩ := solveParameters_returns env join members constraints _ ds' hsweep
    refine ⟨(hmarks args rfl).1, ?_⟩
    intro c _
    unfold markIn
    by_cases hmem : c.decl ∈ parameterDecls env members <;> simp [hmem]

/-! ## The joins return -/

theorem BaseType.toNat_injective {l r : BaseType} (h : l.toNat = r.toNat) : l = r := by
  cases l <;> cases r <;> first | rfl | (simp [BaseType.toNat] at h)

theorem Ty.eq_of_asBasicExpressionType {t : Ty} {b : BaseType}
    (h : t.asBasicExpressionType = some b) : t = Ty.basic b := by
  cases t <;> simp [Ty.asBasicExpressionType] at h
  rw [h]

theorem Ty.eq_of_asVectorExpressionType {t e : Ty} {n : Val}
    (h : t.asVectorExpressionType = some (e, n)) : t = Ty.vector e n := by
  cases t <;> simp [Ty.asVectorExpressionType] at h
  rw [h.1, h.2]

theorem TryJoinTypesWithInterfaces_depth (env : Env) (left right j : Ty)
    (h : TryJoinTypesWithInterfaces env left right = some j) :
    j.vectorDepth ≤ max left.vectorDepth right.vectorDepth := by
  unfold TryJoinTypesWithInterfaces TryJoinTypeWithInterface at h
  split at h
  · split at h
    · injection h with h
      rw [← h]
      exact le_max_right _ _
    · cases h
  · split at h
    · split at h
      · injection h with h
        rw [← h]
        exact le_max_left _ _
      · cases h
    · cases h

/-- `TryJoinTypes` returns, without a diagnostic, when the budget is more than
the vector depths of the two types together, and the join is not deeper than
the deeper of the two. -/
theorem TryJoinTypes_total (env : Env) :
    ∀ (fuel : Nat) (left right : Ty), left.vectorDepth + right.vectorDepth < fuel →
      ∃ r, TryJoinTypes env fuel left right = Check.ok r []
        ∧ ∀ j, r = some j → j.vectorDepth ≤ max left.vectorDepth right.vectorDepth := by
  intro fuel
  induction fuel with
  | zero =>
    intro left right h
    exact absurd h (Nat.not_lt_zero _)
  | succ n ih =>
    intro left right hfuel
    have hvec : ∀ (e : Ty) (count : Val) (other : Ty),
        e.vectorDepth + other.vectorDepth < n →
        ∃ r, (TryJoinTypes env n e other >>= fun joinElementType =>
              match joinElementType with
              | none => (pure none : Check (Option Ty))
              | some joinElementType => pure (some (createVectorType joinElementType count)))
            = Check.ok r []
          ∧ ∀ j, r = some j → j.vectorDepth ≤ max e.vectorDepth other.vectorDepth + 1 := by
      intro e count other hlt
      obtain ⟨r, hr, hdepth⟩ := ih e other hlt
      cases r with
      | none =>
        exact ⟨none, by rw [hr]; rfl, fun j hj => by cases hj⟩
      | some j0 =>
        refine ⟨some (createVectorType j0 count), by rw [hr]; rfl, ?_⟩
        intro j hj
        injection hj with hj
        rw [← hj]
        have := hdepth j0 rfl
        simp only [createVectorType, Ty.vectorDepth]
        omega
    unfold TryJoinTypes
    by_cases heq : left.Equals right = true
    · rw [if_pos heq]
      exact ⟨some left, rfl, fun j hj => by injection hj with hj; rw [← hj]; exact le_max_left _ _⟩
    · rw [if_neg heq]
      have hinter : ∃ r, (pure (TryJoinTypesWithInterfaces env left right) : Check (Option Ty))
            = Check.ok r []
          ∧ ∀ j, r = some j → j.vectorDepth ≤ max left.vectorDepth right.vectorDepth :=
        ⟨_, rfl, fun j hj => TryJoinTypesWithInterfaces_depth env left right j hj⟩
      cases hlb : left.asBasicExpressionType with
      | some leftFlavor =>
        have hl := Ty.eq_of_asBasicExpressionType hlb
        cases hrb : right.asBasicExpressionType with
        | some rightFlavor =>
          have hr := Ty.eq_of_asBasicExpressionType hrb
          simp only []
          by_cases h1 : leftFlavor.toNat > rightFlavor.toNat
          · rw [if_pos h1]
            exact ⟨some left, rfl,
              fun j hj => by injection hj with hj; rw [← hj]; exact le_max_left _ _⟩
          · rw [if_neg h1]
            by_cases h2 : rightFlavor.toNat > leftFlavor.toNat
            · rw [if_pos h2]
              exact ⟨some right, rfl,
                fun j hj => by injection hj with hj; rw [← hj]; exact le_max_right _ _⟩
            · exfalso
              have hsame : leftFlavor = rightFlavor := BaseType.toNat_injective (by omega)
              apply heq
              rw [hl, hr, hsame]
              exact Ty.Equals_self _
        | none =>
          cases hrv : right.asVectorExpressionType with
          | some pair =>
            obtain ⟨e, count⟩ := pair
            have hr := Ty.eq_of_asVectorExpressionType hrv
            simp only [TryJoinVectorAndScalarType]
            have hlt : e.vectorDepth + left.vectorDepth < n := by
              rw [hr] at hfuel
              simp only [Ty.vectorDepth] at hfuel
              omega
            obtain ⟨r, hr1, hdepth⟩ := hvec e count left hlt
            refine ⟨r, hr1, ?_⟩
            intro j hj
            have := hdepth j hj
            rw [hr]
            rw [hl] at this ⊢
            simp only [Ty.vectorDepth] at this ⊢
            omega
          | none =>
            simp only []
            exact hinter
      | none =>
        cases hlv : left.asVectorExpressionType with
        | some pair =>
          obtain ⟨le, lcount⟩ := pair
          have hl := Ty.eq_of_asVectorExpressionType hlv
          cases hrv : right.asVectorExpressionType with
          | some rpair =>
            obtain ⟨re, rcount⟩ := rpair
            have hr := Ty.eq_of_asVectorExpressionType hrv
            simp only []
            by_cases hcount : (!lcount.EqualsVal rcount) = true
            · rw [if_pos hcount]
              exact ⟨none, rfl, fun j hj => by cases hj⟩
            · rw [if_neg hcount]
              have hlt : le.vectorDepth + re.vectorDepth < n := by
                rw [hl, hr] at hfuel
                simp only [Ty.vectorDepth] at hfuel
                omega
              obtain ⟨r, hr1, hdepth⟩ := hvec le lcount re hlt
              refine ⟨r, hr1, ?_⟩
              intro j hj
              have := hdepth j hj
              rw [hl, hr]
              simp only [Ty.vectorDepth]
              omega
          | none =>
            cases hrb : right.asBasicExpressionType with
            | some rightFlavor =>
              have hr := Ty.eq_of_asBasicExpressionType hrb
              simp only [TryJoinVectorAndScalarType]
              have hlt : le.vectorDepth + right.vectorDepth < n := by
                rw [hl] at hfuel
                simp only [Ty.vectorDepth] at hfuel
                omega
              obtain ⟨r, hr1, hdepth⟩ := hvec le lcount right hlt
              refine ⟨r, hr1, ?_⟩
              intro j hj
              have := hdepth j hj
              rw [hl]
              rw [hr] at this ⊢
              simp only [Ty.vectorDepth] at this ⊢
              omega
            | none =>
              simp only []
              exact hinter
        | none =>
          simp only []
          exact hinter

/-- The left fold of `TryJoinTypes` over a list of types returns when the
budget is more than twice the vector depth of each of the types. -/
theorem joinFrom_total (env : Env) (fuel bound : Nat) (hfuel : 2 * bound < fuel) :
    ∀ (types : List Ty) (running : Ty), running.vectorDepth ≤ bound →
      (∀ t ∈ types, t.vectorDepth ≤ bound) →
      ∃ r, joinFrom (TryJoinTypes env fuel) running types = Check.ok r [] := by
  intro types
  induction types with
  | nil =>
    intro running _ _
    exact ⟨_, rfl⟩
  | cons next rest ih =>
    intro running hrunning hall
    have hnext := hall next (List.mem_cons_self next rest)
    obtain ⟨j, hj, hdepth⟩ := TryJoinTypes_total env fuel running next (by omega)
    simp only [joinFrom]
    rw [hj]
    cases j with
    | none => exact ⟨none, rfl⟩
    | some joinType =>
      have hjoin : joinType.vectorDepth ≤ bound := by
        have := hdepth joinType rfl
        omega
      obtain ⟨r, hr⟩ := ih joinType hjoin (fun t ht => hall t (List.mem_cons_of_mem next ht))
      exact ⟨r, by rw [← hr]; exact Check.pure_bind _ _⟩

theorem mem_constraintTypesOf {P : DeclId} {cs : List Constraint} {t : Ty}
    (h : t ∈ constraintTypesOf P cs) : ∃ c ∈ cs, c.val = Val.type t := by
  unfold constraintTypesOf at h
  obtain ⟨c, hc, hsome⟩ := List.mem_filterMap.mp h
  refine ⟨c, hc, ?_⟩
  split at hsome
  · split at hsome
    · next heq =>
      injection hsome with hsome
      rw [heq, hsome]
    · cases hsome
  · cases hsome

/-- With a budget that is enough for the joins of the types of the constraints,
the folds of the joins return. -/
theorem joinsReturn_of_budget (env : Env) (fuel : Nat) (members : List DeclRef)
    (constraints : List Constraint) (hbudget : BudgetForJoins fuel constraints) :
    JoinsReturn env (TryJoinTypes env fuel) members constraints := by
  intro m _ _
  cases htypes : constraintTypesOf m.decl constraints with
  | nil => exact ⟨none, [], rfl⟩
  | cons first rest =>
    have hmem : ∀ t ∈ first :: rest, 2 * t.vectorDepth < fuel := by
      intro t ht
      rw [← htypes] at ht
      obtain ⟨c, hc, hval⟩ := mem_constraintTypesOf ht
      exact hbudget c hc t hval
    have hbound : ∃ bound, 2 * bound < fuel ∧ ∀ t ∈ first :: rest, t.vectorDepth ≤ bound := by
      clear htypes
      induction rest with
      | nil =>
        refine ⟨first.vectorDepth, hmem first (List.mem_cons_self first []), ?_⟩
        intro t ht
        rcases List.mem_cons.mp ht with h | h
        · rw [h]
        · cases h
      | cons t ts ih =>
        obtain ⟨b, hb, hall⟩ := ih (fun t' ht' => by
          rcases List.mem_cons.mp ht' with h | h
          · rw [h]
            exact hmem first (List.mem_cons_self first (t :: ts))
          · exact hmem t' (List.mem_cons_of_mem first (List.mem_cons_of_mem t h)))
        have ht := hmem t (List.mem_cons_of_mem first (List.mem_cons_self t ts))
        refine ⟨max b t.vectorDepth, by omega, ?_⟩
        intro t' ht'
        rcases List.mem_cons.mp ht' with h | h
        · rw [h]
          exact le_trans (hall first (List.mem_cons_self first ts)) (le_max_left _ _)
        · rcases List.mem_cons.mp h with h | h
          · rw [h]
            exact le_max_right _ _
          · exact le_trans (hall t' (List.mem_cons_of_mem first h)) (le_max_left _ _)
    obtain ⟨bound, hfuel, hall⟩ := hbound
    obtain ⟨r, hr⟩ := joinFrom_total env fuel bound hfuel rest first
      (hall first (List.mem_cons_self first rest))
      (fun t ht => hall t (List.mem_cons_of_mem first ht))
    exact ⟨r, [], hr⟩

/-! ## The solver returns -/

theorem wellFormedConstraints_of_target {env : Env} {cs cs' : List Constraint}
    (h : cs'.map Constraint.target = cs.map Constraint.target)
    (hwell : WellFormedConstraints env cs) : WellFormedConstraints env cs' := by
  intro c' hc'
  have hmem : c'.target ∈ cs.map Constraint.target := by
    rw [← h]
    exact List.mem_map_of_mem _ hc'
  obtain ⟨c, hc, htarget⟩ := List.mem_map.mp hmem
  have hdecl : c.decl = c'.decl := congrArg Prod.fst htarget
  have hval : c.val = c'.val := congrArg Prod.snd htarget
  obtain ⟨h1, h2⟩ := hwell c hc
  rw [hdecl, hval] at h1 h2
  exact ⟨h1, h2⟩

theorem joinsReturn_of_target {env : Env} {join : JoinFn} {members : List DeclRef}
    {cs cs' : List Constraint} (h : cs'.map Constraint.target = cs.map Constraint.target)
    (hjoins : JoinsReturn env join members cs) : JoinsReturn env join members cs' := by
  intro m hm hkind
  rw [constraintTypesOf_target m.decl h]
  exact hjoins m hm hkind

/-- The loop for a type parameter returns when the constraints on the parameter
hold types and the fold of the joins returns. -/
theorem solveTypeParam_total (join : JoinFn) (P : DeclId) (cs : List Constraint)
    (type : Option Ty) (hall : ∀ c ∈ cs, c.decl = P → ∃ t, c.val = Val.type t)
    (hfold : ∃ r ds, joinRunning join type (constraintTypesOf P cs) = Check.ok r ds) :
    ∃ r ds, solveTypeParam join P type cs = Check.ok r ds := by
  obtain ⟨r, ds, hr⟩ := hfold
  rw [← solveTypeParam_fold join P cs type hall] at hr
  obtain ⟨a, ds1, _, ha, _, _⟩ := Check.bind_eq_ok _ _ _ _ hr
  exact ⟨a, ds1, ha⟩

/-- The loop for a value parameter returns when the constraints on the
parameter hold integer values. -/
theorem solveValueParam_total (P : DeclId) (cs : List Constraint) :
    ∀ val : Option Val, (∀ c ∈ cs, c.decl = P → c.val.isIntVal = true) →
      ∃ r, solveValueParam P val cs = Check.ok r [] := by
  induction cs with
  | nil =>
    intro val _
    exact ⟨_, rfl⟩
  | cons c rest ih =>
    intro val hall
    have hrest : ∀ c' ∈ rest, c'.decl = P → c'.val.isIntVal = true :=
      fun c' hc' => hall c' (List.mem_cons_of_mem c hc')
    by_cases hc : c.decl = P
    · have hint := hall c (List.mem_cons_self c rest) hc
      cases val with
      | none =>
        obtain ⟨r, hr⟩ := ih (some c.val) hrest
        refine ⟨(r.1, { c with satisfied := true } :: r.2), ?_⟩
        simp only [solveValueParam, hc, ne_eq, not_true_eq_false, if_false, hint, Bool.not_true,
          Bool.false_eq_true, hr]
        rfl
      | some running =>
        by_cases heq : running.EqualsVal c.val = true
        · obtain ⟨r, hr⟩ := ih (some running) hrest
          refine ⟨(r.1, { c with satisfied := true } :: r.2), ?_⟩
          simp only [solveValueParam, hc, ne_eq, not_true_eq_false, if_false, hint,
            Bool.not_true, Bool.false_eq_true, heq, hr]
          rfl
        · refine ⟨(none, c :: rest), ?_⟩
          simp only [solveValueParam, hc, ne_eq, not_true_eq_false, if_false, hint,
            Bool.not_true, Bool.false_eq_true, heq, Bool.not_false, if_true]
          rfl
    · obtain ⟨r, hr⟩ := ih val hrest
      refine ⟨(r.1, c :: r.2), ?_⟩
      simp only [solveValueParam, ne_eq, hc, not_false_eq_true, if_true, hr]
      rfl

/-- The loop over the members of the generic returns when the constraints are
well formed and the folds of the joins return. -/
theorem solveParameters_total (env : Env) (join : JoinFn) (members : List DeclRef) :
    ∀ cs : List Constraint, WellFormedConstraints env cs → JoinsReturn env join members cs →
      ∃ r ds, solveParameters env join members cs = Check.ok r ds := by
  induction members with
  | nil =>
    intro cs _ _
    exact ⟨_, _, rfl⟩
  | cons m rest ih =>
    intro cs hwell hjoins
    have hjoinsRest : JoinsReturn env join rest cs :=
      fun m' hm' hk => hjoins m' (List.mem_cons_of_mem m hm') hk
    by_cases ht : env.declKind m.decl = DeclKind.GenericTypeParamDecl
    · obtain ⟨r1, ds1, hloop⟩ := solveTypeParam_total join m.decl cs none
        (fun c hc hdecl => (hwell c hc).1 (by rw [hdecl]; exact ht))
        (hjoins m (List.mem_cons_self m rest) ht)
      obtain ⟨_, _, htarget⟩ := solveTypeParam_returns join m.decl cs none r1 ds1 hloop
      simp only [solveParameters, ht, if_true]
      rw [hloop]
      cases hr : r1.1 with
      | none =>
        refine ⟨(none, r1.2), _, Check.ok_bind_eq r1 ds1 _ _ [] ?_⟩
        simp only [hr]
        rfl
      | some o =>
        cases o with
        | none =>
          refine ⟨(none, r1.2), _, Check.ok_bind_eq r1 ds1 _ _ [] ?_⟩
          simp only [hr]
          rfl
        | some type =>
          obtain ⟨s, ds2, hs⟩ := ih r1.2 (wellFormedConstraints_of_target htarget hwell)
            (joinsReturn_of_target htarget hjoinsRest)
          refine ⟨(s.1.map (fun args => Val.type type :: args), s.2), _,
            Check.ok_bind_eq r1 ds1 _ _ (ds2 ++ []) ?_⟩
          simp only [hr]
          rw [hs]
          exact Check.ok_bind_eq s ds2 _ _ [] rfl
    · by_cases hv : env.declKind m.decl = DeclKind.GenericValueParamDecl
      · obtain ⟨r1, hloop⟩ := solveValueParam_total m.decl cs none
          (fun c hc hdecl => (hwell c hc).2 (by rw [hdecl]; exact hv))
        obtain ⟨_, htarget⟩ := solveValueParam_returns m.decl cs none r1 [] hloop
        simp only [solveParameters, ht, hv, if_true, if_false]
        rw [hloop]
        cases hr : r1.1 with
        | none =>
          refine ⟨(none, r1.2), _, Check.ok_bind_eq r1 [] _ _ [] ?_⟩
          simp only [hr]
          rfl
        | some o =>
          cases o with
          | none =>
            refine ⟨(none, r1.2), _, Check.ok_bind_eq r1 [] _ _ [] ?_⟩
            simp only [hr]
            rfl
          | some val =>
            obtain ⟨s, ds2, hs⟩ := ih r1.2 (wellFormedConstraints_of_target htarget hwell)
              (joinsReturn_of_target htarget hjoinsRest)
            refine ⟨(s.1.map (fun args => val :: args), s.2), _,
              Check.ok_bind_eq r1 [] _ _ (ds2 ++ []) ?_⟩
            simp only [hr]
            rw [hs]
            exact Check.ok_bind_eq s ds2 _ _ [] rfl
      · simp only [solveParameters, ht, hv, if_false]
        exact ih cs hwell hjoinsRest

/-- The solver returns when the unification of the constraint declarations of
the generic returns, the constraints it leaves are well formed, and the folds
of the joins return. With the unification failed the result is nil and the
system is the one the unification left; otherwise the system that is left has
the constraints of the unified one, with other marks. -/
theorem TrySolveConstraintSystem_total (env : Env) (genv : GenericEnv) (fuel : Nat)
    (system : ConstraintSystem) (genericDeclRef : DeclRef) (unified : Bool)
    (before : ConstraintSystem) (ds1 : List Diagnostic)
    (hunify : unifyGenericConstraints genv (TryUnifyTypes env fuel) system
      (getMembersOfType env (fun k => decide (k = DeclKind.GenericTypeConstraintDecl))
        genericDeclRef) = Check.ok (unified, before) ds1)
    (hwell : WellFormedConstraints env before.constraints)
    (hjoins : JoinsReturn env (TryJoinTypes env fuel) (env.getMembers genericDeclRef)
      before.constraints) :
    ∃ result system' ds,
      TrySolveConstraintSystem env genv fuel system genericDeclRef
        = Check.ok (result, system') ds
      ∧ system'.constraints.map Constraint.target
          = before.constraints.map Constraint.target
      ∧ (unified = false → result = none ∧ system' = before) := by
  unfold TrySolveConstraintSystem
  rw [hunify]
  cases unified with
  | false =>
    exact ⟨none, before, ds1 ++ [], Check.ok_bind_eq _ ds1 _ _ [] rfl, rfl,
      fun _ => ⟨rfl, rfl⟩⟩
  | true =>
    obtain ⟨s, ds2, hs⟩ := solveParameters_total env (TryJoinTypes env fuel)
      (env.getMembers genericDeclRef) before.constraints hwell hjoins
    obtain ⟨htarget, _⟩ := solveParameters_returns env (TryJoinTypes env fuel)
      (env.getMembers genericDeclRef) before.constraints s ds2 hs
    cases hs1 : s.1 with
    | none =>
      refine ⟨none, { constraints := s.2 }, ds1 ++ (ds2 ++ []), ?_, htarget,
        fun h => by cases h⟩
      refine Check.ok_bind_eq _ ds1 _ _ (ds2 ++ []) ?_
      simp only [Bool.not_true, Bool.false_eq_true, if_false]
      rw [hs]
      exact Check.ok_bind_eq s ds2 _ _ [] (by rw [hs1]; rfl)
    | some args =>
      by_cases hany : s.2.any (fun c => !c.satisfied) = true
      · refine ⟨none, { constraints := s.2 }, ds1 ++ (ds2 ++ []), ?_, htarget,
        fun h => by cases h⟩
        refine Check.ok_bind_eq _ ds1 _ _ (ds2 ++ []) ?_
        simp only [Bool.not_true, Bool.false_eq_true, if_false]
        rw [hs]
        exact Check.ok_bind_eq s ds2 _ _ [] (by rw [hs1]; simp only [hany, if_true]; rfl)
      · refine ⟨some (Subst.mk genericDeclRef.decl (ValList.ofList args)
          genericDeclRef.substitutions), { constraints := s.2 }, ds1 ++ (ds2 ++ []), ?_,
          htarget, fun h => by cases h⟩
        refine Check.ok_bind_eq _ ds1 _ _ (ds2 ++ []) ?_
        simp only [Bool.not_true, Bool.false_eq_true, if_false]
        rw [hs]
        exact Check.ok_bind_eq s ds2 _ _ [] (by rw [hs1]; simp only [hany, if_false]; rfl)

/-- C24: `TrySolveConstraintSystem` returns when the unification of the
constraint declarations of the generic returns, the constraints it leaves are
those the unifier builds (a type for a type parameter, an integer value for a
value parameter), and the budget is more than twice the vector depth of the
types in the constraints. In a returned
substitution the arguments are those of the type and value parameters of the
generic, in member order, and the argument solved for a type parameter `P` is
the left fold of `TryJoinTypes` over the types of the constraints on `P`, in
the order of the constraint list: the type of the first constraint, then the
join of the running type with the next one. The call returns nil when that
fold is nil for a type parameter of the generic: one of the joins is nil, or
`P` has no constraint at all. The loop over the constraints computes the fold
whatever the joins do. -/
theorem solved_type_argument (env : Env) (genv : GenericEnv) (fuel : Nat)
    (system : ConstraintSystem) (genericDeclRef : DeclRef) (unified : Bool)
    (before : ConstraintSystem) (ds1 : List Diagnostic)
    (hunify : unifyGenericConstraints genv (TryUnifyTypes env fuel) system
      (getMembersOfType env (fun k => decide (k = DeclKind.GenericTypeConstraintDecl))
        genericDeclRef) = Check.ok (unified, before) ds1)
    (hwell : WellFormedConstraints env before.constraints)
    (hbudget : BudgetForJoins fuel before.constraints) :
    ∃ result system' ds,
      TrySolveConstraintSystem env genv fuel system genericDeclRef
        = Check.ok (result, system') ds
      ∧ (∀ solved, result = some solved →
          ∃ args, solved = Subst.mk genericDeclRef.decl (ValList.ofList args)
              genericDeclRef.substitutions
            ∧ List.Forall₂ (fun P arg =>
                env.declKind P.decl = DeclKind.GenericTypeParamDecl →
                ∃ t ds', arg = Val.type t
                  ∧ joinAll (TryJoinTypes env fuel)
                      (constraintTypesOf P.decl before.constraints)
                    = Check.ok (some t) ds')
              (parametersOf env (env.getMembers genericDeclRef)) args)
      ∧ (∀ P ∈ env.getMembers genericDeclRef,
          env.declKind P.decl = DeclKind.GenericTypeParamDecl →
          ∀ ds', joinAll (TryJoinTypes env fuel) (constraintTypesOf P.decl before.constraints)
              = Check.ok none ds' →
            result = none)
      ∧ (∀ P ∈ env.getMembers genericDeclRef,
          env.declKind P.decl = DeclKind.GenericTypeParamDecl →
          constraintTypesOf P.decl before.constraints = [] → result = none)
      ∧ (unified = false → result = none)
      ∧ (∀ (P : DeclId) (constraints : List Constraint),
          (∀ c ∈ constraints, c.decl = P → ∃ t, c.val = Val.type t) →
          (solveTypeParam (TryJoinTypes env fuel) P none constraints >>= fun r =>
              (pure r.1.join : Check (Option Ty)))
            = joinAll (TryJoinTypes env fuel) (constraintTypesOf P constraints)) := by
  have hjoins := joinsReturn_of_budget env fuel (env.getMembers genericDeclRef)
    before.constraints hbudget
  obtain ⟨result, system', ds, hsolve, htarget, hfailed⟩ :=
    TrySolveConstraintSystem_total env genv fuel system genericDeclRef unified before ds1
      hunify hwell hjoins
  obtain ⟨hargs, hnil, hloop⟩ := returned_solution_is_fold env genv fuel system genericDeclRef
    result system' ds hsolve
  have hsame : ∀ P : DeclId, constraintTypesOf P system'.constraints
      = constraintTypesOf P before.constraints :=
    fun P => constraintTypesOf_target P htarget
  have hnil' : ∀ P ∈ env.getMembers genericDeclRef,
      env.declKind P.decl = DeclKind.GenericTypeParamDecl →
      ∀ ds', joinAll (TryJoinTypes env fuel) (constraintTypesOf P.decl before.constraints)
          = Check.ok none ds' →
        result = none := by
    intro P hP hkind ds' hfold
    exact hnil P hP hkind ds' (by rw [hsame]; exact hfold)
  refine ⟨result, system', ds, hsolve, ?_, hnil', ?_, fun h => (hfailed h).1, hloop⟩
  · intro solved hsolved
    obtain ⟨args, hsubst, hall⟩ := hargs solved hsolved
    refine ⟨args, hsubst, List.Forall₂.imp ?_ hall⟩
    intro P arg hP hkind
    obtain ⟨t, ds', harg, hj⟩ := hP hkind
    exact ⟨t, ds', harg, by rw [← hsame]; exact hj⟩
  · intro P hP hkind hempty
    exact hnil' P hP hkind [] (by rw [hempty]; rfl)

/-- Witness for `solved_type_argument`: solving `T := int, T := float` for the
generic of the extension of `vector<T,3>` returns `T = float`. -/
theorem solved_type_argument_witness :
    TrySolveConstraintSystem genericsEnv genericsDecls 2
        { constraints := [typeConstraint 211 intType, typeConstraint 211 floatType] }
        { decl := 210 }
      = Check.ok (some (Subst.mk 210 (ValList.cons (Val.type floatType) ValList.nil) Subst.none),
          { constraints := [{ decl := 211, val := Val.type intType, satisfied := true },
                            { decl := 211, val := Val.type floatType, satisfied := true }] }) []
    ∧ ∃ result system' ds,
        TrySolveConstraintSystem genericsEnv genericsDecls 2
            { constraints := [typeConstraint 211 intType, typeConstraint 211 floatType] }
            { decl := 210 }
          = Check.ok (result, system') ds :=
  ⟨rfl,
   match solved_type_argument genericsEnv genericsDecls 2
      { constraints := [typeConstraint 211 intType, typeConstraint 211 floatType] }
      { decl := 210 } true
      { constraints := [typeConstraint 211 intType, typeConstraint 211 floatType] } [] rfl
      (by
        intro c hc
        simp only [List.mem_cons, List.mem_singleton, List.not_mem_nil, or_false] at hc
        rcases hc with hc | hc <;> subst hc
        · exact ⟨fun _ => ⟨_, rfl⟩, fun h => absurd h (by decide)⟩
        · exact ⟨fun _ => ⟨_, rfl⟩, fun h => absurd h (by decide)⟩)
      (by
        intro c hc t ht
        simp only [List.mem_cons, List.mem_singleton, List.not_mem_nil, or_false] at hc
        rcases hc with hc | hc <;> subst hc <;> cases ht <;> decide) with
   | ⟨result, system', ds, h, _⟩ => ⟨result, system', ds, h⟩⟩

/-- C25: `TrySolveConstraintSystem` returns when the unification of the
constraint declarations of the generic returns, the constraints it leaves are
those the unifier builds, and the budget is more than twice the vector depth of
the types in the constraints. It returns nil
whenever, after the sweep over the parameters of the generic, the system still
holds a constraint that is not marked satisfied, and so whenever the unified
system holds an unmarked constraint whose declaration is not a type or value
parameter of the generic; on every return of a substitution all constraints of
the system are marked satisfied: the system is then the unified one with the
constraints on the type and value parameters of the generic marked. The loop
over the parameters, run to its end, marks exactly the constraints on these
parameters. -/
theorem unsatisfied_constraint_fails (env : Env) (genv : GenericEnv) (fuel : Nat)
    (system : ConstraintSystem) (genericDeclRef : DeclRef) (unified : Bool)
    (before : ConstraintSystem) (ds1 : List Diagnostic)
    (hunify : unifyGenericConstraints genv (TryUnifyTypes env fuel) system
      (getMembersOfType env (fun k => decide (k = DeclKind.GenericTypeConstraintDecl))
        genericDeclRef) = Check.ok (unified, before) ds1)
    (hwell : WellFormedConstraints env before.constraints)
    (hbudget : BudgetForJoins fuel before.constraints) :
    ∃ result system' ds,
      TrySolveConstraintSystem env genv fuel system genericDeclRef
        = Check.ok (result, system') ds
      ∧ ((∃ c ∈ system'.constraints, c.satisfied = false) → result = none)
      ∧ ((∃ c ∈ before.constraints, c.satisfied = false
            ∧ c.decl ∉ parameterDecls env (env.getMembers genericDeclRef)) → result = none)
      ∧ (result ≠ none →
          (∀ c ∈ system'.constraints, c.satisfied = true)
          ∧ system'.constraints = before.constraints.map
              (markIn (parameterDecls env (env.getMembers genericDeclRef))))
      ∧ (∀ (join : JoinFn) (members : List DeclRef) (constraints after : List Constraint)
          (args : List Val) (ds' : List Diagnostic),
          solveParameters env join members constraints = Check.ok (some args, after) ds' →
          after = constraints.map (markIn (parameterDecls env members))
            ∧ ∀ c ∈ constraints,
                ((markIn (parameterDecls env members) c).satisfied = false
                  ↔ c.satisfied = false ∧ c.decl ∉ parameterDecls env members)) := by
  have hjoins := joinsReturn_of_budget env fuel (env.getMembers genericDeclRef)
    before.constraints hbudget
  obtain ⟨result, system', ds, hsolve, _, _⟩ :=
    TrySolveConstraintSystem_total env genv fuel system genericDeclRef unified before ds1
      hunify hwell hjoins
  obtain ⟨hunsat, hsat, hsweep⟩ := returned_solution_marks_all env genv fuel system
    genericDeclRef result system' ds hsolve
  have hmarked : result ≠ none →
      (∀ c ∈ system'.constraints, c.satisfied = true)
      ∧ system'.constraints = before.constraints.map
          (markIn (parameterDecls env (env.getMembers genericDeclRef))) := by
    intro hne
    obtain ⟨hall, before', ds1', hunify', hmarks⟩ := hsat hne
    rw [hunify] at hunify'
    injection hunify' with hpair _
    injection hpair with _ hbefore
    subst hbefore
    exact ⟨hall, hmarks⟩
  refine ⟨result, system', ds, hsolve, hunsat, ?_, hmarked, hsweep⟩
  rintro ⟨c, hc, hfalse, hnot⟩
  by_contra hne
  obtain ⟨hall, hmarks⟩ := hmarked hne
  have hmem : markIn (parameterDecls env (env.getMembers genericDeclRef)) c
      ∈ system'.constraints := by
    rw [hmarks]
    exact List.mem_map_of_mem _ hc
  have hsame : markIn (parameterDecls env (env.getMembers genericDeclRef)) c = c := by
    simp [markIn, hnot]
  rw [hsame] at hmem
  rw [hall c hmem] at hfalse
  cases hfalse

/-- Witness for `unsatisfied_constraint_fails`: the system `T := int, U := int`
for the generic of the extension of `vector<T,3>`, where `U` (declaration 231)
is not a parameter of that generic, is not solved, and the constraint on `U`
is left unmarked. -/
theorem unsatisfied_constraint_fails_witness :
    TrySolveConstraintSystem genericsEnv genericsDecls 2
        { constraints := [typeConstraint 211 intType, typeConstraint 231 intType] }
        { decl := 210 }
      = Check.ok (none,
          { constraints := [{ decl := 211, val := Val.type intType, satisfied := true },
                            typeConstraint 231 intType] }) []
    ∧ (typeConstraint 231 intType).satisfied = false
    ∧ ∃ result system' ds,
        TrySolveConstraintSystem genericsEnv genericsDecls 2
            { constraints := [typeConstraint 211 intType, typeConstraint 231 intType] }
            { decl := 210 }
          = Check.ok (result, system') ds
        ∧ result = none :=
  ⟨rfl, rfl,
   match unsatisfied_constraint_fails genericsEnv genericsDecls 2
      { constraints := [typeConstraint 211 intType, typeConstraint 231 intType] }
      { decl := 210 } true
      { constraints := [typeConstraint 211 intType, typeConstraint 231 intType] } [] rfl
      (by
        intro c hc
        simp only [List.mem_cons, List.mem_singleton, List.not_mem_nil, or_false] at hc
        rcases hc with hc | hc <;> subst hc
        · exact ⟨fun _ => ⟨_, rfl⟩, fun h => absurd h (by decide)⟩
        · exact ⟨fun _ => ⟨_, rfl⟩, fun h => absurd h (by decide)⟩)
      (by
        intro c hc t ht
        simp only [List.mem_cons, List.mem_singleton, List.not_mem_nil, or_false] at hc
        rcases hc with hc | hc <;> subst hc <;> cases ht <;> decide) with
   | ⟨result, system', ds, h, _, hfails, _⟩ =>
     ⟨result, system', ds, h,
      hfails ⟨typeConstraint 231 intType, by simp, rfl, by decide⟩⟩⟩

/-! ## Extensions -/

/-- C30, the assertion of `ApplyExtensionToType` fails. For the generic
extension of `vector<T,3>` applied to `float`, unification constrains `T` to
`float` through the vector-against-scalar case and the solver returns
`T = float`, but the target type under that substitution is `vector<float,3>`,
not `float`. For the generic extension of `Pair<T,T>` applied to
`Pair<int,float>`, the solver joins `int` and `float` to `T = float`, and the
target type becomes `Pair<float,float>`. In both cases the assertion
`GetTargetType(extDeclRef)->Equals(type)` fails where the function would
return the reference. -/
theorem extension_target_differs :
    ApplyExtensionToType genericsEnv genericsDecls 3 213 floatType
        = Check.thrown Signal.assertionFailed []
    ∧ TryUnifyTypes genericsEnv 3 {} (genericsDecls.targetType 213) floatType
        = Check.ok (true, { constraints := [typeConstraint 211 floatType] }) []
    ∧ TrySolveConstraintSystem genericsEnv genericsDecls 3
          { constraints := [typeConstraint 211 floatType] } { decl := 210 }
        = Check.ok (some (Subst.mk 210 (ValList.cons (Val.type floatType) ValList.nil)
            Subst.none),
          { constraints := [{ decl := 211, val := Val.type floatType, satisfied := true }] }) []
    ∧ GetTargetType genericsEnv genericsDecls
          { decl := 213,
            substitutions := Subst.mk 210 (ValList.cons (Val.type floatType) ValList.nil)
              Subst.none }
        = Ty.vector floatType (Val.constantInt 3)
    ∧ ApplyExtensionToType genericsEnv genericsDecls 3 233 (pairType intType floatType)
        = Check.thrown Signal.assertionFailed []
    ∧ GetTargetType genericsEnv genericsDecls
          { decl := 233,
            substitutions := Subst.mk 230 (ValList.cons (Val.type floatType) ValList.nil)
              Subst.none }
        = pairType floatType floatType
    ∧ ApplyExtensionToType genericsEnv genericsDecls 3 203
          (Ty.vector floatType (Val.constantInt 3))
        = Check.ok (some
            { decl := 203,
              substitutions := Subst.mk 200 (ValList.cons (Val.type floatType)
                (ValList.cons (Val.constantInt 3) ValList.nil)) Subst.none }) [] :=
  ⟨rfl, rfl, rfl, rfl, rfl, rfl, rfl⟩

/-! ## Redeclaration of functions -/

theorem parametersMatch_iff (fe : FunctionEnv) :
    ∀ fstParams sndParams : List DeclRef, fstParams.length = sndParams.length →
      (parametersMatch fe fstParams sndParams = true ↔
        List.Forall₂ (fun p q => fe.type p.decl = fe.type q.decl
          ∧ HasOutModifier fe p.decl = HasOutModifier fe q.decl) fstParams sndParams) := by
  intro fstParams
  induction fstParams with
  | nil =>
    intro sndParams hlen
    cases sndParams with
    | nil => simp [parametersMatch]
    | cons q qs => simp at hlen
  | cons p ps ih =>
    intro sndParams hlen
    cases sndParams with
    | nil => simp at hlen
    | cons q qs =>
      have hlen' : ps.length = qs.length := by simpa using hlen
      rw [List.forall₂_cons]
      unfold parametersMatch
      by_cases ht : fe.type p.decl = fe.type q.decl
      · by_cases ho : HasOutModifier fe p.decl = HasOutModifier fe q.decl
        · simp [Ty.Equals, ht, ho, ih qs hlen']
        · simp [Ty.Equals, ht, ho]
      · simp [Ty.Equals, ht]

theorem DoFunctionSignaturesMatch_iff (env : Env) (fe : FunctionEnv) (f g : DeclId) :
    DoFunctionSignaturesMatch env fe f g = true ↔
      List.Forall₂ (fun p q => fe.type p.decl = fe.type q.decl
        ∧ HasOutModifier fe p.decl = HasOutModifier fe q.decl)
        (GetParameters env { decl := f }) (GetParameters env { decl := g }) := by
  unfold DoFunctionSignaturesMatch
  by_cases hlen : (GetParameters env { decl := f }).length
      = (GetParameters env { decl := g }).length
  · simp only [hlen, ne_eq, not_true_eq_false, if_false]
    exact parametersMatch_iff fe _ _ hlen
  · simp only [ne_eq, hlen, not_false_eq_true, if_true, Bool.false_eq_true, false_iff]
    intro h
    exact hlen (List.Forall₂.length_eq h)

/-- C31: `DoFunctionSignaturesMatch(f, g)` is true exactly when `f` and `g`
have the same number of parameters and, position by position, equal parameter
types and the same out-ness, where a parameter is `out` when it has an
`OutModifier`, which an `inout` modifier is too. The result does not depend on
the return types (nor on the bodies), and the relation is reflexive and
symmetric. -/
theorem signatures_match_iff (env : Env) (fe : FunctionEnv) (f g : DeclId) :
    (DoFunctionSignaturesMatch env fe f g = true ↔
      (GetParameters env { decl := f }).length = (GetParameters env { decl := g }).length
      ∧ ∀ (i : Nat) (hf : i < (GetParameters env { decl := f }).length)
          (hg : i < (GetParameters env { decl := g }).length),
          fe.type ((GetParameters env { decl := f }).get ⟨i, hf⟩).decl
              = fe.type ((GetParameters env { decl := g }).get ⟨i, hg⟩).decl
            ∧ HasOutModifier fe ((GetParameters env { decl := f }).get ⟨i, hf⟩).decl
              = HasOutModifier fe ((GetParameters env { decl := g }).get ⟨i, hg⟩).decl)
    ∧ (∀ (p : DeclId) (ms : List Modifier), fe.modifiers p = ms →
        (HasOutModifier fe p = true ↔
          Modifier.OutModifier ∈ ms ∨ Modifier.InOutModifier ∈ ms))
    ∧ (∀ (returnType : DeclId → Ty) (hasBody : DeclId → Bool),
        DoFunctionSignaturesMatch env
            { fe with ReturnType := returnType, hasBody := hasBody } f g
          = DoFunctionSignaturesMatch env fe f g)
    ∧ DoFunctionSignaturesMatch env fe f f = true
    ∧ DoFunctionSignaturesMatch env fe f g = DoFunctionSignaturesMatch env fe g f := by
  refine ⟨?_, ?_, ?_, ?_, ?_⟩
  · rw [DoFunctionSignaturesMatch_iff, List.forall₂_iff_get]
  · intro p ms hms
    unfold HasOutModifier
    rw [hms, List.any_eq_true]
    constructor
    · rintro ⟨m, hm, hout⟩
      cases m with
      | OutModifier => exact Or.inl hm
      | InOutModifier => exact Or.inr hm
      | InModifier => simp [Modifier.isOutModifier] at hout
      | HLSLUncheckedAttribute l n a => simp [Modifier.isOutModifier] at hout
      | HLSLNumThreadsAttribute l n a x y z => simp [Modifier.isOutModifier] at hout
      | other t => simp [Modifier.isOutModifier] at hout
    · rintro (h | h)
      · exact ⟨_, h, rfl⟩
      · exact ⟨_, h, rfl⟩
  · intro returnType hasBody
    rw [Bool.eq_iff_iff, DoFunctionSignaturesMatch_iff, DoFunctionSignaturesMatch_iff]
    exact Iff.rfl
  · rw [DoFunctionSignaturesMatch_iff]
    exact List.forall₂_same.mpr (fun _ _ => ⟨rfl, rfl⟩)
  · have hsymm : ∀ f g, DoFunctionSignaturesMatch env fe f g = true →
        DoFunctionSignaturesMatch env fe g f = true := by
      intro f g h
      rw [DoFunctionSignaturesMatch_iff] at h ⊢
      exact (List.Forall₂.flip h).imp (fun _ _ hpq => ⟨hpq.1.symm, hpq.2.symm⟩)
    cases h1 : DoFunctionSignaturesMatch env fe f g with
    | true => exact (hsymm f g h1).symm
    | false =>
      cases h2 : DoFunctionSignaturesMatch env fe g f with
      | true => rw [hsymm g f h2] at h1; cases h1
      | false => rfl

/-- C32, the chain of earlier declarations is lost at a generic. In the program
`float f(int a); __generic<T> void f(T a, T b); int f(int a);` the function
`int f(int)` matches the signature of `float f(int)` and has another return
type, but `ValidateFunctionRedeclaration` emits no diagnostic for it: at the
generic the loop variable is set to the inner function, whose own chain is
empty, so the loop ends before it reaches `float f(int)`. Without the generic
on the chain the diagnostic is emitted. -/
theorem redeclaration_missed_behind_generic :
    DoFunctionSignaturesMatch functionsEnv (redeclarations true) 404 401 = true
    ∧ ((redeclarations true).ReturnType 404).Equals ((redeclarations true).ReturnType 401)
        = false
    ∧ (redeclarations true).nextInContainerWithSameName 404 = some 402
    ∧ (redeclarations true).nextInContainerWithSameName 402 = some 401
    ∧ functionsEnv.isRewriteMode = false
    ∧ ValidateFunctionRedeclaration functionsEnv (redeclarations true) 5 404 = Check.ok () []
    ∧ ValidateFunctionRedeclaration functionsEnv (redeclarations false) 5 404
        = Check.ok ()
            [Diagnostic.unimplementedInDecl 404 "redeclaration has a different return type"] := by
  refine ⟨by decide, by decide, rfl, rfl, rfl, rfl, rfl⟩

/-! ## Jump statements -/

theorem findOuterStmtFrom_append (isT : Stmt → Bool) (below : List Stmt) (top : Stmt)
    (rest : List Stmt) (n : Nat) (hn : n ≤ below.length) :
    findOuterStmtFrom isT (below ++ top :: rest) n = findOuterStmtFrom isT below n := by
  induction n with
  | zero => rfl
  | succ k ih =>
    have hk : k < below.length := by omega
    unfold findOuterStmtFrom
    rw [List.getElem?_append_left hk, ih (by omega)]

theorem FindOuterStmt_eq_innermost (isT : Stmt → Bool) (outerStmts : List Stmt) :
    FindOuterStmt isT outerStmts = innermost isT outerStmts := by
  unfold FindOuterStmt innermost
  induction outerStmts using List.reverseRecOn with
  | nil => rfl
  | append_singleton below top ih =>
    rw [List.length_append, List.length_singleton, List.reverse_append, List.reverse_singleton,
      List.singleton_append, List.find?_cons]
    unfold findOuterStmtFrom
    have hget : (below ++ [top])[below.length]? = some top := by
      simp
    rw [hget]
    by_cases htop : isT top = true
    · simp [htop]
    · rw [findOuterStmtFrom_append isT below top [] below.length (le_refl _)]
      simpa [htop] using ih

/-- C36, the claim fails for a `case` statement whose expression is itself
diagnosed: `case y:` outside a `switch`, with `y` undefined, emits two
diagnostics, the one for the undefined identifier and the one for the missing
`switch`. -/
theorem case_outside_switch_counterexample :
    visitCaseStmt functionsEnv exampleChecker [] 7
        (Expr.VarExpr 8 { type := none } 20 none)
      = Check.ok (CreateErrorExpr (Expr.VarExpr 8 { type := none } 20 none), none)
          [Diagnostic.undefinedIdentifier2 8 20, Diagnostic.caseOutsideSwitch 7] :=
  rfl

/-- C36, amended: `visitBreakStmt` sets `parentStmt` to the innermost statement
on the stack of outer statements that is breakable (a loop or a switch),
`visitContinueStmt` to the innermost loop, whatever switch lies in between,
`visitCaseStmt` and `visitDefaultStmt` to the innermost switch. When there is
no such statement on the stack, `parentStmt` is set to null and, outside rewrite
mode, exactly one diagnostic is emitted for it; `visitCaseStmt` emits it after
the diagnostics of checking the expression of the `case`. With such a statement
on the stack no diagnostic is emitted for the host. -/
theorem jump_statement_hosts (env : Env) (checker : Checker) (outerStmts : List Stmt)
    (loc : SourceLoc) (caseExpr expr : Expr) (ds : List Diagnostic)
    (hexpr : checker.CheckExpr caseExpr = Check.ok expr ds) :
    visitBreakStmt env outerStmts loc
        = Check.ok (innermost Stmt.isBreakableStmt outerStmts)
            (if (innermost Stmt.isBreakableStmt outerStmts).isNone ∧ env.isRewriteMode = false
              then [Diagnostic.breakOutsideLoop loc] else [])
    ∧ visitContinueStmt env outerStmts loc
        = Check.ok (innermost Stmt.isLoopStmt outerStmts)
            (if (innermost Stmt.isLoopStmt outerStmts).isNone ∧ env.isRewriteMode = false
              then [Diagnostic.continueOutsideLoop loc] else [])
    ∧ visitCaseStmt env checker outerStmts loc caseExpr
        = Check.ok (expr, innermost (fun s => s.isSwitchStmt) outerStmts)
            (ds ++ (if (innermost (fun s => s.isSwitchStmt) outerStmts).isNone
                ∧ env.isRewriteMode = false
              then [Diagnostic.caseOutsideSwitch loc] else []))
    ∧ visitDefaultStmt env outerStmts loc
        = Check.ok (innermost (fun s => s.isSwitchStmt) outerStmts)
            (if (innermost (fun s => s.isSwitchStmt) outerStmts).isNone
                ∧ env.isRewriteMode = false
              then [Diagnostic.defaultOutsideSwitch loc] else [])
    ∧ (∀ (isT : Stmt → Bool) (host : Stmt), innermost isT outerStmts = some host →
        ∃ below above, outerStmts = below ++ host :: above ∧ isT host = true
          ∧ ∀ s ∈ above, isT s = false)
    ∧ (∀ isT : Stmt → Bool, innermost isT outerStmts = none ↔
        ∀ s ∈ outerStmts, isT s = false) := by
  refine ⟨?_, ?_, ?_, ?_, ?_, ?_⟩
  · unfold visitBreakStmt
    rw [FindOuterStmt_eq_innermost]
    cases innermost Stmt.isBreakableStmt outerStmts <;> cases env.isRewriteMode <;> rfl
  · unfold visitContinueStmt
    rw [FindOuterStmt_eq_innermost]
    cases innermost Stmt.isLoopStmt outerStmts <;> cases env.isRewriteMode <;> rfl
  · unfold visitCaseStmt
    rw [hexpr, FindOuterStmt_eq_innermost]
    cases innermost (fun s => s.isSwitchStmt) outerStmts <;> cases env.isRewriteMode <;>
      simp [Bind.bind, Check.bind, pure, diagnose]
  · unfold visitDefaultStmt
    rw [FindOuterStmt_eq_innermost]
    cases innermost (fun s => s.isSwitchStmt) outerStmts <;> cases env.isRewriteMode <;> rfl
  · intro isT host hhost
    unfold innermost at hhost
    obtain ⟨hT, as, bs, hsplit, hbefore⟩ := List.find?_eq_some.mp hhost
    refine ⟨bs.reverse, as.reverse, ?_, hT, ?_⟩
    · have := congrArg List.reverse hsplit
      simpa using this
    · intro s hs
      have := hbefore s (List.mem_reverse.mp hs)
      simpa using this
  · intro isT
    unfold innermost
    rw [List.find?_eq_none]
    constructor
    · intro h s hs
      have := h s (List.mem_reverse.mpr hs)
      simpa using this
    · intro h s hs
      have := h s (List.mem_reverse.mp hs)
      simp [this]

/-- Witness for `jump_statement_hosts`: a `break`, a `continue`, a `case` and a
`default` in a `switch` (statement 2) inside a loop (statement 1). -/
theorem jump_statement_hosts_witness :
    visitBreakStmt functionsEnv
        [{ id := 1, isLoopStmt := true, isSwitchStmt := false },
         { id := 2, isLoopStmt := false, isSwitchStmt := true }] 7
      = Check.ok (some { id := 2, isLoopStmt := false, isSwitchStmt := true }) []
    ∧ visitContinueStmt functionsEnv
        [{ id := 1, isLoopStmt := true, isSwitchStmt := false },
         { id := 2, isLoopStmt := false, isSwitchStmt := true }] 7
      = Check.ok (some { id := 1, isLoopStmt := true, isSwitchStmt := false }) [] :=
  ⟨(jump_statement_hosts functionsEnv exampleChecker
      [{ id := 1, isLoopStmt := true, isSwitchStmt := false },
       { id := 2, isLoopStmt := false, isSwitchStmt := true }] 7 (intLiteral 8 1)
      (intLiteral 8 1) [] rfl).1,
   (jump_statement_hosts functionsEnv exampleChecker
      [{ id := 1, isLoopStmt := true, isSwitchStmt := false },
       { id := 2, isLoopStmt := false, isSwitchStmt := true }] 7 (intLiteral 8 1)
      (intLiteral 8 1) [] rfl).2.1⟩

/-! ## The order of candidates and the assertion of `AddOverloadCandidateInner` -/

theorem costsFit_symm {a b : OverloadCandidate} (h : costsFit a b) : costsFit b a :=
  fun hb ha => ⟨(h ha hb).2, (h ha hb).1⟩

theorem rankedBefore_trans {a b c : OverloadCandidate} (hab : rankedBefore a b)
    (hbc : rankedBefore b c) : rankedBefore a c := by
  unfold rankedBefore at *
  omega

theorem filter_flags_of_tidy (context : OverloadResolveContext) (candidate : OverloadCandidate)
    (h : Tidy context) :
    (filterExistingCandidates context candidate).2.1 = true
      ∨ (filterExistingCandidates context candidate).2.2 = false := by
  obtain ⟨_, _, htied⟩ := h
  unfold filterExistingCandidates
  by_cases hl : context.bestCandidates.length ≠ 0
  · rw [if_pos hl]
    simp only
    cases hlist : context.bestCandidates with
    | nil => simp [hlist] at hl
    | cons r0 rest =>
      have hsame : ∀ r ∈ r0 :: rest, CompareOverloadCandidates candidate r
          = CompareOverloadCandidates candidate r0 := by
        intro r hr
        exact (cmp_congr_right candidate r0 r
          (htied r0 (by rw [hlist]; simp) r (by rw [hlist]; exact hr))).symm
      rcases lt_trichotomy (CompareOverloadCandidates candidate r0) 0 with hlt | heq | hgt
      · left
        rw [filterBestCandidates_all_better candidate _ (r0 :: rest) true false
          (fun r hr => by rw [hsame r hr]; exact hlt) (le_refl _)]
      · left
        rw [filterBestCandidates_all_tied candidate _ 0 (r0 :: rest) true false
          (fun r hr => by rw [hsame r hr]; exact heq)]
      · right
        rw [filterBestCandidates_all_worse candidate _ 0 (r0 :: rest) true false
          (fun r hr => by rw [hsame r hr]; exact hgt)]
  · rw [if_neg hl]
    cases context.bestCandidate with
    | none => left; rfl
    | some best =>
      simp only
      split_ifs <;> simp

/-- C37: for candidates whose cost sums differ by less than `2 ^ 31`,
`CompareOverloadCandidates` is a strict weak order: the sign of the comparison
of `a` with `b` is the opposite of the sign of the comparison of `b` with `a`,
"better" is transitive, and "tied" is an equivalence (for all candidates). In
every context reached from the empty one by calls of
`AddOverloadCandidateInner`, whatever the cost sums, the filtering of the
retained candidates against a new candidate ends with
`keepThisCandidate || !anyFiltered`: the new candidate is never better than one
retained candidate and worse than another. -/
theorem better_is_strict_weak_order (context : OverloadResolveContext)
    (candidates : List OverloadCandidate) (candidate : OverloadCandidate)
    (hslot : context.bestCandidate = none) (hlist : context.bestCandidates = []) :
    (∀ a b : OverloadCandidate, costsFit a b →
      Int.sign (CompareOverloadCandidates a b) = - Int.sign (CompareOverloadCandidates b a))
    ∧ (∀ a b c : OverloadCandidate, costsFit a b → costsFit b c → costsFit a c →
        CompareOverloadCandidates a b < 0 → CompareOverloadCandidates b c < 0 →
        CompareOverloadCandidates a c < 0)
    ∧ (∀ a : OverloadCandidate, CompareOverloadCandidates a a = 0)
    ∧ (∀ a b : OverloadCandidate, CompareOverloadCandidates a b = 0 →
        CompareOverloadCandidates b a = 0)
    ∧ (∀ a b c : OverloadCandidate, CompareOverloadCandidates a b = 0 →
        CompareOverloadCandidates b c = 0 → CompareOverloadCandidates a c = 0)
    ∧ ((filterExistingCandidates (addCandidates context candidates) candidate).2.1 = true
        ∨ (filterExistingCandidates (addCandidates context candidates) candidate).2.2 = false)
    ∧ ¬ (∃ r1 ∈ (addCandidates context candidates).retained,
          ∃ r2 ∈ (addCandidates context candidates).retained,
            CompareOverloadCandidates candidate r1 < 0
              ∧ 0 < CompareOverloadCandidates candidate r2) := by
  have htidy : Tidy (addCandidates context candidates) :=
    addCandidates_tidy candidates context (tidy_of_empty context hslot hlist)
  refine ⟨?_, ?_, cmp_self, cmp_zero_symm, ?_, filter_flags_of_tidy _ _ htidy, ?_⟩
  · intro a b hfit
    have hab := cmp_of_costsFit a b hfit
    have hba := cmp_of_costsFit b a (costsFit_symm hfit)
    rcases lt_trichotomy (CompareOverloadCandidates a b) 0 with hlt | heq | hgt
    · have hpos : 0 < CompareOverloadCandidates b a := hba.2.mpr (hab.1.mp hlt)
      rw [Int.sign_eq_neg_one_of_neg hlt, Int.sign_eq_one_of_pos hpos]
    · rw [heq, cmp_zero_symm a b heq]
      simp
    · have hneg : CompareOverloadCandidates b a < 0 := hba.1.mpr (hab.2.mp hgt)
      rw [Int.sign_eq_one_of_pos hgt, Int.sign_eq_neg_one_of_neg hneg]
      simp
  · intro a b c hab hbc hac h1 h2
    exact (cmp_of_costsFit a c hac).1.mpr
      (rankedBefore_trans ((cmp_of_costsFit a b hab).1.mp h1)
        ((cmp_of_costsFit b c hbc).1.mp h2))
  · intro a b c hab hbc
    rw [cmp_eq_zero_iff] at hab hbc ⊢
    exact ⟨hab.1.trans hbc.1, fun ha => (hab.2 ha).trans (hbc.2 (hab.1 ▸ ha))⟩
  · rintro ⟨r1, hr1, r2, hr2, hlt, hgt⟩
    obtain ⟨hslot', hlen, htied⟩ := htidy
    unfold OverloadResolveContext.retained at hr1 hr2
    cases hb : (addCandidates context candidates).bestCandidate with
    | none =>
      rw [hb] at hr1 hr2
      simp only [Option.toList, List.nil_append] at hr1 hr2
      rw [cmp_congr_right candidate r1 r2 (htied r1 hr1 r2 hr2)] at hlt
      omega
    | some best =>
      have hnil := hslot' (by rw [hb]; simp)
      rw [hb, hnil] at hr1 hr2
      simp only [Option.toList, List.append_nil, List.mem_singleton] at hr1 hr2
      subst hr1 hr2
      omega

/-- Witness for `better_is_strict_weak_order`: a candidate of cost 4 against
the two tied candidates of cost 3 that are retained. -/
theorem better_is_strict_weak_order_witness :
    (filterExistingCandidates
        (addCandidates {} [exampleCandidate 1 Status.Appicable 3,
          exampleCandidate 2 Status.Appicable 3])
        (exampleCandidate 3 Status.Appicable 4)).2.1 = true
      ∨ (filterExistingCandidates
        (addCandidates {} [exampleCandidate 1 Status.Appicable 3,
          exampleCandidate 2 Status.Appicable 3])
        (exampleCandidate 3 Status.Appicable 4)).2.2 = false :=
  (better_is_strict_weak_order {} [exampleCandidate 1 Status.Appicable 3,
      exampleCandidate 2 Status.Appicable 3] (exampleCandidate 3 Status.Appicable 4)
    rfl rfl).2.2.2.2.2.1

/-! ## The operator `-` with other numbers of arguments -/

/-- C38: an invoke of an intrinsic operator named `-` whose arguments all fold
to constants and whose number is neither 1 nor 2, and at most the 8 that the
folder accepts (so 0, or 3 to 8), folds to the constant integer 0, not to
nil. -/
theorem fold_minus_of_other_arity (env : Env) (fenv : FoldEnv) (fuel : Nat) (kind : InvokeKind)
    (loc : SourceLoc) (type : QualType) (callee : Expr) (funcDeclRef : DeclRef)
    (args : List Expr) (vals : List Int)
    (hcallee : callee.asDeclRefExpr = some (some funcDeclRef))
    (hintrinsic : fenv.hasIntrinsicOpModifier funcDeclRef.decl = true)
    (hname : env.getName funcDeclRef.decl = fenv.getName "-")
    (hargs : List.Forall₂ (FoldsTo env fenv fuel) args vals)
    (hone : args.length ≠ 1) (htwo : args.length ≠ 2) (hmax : args.length ≤ 8) :
    TryConstantFoldExpr env fenv (fuel + 1) (Expr.InvokeExpr kind loc type callee args)
      = Check.ok (some (Val.constantInt 0)) [] := by
  have hfold := TryConstantFoldInvokeExpr_constants env fenv (TryConstantFoldExpr env fenv fuel)
    callee funcDeclRef args vals hcallee hintrinsic hargs
  have hlen : args.length = vals.length := List.Forall₂.length_eq hargs
  rw [TryConstantFoldExpr_invoke, hfold, hname, foldIntrinsicOp_minus, Check.bind_ok_pure]
  have h8 : ¬ args.length > 8 := by omega
  simp [h8, ← hlen, hone, htwo]

/-- Witness for `fold_minus_of_other_arity`: the call of `-` on the three
arguments `7`, `2` and `1` folds to `0`. -/
theorem fold_minus_of_other_arity_witness :
    TryConstantFoldExpr genericsEnv foldExample 2
        (operatorCall 301 [intLiteral 6 7, intLiteral 7 2, intLiteral 8 1])
      = Check.ok (some (Val.constantInt 0)) [] :=
  fold_minus_of_other_arity genericsEnv foldExample 1 InvokeKind.InfixExpr 5
    { type := some intType } (Expr.VarExpr 5 { type := some (Ty.func 301 Subst.none) } 301
      (some { decl := 301 })) { decl := 301 }
    [intLiteral 6 7, intLiteral 7 2, intLiteral 8 1] [7, 2, 1] rfl rfl rfl
    (List.Forall₂.cons (show FoldsTo _ _ _ _ _ from rfl)
      (List.Forall₂.cons (show FoldsTo _ _ _ _ _ from rfl)
        (List.Forall₂.cons (show FoldsTo _ _ _ _ _ from rfl) List.Forall₂.nil)))
    (by decide) (by decide) (by decide)

/-! ## Swizzles -/

theorem repeatsIndex_eq_false_iff (added : List Int) :
    ∀ seen : List Int, repeatsIndex seen added = false ↔
      (∀ x ∈ added, x ∉ seen) ∧ added.Nodup := by
  induction added with
  | nil => intro seen; simp [repeatsIndex]
  | cons i rest ih =>
    intro seen
    simp only [repeatsIndex, Bool.or_eq_false_iff, ih (seen ++ [i]), List.mem_cons,
      List.nodup_cons, List.mem_append, List.mem_singleton, List.not_mem_nil, or_false, not_or]
    constructor
    · rintro ⟨hi, hrest, hnodup⟩
      have hi' : i ∉ seen := by
        intro hmem
        have : seen.any (fun e => decide (e = i)) = true :=
          List.any_eq_true.mpr ⟨i, hmem, by simp⟩
        rw [this] at hi
        cases hi
      refine ⟨?_, ?_, hnodup⟩
      · rintro x (hx | hx)
        · subst hx; exact hi'
        · exact (hrest x hx).1
      · intro hmem
        exact (hrest i hmem).2 rfl
    · rintro ⟨hall, hnotin, hnodup⟩
      refine ⟨?_, ?_, hnodup⟩
      · cases hany : seen.any (fun e => decide (e = i)) with
        | false => rfl
        | true =>
          obtain ⟨e, he, heq⟩ := List.any_eq_true.mp hany
          have : e = i := by simpa using heq
          subst this
          exact absurd he (hall e (Or.inl rfl))
      · intro x hx
        refine ⟨hall x (Or.inr hx), ?_⟩
        intro hxi
        subst hxi
        exact hnotin hx

theorem repeatsIndex_iff_not_nodup (indices : List Int) :
    repeatsIndex [] indices = true ↔ ¬ indices.Nodup := by
  have h := repeatsIndex_eq_false_iff indices []
  cases hr : repeatsIndex [] indices with
  | false =>
    rw [hr] at h
    simp only [Bool.false_eq_true, false_iff, not_not]
    exact (h.mp rfl).2
  | true =>
    rw [hr] at h
    simp only [true_iff]
    intro hnodup
    have := h.mpr ⟨fun x _ => by simp, hnodup⟩
    cases this

/-- The loop of `CheckSwizzleExpr`, when the components of the text fit in the
array: it returns with the components in order, the flag for a repeated index,
the flag for a character outside the alphabet or out of range, and one
diagnostic for each such character. -/
theorem swizzleLoop_in_bounds (env : Env) (loc : SourceLoc) (limit : Int) (chars : List Char) :
    ∀ state : SwizzleState,
      state.elementIndices.length + (chars.filterMap (swizzleComponent limit)).length ≤ 4 →
      swizzleLoop env loc limit state chars
        = Check.ok
            { elementIndices :=
                state.elementIndices ++ chars.filterMap (swizzleComponent limit),
              anyDuplicates := state.anyDuplicates
                || repeatsIndex state.elementIndices (chars.filterMap (swizzleComponent limit)),
              anyError := state.anyError
                || chars.any (fun ch => (swizzleComponent limit ch).isNone) }
            (swizzleDiagnostics env loc limit chars) := by
  induction chars with
  | nil =>
    intro state _
    simp [swizzleLoop, repeatsIndex, swizzleDiagnostics, pure]
  | cons ch rest ih =>
    intro state hlen
    unfold swizzleLoop swizzleStep
    cases hidx : swizzleElementIndex ch with
    | none =>
      have hcomp : swizzleComponent limit ch = none := by simp [swizzleComponent, hidx]
      simp only [List.filterMap_cons, hcomp] at hlen ⊢
      have hrec := ih { state with anyError := true } hlen
      simp only [swizzleDiagnostics, hidx]
      cases env.isRewriteMode <;>
        simp [Bind.bind, Check.bind, pure, diagnose, hrec, hcomp]
    | some elementIndex =>
      by_cases hrange : elementIndex ≥ limit
      · have hcomp : swizzleComponent limit ch = none := by
          simp [swizzleComponent, hidx, hrange]
        simp only [List.filterMap_cons, hcomp] at hlen ⊢
        have hrec := ih { state with anyError := true } hlen
        simp only [swizzleDiagnostics, hidx, hrange, if_true]
        cases env.isRewriteMode <;>
          simp [Bind.bind, Check.bind, pure, diagnose, hrec, hcomp]
      · have hcomp : swizzleComponent limit ch = some elementIndex := by
          simp [swizzleComponent, hidx, hrange]
        simp only [List.filterMap_cons, hcomp, List.length_cons] at hlen ⊢
        have hfits : ¬ state.elementIndices.length ≥ 4 := by omega
        have hrec := ih
          { state with
            elementIndices := state.elementIndices ++ [elementIndex],
            anyDuplicates := state.anyDuplicates
              || state.elementIndices.any (fun e => decide (e = elementIndex)) }
          (by simp only [List.length_append, List.length_singleton]; omega)
        simp only [swizzleDiagnostics, hidx, hrange, if_false, List.nil_append]
        simp [Bind.bind, Check.bind, pure, hfits, hrec, hcomp, repeatsIndex, Bool.or_assoc]

/-- The loop of `CheckSwizzleExpr`, when the text has more components than the
array has entries: it writes past the end of the array. -/
theorem swizzleLoop_out_of_bounds (env : Env) (loc : SourceLoc) (limit : Int)
    (chars : List Char) :
    ∀ state : SwizzleState, state.elementIndices.length ≤ 4 →
      4 < state.elementIndices.length + (chars.filterMap (swizzleComponent limit)).length →
      ∃ ds, swizzleLoop env loc limit state chars = Check.thrown Signal.outOfBounds ds := by
  induction chars with
  | nil =>
    intro state hle hgt
    simp at hgt
    omega
  | cons ch rest ih =>
    intro state hle hgt
    unfold swizzleLoop swizzleStep
    cases hidx : swizzleElementIndex ch with
    | none =>
      have hcomp : swizzleComponent limit ch = none := by simp [swizzleComponent, hidx]
      simp only [List.filterMap_cons, hcomp] at hgt
      obtain ⟨ds, hrec⟩ := ih { state with anyError := true } hle hgt
      cases env.isRewriteMode <;>
        simp [Bind.bind, Check.bind, pure, diagnose, hrec]
    | some elementIndex =>
      by_cases hrange : elementIndex ≥ limit
      · have hcomp : swizzleComponent limit ch = none := by
          simp [swizzleComponent, hidx, hrange]
        simp only [List.filterMap_cons, hcomp] at hgt
        obtain ⟨ds, hrec⟩ := ih { state with anyError := true } hle hgt
        cases env.isRewriteMode <;>
          simp [Bind.bind, Check.bind, pure, diagnose, hrec, hrange]
      · have hcomp : swizzleComponent limit ch = some elementIndex := by
          simp [swizzleComponent, hidx, hrange]
        simp only [List.filterMap_cons, hcomp, List.length_cons] at hgt
        by_cases hfull : state.elementIndices.length ≥ 4
        · exact ⟨[], by simp [hrange, hfull, Bind.bind, Check.bind, throwSignal]⟩
        · obtain ⟨ds, hrec⟩ := ih
            { state with
              elementIndices := state.elementIndices ++ [elementIndex],
              anyDuplicates := state.anyDuplicates
                || state.elementIndices.any (fun e => decide (e = elementIndex)) }
            (by simp only [List.length_append, List.length_singleton]; omega)
            (by simp only [List.length_append, List.length_singleton]; omega)
          exact ⟨ds, by simp [hrange, hfull, Bind.bind, Check.bind, pure, hrec]⟩

theorem filterMap_length_of_all_isSome {α β : Type} (f : α → Option β) (l : List α)
    (h : l.all (fun a => (f a).isSome) = true) : (l.filterMap f).length = l.length := by
  induction l with
  | nil => rfl
  | cons a rest ih =>
    simp only [List.all_cons, Bool.and_eq_true] at h
    obtain ⟨ha, hrest⟩ := h
    obtain ⟨b, hb⟩ := Option.isSome_iff_exists.mp ha
    simp [List.filterMap_cons, hb, ih hrest]

theorem any_isNone_of_all_isSome {α β : Type} (f : α → Option β) (l : List α)
    (h : l.all (fun a => (f a).isSome) = true) : l.any (fun a => (f a).isNone) = false := by
  induction l with
  | nil => rfl
  | cons a rest ih =>
    simp only [List.all_cons, Bool.and_eq_true] at h
    obtain ⟨ha, hrest⟩ := h
    obtain ⟨b, hb⟩ := Option.isSome_iff_exists.mp ha
    simp [hb, ih hrest]

theorem any_isNone_of_not_all_isSome {α β : Type} (f : α → Option β) (l : List α)
    (h : ¬ l.all (fun a => (f a).isSome) = true) : l.any (fun a => (f a).isNone) = true := by
  induction l with
  | nil => simp at h
  | cons a rest ih =>
    simp only [List.all_cons, Bool.and_eq_true, not_and] at h
    cases hfa : f a with
    | none => simp [hfa]
    | some b =>
      have := ih (h (by simp [hfa]))
      simp [hfa, this]

theorem not_repeatsIndex_eq_nodup (l : List Int) :
    (!repeatsIndex [] l) = decide l.Nodup := by
  have h := repeatsIndex_iff_not_nodup l
  by_cases hn : l.Nodup
  · have hfalse : repeatsIndex [] l = false := by
      cases hr : repeatsIndex [] l with
      | false => rfl
      | true => exact absurd hn (h.mp hr)
    simp [hfalse, hn]
  · simp [h.mpr hn, hn]

theorem swizzleDiagnostics_of_all_isSome (env : Env) (loc : SourceLoc) (N : Int) :
    ∀ chars : List Char, chars.all (fun ch => (swizzleComponent N ch).isSome) = true →
      swizzleDiagnostics env loc N chars = [] := by
  intro chars
  induction chars with
  | nil => intro _; rfl
  | cons ch rest ih =>
    intro h
    simp only [List.all_cons, Bool.and_eq_true] at h
    obtain ⟨hch, hrest⟩ := h
    unfold swizzleDiagnostics
    rw [ih hrest]
    unfold swizzleComponent at hch
    cases hidx : swizzleElementIndex ch with
    | none => simp [hidx] at hch
    | some i =>
      by_cases hr : i ≥ N
      · simp [hidx, hr] at hch
      · simp [hr]

theorem CheckSwizzleExpr_in_bounds (env : Env) (checker : Checker) (loc : SourceLoc)
    (type : QualType) (name : Name) (declRef : Option DeclRef) (base : Expr) (E : Ty) (N : Int)
    (hfits : ((checker.getText name).toList.filterMap (swizzleComponent N)).length ≤ 4) :
    CheckSwizzleExpr env checker loc type name declRef base E N
      = Check.ok
          (if (checker.getText name).toList.any (fun ch => (swizzleComponent N ch).isNone) then
            CreateErrorExpr (Expr.MemberExpr loc type name declRef base)
          else
            Expr.SwizzleExpr loc
              { type := some (swizzleType E
                  ((checker.getText name).toList.filterMap (swizzleComponent N)).length),
                IsLeftValue :=
                  !repeatsIndex [] ((checker.getText name).toList.filterMap (swizzleComponent N)) }
              base ((checker.getText name).toList.filterMap (swizzleComponent N)).length
              ((checker.getText name).toList.filterMap (swizzleComponent N)))
          (swizzleDiagnostics env loc N (checker.getText name).toList) := by
  unfold CheckSwizzleExpr
  rw [swizzleLoop_in_bounds env loc N _ {} (by simpa using hfits)]
  simp only [Bind.bind, Check.bind, Bool.false_or, List.nil_append]
  cases hany : (checker.getText name).toList.any (fun ch => (swizzleComponent N ch).isNone) with
  | true => simp [pure]
  | false =>
    simp only [Bool.false_eq_true, if_false, pure, List.append_nil, swizzleType, createVectorType]
    by_cases hone : ((checker.getText name).toList.filterMap (swizzleComponent N)).length = 1
    · simp [hone]
    · have hone' : ¬ ((((checker.getText name).toList.filterMap (swizzleComponent N)).length
          : Nat) : Int) = 1 := by
        intro h
        exact hone (by exact_mod_cast h)
      simp [hone, hone']

/-- C33, a swizzle of length 1 is an l-value whatever its base is:
`CheckSwizzleExpr` sets the flag to `!anyDuplicates` and never looks at the
flag of the base. Every accepted swizzle of one component has the element type
of the base and is an l-value. In particular `f().x`, on the result of a call
of type `float4`, which is not an l-value, is an l-value of type `float`; the
subscript `f()[0]` takes the flag of its base and is not. -/
theorem swizzle_of_rvalue_is_lvalue :
    (∀ (env : Env) (checker : Checker) (loc : SourceLoc) (type : QualType) (name : Name)
        (declRef : Option DeclRef) (base : Expr) (E : Ty) (N : Int) (ch : Char) (i : Int),
        (checker.getText name).toList = [ch] → swizzleElementIndex ch = some i → i < N →
        CheckSwizzleExpr env checker loc type name declRef base E N
          = Check.ok (Expr.SwizzleExpr loc { type := some E, IsLeftValue := true } base 1 [i])
              [])
    ∧ float4Call.type.IsLeftValue = false
    ∧ visitMemberExprOnVectorOrScalar functionsEnv exampleChecker 4 { type := none } 501 none
          float4Call
        = some (Check.ok
            (Expr.SwizzleExpr 4 { type := some floatType, IsLeftValue := true } float4Call 1 [0])
            [])
    ∧ subscriptIsLeftValue float4Call = false := by
  refine ⟨?_, rfl, rfl, rfl⟩
  intro env checker loc type name declRef base E N ch i htext hidx hrange
  have hcomp : swizzleComponent N ch = some i := by
    simp [swizzleComponent, hidx, not_le.mpr hrange]
  rw [CheckSwizzleExpr_in_bounds env checker loc type name declRef base E N
    (by rw [htext]; simp [hcomp]), htext]
  simp [hcomp, swizzleType, repeatsIndex, swizzleDiagnostics, hidx, not_le.mpr hrange]

/-- C34, the claim fails on a text of more than four components: for
`v.xxxxx` on a `float4` every character is in the alphabet and in range, but the
fifth component is written past the end of the four-entry array
`elementIndices`; no swizzle with five recorded indices is built. For a text
with at most four components in range the claim holds: the characters `x`/`r`,
`y`/`g`, `z`/`b`, `w`/`a` map to 0, 1, 2, 3; when every character is in the
alphabet and below the element count, the result is the swizzle with the mapped
indices, of the element type for one character and of the vector type of that
many elements otherwise, and it is not an l-value exactly when an index occurs
twice; otherwise the result has the error type. A scalar base is swizzled as a
vector of one element. -/
theorem swizzle_of_long_text :
    CheckSwizzleExpr functionsEnv exampleChecker 4 { type := none } 506 none float4Variable
        floatType 4
      = Check.thrown Signal.outOfBounds []
    ∧ (swizzleElementIndex 'x' = some 0 ∧ swizzleElementIndex 'r' = some 0
        ∧ swizzleElementIndex 'y' = some 1 ∧ swizzleElementIndex 'g' = some 1
        ∧ swizzleElementIndex 'z' = some 2 ∧ swizzleElementIndex 'b' = some 2
        ∧ swizzleElementIndex 'w' = some 3 ∧ swizzleElementIndex 'a' = some 3)
    ∧ (∀ (env : Env) (checker : Checker) (loc : SourceLoc) (type : QualType) (name : Name)
        (declRef : Option DeclRef) (base : Expr) (E : Ty) (N : Int),
        ((checker.getText name).toList.filterMap (swizzleComponent N)).length ≤ 4 →
        ((checker.getText name).toList.all (fun ch => (swizzleComponent N ch).isSome) = true →
          CheckSwizzleExpr env checker loc type name declRef base E N
            = Check.ok
                (Expr.SwizzleExpr loc
                  { type := some (swizzleType E (checker.getText name).toList.length),
                    IsLeftValue := decide
                      ((checker.getText name).toList.filterMap (swizzleComponent N)).Nodup }
                  base (checker.getText name).toList.length
                  ((checker.getText name).toList.filterMap (swizzleComponent N))) [])
        ∧ (¬ (checker.getText name).toList.all (fun ch => (swizzleComponent N ch).isSome) = true →
          CheckSwizzleExpr env checker loc type name declRef base E N
            = Check.ok (CreateErrorExpr (Expr.MemberExpr loc type name declRef base))
                (swizzleDiagnostics env loc N (checker.getText name).toList)
          ∧ (CreateErrorExpr (Expr.MemberExpr loc type name declRef base)).type.type
            = some Ty.error))
    ∧ (∀ (env : Env) (checker : Checker) (loc : SourceLoc) (type : QualType) (name : Name)
        (declRef : Option DeclRef) (base : Expr) (baseType : BaseType) (lv : Bool),
        base.type = { type := some (Ty.basic baseType), IsLeftValue := lv } →
        visitMemberExprOnVectorOrScalar env checker loc type name declRef base
          = some (CheckSwizzleExpr env checker loc type name declRef base
              (Ty.basic baseType) 1)) := by
  refine ⟨rfl, by decide, ?_, ?_⟩
  · intro env checker loc type name declRef base E N hfits
    have hmain := CheckSwizzleExpr_in_bounds env checker loc type name declRef base E N hfits
    refine ⟨?_, ?_⟩
    · intro hall
      have hnone := any_isNone_of_all_isSome (swizzleComponent N) _ hall
      have hlen := filterMap_length_of_all_isSome (swizzleComponent N) _ hall
      rw [hmain, hnone, swizzleDiagnostics_of_all_isSome env loc N _ hall, hlen,
        not_repeatsIndex_eq_nodup]
      rfl
    · intro hall
      have hsome := any_isNone_of_not_all_isSome (swizzleComponent N) _ hall
      rw [hmain, hsome]
      exact ⟨rfl, rfl⟩
  · intro env checker loc type name declRef base baseType lv hbase
    unfold visitMemberExprOnVectorOrScalar
    rw [hbase]
    rfl

/-- C39, the write `elementIndices[elementCount++]` goes past the end of the
four-entry array: for `v.xyzwx` on a `float4` all five characters are in range,
and the fifth write has `elementCount` at four. Every text with more than four
components in range runs into this write; a text with at most four returns. -/
theorem swizzle_writes_out_of_bounds :
    CheckSwizzleExpr functionsEnv exampleChecker 4 { type := none } 505 none float4Variable
        floatType 4
      = Check.thrown Signal.outOfBounds []
    ∧ (exampleChecker.getText 505).toList.filterMap (swizzleComponent 4) = [0, 1, 2, 3, 0]
    ∧ (∀ (env : Env) (checker : Checker) (loc : SourceLoc) (type : QualType) (name : Name)
        (declRef : Option DeclRef) (base : Expr) (E : Ty) (N : Int),
        4 < ((checker.getText name).toList.filterMap (swizzleComponent N)).length →
        ∃ ds, CheckSwizzleExpr env checker loc type name declRef base E N
          = Check.thrown Signal.outOfBounds ds)
    ∧ (∀ (env : Env) (checker : Checker) (loc : SourceLoc) (type : QualType) (name : Name)
        (declRef : Option DeclRef) (base : Expr) (E : Ty) (N : Int),
        ((checker.getText name).toList.filterMap (swizzleComponent N)).length ≤ 4 →
        ∃ e ds, CheckSwizzleExpr env checker loc type name declRef base E N = Check.ok e ds) := by
  refine ⟨rfl, by decide, ?_, ?_⟩
  · intro env checker loc type name declRef base E N hlong
    obtain ⟨ds, hloop⟩ := swizzleLoop_out_of_bounds env loc N (checker.getText name).toList {}
      (by simp) (by simpa using hlong)
    refine ⟨ds, ?_⟩
    unfold CheckSwizzleExpr
    rw [hloop]
    rfl
  · intro env checker loc type name declRef base E N hfits
    exact ⟨_, _, CheckSwizzleExpr_in_bounds env checker loc type name declRef base E N hfits⟩

/-! ## Array size inference -/

theorem checkTerms_length (checker : Checker) (args : List Expr) :
    ∀ (result : List Expr) (ds : List Diagnostic),
      checkTerms checker args = Check.ok result ds → result.length = args.length := by
  induction args with
  | nil =>
    intro result ds h
    obtain ⟨h1, _⟩ := Check.pure_eq_ok _ _ _ h
    subst h1
    rfl
  | cons arg rest ih =>
    intro result ds h
    simp only [checkTerms] at h
    obtain ⟨arg', ds1, ds2, _, h2, _⟩ := Check.bind_eq_ok _ _ _ _ h
    obtain ⟨rest', ds3, ds4, h3, h4, _⟩ := Check.bind_eq_ok _ _ _ _ h2
    obtain ⟨h5, _⟩ := Check.pure_eq_ok _ _ _ h4
    subst h5
    simp [ih rest' ds3 h3]

/-- What `visitVariable` does to the type of the variable, when it returns:
the type is that of `maybeInferArraySizeForVariable` on the variable with its
checked type expression and its checked initial value. -/
theorem visitVariable_returns (env : Env) (checker : Checker) (fuel : Nat) (varDecl : Variable)
    (result : Variable) (ds : List Diagnostic)
    (hreturns : Tree.visitVariable env checker fuel varDecl = Check.ok result ds) :
    ∃ typeExp ds1 checkedInit inferred ds2,
      checker.CheckUsableType varDecl.type = Check.ok typeExp ds1
      ∧ (match varDecl.initExpr with
          | some initExpr =>
            ∃ e ds3, CheckTerm checker initExpr = Check.ok e ds3 ∧ checkedInit = some e
          | none => checkedInit = none)
      ∧ maybeInferArraySizeForVariable
          { varDecl with type := typeExp, initExpr := checkedInit } = Check.ok inferred ds2
      ∧ result.type = inferred.type := by
  unfold Tree.visitVariable at hreturns
  obtain ⟨typeExp, ds1, r1, htype, h1, _⟩ := Check.bind_eq_ok _ _ _ _ hreturns
  obtain ⟨_, ds2, r2, _, h2, _⟩ := Check.bind_eq_ok _ _ _ _ h1
  obtain ⟨var1, ds3, r3, hinit, h3, _⟩ := Check.bind_eq_ok _ _ _ _ h2
  obtain ⟨var2, ds4, r4, hinfer, h4, _⟩ := Check.bind_eq_ok _ _ _ _ h3
  obtain ⟨_, ds5, r5, _, h5, _⟩ := Check.bind_eq_ok _ _ _ _ h4
  obtain ⟨var3, ds6, r6, hcoerce, h6, _⟩ := Check.bind_eq_ok _ _ _ _ h5
  obtain ⟨h7, _⟩ := Check.pure_eq_ok _ _ _ h6
  have hvar3 : var3.type = var2.type := by
    cases hi : var2.initExpr with
    | none =>
      rw [hi] at hcoerce
      obtain ⟨h8, _⟩ := Check.pure_eq_ok _ _ _ hcoerce
      rw [← h8]
    | some initExpr =>
      cases ht : var2.type.type with
      | none =>
        rw [hi, ht] at hcoerce
        cases hcoerce
      | some type =>
        rw [hi, ht] at hcoerce
        simp only at hcoerce
        obtain ⟨e, ds7, ds8, _, h8, _⟩ := Check.bind_eq_ok _ _ _ _ hcoerce
        obtain ⟨h9, _⟩ := Check.pure_eq_ok _ _ _ h8
        rw [← h9]
  have hresult : result.type = var2.type := by
    rw [← h7]
    exact hvar3
  cases hi : varDecl.initExpr with
  | none =>
    rw [hi] at hinit
    simp only at hinit
    obtain ⟨h8, _⟩ := Check.pure_eq_ok _ _ _ hinit
    refine ⟨typeExp, ds1, none, var2, ds4, htype, rfl, ?_, hresult⟩
    rw [← hinfer, ← h8]
  | some initExpr =>
    rw [hi] at hinit
    simp only at hinit
    obtain ⟨e, ds7, ds8, hterm, h8, _⟩ := Check.bind_eq_ok _ _ _ _ hinit
    obtain ⟨h9, _⟩ := Check.pure_eq_ok _ _ _ h8
    refine ⟨typeExp, ds1, some e, var2, ds4, htype, ⟨e, ds7, hterm, rfl⟩, ?_, hresult⟩
    rw [← hinfer, ← h9]

/-- C35: a variable whose declared type is an array `E[]` without a size and
whose initial value is an initializer list of `n` arguments gets the type
`E[n]`; if instead the type of the checked initial value is an array type, the
variable gets its length; a declared array type with a size is left as it is,
whatever the initial value. This is what `maybeInferArraySizeForVariable`
returns, and the type of the variable when `visitVariable` returns. -/
theorem array_size_is_inferred (env : Env) (checker : Checker) (fuel : Nat)
    (varDecl result : Variable) (ds ds1 : List Diagnostic) (typeExp : TypeExp) (E : Ty)
    (length : Val)
    (hreturns : Tree.visitVariable env checker fuel varDecl = Check.ok result ds)
    (hdeclared : checker.CheckUsableType varDecl.type = Check.ok typeExp ds1)
    (harray : typeExp.type = some (Ty.array E length)) :
    (∀ (loc : SourceLoc) (type : QualType) (args : List Expr), length = Val.null →
        varDecl.initExpr = some (Expr.InitializerListExpr loc type args) →
        result.type.type = some (Ty.array E (Val.constantInt args.length)))
    ∧ (∀ (initExpr checked : Expr) (ds2 : List Diagnostic) (E' : Ty) (inherited : Val),
        length = Val.null → varDecl.initExpr = some initExpr →
        initExpr.asInitializerListExpr = none →
        checker.CheckTerm initExpr = Check.ok checked ds2 →
        checked.asInitializerListExpr = none →
        checked.type.type = some (Ty.array E' inherited) →
        result.type.type = some (Ty.array E inherited))
    ∧ (length ≠ Val.null → result.type.type = some (Ty.array E length))
    ∧ (∀ (v : Variable) (loc : SourceLoc) (type : QualType) (args : List Expr),
        v.type.type = some (Ty.array E Val.null) →
        v.initExpr = some (Expr.InitializerListExpr loc type args) →
        maybeInferArraySizeForVariable v
          = Check.ok { v with type := { v.type with
              type := some (Ty.array E (Val.constantInt args.length)) } } [])
    ∧ (∀ v : Variable, v.type.type = some (Ty.array E length) → length ≠ Val.null →
        maybeInferArraySizeForVariable v = Check.ok v []) := by
  obtain ⟨typeExp', ds1', checkedInit, inferred, ds2, htype, hinit, hinfer, hresult⟩ :=
    visitVariable_returns env checker fuel varDecl result ds hreturns
  rw [hdeclared] at htype
  injection htype with htype _
  subst htype
  refine ⟨?_, ?_, ?_, ?_, ?_⟩
  · intro loc type args hnull hlist
    subst hnull
    rw [hlist] at hinit
    obtain ⟨e, ds3, hterm, hchecked⟩ := hinit
    subst hchecked
    simp only [CheckTerm, visitInitializerListExpr] at hterm
    obtain ⟨args', ds4, ds5, hargs, hret, _⟩ := Check.bind_eq_ok _ _ _ _ hterm
    obtain ⟨he, _⟩ := Check.pure_eq_ok _ _ _ hret
    subst he
    have hlen := checkTerms_length checker args args' ds4 hargs
    simp only [maybeInferArraySizeForVariable, harray, Ty.AsArrayType, ne_eq, not_true_eq_false,
      if_false, Expr.asInitializerListExpr, getArrayType, hlen] at hinfer
    obtain ⟨h1, _⟩ := Check.pure_eq_ok _ _ _ hinfer
    rw [hresult, ← h1]
  · intro initExpr checked ds2' E' inherited hnull hsome hnotlist hterm hchecked htype
    subst hnull
    rw [hsome] at hinit
    obtain ⟨e, ds3, hterm', hcheckedInit⟩ := hinit
    subst hcheckedInit
    have hct : CheckTerm checker initExpr = checker.CheckTerm initExpr := by
      cases initExpr <;> first | rfl | simp [Expr.asInitializerListExpr] at hnotlist
    rw [hct, hterm] at hterm'
    injection hterm' with he _
    subst he
    simp only [maybeInferArraySizeForVariable, harray, Ty.AsArrayType, ne_eq, not_true_eq_false,
      if_false, hchecked, htype, getArrayType] at hinfer
    obtain ⟨h1, _⟩ := Check.pure_eq_ok _ _ _ hinfer
    rw [hresult, ← h1]
  · intro hsized
    simp only [maybeInferArraySizeForVariable, harray, Ty.AsArrayType, ne_eq, hsized,
      not_false_eq_true, if_true] at hinfer
    obtain ⟨h1, _⟩ := Check.pure_eq_ok _ _ _ hinfer
    rw [hresult, ← h1]
    exact harray
  · intro v loc type args hv hlist
    simp [maybeInferArraySizeForVariable, hv, hlist, Ty.AsArrayType, Expr.asInitializerListExpr,
      getArrayType, pure]
  · intro v hv hsized
    simp [maybeInferArraySizeForVariable, hv, Ty.AsArrayType, hsized, pure]


/-- Witness of `array_size_is_inferred`: `int xs[] = { 1, 2, 3 };` is given the
type `int[3]`. -/
theorem array_size_is_inferred_witness :
    Tree.visitVariable functionsEnv exampleChecker 3 unsizedArrayVariable
      = Check.ok
          { decl := 420,
            type := { type := some (Ty.array intType (Val.constantInt 3)) },
            initExpr := some (Expr.InitializerListExpr 9
              { type := some (Ty.array intType (Val.constantInt 3)) }
              [intLiteral 6 1, intLiteral 7 2, intLiteral 8 3]),
            checkState := DeclCheckState.Checked } []
    ∧ (Ty.array intType (Val.constantInt 3) : Ty)
        = Ty.array intType (Val.constantInt ([intLiteral 6 1, intLiteral 7 2, intLiteral 8 3].length)) :=
  ⟨rfl,
   Option.some.inj ((array_size_is_inferred functionsEnv exampleChecker 3 unsizedArrayVariable
      _ [] [] { type := some (Ty.array intType Val.null) } intType Val.null rfl rfl rfl).1
      9 { type := none } _ rfl rfl)⟩

/-! ## Modifiers -/

theorem toInt32_of_IsInt32 (x : Int) (h : IsInt32 x) : toInt32 x = x := by
  unfold IsInt32 at h
  unfold toInt32
  omega

/-- What `checkModifier` returns: the modifier itself, or the checked attribute
for a `numthreads` attribute with three constant arguments. -/
theorem checkModifier_returns (env : Env) (fenv : FoldEnv) (checker : Checker) (fuel : Nat)
    (m r : Modifier) (ds : List Diagnostic)
    (h : checkModifier env fenv checker fuel m = Check.ok r ds) :
    r = m
    ∨ ∃ loc name arg0 arg1 arg2 x y z dx dy dz,
        m = Modifier.HLSLUncheckedAttribute loc name [arg0, arg1, arg2]
        ∧ checker.getText name = "numthreads"
        ∧ checkConstantIntVal env fenv checker fuel arg0 = Check.ok (some x) dx
        ∧ checkConstantIntVal env fenv checker fuel arg1 = Check.ok (some y) dy
        ∧ checkConstantIntVal env fenv checker fuel arg2 = Check.ok (some z) dz
        ∧ r = Modifier.HLSLNumThreadsAttribute loc name [arg0, arg1, arg2]
              (toInt32 x) (toInt32 y) (toInt32 z) := by
  have hpure : ∀ (m' : Modifier) (ds' : List Diagnostic),
      (pure m' : Check Modifier) = Check.ok r ds' → r = m' := by
    intro m' ds' h'
    exact (Check.pure_eq_ok _ _ _ h').1.symm
  cases m with
  | HLSLUncheckedAttribute loc name args =>
    unfold checkModifier at h
    by_cases hname : checker.getText name = "numthreads"
    · simp only [hname, if_true] at h
      match args, h with
      | [], h => exact Or.inl (hpure _ _ h)
      | [_], h => exact Or.inl (hpure _ _ h)
      | [_, _], h => exact Or.inl (hpure _ _ h)
      | _ :: _ :: _ :: _ :: _, h => exact Or.inl (hpure _ _ h)
      | [arg0, arg1, arg2], h =>
        simp only at h
        obtain ⟨xVal, dx, r1, hx, h1, _⟩ := Check.bind_eq_ok _ _ _ _ h
        obtain ⟨yVal, dy, r2, hy, h2, _⟩ := Check.bind_eq_ok _ _ _ _ h1
        obtain ⟨zVal, dz, r3, hz, h3, _⟩ := Check.bind_eq_ok _ _ _ _ h2
        cases xVal with
        | none => exact Or.inl (hpure _ _ h3)
        | some x =>
          cases yVal with
          | none => exact Or.inl (hpure _ _ h3)
          | some y =>
            cases zVal with
            | none => exact Or.inl (hpure _ _ h3)
            | some z =>
              exact Or.inr ⟨loc, name, arg0, arg1, arg2, x, y, z, dx, dy, dz, rfl, hname,
                hx, hy, hz, hpure _ _ h3⟩
    · simp only [hname, if_false] at h
      exact Or.inl (hpure _ _ h)
  | InModifier => exact Or.inl (hpure _ _ h)
  | OutModifier => exact Or.inl (hpure _ _ h)
  | InOutModifier => exact Or.inl (hpure _ _ h)
  | HLSLNumThreadsAttribute loc name args x y z => exact Or.inl (hpure _ _ h)
  | other tag => exact Or.inl (hpure _ _ h)

theorem checkModifiers_returns (env : Env) (fenv : FoldEnv) (checker : Checker) (fuel : Nat)
    (modifiers : List Modifier) :
    ∀ (result : List Modifier) (ds : List Diagnostic),
      Tree.checkModifiers env fenv checker fuel modifiers = Check.ok result ds →
      List.Forall₂ (fun m r => ∃ ds', checkModifier env fenv checker fuel m = Check.ok r ds')
        modifiers result := by
  induction modifiers with
  | nil =>
    intro result ds h
    obtain ⟨h1, _⟩ := Check.pure_eq_ok _ _ _ h
    subst h1
    exact List.Forall₂.nil
  | cons m rest ih =>
    intro result ds h
    simp only [Tree.checkModifiers] at h
    obtain ⟨r, ds1, ds2, hm, h2, _⟩ := Check.bind_eq_ok _ _ _ _ h
    obtain ⟨rest', ds3, ds4, hrest, h4, _⟩ := Check.bind_eq_ok _ _ _ _ h2
    obtain ⟨h5, _⟩ := Check.pure_eq_ok _ _ _ h4
    subst h5
    exact List.Forall₂.cons ⟨ds1, hm⟩ (ih rest' ds3 hrest)

theorem checkModifiers_total (env : Env) (fenv : FoldEnv) (checker : Checker) (fuel : Nat)
    (modifiers : List Modifier)
    (h : ∀ m ∈ modifiers, ∃ r ds, checkModifier env fenv checker fuel m = Check.ok r ds) :
    ∃ result ds, Tree.checkModifiers env fenv checker fuel modifiers = Check.ok result ds := by
  induction modifiers with
  | nil => exact ⟨[], [], rfl⟩
  | cons m rest ih =>
    obtain ⟨r, ds1, hm⟩ := h m (List.mem_cons_self _ _)
    obtain ⟨rest', ds2, hrest⟩ := ih (fun m' hm' => h m' (List.mem_cons_of_mem _ hm'))
    refine ⟨r :: rest', ds1 ++ ds2, ?_⟩
    simp only [Tree.checkModifiers, hm, hrest]
    refine Check.ok_bind_eq r ds1 _ _ ds2 ?_
    exact (Check.ok_bind_eq rest' ds2 _ _ [] rfl).trans (by simp)

/-- C40 (as stated) fails: the attribute `[numthreads(65536 * 65536, 1, 1)]`
has three arguments that check to the constant integers 4294967296, 1 and 1,
and the `HLSLNumThreadsAttribute` that replaces it carries `x = 0`: the field is
an `int32_t`, and the folded value is converted to it. -/
theorem numthreads_value_is_converted :
    checkConstantIntVal genericsEnv foldExample exampleChecker 3
        (operatorCall 303 [intLiteral 6 65536, intLiteral 7 65536])
      = Check.ok (some 4294967296) []
    ∧ checkConstantIntVal genericsEnv foldExample exampleChecker 3 (intLiteral 9 1)
      = Check.ok (some 1) []
    ∧ checkModifier genericsEnv foldExample exampleChecker 3 wideNumthreadsAttribute
      = Check.ok (Modifier.HLSLNumThreadsAttribute 9 510
          [operatorCall 303 [intLiteral 6 65536, intLiteral 7 65536], intLiteral 9 1,
            intLiteral 9 1] 0 1 1) []
    ∧ Tree.checkModifiers genericsEnv foldExample exampleChecker 3 [wideNumthreadsAttribute]
      = Check.ok [Modifier.HLSLNumThreadsAttribute 9 510
          [operatorCall 303 [intLiteral 6 65536, intLiteral 7 65536], intLiteral 9 1,
            intLiteral 9 1] 0 1 1] []
    ∧ (0 : Int) ≠ 4294967296 :=
  ⟨rfl, rfl, rfl, rfl, by decide⟩

/-- C40 (amended): `checkModifiers` preserves the length and the order of the
list of modifiers: the i-th modifier of the result is `checkModifier` of the
i-th modifier of the list, and the function returns whenever `checkModifier`
returns on every modifier. `checkModifier` keeps every modifier as it is, except
an `HLSLUncheckedAttribute` named `numthreads` with exactly three arguments that
all check to constant integers, which is replaced by an
`HLSLNumThreadsAttribute` with the same location, name and arguments that
carries the three folded values converted to `int32_t` as x, y, z (the folded
values themselves when they are values of `int32_t`). -/
theorem modifiers_are_checked_in_place (env : Env) (fenv : FoldEnv) (checker : Checker)
    (fuel : Nat) (modifiers result : List Modifier) (ds : List Diagnostic)
    (hreturns : Tree.checkModifiers env fenv checker fuel modifiers = Check.ok result ds) :
    result.length = modifiers.length
    ∧ (∀ (i : Nat) (hi : i < modifiers.length) (hr : i < result.length),
        ∃ ds', checkModifier env fenv checker fuel (modifiers.get ⟨i, hi⟩)
          = Check.ok (result.get ⟨i, hr⟩) ds')
    ∧ ((∀ m ∈ modifiers, ∃ r ds', checkModifier env fenv checker fuel m = Check.ok r ds') →
        ∃ result' ds', Tree.checkModifiers env fenv checker fuel modifiers
          = Check.ok result' ds')
    ∧ (∀ (i : Nat) (hi : i < modifiers.length) (hr : i < result.length),
        result.get ⟨i, hr⟩ = modifiers.get ⟨i, hi⟩
        ∨ ∃ loc name arg0 arg1 arg2 x y z dx dy dz,
            modifiers.get ⟨i, hi⟩ = Modifier.HLSLUncheckedAttribute loc name [arg0, arg1, arg2]
            ∧ checker.getText name = "numthreads"
            ∧ checkConstantIntVal env fenv checker fuel arg0 = Check.ok (some x) dx
            ∧ checkConstantIntVal env fenv checker fuel arg1 = Check.ok (some y) dy
            ∧ checkConstantIntVal env fenv checker fuel arg2 = Check.ok (some z) dz
            ∧ result.get ⟨i, hr⟩ = Modifier.HLSLNumThreadsAttribute loc name [arg0, arg1, arg2]
                (toInt32 x) (toInt32 y) (toInt32 z))
    ∧ (∀ loc name arg0 arg1 arg2 x y z dx dy dz,
        checker.getText name = "numthreads" →
        checkConstantIntVal env fenv checker fuel arg0 = Check.ok (some x) dx →
        checkConstantIntVal env fenv checker fuel arg1 = Check.ok (some y) dy →
        checkConstantIntVal env fenv checker fuel arg2 = Check.ok (some z) dz →
        checkModifier env fenv checker fuel
            (Modifier.HLSLUncheckedAttribute loc name [arg0, arg1, arg2])
          = Check.ok (Modifier.HLSLNumThreadsAttribute loc name [arg0, arg1, arg2]
              (toInt32 x) (toInt32 y) (toInt32 z)) (dx ++ (dy ++ dz))
        ∧ (IsInt32 x → IsInt32 y → IsInt32 z →
            checkModifier env fenv checker fuel
                (Modifier.HLSLUncheckedAttribute loc name [arg0, arg1, arg2])
              = Check.ok (Modifier.HLSLNumThreadsAttribute loc name [arg0, arg1, arg2] x y z)
                  (dx ++ (dy ++ dz)))) := by
  have hall := checkModifiers_returns env fenv checker fuel modifiers result ds hreturns
  have hlen : result.length = modifiers.length := hall.length_eq.symm
  have hget : ∀ (i : Nat) (hi : i < modifiers.length) (hr : i < result.length),
      ∃ ds', checkModifier env fenv checker fuel (modifiers.get ⟨i, hi⟩)
        = Check.ok (result.get ⟨i, hr⟩) ds' := by
    intro i hi hr
    exact (List.forall₂_iff_get.mp hall).2 i hi hr
  have hnum : ∀ loc name arg0 arg1 arg2 x y z dx dy dz,
      checker.getText name = "numthreads" →
      checkConstantIntVal env fenv checker fuel arg0 = Check.ok (some x) dx →
      checkConstantIntVal env fenv checker fuel arg1 = Check.ok (some y) dy →
      checkConstantIntVal env fenv checker fuel arg2 = Check.ok (some z) dz →
      checkModifier env fenv checker fuel
          (Modifier.HLSLUncheckedAttribute loc name [arg0, arg1, arg2])
        = Check.ok (Modifier.HLSLNumThreadsAttribute loc name [arg0, arg1, arg2]
            (toInt32 x) (toInt32 y) (toInt32 z)) (dx ++ (dy ++ dz)) := by
    intro loc name arg0 arg1 arg2 x y z dx dy dz hname hx hy hz
    simp only [checkModifier, hname, if_true, hx, hy, hz]
    refine Check.ok_bind_eq _ dx _ _ (dy ++ dz) ?_
    refine Check.ok_bind_eq _ dy _ _ dz ?_
    exact (Check.ok_bind_eq _ dz _ _ [] rfl).trans (by simp)
  refine ⟨hlen, hget, checkModifiers_total env fenv checker fuel modifiers, ?_, ?_⟩
  · intro i hi hr
    obtain ⟨ds', h⟩ := hget i hi hr
    exact checkModifier_returns env fenv checker fuel _ _ ds' h
  · intro loc name arg0 arg1 arg2 x y z dx dy dz hname hx hy hz
    refine ⟨hnum loc name arg0 arg1 arg2 x y z dx dy dz hname hx hy hz, ?_⟩
    intro h1 h2 h3
    have h := hnum loc name arg0 arg1 arg2 x y z dx dy dz hname hx hy hz
    rw [toInt32_of_IsInt32 x h1, toInt32_of_IsInt32 y h2, toInt32_of_IsInt32 z h3] at h
    exact h

/-- Witness of `modifiers_are_checked_in_place`: the modifiers
`[numthreads(8, 8, 1)]` between two other modifiers. -/
theorem modifiers_are_checked_in_place_witness :
    Tree.checkModifiers genericsEnv foldExample exampleChecker 3
        [Modifier.other 1, numthreadsAttribute 8 8 1, Modifier.InModifier]
      = Check.ok [Modifier.other 1,
          Modifier.HLSLNumThreadsAttribute 9 510
            [intLiteral 9 8, intLiteral 9 8, intLiteral 9 1] 8 8 1,
          Modifier.InModifier] []
    ∧ ([Modifier.other 1,
          Modifier.HLSLNumThreadsAttribute 9 510
            [intLiteral 9 8, intLiteral 9 8, intLiteral 9 1] 8 8 1,
          Modifier.InModifier] : List Modifier).length
        = [Modifier.other 1, numthreadsAttribute 8 8 1, Modifier.InModifier].length :=
  ⟨rfl, (modifiers_are_checked_in_place genericsEnv foldExample exampleChecker 3
      [Modifier.other 1, numthreadsAttribute 8 8 1, Modifier.InModifier] _ [] rfl).1⟩

end Slang
